import Mathlib

/-!
# Verification development for `atlas/trans/localopt3/TransLocalopt3.cc`

Shallow embedding of the inverse spectral transform engine `TransLocalopt3`.

Conventions of the embedding

* C++ `int` values are `Int`, in exact arithmetic; C++ `size_t` values coming from the grid
  library are `Nat`. The computations whose results are sizes of allocations and indices
  into them are repeated with every `int` result reduced to 32 bits (`int32`).
* A `double[]` buffer is a total map `Int → R` over a field `R` of exact numbers
  (the theorems on trigonometry take `R = ℝ`); writing `p[i] = v` is `Function.update p i v`.
* `for` loops are folds (`forUp`, `forDown`) over an explicit state.
* Memory returned by `alloc_aligned` / `fftw_alloc_*` is not initialised: its contents
  are a parameter (`Scratch`, and the object storage `raw` of the constructor).
* Functions of other translation units (math library, Legendre polynomial builders,
  FFT execution, vorticity/divergence conversion) are parameters (`Collab`).
* `eckit::linalg` matrices are column-major views; `gemm` overwrites `C` with `A * B`.
-/

set_option autoImplicit false

namespace TransLocalopt3

/-! ## Buffers and loops -/

/-- A flat buffer of numbers, addressed by a C++ `int` index. -/
abbrev Buf (R : Type) := Int → R

/-- The view `p + off` of a buffer: entry `i` of the view is entry `off + i` of `p`. -/
def Buf.shift {R : Type} (p : Buf R) (off : Int) : Buf R := fun i => p (off + i)

/-- Running a callee on the pointer `p + off`: the callee sees the shifted view, and what
it leaves at index `i` of the view is what `p` holds at `off + i` afterwards. -/
def Buf.atOffset {R : Type} (off : Int) (f : Buf R → Buf R) (p : Buf R) : Buf R :=
  fun k => f (p.shift off) (k - off)

/-- Loop `for (int j = 0; j < n; ++j) s = body j s`. -/
def forUp {σ : Type} (n : Int) (body : Int → σ → σ) (s : σ) : σ :=
  (List.range n.toNat).foldl (fun acc (j : Nat) => body (j : Int) acc) s

/-- Loop `for (int j = lo; j < n; ++j) s = body j s`. -/
def forFrom {σ : Type} (lo n : Int) (body : Int → σ → σ) (s : σ) : σ :=
  (List.range (n - lo).toNat).foldl (fun acc (k : Nat) => body (lo + (k : Int)) acc) s

/-- Loop `for (int j = hi; j >= lo; --j) s = body j s`. -/
def forDown {σ : Type} (hi lo : Int) (body : Int → σ → σ) (s : σ) : σ :=
  (List.range (hi - lo + 1).toNat).foldl (fun acc (k : Nat) => body (hi - (k : Int)) acc) s

/-! ## Errors and call outcomes -/

/-- Exceptions raised by the engine. -/
inductive TransError where
  /-- Raised by `NOTIMP` : `eckit::NotImplemented`. -/
  | notImplemented
  /-- Raised by a failed `ASSERT( ... )` : `eckit::AssertionFailed`. -/
  | assertionFailed
  /-- Raised by `std::vector::resize` with a length above `max_size()` : `std::length_error`. -/
  | lengthError
  deriving DecidableEq

/-- Outcome of a call with output arguments of type `σ`: the exception raised, if any,
and the output arguments as the call leaves them. -/
structure Outcome (σ : Type) where
  err : Option TransError
  out : σ

/-- Sequencing of two calls on the same output arguments: the second runs only when the
first raised nothing. -/
def Outcome.andThen {σ : Type} (o : Outcome σ) (f : σ → Outcome σ) : Outcome σ :=
  match o.err with
  | some _ => o
  | none => f o.out

/-! ## Helper functions of the anonymous namespace -/

/-- Function `size_t legendre_size( const size_t truncation )`. -/
def legendre_size (truncation : Nat) : Nat :=
  (truncation + 2) * (truncation + 1) / 2

/-- Function `int num_n( const int truncation, const int m, const bool symmetric )`;
`Int.tdiv` is the C++ integer division. -/
def num_n (truncation m : Int) (symmetric : Bool) : Int :=
  if symmetric then Int.tdiv (truncation - m + 2) 2
  else Int.tdiv (truncation - m + 1) 2

/-- Function `int add_padding( int n ) { return std::ceil( n / 8. ) * 8; }`, the ceiling of the
exact quotient written with the floor of the opposite. -/
def add_padding (n : Int) : Int :=
  -((-n) / 8) * 8

/-! ## Collaborators -/

/-- Functions called by the engine that live in other translation units. -/
structure Collab (R : Type) where
  /-- Function `std::cos`. -/
  cos : R → R
  /-- Function `std::sin`. -/
  sin : R → R
  /-- Function `fmod`. -/
  fmod : R → R → R
  /-- Constant `util::Constants::degreesToRadians()`. -/
  degreesToRadians : R
  /-- Call `compute_legendre_polynomialsopt3( trc, nlats, lats, leg_sym, leg_asym, sym_begin, asym_begin )`:
  the contents of `leg_sym` and `leg_asym` after the call. -/
  compute_legendre_polynomialsopt3 :
    Int → Int → Buf R → Buf R → Buf R → (Int → Int) → (Int → Int) → Buf R × Buf R
  /-- Call `compute_legendre_polynomials_allopt3( trc, nlats, lats, legendre )`. -/
  compute_legendre_polynomials_allopt3 : Int → Int → Buf R → Buf R → Buf R
  /-- Call `compute_zfnopt3( trc, zfn )`. -/
  compute_zfnopt3 : Int → Buf R → Buf R
  /-- Call `compute_legendre_polynomials_latopt3( trc, lat, legendre, zfn )`. -/
  compute_legendre_polynomials_latopt3 : Int → R → Buf R → Buf R → Buf R
  /-- Call `fftw_execute_dft_c2r( plan_, fft_in_, fft_out_ )` for the plan of `howmany`
  transforms of length `n`: arguments `n howmany fft_in fft_out`, result the new `fft_out`.
  `fft_in` is the interleaved array of `fftw_complex`: entry `[idx][imag]` is at `2*idx + imag`. -/
  c2r : Int → Int → Buf R → Buf R → Buf R
  /-- Call `VorDivToUV( trc ).execute( nb_coeff, nb_fields, vor, div, U, V )`: the contents of
  `U` and `V` after the call. -/
  vordiv_to_UV : Int → Int → Int → Buf R → Buf R → Buf R × Buf R

/-! ## Grids -/

/-- A `grid::StructuredGrid`: latitude rows, each with its number of longitudes. -/
structure StructuredGrid (R : Type) where
  /-- Number of longitudes `nx(j)` of each row; the number of rows `ny()` is the length. -/
  nx : List Nat
  /-- Latitude `y(j)` of row `j`, in degrees. -/
  y : Int → R
  /-- Longitude `x(i, j)` of point `i` of row `j`, in degrees. -/
  x : Int → Int → R
  /-- Whether `grid.projection()` is set. -/
  projection : Bool
  /-- Value `nxmax()` of the global grid of the same name, `Grid( grid.name() )`. -/
  nxmaxGlobal : Nat
  /-- Longitudes `x(i, j)` of the global grid of the same name. -/
  xGlobal : Int → Int → R

/-- Count `ny()`. -/
def StructuredGrid.ny {R : Type} (g : StructuredGrid R) : Nat := g.nx.length

/-- Count `nxmax()`: the largest number of longitudes of a row. -/
def StructuredGrid.nxmax {R : Type} (g : StructuredGrid R) : Nat := g.nx.foldl max 0

/-- Count `size()`: the number of grid points. -/
def StructuredGrid.size {R : Type} (g : StructuredGrid R) : Nat := g.nx.sum

/-- A regular grid: every row has `nxmax()` longitudes. -/
def StructuredGrid.regular {R : Type} (g : StructuredGrid R) : Prop :=
  ∀ n ∈ g.nx, n = g.nxmax

/-- A `Grid`: structured, or an unstructured list of points `(x, y)` in degrees. -/
inductive Grid (R : Type) where
  | structured (g : StructuredGrid R)
  | unstructured (xy : List (R × R))

/-- Count `grid.size()`. -/
def Grid.size {R : Type} : Grid R → Nat
  | .structured g => g.size
  | .unstructured xy => xy.length

/-- Test `grid::StructuredGrid( grid )`. -/
def Grid.isStructured {R : Type} : Grid R → Bool
  | .structured _ => true
  | .unstructured _ => false

/-- Test `grid.projection()`. -/
def Grid.projection {R : Type} : Grid R → Bool
  | .structured g => g.projection
  | .unstructured _ => false

/-- Latitude in degrees of point `ip` in the iteration order of `grid.xy()`. -/
def Grid.pointY {R : Type} [Zero R] : Grid R → Int → R
  | .structured g, ip =>
      ((List.range g.ny).flatMap fun j => List.replicate (g.nx.getD j 0) (g.y j)).getD ip.toNat 0
  | .unstructured xy, ip => (xy.getD ip.toNat (0, 0)).2

/-- Longitude in degrees of point `ip` of an unstructured grid, `gu.xy( ip ).x()`. -/
def Grid.pointX {R : Type} [Zero R] : Grid R → Int → R
  | .structured g, ip =>
      ((List.range g.ny).flatMap fun j =>
        (List.range (g.nx.getD j 0)).map fun i => g.x i j).getD ip.toNat 0
  | .unstructured xy, ip => (xy.getD ip.toNat (0, 0)).1

/-! ## The engine -/

/-- Data members of `TransLocalopt3`. The pointer members are represented by the contents
of the memory they point to; the two `std::vector` offset tables by their contents and
their common length. -/
structure Engine (R : Type) where
  grid_ : Grid R
  truncation_ : Int
  precompute_ : Bool
  useFFT_ : Bool
  dgemmMethod1_ : Bool
  unstruct_precomp_ : Bool
  nlatsNH_ : Int
  nlatsSH_ : Int
  nlatsLeg_ : Int
  nlonsGlobal_ : Int
  jlonMin_ : Int
  legendre_sym_begin_ : Int → Int
  legendre_asym_begin_ : Int → Int
  /-- Length of `legendre_sym_begin_` and of `legendre_asym_begin_`. -/
  legendre_begin_size : Int
  legendre_sym_ : Buf R
  legendre_asym_ : Buf R
  legendre_ : Buf R
  fourier_ : Buf R
  fft_in_ : Buf R
  fft_out_ : Buf R

/-- Counters of the loop over the latitudes in the constructor. -/
structure HemisphereCount where
  nlatsNH : Int
  neqtr : Int
  nlatsSH : Int
  deriving DecidableEq

/-- Body of the loop of lines 113-120: classify the latitude of row `j`. -/
def countLatitude {R : Type} [LinearOrderedField R] (g : StructuredGrid R) (j : Int)
    (c : HemisphereCount) : HemisphereCount :=
  let lat := g.y j
  let c1 := if lat > 0 then { c with nlatsNH := c.nlatsNH + 1 } else c
  let c2 := if lat = 0 then { c1 with neqtr := c1.neqtr + 1 } else c1
  if lat < 0 then { c2 with nlatsSH := c2.nlatsSH + 1 } else c2

/-- Lines 106-128: the hemisphere counts `(nlatsNH_, nlatsSH_, nlatsLeg_)`. -/
def hemisphereCounts {R : Type} [LinearOrderedField R] (g : StructuredGrid R) :
    Int × Int × Int :=
  let c := forUp (g.ny : Int) (countLatitude g) ⟨0, 0, 0⟩
  let nh := if c.neqtr > 0 then c.nlatsNH + 1 else c.nlatsNH
  let sh := if c.neqtr > 0 then c.nlatsSH + 1 else c.nlatsSH
  (nh, sh, if nh ≥ sh then nh else sh)

/-- Lines 132-143: the pair `(useFFT_, jlonMin_)` before the FFT availability test. -/
def fftChoice {R : Type} [LinearOrderedField R] (m : Collab R) (g : StructuredGrid R) :
    Bool × Int :=
  let nlons : Int := g.nxmax
  let nlonsGlobal : Int := g.nxmaxGlobal
  let fft_threshold : R := 5 / 100
  let lonmin0 := m.fmod (g.x 0 0) 360
  let lonmin := if lonmin0 < 0 then lonmin0 + 360 else lonmin0
  if (nlons : R) < fft_threshold * (nlonsGlobal : R) then (false, 0)
  else if nlons < nlonsGlobal then
    (true, forUp nlonsGlobal (fun j jlonMin => if g.xGlobal j 0 = lonmin then j else jlonMin) 0)
  else (true, 0)

/-- Lines 145-156: the latitudes in radians handed to the Legendre table builder. -/
def legendreLats {R : Type} [LinearOrderedField R] (m : Collab R) (g : StructuredGrid R)
    (nlatsNH nlatsSH nlatsLeg : Int) : Buf R :=
  if nlatsNH ≥ nlatsSH then
    forUp nlatsLeg (fun j lats => Function.update lats j (g.y j * m.degreesToRadians))
      (fun _ => 0)
  else
    forUp nlatsLeg
      (fun idx lats =>
        Function.update lats idx (-g.y ((g.ny : Int) - 1 - idx) * m.degreesToRadians))
      (fun _ => 0)

/-- Lines 157-159: the longitudes of row 0 in radians. -/
def gridLons {R : Type} [LinearOrderedField R] (m : Collab R) (g : StructuredGrid R) : Buf R :=
  forUp (g.nxmax : Int) (fun j lons => Function.update lons j (g.x j 0 * m.degreesToRadians))
    (fun _ => 0)

/-- State of the loop of lines 169-174 that builds the Legendre offset tables. -/
structure OffsetState where
  size_sym : Int
  size_asym : Int
  sym_begin : Int → Int
  asym_begin : Int → Int

/-- Lines 163-174: offset tables after `resize( truncation_ + 3 )` and the loop over `jm`,
in exact integer arithmetic; `legendreOffsets32` is the same loop in the 32-bit arithmetic
of the `int` variables of the source. -/
def legendreOffsets (truncation_ nlatsLeg_ : Int) : OffsetState :=
  forUp (truncation_ + 2)
    (fun jm s =>
      let size_sym := s.size_sym + add_padding (num_n (truncation_ + 1) jm true * nlatsLeg_)
      let size_asym := s.size_asym + add_padding (num_n (truncation_ + 1) jm false * nlatsLeg_)
      { size_sym := size_sym
        size_asym := size_asym
        sym_begin := Function.update s.sym_begin (jm + 1) size_sym
        asym_begin := Function.update s.asym_begin (jm + 1) size_asym })
    { size_sym := 0
      size_asym := 0
      sym_begin := Function.update (fun _ => 0) 0 0
      asym_begin := Function.update (fun _ => 0) 0 0 }

/-- State of a loop that fills or copies a buffer through a running index: the index
`idx` and the buffer written. -/
structure CopyState (R : Type) where
  idx : Int
  dst : Buf R

/-- State of the loops that fill `fourier_` in dense method 1: the running index `idx`,
the variable `factor` and the table. -/
structure FourierState (R : Type) where
  idx : Int
  factor : R
  fourier : Buf R

/-- Lines 216-224: the Fourier table of dense method 1. -/
def fourierTable1 {R : Type} [LinearOrderedField R] (m : Collab R) (truncation_ nlons : Int)
    (lons : Buf R) (fourier0 : Buf R) : Buf R :=
  (forUp nlons
    (fun jlon (s0 : FourierState R) =>
      forUp (truncation_ + 1)
        (fun jm (s : FourierState R) =>
          let factor := if jm > 0 then 2 else s.factor
          let f1 := Function.update s.fourier s.idx (m.cos ((jm : R) * lons jlon) * factor)
          let f2 := Function.update f1 (s.idx + 1) (-m.sin ((jm : R) * lons jlon) * factor)
          ({ idx := s.idx + 2, factor := factor, fourier := f2 } : FourierState R))
        { s0 with factor := 1 })
    ({ idx := 0, factor := 1, fourier := fourier0 } : FourierState R)).fourier

/-- Lines 230-240: the Fourier table of dense method 2. -/
def fourierTable2 {R : Type} [LinearOrderedField R] (m : Collab R) (truncation_ nlons : Int)
    (lons : Buf R) (fourier0 : Buf R) : Buf R :=
  (forUp (truncation_ + 1)
    (fun jm (s0 : CopyState R) =>
      let factor : R := if jm > 0 then 2 else 1
      let s1 := forUp nlons
        (fun jlon (s : CopyState R) =>
          ({ idx := s.idx + 1
             dst := Function.update s.dst s.idx (m.cos ((jm : R) * lons jlon) * factor) } :
            CopyState R))
        s0
      forUp nlons
        (fun jlon (s : CopyState R) =>
          ({ idx := s.idx + 1
             dst := Function.update s.dst s.idx (-m.sin ((jm : R) * lons jlon) * factor) } :
            CopyState R))
        s1)
    ({ idx := 0, dst := fourier0 } : CopyState R)).dst

/-- Member initialisers and lines 103-108 of the constructor: the members as they are
before the test on the kind of grid. `raw` holds the indeterminate values of the members
that are not assigned and the contents of the memory the allocations return. -/
def constructInit {R : Type} (raw : Engine R) (grid : Grid R) (truncation : Int)
    (precompute : Bool) : Engine R :=
  { raw with
    grid_ := grid
    truncation_ := truncation
    precompute_ := precompute
    useFFT_ := true
    dgemmMethod1_ := false
    unstruct_precomp_ := true
    nlatsNH_ := 0
    nlatsSH_ := 0
    nlatsLeg_ := 0
    legendre_sym_begin_ := fun _ => 0
    legendre_asym_begin_ := fun _ => 0
    legendre_begin_size := 0 }

/-- Lines 110-243 of the constructor: the branch of a structured grid without
projection, once `resize( truncation_ + 3 )` has succeeded. `haveFFTW` is the
compile-time switch `ATLAS_HAVE_FFTW`. -/
def constructStructured {R : Type} [LinearOrderedField R] (m : Collab R) (haveFFTW : Bool)
    (raw : Engine R) (g : StructuredGrid R) (truncation : Int) (precompute : Bool) :
    Engine R :=
  let e0 := constructInit raw (.structured g) truncation precompute
  let nlons : Int := g.nxmax
  let counts := hemisphereCounts g
  let choice := fftChoice m g
  let lats := legendreLats m g counts.1 counts.2.1 counts.2.2
  let lons := gridLons m g
  let off := legendreOffsets truncation counts.2.2
  let leg := m.compute_legendre_polynomialsopt3 (truncation + 1) counts.2.2 lats
    raw.legendre_sym_ raw.legendre_asym_ off.sym_begin off.asym_begin
  let useFFT := choice.1 && haveFFTW
  let fourier :=
    if useFFT then raw.fourier_
    else if e0.dgemmMethod1_ then fourierTable1 m truncation nlons lons raw.fourier_
    else fourierTable2 m truncation nlons lons raw.fourier_
  { e0 with
    nlatsNH_ := counts.1
    nlatsSH_ := counts.2.1
    nlatsLeg_ := counts.2.2
    nlonsGlobal_ := (g.nxmaxGlobal : Int)
    jlonMin_ := choice.2
    useFFT_ := useFFT
    legendre_sym_begin_ := off.sym_begin
    legendre_asym_begin_ := off.asym_begin
    legendre_begin_size := truncation + 3
    legendre_sym_ := leg.1
    legendre_asym_ := leg.2
    fourier_ := fourier }

/-- Lines 246-256 of the constructor: the branch of every other grid. -/
def constructUnstructured {R : Type} [LinearOrderedField R] (m : Collab R) (raw : Engine R)
    (grid : Grid R) (truncation : Int) (precompute : Bool) : Engine R :=
  let e0 := constructInit raw grid truncation precompute
  if e0.unstruct_precomp_ then
    let lats := forUp (grid.size : Int)
      (fun j lats => Function.update lats j (grid.pointY j * m.degreesToRadians)) (fun _ => 0)
    { e0 with
      legendre_ := m.compute_legendre_polynomials_allopt3 truncation (grid.size : Int) lats
        raw.legendre_ }
  else e0

/-- The constructor `TransLocalopt3::TransLocalopt3( cache, grid, truncation, config )`;
`precompute` is `config.getBool( "precompute", true )`.

The body contains no test of `truncation`; the only exception on its path is the
`std::length_error` of `resize( truncation_ + 3 )` when that length is negative. For
`truncation = -3` the vectors are resized to no entry and line 167 stores to their entry 0,
which is outside them; the model describes the source for `truncation >= -2`. -/
def construct {R : Type} [LinearOrderedField R] (m : Collab R) (haveFFTW : Bool)
    (raw : Engine R) (grid : Grid R) (truncation : Int) (precompute : Bool) :
    Except TransError (Engine R) :=
  match grid with
  | .structured g =>
    if !g.projection then
      if truncation + 3 < 0 then .error .lengthError
      else .ok (constructStructured m haveFFTW raw g truncation precompute)
    else .ok (constructUnstructured m raw grid truncation precompute)
  | .unstructured _ => .ok (constructUnstructured m raw grid truncation precompute)

/-! ## Dense matrix product -/

/-- Product `eckit::linalg::LinearAlgebra::backend().gemm( A, B, C )` on column-major
views: `A` is `mrows × k`, `B` is `k × ncols`, and `C`, `mrows × ncols`, is overwritten with
`A * B`; entry `(i, j)` of a view with `r` rows is at index `i + r * j`. -/
def gemm {R : Type} [Field R] (mrows k ncols : Int) (A B C : Buf R) : Buf R :=
  fun p =>
    if 0 < mrows ∧ 0 ≤ p ∧ p < mrows * ncols then
      ∑ l ∈ Finset.range k.toNat, A (p % mrows + mrows * (l : Int)) * B ((l : Int) + k * (p / mrows))
    else C p

/-! ## Uninitialised scratch memory -/

/-- Contents of the memory returned by each `alloc_aligned` of an inversion call, before
the call writes to it. The buffers allocated inside the loop over `jm` of the Legendre
stage are indexed by `jm`. -/
structure Scratch (R : Type) where
  scl_fourier : Buf R
  scalar_sym : Int → Buf R
  scalar_asym : Int → Buf R
  scl_fourier_sym : Int → Buf R
  scl_fourier_asym : Int → Buf R
  gp_opt3 : Buf R
  scl_fourier_tp : Buf R
  fouriertp : Buf R
  gp_opt : Buf R
  legendre : Buf R
  zfn : Buf R

/-! ## Legendre stage -/

/-- Method `TransLocalopt3::posMethod`, in exact integer arithmetic; `posMethod32` is the
same expression in the 32-bit arithmetic of `int`. -/
def posMethod {R : Type} (e : Engine R) (jfld imag jlat jm nb_fields nlats : Int) : Int :=
  if e.useFFT_ || !e.dgemmMethod1_ then
    imag + 2 * (jm + (e.truncation_ + 1) * (jlat + nlats * jfld))
  else jfld + nb_fields * (jlat + nlats * (imag + 2 * jm))

/-- The lambda `posFourier` of `invtrans_legendreopt3`, with its captures `nb_fields`,
`n_imag`, `nlatsLeg_` as leading arguments. -/
def posFourier (nb_fields n_imag nlatsLeg_ : Int) (jfld imag jlat _jm nlatsH : Int) : Int :=
  jfld + nb_fields * (imag + n_imag * (nlatsLeg_ - nlatsH + jlat))

/-- State of the split loop: the counters `is`, `ia` and the two sub-arrays. -/
structure SplitState (R : Type) where
  is : Int
  ia : Int
  scalar_sym : Buf R
  scalar_asym : Buf R

/-- Innermost body of the split loop, lines 377-389. -/
def splitBody {R : Type} [Field R] (truncation nb_fields jm ioff : Int)
    (scalar_spectra : Buf R) (jn imag jfld : Int) (s : SplitState R) : SplitState R :=
  let idx := jfld + nb_fields * (imag + 2 * (jn - jm))
  if jn ≤ truncation ∧ jm < truncation then
    if Int.tmod (jn - jm) 2 = 0 then
      { s with scalar_sym := Function.update s.scalar_sym s.is (scalar_spectra (idx + ioff))
               is := s.is + 1 }
    else
      { s with scalar_asym := Function.update s.scalar_asym s.ia (scalar_spectra (idx + ioff))
               ia := s.ia + 1 }
  else
    if Int.tmod (jn - jm) 2 = 0 then
      { s with scalar_sym := Function.update s.scalar_sym s.is 0
               is := s.is + 1 }
    else
      { s with scalar_asym := Function.update s.scalar_asym s.ia 0
               ia := s.ia + 1 }

/-- Split loop of lines 366-392 for one zonal wavenumber `jm`, with `ioff` and `idx` in
exact integer arithmetic; `legendreSplit32` is the same loop in the 32-bit arithmetic of
`int`. -/
def legendreSplit {R : Type} [Field R] (truncation_ truncation nb_fields jm n_imag : Int)
    (scalar_spectra : Buf R) (sym0 asym0 : Buf R) : SplitState R :=
  let ioff := Int.tdiv ((2 * truncation + 3 - jm) * jm) 2 * nb_fields * 2
  forDown (truncation_ + 1) jm
    (fun jn s1 =>
      forUp n_imag
        (fun imag s2 =>
          forUp nb_fields (fun jfld s => splitBody truncation nb_fields jm ioff scalar_spectra jn imag jfld s) s2)
        s1)
    ({ is := 0, ia := 0, scalar_sym := sym0, scalar_asym := asym0 } : SplitState R)

/-- Merge of the hemispheres, lines 407-430. -/
def mergeHemispheres {R : Type} [Field R] (e : Engine R) (nlats nb_fields jm n_imag : Int)
    (scl_fourier_sym scl_fourier_asym : Buf R) (scl_fourier : Buf R) : Buf R :=
  let north :=
    forUp e.nlatsNH_
      (fun jlat b1 =>
        forUp n_imag
          (fun imag b2 =>
            forUp nb_fields
              (fun jfld (b : Buf R) =>
                let idx := posFourier nb_fields n_imag e.nlatsLeg_ jfld imag jlat jm e.nlatsNH_
                Function.update b (posMethod e jfld imag jlat jm nb_fields nlats)
                  (scl_fourier_sym idx + scl_fourier_asym idx))
              b2)
          b1)
      scl_fourier
  forUp e.nlatsSH_
    (fun jlat b1 =>
      forUp n_imag
        (fun imag b2 =>
          forUp nb_fields
            (fun jfld (b : Buf R) =>
              let idx := posFourier nb_fields n_imag e.nlatsLeg_ jfld imag jlat jm e.nlatsSH_
              let jslat := nlats - jlat - 1
              Function.update b (posMethod e jfld imag jslat jm nb_fields nlats)
                (scl_fourier_sym idx - scl_fourier_asym idx))
            b2)
        b1)
    north

/-- Lines 395-406: the products of the two sub-arrays with the Legendre blocks of `jm`,
`(scl_fourier_sym, scl_fourier_asym)`. The offset tables are read as maps on all integers;
in the source `legendre_sym_begin_[jm]` is an element of a `std::vector` of
`legendre_begin_size` entries, and the read is defined for `0 <= jm < legendre_begin_size`
only. -/
def legendreProducts {R : Type} [Field R] (e : Engine R) (sc : Scratch R)
    (nb_fields jm n_imag : Int) (scalar_sym scalar_asym : Buf R) : Buf R × Buf R :=
  let size_sym := num_n (e.truncation_ + 1) jm true
  let size_asym := num_n (e.truncation_ + 1) jm false
  let scl_fourier_sym :=
    gemm (nb_fields * n_imag) size_sym e.nlatsLeg_ scalar_sym
      (e.legendre_sym_.shift (e.legendre_sym_begin_ jm)) (sc.scl_fourier_sym jm)
  let scl_fourier_asym :=
    if size_asym > 0 then
      gemm (nb_fields * n_imag) size_asym e.nlatsLeg_ scalar_asym
        (e.legendre_asym_.shift (e.legendre_asym_begin_ jm)) (sc.scl_fourier_asym jm)
    else sc.scl_fourier_asym jm
  (scl_fourier_sym, scl_fourier_asym)

/-- Body of the loop over `jm` of `invtrans_legendreopt3`, lines 348-434: split, `ASSERT`,
the two matrix products and the merge. -/
def legendreStep {R : Type} [Field R] (e : Engine R) (sc : Scratch R)
    (truncation nlats nb_fields : Int) (scalar_spectra : Buf R) (jm : Int)
    (scl_fourier : Buf R) : Except TransError (Buf R) :=
  let size_sym := num_n (e.truncation_ + 1) jm true
  let size_asym := num_n (e.truncation_ + 1) jm false
  let n_imag : Int := if jm = 0 then 1 else 2
  let s := legendreSplit e.truncation_ truncation nb_fields jm n_imag scalar_spectra
    (sc.scalar_sym jm) (sc.scalar_asym jm)
  if s.ia = n_imag * nb_fields * size_asym ∧ s.is = n_imag * nb_fields * size_sym then
    let prod := legendreProducts e sc nb_fields jm n_imag s.scalar_sym s.scalar_asym
    .ok (mergeHemispheres e nlats nb_fields jm n_imag prod.1 prod.2 scl_fourier)
  else .error .assertionFailed

/-- Method `TransLocalopt3::invtrans_legendreopt3`: the loop over `jm <= truncation_`. -/
def invtrans_legendreopt3 {R : Type} [Field R] (e : Engine R) (sc : Scratch R)
    (truncation nlats nb_fields : Int) (scalar_spectra : Buf R) (scl_fourier : Buf R) :
    Except TransError (Buf R) :=
  forUp (e.truncation_ + 1)
    (fun jm (r : Except TransError (Buf R)) =>
      r.bind (legendreStep e sc truncation nlats nb_fields scalar_spectra jm))
    (.ok scl_fourier)

/-! ## Fourier stage on structured grids -/

/-- Lines 629-643: the input of the FFT for field `jfld`; the running index `idx` counts
complex entries, entry `[idx][imag]` being at `2 * idx + imag`. -/
def fftInput {R : Type} [Field R] (e : Engine R) (nlats nb_fields jfld : Int)
    (scl_fourier fft_in : Buf R) : Buf R :=
  let num_complex := Int.tdiv e.nlonsGlobal_ 2 + 1
  (forUp nlats
    (fun jlat (s : CopyState R) =>
      let in0 := Function.update s.dst (2 * s.idx + 0)
        (scl_fourier (posMethod e jfld 0 jlat 0 nb_fields nlats))
      forFrom 1 num_complex
        (fun jm (t : CopyState R) =>
          ({ idx := t.idx + 1
             dst :=
              forUp 2
                (fun imag (b : Buf R) =>
                  if jm ≤ e.truncation_ then
                    Function.update b (2 * t.idx + imag)
                      (scl_fourier (posMethod e jfld imag jlat jm nb_fields nlats))
                  else Function.update b (2 * t.idx + imag) 0)
                t.dst } : CopyState R))
        ({ idx := s.idx + 1, dst := in0 } : CopyState R))
    ({ idx := 0, dst := fft_in } : CopyState R)).dst

/-- Lines 645-652: selection of the FFT output for field `jfld`, shifted by `jlonMin_`. -/
def fftSelect {R : Type} [Field R] (e : Engine R) (nlons nlats jfld : Int)
    (fft_out gp_fields : Buf R) : Buf R :=
  forUp nlats
    (fun jlat g1 =>
      forUp nlons
        (fun jlon (g2 : Buf R) =>
          let j0 := jlon + e.jlonMin_
          let j := if j0 ≥ e.nlonsGlobal_ then j0 - e.nlonsGlobal_ else j0
          Function.update g2 (jlon + nlons * (jlat + nlats * jfld))
            (fft_out (j + e.nlonsGlobal_ * jlat)))
        g1)
    gp_fields

/-- Output arguments of an inversion call: the engine, whose FFT work arrays the call
writes through `fft_in_` and `fft_out_`, and the grid-point buffer. -/
structure CallState (R : Type) where
  engine : Engine R
  gp_fields : Buf R

/-- State of the loop over the fields of the FFT branch: the contents of the work arrays
`fft_in_`, `fft_out_` and of `gp_fields`. -/
structure FftState (R : Type) where
  fft_in : Buf R
  fft_out : Buf R
  gp_fields : Buf R

/-- Lines 628-653: the FFT branch, a loop over the fields. -/
def fourierFFT {R : Type} [Field R] (m : Collab R) (e : Engine R) (nlons nlats nb_fields : Int)
    (scl_fourier : Buf R) (s : FftState R) : FftState R :=
  forUp nb_fields
    (fun jfld (t : FftState R) =>
      let fft_in := fftInput e nlats nb_fields jfld scl_fourier t.fft_in
      let fft_out := m.c2r e.nlonsGlobal_ nlats fft_in t.fft_out
      ({ fft_in := fft_in
         fft_out := fft_out
         gp_fields := fftSelect e nlons nlats jfld fft_out t.gp_fields } : FftState R))
    s

/-- Lines 662-685: dense method 1, the product into `gp_opt3` and the transposition. -/
def fourierDgemm1 {R : Type} [Field R] (e : Engine R) (nlons nlats nb_fields : Int)
    (scl_fourier gp_opt3_0 gp_fields : Buf R) : Buf R :=
  let gp_opt3 := gemm (nb_fields * nlats) ((e.truncation_ + 1) * 2) nlons scl_fourier e.fourier_
    gp_opt3_0
  (forUp nlons
    (fun jlon s1 =>
      forUp nlats
        (fun jlat s2 =>
          forUp nb_fields
            (fun jfld (s : CopyState R) =>
              let pos_tp := jlon + nlons * (jlat + nlats * jfld)
              ({ idx := s.idx + 1
                 dst := Function.update s.dst pos_tp (gp_opt3 s.idx) } : CopyState R))
            s2)
        s1)
    ({ idx := 0, dst := gp_fields } : CopyState R)).dst

/-- Lines 689-696: dense method 2, the product straight into `gp_fields`. -/
def fourierDgemm2 {R : Type} [Field R] (e : Engine R) (nlons nlats nb_fields : Int)
    (scl_fourier gp_fields : Buf R) : Buf R :=
  gemm nlons ((e.truncation_ + 1) * 2) (nb_fields * nlats) e.fourier_ scl_fourier gp_fields

/-- Lines 701-716: computing u, v from U, V, the division by the cosine of the latitude. -/
def windRecovery {R : Type} [Field R] (m : Collab R) (g : StructuredGrid R)
    (nlats nb_fields nb_vordiv_fields : Int) (gp_fields : Buf R) : Buf R :=
  if nb_vordiv_fields > 0 then
    let coslats : Buf R :=
      forUp nlats (fun j c => Function.update c j (m.cos (g.y j * m.degreesToRadians)))
        (fun _ => 0)
    (forUp nb_fields
      (fun _jfld s1 =>
        forUp (g.ny : Int)
          (fun jlat s2 =>
            forUp (g.nxmax : Int)
              (fun _jlon (s : CopyState R) =>
                ({ idx := s.idx + 1
                   dst := Function.update s.dst s.idx (s.dst s.idx / coslats jlat) } :
                  CopyState R))
              s2)
          s1)
      ({ idx := 0, dst := gp_fields } : CopyState R)).dst
  else gp_fields

/-! ## Unstructured grids -/

/-- State of the loop over the points of the unstructured routines. -/
structure PointState (R : Type) where
  scl_fourier : Buf R
  scl_fourier_tp : Buf R
  fouriertp : Buf R
  gp_opt : Buf R
  legendre : Buf R
  gp_fields : Buf R

/-- Lines 488-494 and 565-571: the Fourier factors of one point; `n` is the exclusive
bound of the loop over `jm`. -/
def fouriertpFill {R : Type} [Field R] (m : Collab R) (n : Int) (lon : R) (fouriertp : Buf R) :
    Buf R :=
  let f0 := Function.update fouriertp 0 1
  let f1 := Function.update f0 1 0
  (forFrom 1 n
    (fun jm (s : CopyState R) =>
      let d1 := Function.update s.dst s.idx (2 * m.cos ((jm : R) * lon))
      let d2 := Function.update d1 (s.idx + 1) (-2 * m.sin ((jm : R) * lon))
      ({ idx := s.idx + 2, dst := d2 } : CopyState R))
    ({ idx := 2, dst := f1 } : CopyState R)).dst

/-- Method `TransLocalopt3::invtrans_unstructured_precomp`. -/
def invtrans_unstructured_precomp {R : Type} [Field R] (m : Collab R) (e : Engine R)
    (sc : Scratch R) (truncation nb_fields _nb_vordiv_fields : Int)
    (scalar_spectra gp_fields : Buf R) : Buf R :=
  let nlats : Int := e.grid_.size
  let size_fourier := nb_fields * 2
  let scl_fourier :=
    forUp truncation
      (fun jm (scl : Buf R) =>
        let noff := Int.tdiv ((2 * truncation + 3 - jm) * jm) 2
        let ns := truncation - jm + 1
        Buf.atOffset (jm * size_fourier * nlats)
          (gemm (nb_fields * 2) ns nlats (scalar_spectra.shift (nb_fields * 2 * noff))
            (e.legendre_.shift (noff * nlats)))
          scl)
      sc.scl_fourier
  (forUp (e.grid_.size : Int)
    (fun ip (st : PointState R) =>
      let lon := e.grid_.pointX ip * m.degreesToRadians
      let scl_fourier_tp :=
        forUp truncation
          (fun jm (tp1 : Buf R) =>
            (forUp 2
              (fun imag s2 =>
                forUp nb_fields
                  (fun jfld (s : CopyState R) =>
                    let pos_tp := imag + 2 * (jm + truncation * jfld)
                    ({ idx := s.idx + 1
                       dst := Function.update s.dst pos_tp (scl_fourier s.idx) } : CopyState R))
                  s2)
              ({ idx := nb_fields * 2 * (ip + nlats * jm), dst := tp1 } : CopyState R)).dst)
          st.scl_fourier_tp
      let fouriertp := fouriertpFill m truncation lon st.fouriertp
      let gp_opt := gemm 1 (truncation * 2) nb_fields fouriertp scl_fourier_tp st.gp_opt
      ({ st with
         scl_fourier_tp := scl_fourier_tp
         fouriertp := fouriertp
         gp_opt := gp_opt
         gp_fields :=
          forUp nb_fields
            (fun j (g : Buf R) => Function.update g (ip + j * (e.grid_.size : Int)) (gp_opt j))
            st.gp_fields } : PointState R))
    ({ scl_fourier := scl_fourier
       scl_fourier_tp := sc.scl_fourier_tp
       fouriertp := sc.fouriertp
       gp_opt := sc.gp_opt
       legendre := sc.legendre
       gp_fields := gp_fields } : PointState R)).gp_fields

/-- Method `TransLocalopt3::invtrans_unstructured`. -/
def invtrans_unstructured {R : Type} [Field R] (m : Collab R) (e : Engine R)
    (sc : Scratch R) (truncation nb_fields _nb_vordiv_fields : Int)
    (scalar_spectra gp_fields : Buf R) : Buf R :=
  let zfn := m.compute_zfnopt3 truncation sc.zfn
  let size_fourier := nb_fields * 2
  (forUp (e.grid_.size : Int)
    (fun ip (st : PointState R) =>
      let lon := e.grid_.pointX ip * m.degreesToRadians
      let lat := e.grid_.pointY ip * m.degreesToRadians
      let legendre := m.compute_legendre_polynomials_latopt3 truncation lat st.legendre zfn
      let scl_fourier :=
        forUp (truncation + 1)
          (fun jm (scl : Buf R) =>
            let noff := Int.tdiv ((2 * truncation + 3 - jm) * jm) 2
            let ns := truncation - jm + 1
            Buf.atOffset (jm * size_fourier)
              (gemm (nb_fields * 2) ns 1 (scalar_spectra.shift (nb_fields * 2 * noff))
                (legendre.shift noff))
              scl)
          st.scl_fourier
      let scl_fourier_tp :=
        (forUp (truncation + 1)
          (fun jm s1 =>
            forUp 2
              (fun imag s2 =>
                forUp nb_fields
                  (fun jfld (s : CopyState R) =>
                    let pos_tp := imag + 2 * (jm + (truncation + 1) * jfld)
                    ({ idx := s.idx + 1
                       dst := Function.update s.dst pos_tp (scl_fourier s.idx) } : CopyState R))
                  s2)
              s1)
          ({ idx := 0, dst := st.scl_fourier_tp } : CopyState R)).dst
      let fouriertp := fouriertpFill m (truncation + 1) lon st.fouriertp
      let gp_opt := gemm 1 ((truncation + 1) * 2) nb_fields fouriertp scl_fourier_tp st.gp_opt
      ({ scl_fourier := scl_fourier
         scl_fourier_tp := scl_fourier_tp
         fouriertp := fouriertp
         gp_opt := gp_opt
         legendre := legendre
         gp_fields :=
          forUp nb_fields
            (fun j (g : Buf R) => Function.update g (ip + j * (e.grid_.size : Int)) (gp_opt j))
            st.gp_fields } : PointState R))
    ({ scl_fourier := sc.scl_fourier
       scl_fourier_tp := sc.scl_fourier_tp
       fouriertp := sc.fouriertp
       gp_opt := sc.gp_opt
       legendre := sc.legendre
       gp_fields := gp_fields } : PointState R)).gp_fields

/-! ## The inversion entry points -/

/-- Structured branch of `invtrans_uv`, lines 613-718. -/
def invtrans_uv_structured {R : Type} [Field R] (m : Collab R) (haveFFTW : Bool)
    (sc : Scratch R) (g : StructuredGrid R) (truncation nb_fields nb_vordiv_fields : Int)
    (scalar_spectra : Buf R) (s : CallState R) : Outcome (CallState R) :=
  let e := s.engine
  let nlats : Int := g.ny
  let nlons : Int := g.nxmax
  match invtrans_legendreopt3 e sc truncation nlats nb_fields scalar_spectra sc.scl_fourier with
  | .error err => { err := some err, out := s }
  | .ok scl_fourier =>
    let s1 : CallState R :=
      if e.useFFT_ then
        if haveFFTW then
          let r := fourierFFT m e nlons nlats nb_fields scl_fourier
            { fft_in := e.fft_in_, fft_out := e.fft_out_, gp_fields := s.gp_fields }
          { engine := { e with fft_in_ := r.fft_in, fft_out_ := r.fft_out }
            gp_fields := r.gp_fields }
        else s
      else if e.dgemmMethod1_ then
        { s with gp_fields := fourierDgemm1 e nlons nlats nb_fields scl_fourier sc.gp_opt3 s.gp_fields }
      else
        { s with gp_fields := fourierDgemm2 e nlons nlats nb_fields scl_fourier s.gp_fields }
    { err := none
      out := { s1 with gp_fields := windRecovery m g nlats nb_fields nb_vordiv_fields s1.gp_fields } }

/-- Method `TransLocalopt3::invtrans_uv`. -/
def invtrans_uv {R : Type} [Field R] (m : Collab R) (haveFFTW : Bool) (sc : Scratch R)
    (truncation nb_scalar_fields nb_vordiv_fields : Int) (scalar_spectra : Buf R)
    (s : CallState R) : Outcome (CallState R) :=
  if nb_scalar_fields > 0 then
    let nb_fields := nb_scalar_fields
    match s.engine.grid_ with
    | .structured g =>
      invtrans_uv_structured m haveFFTW sc g truncation nb_fields nb_vordiv_fields scalar_spectra s
    | .unstructured _ =>
      if s.engine.unstruct_precomp_ then
        let gp := invtrans_unstructured_precomp m s.engine sc truncation nb_scalar_fields
          nb_vordiv_fields scalar_spectra s.gp_fields
        { err := none, out := { s with gp_fields := gp } }
      else
        let gp := invtrans_unstructured m s.engine sc truncation nb_scalar_fields
          nb_vordiv_fields scalar_spectra s.gp_fields
        { err := none, out := { s with gp_fields := gp } }
  else { err := none, out := s }

/-- A call of `invtrans_uv` whose output pointer is `gp_fields + off`. -/
def invtrans_uv_at {R : Type} [Field R] (m : Collab R) (haveFFTW : Bool) (sc : Scratch R)
    (truncation nb_scalar_fields nb_vordiv_fields : Int) (scalar_spectra : Buf R) (off : Int)
    (s : CallState R) : Outcome (CallState R) :=
  let r := invtrans_uv m haveFFTW sc truncation nb_scalar_fields nb_vordiv_fields scalar_spectra
    { s with gp_fields := s.gp_fields.shift off }
  { err := r.err
    out := { r.out with gp_fields := fun k => r.out.gp_fields (k - off) } }

/-- Scalar inversion `invtrans( nb_scalar_fields, scalar_spectra, gp_fields, config )`,
lines 320-323. -/
def invtrans {R : Type} [Field R] (m : Collab R) (haveFFTW : Bool) (sc : Scratch R)
    (nb_scalar_fields : Int) (scalar_spectra : Buf R) (s : CallState R) :
    Outcome (CallState R) :=
  invtrans_uv m haveFFTW sc s.engine.truncation_ nb_scalar_fields 0 scalar_spectra s

/-- State of the loop of `extend_truncationopt3`: the indices `k`, `k_old` and the
buffer `new_spectra`. -/
structure ExtendState (R : Type) where
  k : Int
  k_old : Int
  new_spectra : Buf R

/-- Function `extend_truncationopt3`, lines 742-757; the result is `new_spectra`. -/
def extend_truncationopt3 {R : Type} [Field R] (old_truncation nb_fields : Int)
    (old_spectra new_spectra : Buf R) : Buf R :=
  (forUp (old_truncation + 2)
    (fun mm s1 =>
      forFrom mm (old_truncation + 2)
        (fun n s2 =>
          forUp 2
            (fun _imag s3 =>
              forUp nb_fields
                (fun _jfld (s : ExtendState R) =>
                  if mm = old_truncation + 1 ∨ n = old_truncation + 1 then
                    ({ s with k := s.k + 1
                              new_spectra := Function.update s.new_spectra s.k 0 } :
                      ExtendState R)
                  else
                    ({ k := s.k + 1
                       k_old := s.k_old + 1
                       new_spectra := Function.update s.new_spectra s.k (old_spectra s.k_old) } :
                      ExtendState R))
                s3)
            s2)
        s1)
    ({ k := 0, k_old := 0, new_spectra := new_spectra } : ExtendState R)).new_spectra

/-- Combined inversion `invtrans( nb_scalar_fields, scalar_spectra, nb_vordiv_fields,
vorticity_spectra, divergence_spectra, gp_fields, config )`, lines 761-799. The three
calls of `invtrans_uv` allocate their own scratch memory `scU`, `scV`, `scS`. -/
def invtrans_combined {R : Type} [Field R] (m : Collab R) (haveFFTW : Bool)
    (scU scV scS : Scratch R) (nb_scalar_fields : Int) (scalar_spectra : Buf R)
    (nb_vordiv_fields : Int) (vorticity_spectra divergence_spectra : Buf R)
    (s : CallState R) : Outcome (CallState R) :=
  let e := s.engine
  let nb_gp : Int := e.grid_.size
  let nb_vordiv_spec_ext : Int :=
    2 * (legendre_size (e.truncation_ + 1).toNat : Int) * nb_vordiv_fields
  let r1 : Outcome (CallState R) :=
    if nb_vordiv_fields > 0 then
      let vorticity_spectra_extended :=
        extend_truncationopt3 e.truncation_ nb_vordiv_fields vorticity_spectra (fun _ => 0)
      let divergence_spectra_extended :=
        extend_truncationopt3 e.truncation_ nb_vordiv_fields divergence_spectra (fun _ => 0)
      let UV := m.vordiv_to_UV (e.truncation_ + 1) nb_vordiv_spec_ext nb_vordiv_fields
        vorticity_spectra_extended divergence_spectra_extended
      (invtrans_uv m haveFFTW scU (e.truncation_ + 1) nb_vordiv_fields nb_vordiv_fields UV.1
        s).andThen
        (invtrans_uv_at m haveFFTW scV (e.truncation_ + 1) nb_vordiv_fields nb_vordiv_fields
          UV.2 (nb_gp * nb_vordiv_fields))
    else { err := none, out := s }
  r1.andThen fun s1 =>
    if nb_scalar_fields > 0 then
      invtrans_uv_at m haveFFTW scS e.truncation_ nb_scalar_fields 0 scalar_spectra
        (2 * nb_gp * nb_vordiv_fields) s1
    else { err := none, out := s1 }

/-- Vorticity/divergence inversion `invtrans( nb_vordiv_fields, vorticity_spectra,
divergence_spectra, gp_fields, config )`, lines 736-740. -/
def invtrans_vordiv {R : Type} [Field R] (m : Collab R) (haveFFTW : Bool)
    (scU scV scS : Scratch R) (nb_vordiv_fields : Int)
    (vorticity_spectra divergence_spectra : Buf R) (s : CallState R) :
    Outcome (CallState R) :=
  invtrans_combined m haveFFTW scU scV scS 0 (fun _ => 0) nb_vordiv_fields vorticity_spectra
    divergence_spectra s

/-! ## Entry points that are not implemented

`Fld` and `FldSet` stand for `Field` and `FieldSet`; the argument of each function is the
tuple of the output arguments of the C++ signature (the inputs do not matter: the body is
the single statement `NOTIMP;`). -/

/-- Method `invtrans( const Field& spfield, Field& gpfield, config )`, line 289. -/
def invtrans_Field {Fld : Type} (_spfield : Fld) (gpfield : Fld) : Outcome Fld :=
  { err := some .notImplemented, out := gpfield }

/-- Method `invtrans( const FieldSet& spfields, FieldSet& gpfields, config )`, line 295. -/
def invtrans_FieldSet {FldSet : Type} (_spfields : FldSet) (gpfields : FldSet) :
    Outcome FldSet :=
  { err := some .notImplemented, out := gpfields }

/-- Method `invtrans_grad( const Field& spfield, Field& gradfield, config )`, line 302. -/
def invtrans_grad_Field {Fld : Type} (_spfield : Fld) (gradfield : Fld) : Outcome Fld :=
  { err := some .notImplemented, out := gradfield }

/-- Method `invtrans_grad( const FieldSet& spfields, FieldSet& gradfields, config )`,
line 308. -/
def invtrans_grad_FieldSet {FldSet : Type} (_spfields : FldSet) (gradfields : FldSet) :
    Outcome FldSet :=
  { err := some .notImplemented, out := gradfields }

/-- Method `invtrans_vordiv2wind( spvor, spdiv, gpwind, config )`, line 315. -/
def invtrans_vordiv2wind {Fld : Type} (_spvor _spdiv : Fld) (gpwind : Fld) : Outcome Fld :=
  { err := some .notImplemented, out := gpwind }

/-- Method `dirtrans( const Field& gpfield, Field& spfield, config )`, line 803. -/
def dirtrans_Field {Fld : Type} (_gpfield : Fld) (spfield : Fld) : Outcome Fld :=
  { err := some .notImplemented, out := spfield }

/-- Method `dirtrans( const FieldSet& gpfields, FieldSet& spfields, config )`, line 811. -/
def dirtrans_FieldSet {FldSet : Type} (_gpfields : FldSet) (spfields : FldSet) :
    Outcome FldSet :=
  { err := some .notImplemented, out := spfields }

/-- Method `dirtrans_wind2vordiv( gpwind, spvor, spdiv, config )`, line 820; the outputs
are `(spvor, spdiv)`. -/
def dirtrans_wind2vordiv {Fld : Type} (_gpwind : Fld) (spvor spdiv : Fld) :
    Outcome (Fld × Fld) :=
  { err := some .notImplemented, out := (spvor, spdiv) }

/-- Method `dirtrans( nb_fields, scalar_fields, scalar_spectra, config )`, line 829. -/
def dirtrans_scalar {R : Type} (_nb_fields : Int) (_scalar_fields : Buf R)
    (scalar_spectra : Buf R) : Outcome (Buf R) :=
  { err := some .notImplemented, out := scalar_spectra }

/-- Method `dirtrans( nb_fields, wind_fields, vorticity_spectra, divergence_spectra,
config )`, line 838; the outputs are `(vorticity_spectra, divergence_spectra)`. -/
def dirtrans_wind {R : Type} (_nb_fields : Int) (_wind_fields : Buf R)
    (vorticity_spectra divergence_spectra : Buf R) : Outcome (Buf R × Buf R) :=
  { err := some .notImplemented, out := (vorticity_spectra, divergence_spectra) }

/-! ## Concrete inputs

Small inputs on which the definitions above are evaluated. -/

/-- Collaborators with the given math library whose Legendre builders fill every
table with ones, whose FFT leaves its output array as it is and whose
vorticity/divergence conversion returns its inputs. -/
def onesCollab (R : Type) [Field R] (cos sin : R → R) (degreesToRadians : R) : Collab R where
  cos := cos
  sin := sin
  fmod := fun a _ => a
  degreesToRadians := degreesToRadians
  compute_legendre_polynomialsopt3 := fun _ _ _ _ _ _ _ => (fun _ => 1, fun _ => 1)
  compute_legendre_polynomials_allopt3 := fun _ _ _ _ => fun _ => 1
  compute_zfnopt3 := fun _ zfn => zfn
  compute_legendre_polynomials_latopt3 := fun _ _ _ _ => fun _ => 1
  c2r := fun _ _ _ fft_out => fft_out
  vordiv_to_UV := fun _ _ _ vor div => (vor, div)

/-- Object storage in which every number is `c` and every flag is unset. -/
def constEngine (R : Type) (c : R) : Engine R where
  grid_ := .unstructured []
  truncation_ := 0
  precompute_ := false
  useFFT_ := false
  dgemmMethod1_ := false
  unstruct_precomp_ := false
  nlatsNH_ := 0
  nlatsSH_ := 0
  nlatsLeg_ := 0
  nlonsGlobal_ := 0
  jlonMin_ := 0
  legendre_sym_begin_ := fun _ => 0
  legendre_asym_begin_ := fun _ => 0
  legendre_begin_size := 0
  legendre_sym_ := fun _ => c
  legendre_asym_ := fun _ => c
  legendre_ := fun _ => c
  fourier_ := fun _ => c
  fft_in_ := fun _ => c
  fft_out_ := fun _ => c

/-- Scratch memory in which every number is `c`. -/
def constScratch (R : Type) (c : R) : Scratch R where
  scl_fourier := fun _ => c
  scalar_sym := fun _ _ => c
  scalar_asym := fun _ _ => c
  scl_fourier_sym := fun _ _ => c
  scl_fourier_asym := fun _ _ => c
  gp_opt3 := fun _ => c
  scl_fourier_tp := fun _ => c
  fouriertp := fun _ => c
  gp_opt := fun _ => c
  legendre := fun _ => c
  zfn := fun _ => c

/-- A regular global grid of two rows, at latitudes 45 and -45 degrees, with two
longitudes, 0 and 180 degrees, on each. -/
def grid2x2 (R : Type) [Field R] : StructuredGrid R where
  nx := [2, 2]
  y := fun j => 45 - 90 * (j : R)
  x := fun i _ => 180 * (i : R)
  projection := false
  nxmaxGlobal := 2
  xGlobal := fun i _ => 180 * (i : R)

/-- A reduced global grid of two rows, at latitudes 45 and -45 degrees: one longitude on
the first row, two on the second. -/
def gridReduced (R : Type) [Field R] : StructuredGrid R where
  nx := [1, 2]
  y := fun j => 45 - 90 * (j : R)
  x := fun i _ => 180 * (i : R)
  projection := false
  nxmaxGlobal := 2
  xGlobal := fun i _ => 180 * (i : R)

/-! ## Quantities used to state the theorems -/

/-- The value the split step of lines 377-389 places for `(jn, imag, jfld)` at zonal
wavenumber `jm`: the entry `scalar_spectra[idx + ioff]`, or 0 when the guard
`jn <= truncation && jm < truncation` fails. -/
def splitCoef {R : Type} [Field R] (truncation nb_fields jm : Int) (scalar_spectra : Buf R)
    (jn imag jfld : Int) : R :=
  if jn ≤ truncation ∧ jm < truncation then
    scalar_spectra (jfld + nb_fields * (imag + 2 * (jn - jm)) +
      Int.tdiv ((2 * truncation + 3 - jm) * jm) 2 * nb_fields * 2)
  else 0

/-- The number `n_imag` of components handled for zonal wavenumber `jm`, lines 350-351. -/
def nImag (jm : Int) : Int := if jm = 0 then 1 else 2

/-- Symmetric part of the Fourier coefficient of `(jm, imag, jfld)` at column `col` of the
Legendre block: the sum over the total wavenumbers `jn = jm + 2 * (size_sym - 1 - l)` of the
split value times the entry `l + size_sym * col` of the symmetric block of `jm`. -/
def symPart {R : Type} [Field R] (e : Engine R) (truncation nb_fields : Int)
    (scalar_spectra : Buf R) (jm imag jfld col : Int) : R :=
  ∑ l ∈ Finset.range (num_n (e.truncation_ + 1) jm true).toNat,
    splitCoef truncation nb_fields jm scalar_spectra
        (jm + 2 * (num_n (e.truncation_ + 1) jm true - 1 - (l : Int))) imag jfld *
      e.legendre_sym_ (e.legendre_sym_begin_ jm +
        ((l : Int) + num_n (e.truncation_ + 1) jm true * col))

/-- Antisymmetric part of the Fourier coefficient of `(jm, imag, jfld)` at column `col`:
the sum over the total wavenumbers `jn = jm + 1 + 2 * (size_asym - 1 - l)`. -/
def asymPart {R : Type} [Field R] (e : Engine R) (truncation nb_fields : Int)
    (scalar_spectra : Buf R) (jm imag jfld col : Int) : R :=
  ∑ l ∈ Finset.range (num_n (e.truncation_ + 1) jm false).toNat,
    splitCoef truncation nb_fields jm scalar_spectra
        (jm + 1 + 2 * (num_n (e.truncation_ + 1) jm false - 1 - (l : Int))) imag jfld *
      e.legendre_asym_ (e.legendre_asym_begin_ jm +
        ((l : Int) + num_n (e.truncation_ + 1) jm false * col))

/-- The Fourier coefficient of `(jfld, imag, jlat, jm)` after the merge of the
hemispheres: on a southern row `jlat = nlats - 1 - j`, `j < nlatsSH_`, the symmetric minus
the antisymmetric part at column `nlatsLeg_ - nlatsSH_ + j`; on the other rows the symmetric
plus the antisymmetric part at column `nlatsLeg_ - nlatsNH_ + jlat`. -/
def fourierCoef {R : Type} [Field R] (e : Engine R) (truncation nlats nb_fields : Int)
    (scalar_spectra : Buf R) (jfld imag jlat jm : Int) : R :=
  if nlats - e.nlatsSH_ ≤ jlat then
    symPart e truncation nb_fields scalar_spectra jm imag jfld
        (e.nlatsLeg_ - e.nlatsSH_ + (nlats - 1 - jlat)) -
      asymPart e truncation nb_fields scalar_spectra jm imag jfld
        (e.nlatsLeg_ - e.nlatsSH_ + (nlats - 1 - jlat))
  else
    symPart e truncation nb_fields scalar_spectra jm imag jfld
        (e.nlatsLeg_ - e.nlatsNH_ + jlat) +
      asymPart e truncation nb_fields scalar_spectra jm imag jfld
        (e.nlatsLeg_ - e.nlatsNH_ + jlat)

/-- The entry of the Fourier table for `(jm, imag, jlon)`, lines 218-222 and 232-238:
`cos( jm * lons[jlon] ) * factor` for the real part, `-sin( jm * lons[jlon] ) * factor` for
the imaginary part, with `factor = 1` for `jm = 0` and `2` otherwise. -/
def fourierFactor {R : Type} [Field R] (m : Collab R) (lons : Buf R) (jm imag jlon : Int) : R :=
  (if imag = 0 then m.cos ((jm : R) * lons jlon) else -m.sin ((jm : R) * lons jlon)) *
    (if jm > 0 then 2 else 1)

/-- The value of the structured inversion with a dense Fourier stage at longitude index
`jlon` of row `jlat` for field `jfld`: the sum over `jm <= truncation_` and the components
`imag < n_imag` of the Fourier table entry times the Fourier coefficient of the Legendre
stage. -/
def structuredValue {R : Type} [Field R] (m : Collab R) (e : Engine R) (lons : Buf R)
    (truncation nlats nb_fields : Int) (scalar_spectra : Buf R) (jlon jlat jfld : Int) : R :=
  ∑ jm ∈ Finset.range (e.truncation_ + 1).toNat, ∑ imag ∈ Finset.range (nImag (jm : Int)).toNat,
    fourierFactor m lons (jm : Int) (imag : Int) jlon *
      fourierCoef e truncation nlats nb_fields scalar_spectra jfld (imag : Int) jlat (jm : Int)

/-- The Fourier table of the engine holds the entries `fourierFactor` for the longitudes
`lons`, in the layout of the dense method selected by `dgemmMethod1_`. -/
def DenseTable {R : Type} [Field R] (m : Collab R) (e : Engine R) (nlons : Int)
    (lons : Buf R) : Prop :=
  ∀ jm imag jlon, 0 ≤ jm → jm ≤ e.truncation_ → 0 ≤ imag → imag < 2 → 0 ≤ jlon →
    jlon < nlons →
    e.fourier_ (if e.dgemmMethod1_ then imag + 2 * (jm + (e.truncation_ + 1) * jlon)
      else jlon + nlons * (imag + 2 * jm)) = fourierFactor m lons jm imag jlon

/-- The hemisphere counts of the engine fit a grid of `nlats` rows: each hemisphere has
at most `nlats` rows and at most `nlatsLeg_` rows, and together they cover every row. -/
def HemispheresCover {R : Type} (e : Engine R) (nlats : Int) : Prop :=
  0 ≤ e.nlatsNH_ ∧ 0 ≤ e.nlatsSH_ ∧ e.nlatsNH_ ≤ nlats ∧ e.nlatsSH_ ≤ nlats ∧
    e.nlatsNH_ ≤ e.nlatsLeg_ ∧ e.nlatsSH_ ≤ e.nlatsLeg_ ∧ nlats ≤ e.nlatsNH_ + e.nlatsSH_

/-- The exact complex-to-real transform of the FFT library for the plan of line 203
(`howmany` transforms of length `n`, input distance `n / 2 + 1` complex entries, output
distance `n`): for transform `r` and output index `j`, the sum over `k < n` of the real part
of `X[k] * exp( i * twoPi * j * k / n )`, where `X[k]` is the stored entry for `2 * k <= n`
and the conjugate of the stored entry `n - k` otherwise (Hermitian extension). Entries of
`fft_out` outside `[0, n * howmany)` are left as they are. -/
def c2rExact {R : Type} [Field R] (cos sin : R → R) (twoPi : R) (n howmany : Int)
    (fft_in fft_out : Buf R) : Buf R :=
  fun p =>
    if 0 < n ∧ 0 ≤ p ∧ p < n * howmany then
      ∑ k ∈ Finset.range n.toNat,
        ((if 2 * (k : Int) ≤ n then fft_in (2 * ((Int.tdiv n 2 + 1) * (p / n) + (k : Int)))
          else fft_in (2 * ((Int.tdiv n 2 + 1) * (p / n) + (n - (k : Int))))) *
            cos (twoPi * (((p % n : Int) : R) * (k : R)) / (n : R)) -
          (if 2 * (k : Int) ≤ n then
              fft_in (2 * ((Int.tdiv n 2 + 1) * (p / n) + (k : Int)) + 1)
            else -fft_in (2 * ((Int.tdiv n 2 + 1) * (p / n) + (n - (k : Int))) + 1)) *
            sin (twoPi * (((p % n : Int) : R) * (k : R)) / (n : R)))
    else fft_out p

/-- The engine in object storage `constEngine R 0` with the FFT selected on a global row
of `nlonsGlobal` longitudes and the given truncation. -/
def fftEngine (R : Type) [Field R] (truncation nlonsGlobal : Int) : Engine R :=
  { constEngine R 0 with
    truncation_ := truncation
    useFFT_ := true
    nlonsGlobal_ := nlonsGlobal }

/-- The complex entry `jm` of a row of the FFT input, lines 632-642, as far as the exact
transform reads it: for `jm = 0` the real part `c 0 0` (the imaginary part, which the code
leaves unset, enters the transform with the factor `sin 0`), for `1 <= jm <= T` the
component `c imag jm`, and 0 above `T`. -/
def fftEntry {R : Type} [Field R] (T : Int) (c : Int → Int → R) (imag jm : Int) : R :=
  if jm = 0 then (if imag = 0 then c 0 0 else 0)
  else if jm ≤ T then c imag jm else 0

/-- The exact inverse real DFT of length `N` at output index `j` of the row of entries
`fftEntry T c`: the value of `c2rExact` on the FFT input of the coefficients `c imag jm`. -/
def fftSum {R : Type} [Field R] (cos sin : R → R) (twoPi : R) (N T : Int)
    (c : Int → Int → R) (j : Int) : R :=
  ∑ k ∈ Finset.range N.toNat,
    ((if 2 * (k : Int) ≤ N then fftEntry T c 0 (k : Int) else fftEntry T c 0 (N - (k : Int))) *
        cos (twoPi * ((j : R) * (k : R)) / (N : R)) -
      (if 2 * (k : Int) ≤ N then fftEntry T c 1 (k : Int)
        else -fftEntry T c 1 (N - (k : Int))) *
        sin (twoPi * ((j : R) * (k : R)) / (N : R)))

/-- The index of the FFT output selected for longitude `jlon`, lines 647-648. -/
def wrapLon {R : Type} (e : Engine R) (jlon : Int) : Int :=
  if jlon + e.jlonMin_ ≥ e.nlonsGlobal_ then jlon + e.jlonMin_ - e.nlonsGlobal_
  else jlon + e.jlonMin_

/-- The value of the structured inversion with the FFT at longitude index `jlon` of row
`jlat` for field `jfld`: the exact inverse real DFT of the Fourier coefficients of the
Legendre stage for that row and field, at the selected output index. -/
def structuredValueFFT {R : Type} [Field R] (cos sin : R → R) (twoPi : R) (e : Engine R)
    (truncation nlats nb_fields : Int) (scalar_spectra : Buf R) (jlon jlat jfld : Int) : R :=
  fftSum cos sin twoPi e.nlonsGlobal_ e.truncation_
    (fun imag jm => fourierCoef e truncation nlats nb_fields scalar_spectra jfld imag jlat jm)
    (wrapLon e jlon)

/-- The index in the spectral buffer of the component `imag` of the coefficient of zonal
wavenumber `jm` and total wavenumber `jn` of field `jfld`, lines 365 and 378: `idx + ioff`. -/
def spectralIndex (truncation nb_fields jm jn imag jfld : Int) : Int :=
  jfld + nb_fields * (imag + 2 * (jn - jm)) +
    Int.tdiv ((2 * truncation + 3 - jm) * jm) 2 * nb_fields * 2

/-- The Fourier stage of the engine is ready for rows of `nlons` longitudes `lons`. With
the FFT selected: the FFT library is compiled in, its complex-to-real transform is the exact
inverse real DFT for the cosine `cs`, the sine `sn` with `sn 0 = 0` and the value `tp` of two
pi, and the row fits the global row, `0 <= jlonMin_ < nlonsGlobal_`,
`nlons <= nlonsGlobal_`. With a dense method: the Fourier table holds the entries of
`fourierFactor` and `sin 0 = 0`. -/
def FourierReady {R : Type} [Field R] (m : Collab R) (haveFFTW : Bool) (e : Engine R)
    (nlons : Int) (lons : Buf R) (cs sn : R → R) (tp : R) : Prop :=
  if e.useFFT_ then
    haveFFTW = true ∧ m.c2r = c2rExact cs sn tp ∧ sn 0 = 0 ∧ 0 < e.nlonsGlobal_ ∧
      0 ≤ e.jlonMin_ ∧ e.jlonMin_ < e.nlonsGlobal_ ∧ nlons ≤ e.nlonsGlobal_
  else DenseTable m e nlons lons ∧ m.sin 0 = 0

/-- The value of the structured inversion at longitude index `jlon` of row `jlat` for
field `jfld`, before the wind recovery: `structuredValueFFT` with the FFT selected,
`structuredValue` with a dense method. -/
def structuredOut {R : Type} [Field R] (m : Collab R) (e : Engine R) (lons : Buf R)
    (cs sn : R → R) (tp : R) (truncation nlats nb_fields : Int) (scalar_spectra : Buf R)
    (jlon jlat jfld : Int) : R :=
  if e.useFFT_ then
    structuredValueFFT cs sn tp e truncation nlats nb_fields scalar_spectra jlon jlat jfld
  else structuredValue m e lons truncation nlats nb_fields scalar_spectra jlon jlat jfld

/-- The Fourier factor of an unstructured point at longitude `lon`, lines 488-494 and
565-571: `1` and `0` for `jm = 0`, `2 * cos( jm * lon )` and `-2 * sin( jm * lon )`
otherwise. -/
def unstructuredFactor {R : Type} [Field R] (m : Collab R) (lon : R) (jm imag : Int) : R :=
  if jm = 0 then (if imag = 0 then 1 else 0)
  else if imag = 0 then 2 * m.cos ((jm : R) * lon) else -2 * m.sin ((jm : R) * lon)

/-- The Fourier coefficient of `(jm, imag, jfld)` that `invtrans_unstructured_precomp`
computes for point `ip`, lines 456-465: the sum over the `ns = truncation - jm + 1` rows of
the block of `jm` of the spectral entry times the entry of the per-point Legendre table. -/
def precompCoef {R : Type} [Field R] (e : Engine R) (truncation nb_fields : Int)
    (scalar_spectra : Buf R) (ip jfld imag jm : Int) : R :=
  ∑ l ∈ Finset.range (truncation - jm + 1).toNat,
    scalar_spectra (nb_fields * 2 * Int.tdiv ((2 * truncation + 3 - jm) * jm) 2 +
        (jfld + nb_fields * imag + nb_fields * 2 * (l : Int))) *
      e.legendre_ (Int.tdiv ((2 * truncation + 3 - jm) * jm) 2 * (e.grid_.size : Int) +
        ((l : Int) + (truncation - jm + 1) * ip))

/-- The value `invtrans_unstructured_precomp` leaves for point `ip` and field `jfld`: the
sum over `jm < truncation` and `imag` in `{0, 1}` of the Fourier factor of the point times
the Fourier coefficient. -/
def precompValue {R : Type} [Field R] (m : Collab R) (e : Engine R) (truncation nb_fields : Int)
    (scalar_spectra : Buf R) (ip jfld : Int) : R :=
  ∑ jm ∈ Finset.range truncation.toNat, ∑ imag ∈ Finset.range 2,
    unstructuredFactor m (e.grid_.pointX ip * m.degreesToRadians) (jm : Int) (imag : Int) *
      precompCoef e truncation nb_fields scalar_spectra ip jfld (imag : Int) (jm : Int)

/-- The engine is ready for inversion calls, as the constructor leaves it. On a structured
grid: `0 <= truncation_`, the Fourier stage is ready for the rows of the grid and the
hemisphere counts cover its rows. On an unstructured grid: the precomputed routine is
selected (`unstruct_precomp_` is set). -/
def InversionReady {R : Type} [Field R] (m : Collab R) (haveFFTW : Bool) (e : Engine R)
    (lons : Buf R) (cs sn : R → R) (tp : R) : Prop :=
  match e.grid_ with
  | .structured g =>
    0 ≤ e.truncation_ ∧ FourierReady m haveFFTW e (g.nxmax : Int) lons cs sn tp ∧
      HemispheresCover e (g.ny : Int)
  | .unstructured _ => e.unstruct_precomp_ = true

/-- The engine `e` with the contents `fft_in`, `fft_out` in its FFT work arrays. -/
def withWork {R : Type} (e : Engine R) (fft_in fft_out : Buf R) : Engine R :=
  { e with fft_in_ := fft_in, fft_out_ := fft_out }

/-- The value an inversion call on a ready engine leaves at index `k` of the output
buffer, as a function of the engine tables and the spectral buffer: on a structured grid the
value `structuredOut` of the triple `(jlon, jlat, jfld)` with
`k = jlon + nxmax * (jlat + ny * jfld)`, on an unstructured grid the value `precompValue` of
the pair `(ip, jfld)` with `k = ip + jfld * size`. -/
def inversionValue {R : Type} [Field R] (m : Collab R) (e : Engine R) (lons : Buf R)
    (cs sn : R → R) (tp : R) (nb_fields : Int) (scalar_spectra : Buf R) (k : Int) : R :=
  match e.grid_ with
  | .structured g =>
    structuredOut m e lons cs sn tp e.truncation_ (g.ny : Int) nb_fields scalar_spectra
      (k % (g.nxmax : Int)) ((k / (g.nxmax : Int)) % (g.ny : Int))
      ((k / (g.nxmax : Int)) / (g.ny : Int))
  | .unstructured xy =>
    precompValue m e e.truncation_ nb_fields scalar_spectra (k % (xy.length : Int))
      (k / (xy.length : Int))

/-- The regular 2 x 2 grid of `grid2x2` with a projection set. -/
def grid2x2Projected (R : Type) [Field R] : StructuredGrid R :=
  { grid2x2 R with projection := true }

/-- A grid whose structured branch writes `grid.size()` entries per field: a regular
structured grid, or an unstructured grid. -/
def Grid.unpadded {R : Type} : Grid R → Prop
  | .structured g => g.regular
  | .unstructured _ => True

/-- The wind pseudo-spectra `(U_ext, V_ext)` of the combined inversion, lines 768-787: the
vorticity and divergence spectra extended by one wavenumber and handed to the
vorticity/divergence-to-wind collaborator. -/
def windSpectra {R : Type} [Field R] (m : Collab R) (e : Engine R) (nb_vordiv_fields : Int)
    (vorticity_spectra divergence_spectra : Buf R) : Buf R × Buf R :=
  m.vordiv_to_UV (e.truncation_ + 1)
    (2 * (legendre_size (e.truncation_ + 1).toNat : Int) * nb_vordiv_fields) nb_vordiv_fields
    (extend_truncationopt3 e.truncation_ nb_vordiv_fields vorticity_spectra (fun _ => 0))
    (extend_truncationopt3 e.truncation_ nb_vordiv_fields divergence_spectra (fun _ => 0))

/-- A regular global grid of four rows, at latitudes 60, 20, -20 and -60 degrees, with two
longitudes, 0 and 180 degrees, on each. -/
def grid4x2 (R : Type) [Field R] : StructuredGrid R where
  nx := [2, 2, 2, 2]
  y := fun j => if j = 0 then 60 else if j = 1 then 20 else if j = 2 then -20 else -60
  x := fun i _ => 180 * (i : R)
  projection := false
  nxmaxGlobal := 2
  xGlobal := fun i _ => 180 * (i : R)

/-- The largest value of the 32-bit type `int`. -/
def INT_MAX : Int := 2147483647

/-- The value an `int` holds after an operation whose exact result is `x`: `x` itself when
`-2^31 <= x <= INT_MAX`, and the two's-complement wrap of `x` otherwise. Signed overflow is
undefined behaviour in C++; the wrap is what the operation leaves on the usual targets. -/
def int32 (x : Int) : Int := (x + 2147483648) % 4294967296 - 2147483648

/-- Lines 163-174 in the arithmetic of the source: the product
`num_n( truncation_ + 1, jm, . ) * nlatsLeg_`, the result of `int add_padding( int )` and the
sums `size_sym += ...`, `size_asym += ...` are of type `int`, and so are the entries of the
two `std::vector<int>`. The loop counter and the wavenumber arithmetic of `num_n` stay
within `truncation_ + 3`. -/
def legendreOffsets32 (truncation_ nlatsLeg_ : Int) : OffsetState :=
  forUp (truncation_ + 2)
    (fun jm s =>
      let size_sym := int32 (s.size_sym +
        int32 (add_padding (int32 (num_n (truncation_ + 1) jm true * nlatsLeg_))))
      let size_asym := int32 (s.size_asym +
        int32 (add_padding (int32 (num_n (truncation_ + 1) jm false * nlatsLeg_))))
      { size_sym := size_sym
        size_asym := size_asym
        sym_begin := Function.update s.sym_begin (jm + 1) size_sym
        asym_begin := Function.update s.asym_begin (jm + 1) size_asym })
    { size_sym := 0
      size_asym := 0
      sym_begin := Function.update (fun _ => 0) 0 0
      asym_begin := Function.update (fun _ => 0) 0 0 }

/-- Method `TransLocalopt3::posMethod` in the arithmetic of the source: arguments and result
are `int`, every sum and product is reduced to 32 bits. -/
def posMethod32 {R : Type} (e : Engine R) (jfld imag jlat jm nb_fields nlats : Int) : Int :=
  if e.useFFT_ || !e.dgemmMethod1_ then
    int32 (imag + int32 (2 * int32 (jm + int32 (int32 (e.truncation_ + 1) *
      int32 (jlat + int32 (nlats * jfld))))))
  else
    int32 (jfld + int32 (nb_fields * int32 (jlat + int32 (nlats *
      int32 (imag + int32 (2 * jm))))))

/-- Lines 616-618: the number of entries requested for `scl_fourier`, the `int` product
`size_fourier_max * ( truncation_ + 1 )` with `int size_fourier_max = nb_fields * 2 * nlats`. -/
def sclFourierSize32 {R : Type} (e : Engine R) (nb_fields nlats : Int) : Int :=
  int32 (int32 (int32 (nb_fields * 2) * nlats) * int32 (e.truncation_ + 1))

/-- Line 366 in the arithmetic of the source: the `int`
`ioff = ( 2 * truncation + 3 - jm ) * jm / 2 * nb_fields * 2`, evaluated from left to right. -/
def splitIoff32 (truncation nb_fields jm : Int) : Int :=
  int32 (int32 (Int.tdiv (int32 (int32 (int32 (int32 (2 * truncation) + 3) - jm) * jm)) 2 *
    nb_fields) * 2)

/-- Innermost body of the split loop, lines 377-389, in the arithmetic of the source: `idx`
and the index `idx + ioff` are of type `int`. -/
def splitBody32 {R : Type} [Field R] (truncation nb_fields jm ioff : Int)
    (scalar_spectra : Buf R) (jn imag jfld : Int) (s : SplitState R) : SplitState R :=
  let idx := int32 (jfld + int32 (nb_fields * int32 (imag + int32 (2 * int32 (jn - jm)))))
  if jn ≤ truncation ∧ jm < truncation then
    if Int.tmod (jn - jm) 2 = 0 then
      { s with scalar_sym := Function.update s.scalar_sym s.is
                 (scalar_spectra (int32 (idx + ioff)))
               is := s.is + 1 }
    else
      { s with scalar_asym := Function.update s.scalar_asym s.ia
                 (scalar_spectra (int32 (idx + ioff)))
               ia := s.ia + 1 }
  else
    if Int.tmod (jn - jm) 2 = 0 then
      { s with scalar_sym := Function.update s.scalar_sym s.is 0
               is := s.is + 1 }
    else
      { s with scalar_asym := Function.update s.scalar_asym s.ia 0
               ia := s.ia + 1 }

/-- Split loop of lines 366-392 for one zonal wavenumber `jm`, in the arithmetic of the
source. -/
def legendreSplit32 {R : Type} [Field R] (truncation_ truncation nb_fields jm n_imag : Int)
    (scalar_spectra : Buf R) (sym0 asym0 : Buf R) : SplitState R :=
  let ioff := splitIoff32 truncation nb_fields jm
  forDown (truncation_ + 1) jm
    (fun jn s1 =>
      forUp n_imag
        (fun imag s2 =>
          forUp nb_fields
            (fun jfld s =>
              splitBody32 truncation nb_fields jm ioff scalar_spectra jn imag jfld s) s2)
        s1)
    ({ is := 0, ia := 0, scalar_sym := sym0, scalar_asym := asym0 } : SplitState R)

/-! # Theorems -/

/-! ## Loops: general facts -/

theorem forUp_of_nonpos {σ : Type} (n : Int) (body : Int → σ → σ) (s : σ) (h : n ≤ 0) :
    forUp n body s = s := by
  have h0 : n.toNat = 0 := by omega
  simp [forUp, h0]

theorem forUp_succ {σ : Type} (k : Nat) (body : Int → σ → σ) (s : σ) :
    forUp ((k : Int) + 1) body s = body k (forUp (k : Int) body s) := by
  have h1 : ((k : Int) + 1).toNat = k + 1 := by omega
  have h2 : ((k : Int)).toNat = k := by omega
  simp [forUp, h1, h2, List.range_succ, List.foldl_append]

theorem forFrom_eq_forUp {σ : Type} (lo n : Int) (body : Int → σ → σ) (s : σ) :
    forFrom lo n body s = forUp (n - lo) (fun k => body (lo + k)) s := rfl

theorem forDown_eq_forUp {σ : Type} (hi lo : Int) (body : Int → σ → σ) (s : σ) :
    forDown hi lo body s = forUp (hi - lo + 1) (fun k => body (hi - k)) s := rfl

/-- Invariant rule for `forUp`: an invariant that holds before the loop and is kept by
every iteration holds after the last one. -/
theorem forUp_induction {σ : Type} (P : Int → σ → Prop) (n : Int) (body : Int → σ → σ) (s : σ)
    (h0 : P 0 s)
    (hstep : ∀ j t, 0 ≤ j → j < n → P j t → P (j + 1) (body j t)) :
    P (max n 0) (forUp n body s) := by
  rcases le_or_lt n 0 with hn | hn
  · rw [forUp_of_nonpos n body s hn, max_eq_right hn]; exact h0
  · obtain ⟨k, rfl⟩ : ∃ k : Nat, n = (k : Int) := ⟨n.toNat, by omega⟩
    rw [max_eq_left (by omega)]
    have key : ∀ i : Nat, i ≤ k → P (i : Int) (forUp (i : Int) body s) := by
      intro i
      induction i with
      | zero => intro _; simpa [forUp] using h0
      | succ i ih =>
        intro hi
        have := hstep (i : Int) (forUp (i : Int) body s) (by omega) (by omega) (ih (by omega))
        rw [Nat.cast_succ, forUp_succ]
        exact this
    exact key k le_rfl

/-- Frame rule: a component of the state at an index that no iteration changes is
the same after the loop. -/
theorem forUp_frame {σ R : Type} (proj : σ → Buf R) (n : Int) (body : Int → σ → σ) (s : σ)
    (k : Int) (h : ∀ j t, 0 ≤ j → j < n → proj (body j t) k = proj t k) :
    proj (forUp n body s) k = proj s k :=
  forUp_induction (fun _ t => proj t k = proj s k) n body s rfl
    (fun j t h0 h1 ih => (h j t h0 h1).trans ih)

/-- Last-write rule: when iteration `j0` leaves the value `v` at index `k` and no later
iteration changes index `k`, the loop leaves `v` at index `k`. -/
theorem forUp_write {σ R : Type} (proj : σ → Buf R) (n : Int) (body : Int → σ → σ) (s : σ)
    (k : Int) (v : R) (j0 : Int) (h0 : 0 ≤ j0) (h1 : j0 < n)
    (hw : ∀ t, proj (body j0 t) k = v)
    (hlater : ∀ j t, j0 < j → j < n → proj (body j t) k = proj t k) :
    proj (forUp n body s) k = v := by
  have := forUp_induction (fun j t => j0 < j → proj t k = v) n body s (by intro h; omega)
    (fun j t hj0 hj1 ih hlt => by
      rcases eq_or_lt_of_le (show j0 ≤ j by omega) with heq | hlt2
      · subst heq; exact hw t
      · exact (hlater j t hlt2 hj1).trans (ih hlt2))
  exact this (by rw [max_eq_left (by omega)]; exact h1)

/-! ## C3: entry points that are not implemented -/

/-- C3: every forward-transform entry point (the `dirtrans` overloads of lines 803, 811,
829 and 838 and `dirtrans_wind2vordiv`) and both `invtrans_grad` overloads raise the
not-implemented error for every input, and every output argument is left as it was. -/
theorem forward_and_gradient_not_implemented {Fld FldSet R : Type} :
    (∀ gpfield spfield : Fld,
        dirtrans_Field gpfield spfield = ⟨some TransError.notImplemented, spfield⟩) ∧
    (∀ gpfields spfields : FldSet,
        dirtrans_FieldSet gpfields spfields = ⟨some TransError.notImplemented, spfields⟩) ∧
    (∀ gpwind spvor spdiv : Fld,
        dirtrans_wind2vordiv gpwind spvor spdiv =
          ⟨some TransError.notImplemented, (spvor, spdiv)⟩) ∧
    (∀ (nb_fields : Int) (scalar_fields scalar_spectra : Buf R),
        dirtrans_scalar nb_fields scalar_fields scalar_spectra =
          ⟨some TransError.notImplemented, scalar_spectra⟩) ∧
    (∀ (nb_fields : Int) (wind_fields vorticity_spectra divergence_spectra : Buf R),
        dirtrans_wind nb_fields wind_fields vorticity_spectra divergence_spectra =
          ⟨some TransError.notImplemented, (vorticity_spectra, divergence_spectra)⟩) ∧
    (∀ spfield gradfield : Fld,
        invtrans_grad_Field spfield gradfield = ⟨some TransError.notImplemented, gradfield⟩) ∧
    (∀ spfields gradfields : FldSet,
        invtrans_grad_FieldSet spfields gradfields =
          ⟨some TransError.notImplemented, gradfields⟩) :=
  ⟨fun _ _ => rfl, fun _ _ => rfl, fun _ _ _ => rfl, fun _ _ _ => rfl, fun _ _ _ _ => rfl,
    fun _ _ => rfl, fun _ _ => rfl⟩

/-! ## C4: the constructor and a negative truncation -/

/-- The offset tables start at 0: the loop of lines 169-174 writes entries `jm + 1 >= 1`
only. -/
theorem legendreOffsets_zero (truncation_ nlatsLeg_ : Int) :
    (legendreOffsets truncation_ nlatsLeg_).sym_begin 0 = 0 ∧
    (legendreOffsets truncation_ nlatsLeg_).asym_begin 0 = 0 := by
  constructor
  · unfold legendreOffsets
    rw [forUp_frame (fun s : OffsetState => s.sym_begin)]
    · simp
    · intro j t h0 _
      simp only
      rw [Function.update_noteq (by omega)]
  · unfold legendreOffsets
    rw [forUp_frame (fun s : OffsetState => s.asym_begin)]
    · simp
    · intro j t h0 _
      simp only
      rw [Function.update_noteq (by omega)]

/-- C4 (as amended): the constructor does not test the sign of the truncation. For every
grid and every truncation `>= -1`, the negative value -1 included, it raises nothing and
produces an engine whose `truncation_` is the given value; on a structured grid without
projection it builds the Legendre offset tables, with `truncation + 3` entries, the
first one 0. -/
theorem construct_succeeds_without_truncation_check {R : Type} [LinearOrderedField R]
    (m : Collab R) (haveFFTW : Bool) (raw : Engine R) (grid : Grid R) (truncation : Int)
    (precompute : Bool) (hT : -1 ≤ truncation) :
    ∃ e : Engine R,
      construct m haveFFTW raw grid truncation precompute = Except.ok e ∧
      e.truncation_ = truncation ∧
      (∀ g : StructuredGrid R, grid = Grid.structured g → g.projection = false →
        e.legendre_begin_size = truncation + 3 ∧
        e.legendre_sym_begin_ 0 = 0 ∧ e.legendre_asym_begin_ 0 = 0) := by
  cases grid with
  | structured g =>
    by_cases hp : g.projection = true
    · refine ⟨constructUnstructured m raw (Grid.structured g) truncation precompute, ?_, ?_, ?_⟩
      · simp [construct, hp]
      · simp [constructUnstructured, constructInit]
      · intro g2 hg hproj
        cases hg
        simp [hp] at hproj
    · refine ⟨constructStructured m haveFFTW raw g truncation precompute, ?_, ?_, ?_⟩
      · have : ¬ (truncation + 3 < 0) := by omega
        simp [construct, hp, this]
      · simp [constructStructured, constructInit]
      · intro g2 hg _
        cases hg
        refine ⟨by simp [constructStructured], ?_, ?_⟩
        · simpa [constructStructured] using (legendreOffsets_zero truncation _).1
        · simpa [constructStructured] using (legendreOffsets_zero truncation _).2
  | unstructured xy =>
    refine ⟨constructUnstructured m raw (Grid.unstructured xy) truncation precompute, ?_, ?_, ?_⟩
    · simp [construct]
    · simp [constructUnstructured, constructInit]
    · intro g hg
      cases hg

/-- Witness of C4 (as amended): truncation -1 on the regular 2 x 2 grid. -/
theorem construct_succeeds_without_truncation_check_witness :
    (-1 : Int) ≤ -1 ∧
    ∃ e : Engine ℚ,
      construct (onesCollab ℚ (fun _ => 1) (fun _ => 0) 0) false (constEngine ℚ 0)
        (Grid.structured (grid2x2 ℚ)) (-1) true = Except.ok e ∧
      e.truncation_ = -1 ∧
      (∀ g : StructuredGrid ℚ, Grid.structured (grid2x2 ℚ) = Grid.structured g →
        g.projection = false →
        e.legendre_begin_size = -1 + 3 ∧
        e.legendre_sym_begin_ 0 = 0 ∧ e.legendre_asym_begin_ 0 = 0) :=
  ⟨le_refl _, construct_succeeds_without_truncation_check _ false _ _ (-1) true (le_refl _)⟩

/-- Counterexample to C4: with truncation -1 on the regular 2 x 2 grid the constructor
raises nothing; it returns an engine with `truncation_ = -1` whose Legendre offset
tables have 2 entries, the symmetric one being `[0, 8]`. -/
theorem construct_negative_truncation_counterexample :
    ∃ e : Engine ℚ,
      construct (onesCollab ℚ (fun _ => 1) (fun _ => 0) 0) false (constEngine ℚ 0)
        (Grid.structured (grid2x2 ℚ)) (-1) true = Except.ok e ∧
      e.truncation_ = -1 ∧ e.legendre_begin_size = 2 ∧
      e.legendre_sym_begin_ 0 = 0 ∧ e.legendre_sym_begin_ 1 = 8 := by
  refine ⟨constructStructured (onesCollab ℚ (fun _ => 1) (fun _ => 0) 0) false
    (constEngine ℚ 0) (grid2x2 ℚ) (-1) true, ?_, ?_, ?_, ?_, ?_⟩
  · simp [construct, grid2x2]
  · simp [constructStructured, constructInit]
  · simp [constructStructured]
  · simpa [constructStructured] using (legendreOffsets_zero (-1) _).1
  · simp [constructStructured, legendreOffsets, forUp, hemisphereCounts, countLatitude,
      grid2x2, StructuredGrid.ny, List.range_succ, num_n, add_padding]
    norm_num

/-- Simulation rule: two loops over the same range whose states are related before the
loops and stay related through every iteration are related after the loops. -/
theorem forUp_sim {σ τ : Type} (Rel : Int → σ → τ → Prop) (n : Int)
    (body1 : Int → σ → σ) (body2 : Int → τ → τ) (s : σ) (t : τ)
    (h0 : Rel 0 s t)
    (hstep : ∀ j s1 t1, 0 ≤ j → j < n → Rel j s1 t1 → Rel (j + 1) (body1 j s1) (body2 j t1)) :
    Rel (max n 0) (forUp n body1 s) (forUp n body2 t) := by
  rcases le_or_lt n 0 with hn | hn
  · rw [forUp_of_nonpos n body1 s hn, forUp_of_nonpos n body2 t hn, max_eq_right hn]; exact h0
  · obtain ⟨k, rfl⟩ : ∃ k : Nat, n = (k : Int) := ⟨n.toNat, by omega⟩
    rw [max_eq_left (by omega)]
    have key : ∀ i : Nat, i ≤ k →
        Rel (i : Int) (forUp (i : Int) body1 s) (forUp (i : Int) body2 t) := by
      intro i
      induction i with
      | zero => intro _; simpa [forUp] using h0
      | succ i ih =>
        intro hi
        have := hstep (i : Int) _ _ (by omega) (by omega) (ih (by omega))
        rw [Nat.cast_succ, forUp_succ, forUp_succ]
        exact this
    exact key k le_rfl

/-- Two loops with the same body on the range are equal. -/
theorem forUp_congr {σ : Type} (n : Int) (body1 body2 : Int → σ → σ) (s : σ)
    (h : ∀ j t, 0 ≤ j → j < n → body1 j t = body2 j t) :
    forUp n body1 s = forUp n body2 s :=
  forUp_sim (fun _ a b => a = b) n body1 body2 s s rfl
    (fun j s1 t1 h0 h1 hr => by subst hr; exact h j s1 h0 h1)

/-- Modification rule: when only iteration `j0` changes index `k`, and changes it to
`f` of its value, the loop leaves `f` of the initial value at index `k`. -/
theorem forUp_modify {σ R : Type} (proj : σ → Buf R) (n : Int) (body : Int → σ → σ) (s : σ)
    (k : Int) (f : R → R) (j0 : Int) (h0 : 0 ≤ j0) (h1 : j0 < n)
    (hbefore : ∀ j t, 0 ≤ j → j < j0 → proj (body j t) k = proj t k)
    (hw : ∀ t, proj (body j0 t) k = f (proj t k))
    (hlater : ∀ j t, j0 < j → j < n → proj (body j t) k = proj t k) :
    proj (forUp n body s) k = f (proj s k) := by
  have := forUp_induction
    (fun j t => (j ≤ j0 → proj t k = proj s k) ∧ (j0 < j → proj t k = f (proj s k)))
    n body s ⟨fun _ => rfl, by intro h; omega⟩
    (fun j t hj0 hj1 ih => by
      refine ⟨fun hle => ?_, fun hlt => ?_⟩
      · exact (hbefore j t hj0 (by omega)).trans (ih.1 (by omega))
      · rcases eq_or_lt_of_le (show j0 ≤ j by omega) with heq | hlt2
        · subst heq; rw [hw t, ih.1 le_rfl]
        · exact (hlater j t hlt2 hj1).trans (ih.2 hlt2))
  exact this.2 (by rw [max_eq_left (by omega)]; exact h1)

/-! ## Index arithmetic -/

/-- Remainder of a two-digit index `a + n * b` with `0 <= a < n`. -/
theorem radix_emod (a n b : Int) (h0 : 0 ≤ a) (h1 : a < n) : (a + n * b) % n = a := by
  rw [Int.add_mul_emod_self_left]
  exact Int.emod_eq_of_lt h0 h1

/-- Quotient of a two-digit index `a + n * b` with `0 <= a < n`. -/
theorem radix_ediv (a n b : Int) (h0 : 0 ≤ a) (h1 : a < n) : (a + n * b) / n = b := by
  have hn : n ≠ 0 := by omega
  rw [Int.add_mul_ediv_left _ _ hn, Int.ediv_eq_zero_of_lt h0 h1, zero_add]

/-- A two-digit index determines its digits. -/
theorem radix_inj (a a2 n b b2 : Int) (h0 : 0 ≤ a) (h1 : a < n) (h2 : 0 ≤ a2) (h3 : a2 < n)
    (h : a + n * b = a2 + n * b2) : a = a2 ∧ b = b2 := by
  have ha : a = a2 := by
    have := congrArg (fun x => x % n) h
    simp only [radix_emod a n b h0 h1, radix_emod a2 n b2 h2 h3] at this
    exact this
  have hb : b = b2 := by
    have := congrArg (fun x => x / n) h
    simp only [radix_ediv a n b h0 h1, radix_ediv a2 n b2 h2 h3] at this
    exact this
  exact ⟨ha, hb⟩

/-- A two-digit index `a + n * b` with `0 <= a < n` and `0 <= b < k` lies in `[0, n * k)`. -/
theorem radix_bound (a n b k : Int) (h0 : 0 ≤ a) (h1 : a < n) (h2 : 0 ≤ b) (h3 : b < k) :
    0 ≤ a + n * b ∧ a + n * b < n * k := by
  have hn : 0 < n := by omega
  constructor
  · have := mul_nonneg hn.le h2
    omega
  · have : n * (b + 1) ≤ n * k := mul_le_mul_of_nonneg_left (by omega) hn.le
    have h4 : n * (b + 1) = n * b + n := by ring
    omega

/-! ## Loops that write a buffer -/

/-- Counter elimination: a loop on a running index and a buffer, each iteration of which
advances the index by `w`, is the loop on the buffer alone with the index in closed form. -/
theorem forUp_counter {R : Type} (n w : Int) (body : Int → CopyState R → CopyState R)
    (g : Int → Int → Buf R → Buf R)
    (hbody : ∀ j s, 0 ≤ j → j < n → body j s = ⟨s.idx + w, g j s.idx s.dst⟩)
    (s : CopyState R) :
    forUp n body s =
      ⟨s.idx + w * max n 0, forUp n (fun j b => g j (s.idx + w * j) b) s.dst⟩ := by
  have := forUp_sim (fun j (s1 : CopyState R) (b : Buf R) => s1 = ⟨s.idx + w * j, b⟩) n body
    (fun j b => g j (s.idx + w * j) b) s s.dst (by simp)
    (fun j s1 t1 h0 h1 hr => by
      subst hr
      rw [hbody j _ h0 h1]
      simp only [CopyState.mk.injEq, and_true]
      ring)
  exact this

/-- Frame of two nested loops of writes. -/
theorem write2_frame {R : Type} (n1 n2 : Int) (pos : Int → Int → Int) (val : Int → Int → R)
    (b : Buf R) (k : Int)
    (h : ∀ a c, 0 ≤ a → a < n1 → 0 ≤ c → c < n2 → pos a c ≠ k) :
    forUp n1 (fun a b1 => forUp n2 (fun c (b2 : Buf R) =>
      Function.update b2 (pos a c) (val a c)) b1) b k = b k := by
  apply forUp_frame (fun x : Buf R => x)
  intro a t ha0 ha1
  apply forUp_frame (fun x : Buf R => x)
  intro c t2 hc0 hc1
  exact Function.update_noteq (Ne.symm (h a c ha0 ha1 hc0 hc1)) _ _

/-- Value left by two nested loops of writes at pairwise distinct positions. -/
theorem write2_value {R : Type} (n1 n2 : Int) (pos : Int → Int → Int) (val : Int → Int → R)
    (b : Buf R)
    (hinj : ∀ a c a2 c2, 0 ≤ a → a < n1 → 0 ≤ c → c < n2 → 0 ≤ a2 → a2 < n1 → 0 ≤ c2 →
      c2 < n2 → pos a c = pos a2 c2 → a = a2 ∧ c = c2)
    (a c : Int) (ha0 : 0 ≤ a) (ha1 : a < n1) (hc0 : 0 ≤ c) (hc1 : c < n2) :
    forUp n1 (fun a b1 => forUp n2 (fun c (b2 : Buf R) =>
      Function.update b2 (pos a c) (val a c)) b1) b (pos a c) = val a c := by
  apply forUp_write (fun x : Buf R => x) n1 _ b (pos a c) (val a c) a ha0 ha1
  · intro t
    apply forUp_write (fun x : Buf R => x) n2 _ t (pos a c) (val a c) c hc0 hc1
    · intro t2; exact Function.update_same _ _ _
    · intro c2 t2 h1 h2
      apply Function.update_noteq
      intro heq
      have := (hinj a c a c2 ha0 ha1 hc0 hc1 ha0 ha1 (by omega) h2 heq).2
      omega
  · intro a2 t h1 h2
    apply forUp_frame (fun x : Buf R => x)
    intro c2 t2 hc20 hc21
    apply Function.update_noteq
    intro heq
    have := (hinj a c a2 c2 ha0 ha1 hc0 hc1 (by omega) h2 hc20 hc21 heq).1
    omega

/-- Frame of three nested loops of writes. -/
theorem write3_frame {R : Type} (n1 n2 n3 : Int) (pos : Int → Int → Int → Int)
    (val : Int → Int → Int → R) (b : Buf R) (k : Int)
    (h : ∀ a c d, 0 ≤ a → a < n1 → 0 ≤ c → c < n2 → 0 ≤ d → d < n3 → pos a c d ≠ k) :
    forUp n1 (fun a b1 => forUp n2 (fun c b2 => forUp n3 (fun d (b3 : Buf R) =>
      Function.update b3 (pos a c d) (val a c d)) b2) b1) b k = b k := by
  apply forUp_frame (fun x : Buf R => x)
  intro a t ha0 ha1
  exact write2_frame n2 n3 (pos a) (val a) t k (fun c d hc0 hc1 hd0 hd1 =>
    h a c d ha0 ha1 hc0 hc1 hd0 hd1)

/-- Value left by three nested loops of writes at pairwise distinct positions. -/
theorem write3_value {R : Type} (n1 n2 n3 : Int) (pos : Int → Int → Int → Int)
    (val : Int → Int → Int → R) (b : Buf R)
    (hinj : ∀ a c d a2 c2 d2, 0 ≤ a → a < n1 → 0 ≤ c → c < n2 → 0 ≤ d → d < n3 →
      0 ≤ a2 → a2 < n1 → 0 ≤ c2 → c2 < n2 → 0 ≤ d2 → d2 < n3 →
      pos a c d = pos a2 c2 d2 → a = a2 ∧ c = c2 ∧ d = d2)
    (a c d : Int) (ha0 : 0 ≤ a) (ha1 : a < n1) (hc0 : 0 ≤ c) (hc1 : c < n2)
    (hd0 : 0 ≤ d) (hd1 : d < n3) :
    forUp n1 (fun a b1 => forUp n2 (fun c b2 => forUp n3 (fun d (b3 : Buf R) =>
      Function.update b3 (pos a c d) (val a c d)) b2) b1) b (pos a c d) = val a c d := by
  apply forUp_write (fun x : Buf R => x) n1 _ b (pos a c d) (val a c d) a ha0 ha1
  · intro t
    exact write2_value n2 n3 (pos a) (val a) t
      (fun c1 d1 c2 d2 h1 h2 h3 h4 h5 h6 h7 h8 heq =>
        (hinj a c1 d1 a c2 d2 ha0 ha1 h1 h2 h3 h4 ha0 ha1 h5 h6 h7 h8 heq).2)
      c d hc0 hc1 hd0 hd1
  · intro a2 t h1 h2
    apply write2_frame
    intro c2 d2 hc20 hc21 hd20 hd21 heq
    have := (hinj a2 c2 d2 a c d (by omega) h2 hc20 hc21 hd20 hd21 ha0 ha1 hc0 hc1 hd0 hd1
      heq).1
    omega

/-! ## The dense matrix product -/

/-- Entry `(i, j)` of the product. -/
theorem gemm_apply {R : Type} [Field R] (mrows k ncols : Int) (A B C : Buf R) (i j : Int)
    (hi0 : 0 ≤ i) (hi1 : i < mrows) (hj0 : 0 ≤ j) (hj1 : j < ncols) :
    gemm mrows k ncols A B C (i + mrows * j) =
      ∑ l ∈ Finset.range k.toNat, A (i + mrows * (l : Int)) * B ((l : Int) + k * j) := by
  have hb := radix_bound i mrows j ncols hi0 hi1 hj0 hj1
  unfold gemm
  rw [if_pos ⟨by omega, hb.1, hb.2⟩, radix_emod i mrows j hi0 hi1, radix_ediv i mrows j hi0 hi1]

/-- The product writes the entries `[0, mrows * ncols)` of `C` only. -/
theorem gemm_frame {R : Type} [Field R] (mrows k ncols : Int) (A B C : Buf R) (p : Int)
    (hp : p < 0 ∨ mrows * ncols ≤ p) : gemm mrows k ncols A B C p = C p := by
  unfold gemm
  rw [if_neg]
  omega

/-- Every entry of `[0, mrows * ncols)` is an entry `(i, j)` of the product. -/
theorem gemm_apply_flat {R : Type} [Field R] (mrows k ncols : Int) (A B C : Buf R) (p : Int)
    (hm : 0 < mrows) (hp0 : 0 ≤ p) (hp1 : p < mrows * ncols) :
    gemm mrows k ncols A B C p =
      ∑ l ∈ Finset.range k.toNat,
        A (p % mrows + mrows * (l : Int)) * B ((l : Int) + k * (p / mrows)) := by
  unfold gemm
  rw [if_pos ⟨hm, hp0, hp1⟩]

/-! ## Fourier stage: the positions written -/

/-- The output position of `(jlon, jlat, jfld)` lies in `[0, nb_fields * (nlats * nlons))`. -/
theorem gp_pos_bound (jlon nlons jlat nlats jfld nb_fields : Int)
    (h0 : 0 ≤ jlon) (h1 : jlon < nlons) (h2 : 0 ≤ jlat) (h3 : jlat < nlats)
    (h4 : 0 ≤ jfld) (h5 : jfld < nb_fields) :
    0 ≤ jlon + nlons * (jlat + nlats * jfld) ∧
      jlon + nlons * (jlat + nlats * jfld) < nb_fields * (nlats * nlons) := by
  have hb := radix_bound jlat nlats jfld nb_fields h2 h3 h4 h5
  have hc := radix_bound jlon nlons (jlat + nlats * jfld) (nlats * nb_fields) h0 h1 hb.1 hb.2
  have : nlons * (nlats * nb_fields) = nb_fields * (nlats * nlons) := by ring
  omega

/-- The output position determines `(jlon, jlat, jfld)`. -/
theorem gp_pos_inj (nlons nlats : Int) (jlon jlat jfld jlon2 jlat2 jfld2 : Int)
    (h0 : 0 ≤ jlon) (h1 : jlon < nlons) (h2 : 0 ≤ jlat) (h3 : jlat < nlats)
    (h0b : 0 ≤ jlon2) (h1b : jlon2 < nlons) (h2b : 0 ≤ jlat2) (h3b : jlat2 < nlats)
    (h : jlon + nlons * (jlat + nlats * jfld) = jlon2 + nlons * (jlat2 + nlats * jfld2)) :
    jlon = jlon2 ∧ jlat = jlat2 ∧ jfld = jfld2 := by
  have a := radix_inj jlon jlon2 nlons _ _ h0 h1 h0b h1b h
  have b := radix_inj jlat jlat2 nlats _ _ h2 h3 h2b h3b a.2
  exact ⟨a.1, b.1, b.2⟩

/-- The selection of the FFT output for one field writes positions of that field only. -/
theorem fftSelect_frame {R : Type} [Field R] (e : Engine R) (nlons nlats jfld : Int)
    (fft_out gp_fields : Buf R) (k : Int)
    (h : ∀ jlat jlon, 0 ≤ jlat → jlat < nlats → 0 ≤ jlon → jlon < nlons →
      jlon + nlons * (jlat + nlats * jfld) ≠ k) :
    fftSelect e nlons nlats jfld fft_out gp_fields k = gp_fields k :=
  write2_frame nlats nlons (fun jlat jlon => jlon + nlons * (jlat + nlats * jfld))
    (fun jlat jlon =>
      fft_out ((if jlon + e.jlonMin_ ≥ e.nlonsGlobal_ then jlon + e.jlonMin_ - e.nlonsGlobal_
        else jlon + e.jlonMin_) + e.nlonsGlobal_ * jlat))
    gp_fields k h

/-- The FFT branch changes no entry of `gp_fields` outside `[0, nb_fields * (nlats * nlons))`. -/
theorem fourierFFT_frame {R : Type} [Field R] (m : Collab R) (e : Engine R)
    (nlons nlats nb_fields : Int) (scl_fourier : Buf R) (s : FftState R) (k : Int)
    (hk : k < 0 ∨ nb_fields * (nlats * nlons) ≤ k) :
    (fourierFFT m e nlons nlats nb_fields scl_fourier s).gp_fields k = s.gp_fields k := by
  unfold fourierFFT
  apply forUp_frame (fun t : FftState R => t.gp_fields)
  intro jfld t h0 h1
  apply fftSelect_frame
  intro jlat jlon h2 h3 h4 h5 heq
  have := gp_pos_bound jlon nlons jlat nlats jfld nb_fields h4 h5 h2 h3 h0 h1
  omega

/-- Dense method 1 changes no entry of `gp_fields` outside
`[0, nb_fields * (nlats * nlons))`. -/
theorem fourierDgemm1_frame {R : Type} [Field R] (e : Engine R) (nlons nlats nb_fields : Int)
    (scl_fourier gp_opt3_0 gp_fields : Buf R) (k : Int)
    (hk : k < 0 ∨ nb_fields * (nlats * nlons) ≤ k) :
    fourierDgemm1 e nlons nlats nb_fields scl_fourier gp_opt3_0 gp_fields k = gp_fields k := by
  unfold fourierDgemm1
  apply forUp_frame (fun t : CopyState R => t.dst)
  intro jlon t h0 h1
  apply forUp_frame (fun t : CopyState R => t.dst)
  intro jlat t2 h2 h3
  apply forUp_frame (fun t : CopyState R => t.dst)
  intro jfld t3 h4 h5
  apply Function.update_noteq
  intro heq
  have := gp_pos_bound jlon nlons jlat nlats jfld nb_fields h0 h1 h2 h3 h4 h5
  omega

/-- Dense method 2 changes no entry of `gp_fields` outside
`[0, nb_fields * (nlats * nlons))`. -/
theorem fourierDgemm2_frame {R : Type} [Field R] (e : Engine R) (nlons nlats nb_fields : Int)
    (scl_fourier gp_fields : Buf R) (k : Int)
    (hk : k < 0 ∨ nb_fields * (nlats * nlons) ≤ k) :
    fourierDgemm2 e nlons nlats nb_fields scl_fourier gp_fields k = gp_fields k := by
  unfold fourierDgemm2
  apply gemm_frame
  have : nlons * (nb_fields * nlats) = nb_fields * (nlats * nlons) := by ring
  omega

/-- The division by the cosine of the latitude, with the running index in closed form. -/
theorem windRecovery_eq {R : Type} [Field R] (m : Collab R) (g : StructuredGrid R)
    (nlats nb_fields nb_vordiv_fields : Int) (gp_fields : Buf R)
    (hv : 0 < nb_vordiv_fields) :
    windRecovery m g nlats nb_fields nb_vordiv_fields gp_fields =
      forUp nb_fields (fun jfld b1 => forUp (g.ny : Int) (fun jlat b2 =>
        forUp (g.nxmax : Int) (fun jlon (b : Buf R) =>
          Function.update b (jlon + (g.nxmax : Int) * (jlat + (g.ny : Int) * jfld))
            (b (jlon + (g.nxmax : Int) * (jlat + (g.ny : Int) * jfld)) /
              (forUp nlats (fun j c => Function.update c j (m.cos (g.y j * m.degreesToRadians)))
                (fun _ => 0) : Buf R) jlat)) b2) b1) gp_fields := by
  unfold windRecovery
  rw [if_pos hv]
  simp only
  have hx : max (g.nxmax : Int) 0 = (g.nxmax : Int) := max_eq_left (by omega)
  have hy : max (g.ny : Int) 0 = (g.ny : Int) := max_eq_left (by omega)
  rw [forUp_counter nb_fields ((g.nxmax : Int) * (g.ny : Int)) _
    (fun jfld i b1 => forUp (g.ny : Int) (fun jlat b2 =>
        forUp (g.nxmax : Int) (fun jlon (b : Buf R) =>
          Function.update b (i + (g.nxmax : Int) * jlat + jlon)
            (b (i + (g.nxmax : Int) * jlat + jlon) /
              (forUp nlats (fun j c => Function.update c j (m.cos (g.y j * m.degreesToRadians)))
                (fun _ => 0) : Buf R) jlat)) b2) b1)]
  · simp only [zero_add]
    apply forUp_congr
    intro jfld t _ _
    apply forUp_congr
    intro jlat t2 _ _
    apply forUp_congr
    intro jlon t3 _ _
    have : (g.nxmax : Int) * (g.ny : Int) * jfld + (g.nxmax : Int) * jlat + jlon =
        jlon + (g.nxmax : Int) * (jlat + (g.ny : Int) * jfld) := by ring
    rw [this]
  · intro jfld s _ _
    rw [forUp_counter (g.ny : Int) (g.nxmax : Int) _
      (fun jlat i b2 => forUp (g.nxmax : Int) (fun jlon (b : Buf R) =>
          Function.update b (i + jlon)
            (b (i + jlon) /
              (forUp nlats (fun j c => Function.update c j (m.cos (g.y j * m.degreesToRadians)))
                (fun _ => 0) : Buf R) jlat)) b2)]
    · rw [hy]
    · intro jlat s2 _ _
      rw [forUp_counter (g.nxmax : Int) 1 _
        (fun _jlon i (b : Buf R) => Function.update b i
            (b i /
              (forUp nlats (fun j c => Function.update c j (m.cos (g.y j * m.degreesToRadians)))
                (fun _ => 0) : Buf R) jlat))]
      · rw [hx]; simp
      · intro jlon s3 _ _
        rfl

/-! ## Legendre stage: the split step -/

/-- In-range values of `num_n` with the floor division. -/
theorem num_n_true (t jm : Int) (h : jm ≤ t + 2) : num_n t jm true = (t - jm + 2) / 2 := by
  simp only [num_n, if_true]
  exact Int.tdiv_eq_ediv (by omega) (by norm_num)

/-- In-range values of `num_n` with the floor division. -/
theorem num_n_false (t jm : Int) (h : jm ≤ t + 1) : num_n t jm false = (t - jm + 1) / 2 := by
  simp only [num_n, Bool.false_eq_true, if_false]
  exact Int.tdiv_eq_ediv (by omega) (by norm_num)

/-- A block of `n_imag * nb_fields` consecutive writes through a running index. -/
theorem rowFill {R : Type} (n_imag nf : Int) (hni : 0 ≤ n_imag) (hnf : 0 ≤ nf)
    (c : Int → Int → R) (s : CopyState R) :
    (forUp n_imag (fun imag s2 => forUp nf (fun jfld (s3 : CopyState R) =>
        (⟨s3.idx + 1, Function.update s3.dst s3.idx (c imag jfld)⟩ : CopyState R)) s2) s).idx =
      s.idx + n_imag * nf ∧
    (∀ imag jfld, 0 ≤ imag → imag < n_imag → 0 ≤ jfld → jfld < nf →
      (forUp n_imag (fun imag s2 => forUp nf (fun jfld (s3 : CopyState R) =>
        (⟨s3.idx + 1, Function.update s3.dst s3.idx (c imag jfld)⟩ : CopyState R)) s2) s).dst
        (s.idx + (jfld + nf * imag)) = c imag jfld) ∧
    (∀ p, p < s.idx ∨ s.idx + n_imag * nf ≤ p →
      (forUp n_imag (fun imag s2 => forUp nf (fun jfld (s3 : CopyState R) =>
        (⟨s3.idx + 1, Function.update s3.dst s3.idx (c imag jfld)⟩ : CopyState R)) s2) s).dst p =
        s.dst p) := by
  have hpure : forUp n_imag (fun imag s2 => forUp nf (fun jfld (s3 : CopyState R) =>
        (⟨s3.idx + 1, Function.update s3.dst s3.idx (c imag jfld)⟩ : CopyState R)) s2) s =
      ⟨s.idx + n_imag * nf, forUp n_imag (fun imag b1 => forUp nf (fun jfld (b : Buf R) =>
        Function.update b (s.idx + (jfld + nf * imag)) (c imag jfld)) b1) s.dst⟩ := by
    rw [forUp_counter n_imag nf _ (fun imag i b1 => forUp nf (fun jfld (b : Buf R) =>
        Function.update b (i + jfld) (c imag jfld)) b1)]
    · rw [max_eq_left hni, mul_comm nf n_imag]
      congr 1
      apply forUp_congr
      intro imag t _ _
      apply forUp_congr
      intro jfld t2 _ _
      have : s.idx + nf * imag + jfld = s.idx + (jfld + nf * imag) := by ring
      rw [this]
    · intro imag s2 _ _
      rw [forUp_counter nf 1 _ (fun jfld i (b : Buf R) => Function.update b i (c imag jfld))]
      · rw [max_eq_left hnf]; simp
      · intro jfld s3 _ _; rfl
  rw [hpure]
  refine ⟨rfl, ?_, ?_⟩
  · intro imag jfld h0 h1 h2 h3
    exact write2_value n_imag nf (fun imag jfld => s.idx + (jfld + nf * imag)) c s.dst
      (fun a c1 a2 c2 _ _ hc0 hc1 _ _ hc20 hc21 heq => by
        have heq2 : s.idx + (c1 + nf * a) = s.idx + (c2 + nf * a2) := heq
        have := radix_inj c1 c2 nf a a2 hc0 hc1 hc20 hc21 (by omega)
        exact ⟨this.2, this.1⟩)
      imag jfld h0 h1 h2 h3
  · intro p hp
    show forUp n_imag (fun imag b1 => forUp nf (fun jfld (b : Buf R) =>
        Function.update b (s.idx + (jfld + nf * imag)) (c imag jfld)) b1) s.dst p = s.dst p
    apply write2_frame
    intro imag jfld h0 h1 h2 h3 heq
    have := radix_bound jfld nf imag n_imag h2 h3 h0 h1
    have h4 : nf * n_imag = n_imag * nf := mul_comm _ _
    omega

/-- The body of the split loop when `jn - jm` is even: one write to `scalar_sym`. -/
theorem splitBody_even {R : Type} [Field R] (truncation nb_fields jm : Int)
    (scalar_spectra : Buf R) (jn imag jfld : Int) (s : SplitState R)
    (hpar : (jn - jm) % 2 = 0) (hge : jm ≤ jn) :
    splitBody truncation nb_fields jm
        (Int.tdiv ((2 * truncation + 3 - jm) * jm) 2 * nb_fields * 2) scalar_spectra
        jn imag jfld s =
      { s with
        scalar_sym := Function.update s.scalar_sym s.is
          (splitCoef truncation nb_fields jm scalar_spectra jn imag jfld)
        is := s.is + 1 } := by
  have ht : Int.tmod (jn - jm) 2 = 0 := by
    rw [Int.tmod_eq_emod (by omega) (by norm_num)]; exact hpar
  unfold splitBody splitCoef
  by_cases hg : jn ≤ truncation ∧ jm < truncation
  · simp only [if_pos hg, if_pos ht]
  · simp only [if_neg hg, if_pos ht]

/-- The body of the split loop when `jn - jm` is odd: one write to `scalar_asym`. -/
theorem splitBody_odd {R : Type} [Field R] (truncation nb_fields jm : Int)
    (scalar_spectra : Buf R) (jn imag jfld : Int) (s : SplitState R)
    (hpar : (jn - jm) % 2 = 1) (hge : jm ≤ jn) :
    splitBody truncation nb_fields jm
        (Int.tdiv ((2 * truncation + 3 - jm) * jm) 2 * nb_fields * 2) scalar_spectra
        jn imag jfld s =
      { s with
        scalar_asym := Function.update s.scalar_asym s.ia
          (splitCoef truncation nb_fields jm scalar_spectra jn imag jfld)
        ia := s.ia + 1 } := by
  have ht : ¬ Int.tmod (jn - jm) 2 = 0 := by
    rw [Int.tmod_eq_emod (by omega) (by norm_num)]; omega
  unfold splitBody splitCoef
  by_cases hg : jn ≤ truncation ∧ jm < truncation
  · simp only [if_pos hg, if_neg ht]
  · simp only [if_neg hg, if_neg ht]

/-- The two inner loops of the split step for a total wavenumber `jn` with `jn - jm` even:
a block of `n_imag * nb_fields` entries is appended to `scalar_sym`. -/
theorem splitRow_even {R : Type} [Field R] (truncation nf jm n_imag : Int)
    (scalar_spectra : Buf R) (jn : Int) (s : SplitState R)
    (hni : 0 ≤ n_imag) (hnf : 0 ≤ nf) (hpar : (jn - jm) % 2 = 0) (hge : jm ≤ jn) :
    ∃ r : SplitState R,
      forUp n_imag (fun imag s2 => forUp nf (fun jfld s3 =>
        splitBody truncation nf jm (Int.tdiv ((2 * truncation + 3 - jm) * jm) 2 * nf * 2)
          scalar_spectra jn imag jfld s3) s2) s = r ∧
      r.ia = s.ia ∧ r.scalar_asym = s.scalar_asym ∧ r.is = s.is + n_imag * nf ∧
      (∀ imag jfld, 0 ≤ imag → imag < n_imag → 0 ≤ jfld → jfld < nf →
        r.scalar_sym (s.is + (jfld + nf * imag)) =
          splitCoef truncation nf jm scalar_spectra jn imag jfld) ∧
      (∀ p, p < s.is ∨ s.is + n_imag * nf ≤ p → r.scalar_sym p = s.scalar_sym p) := by
  refine ⟨_, rfl, ?_⟩
  have hsim := forUp_sim
    (fun _ (a : SplitState R) (b : CopyState R) =>
      a.ia = s.ia ∧ a.scalar_asym = s.scalar_asym ∧ a.is = b.idx ∧ a.scalar_sym = b.dst)
    n_imag
    (fun imag s2 => forUp nf (fun jfld s3 =>
        splitBody truncation nf jm (Int.tdiv ((2 * truncation + 3 - jm) * jm) 2 * nf * 2)
          scalar_spectra jn imag jfld s3) s2)
    (fun imag s2 => forUp nf (fun jfld (s3 : CopyState R) =>
        (⟨s3.idx + 1, Function.update s3.dst s3.idx
          (splitCoef truncation nf jm scalar_spectra jn imag jfld)⟩ : CopyState R)) s2)
    s ⟨s.is, s.scalar_sym⟩ ⟨rfl, rfl, rfl, rfl⟩
    (fun imag a b _ _ hr =>
      forUp_sim
        (fun _ (a : SplitState R) (b : CopyState R) =>
          a.ia = s.ia ∧ a.scalar_asym = s.scalar_asym ∧ a.is = b.idx ∧ a.scalar_sym = b.dst)
        nf _ _ a b hr
        (fun jfld a2 b2 _ _ hr2 => by
          rw [splitBody_even truncation nf jm scalar_spectra jn imag jfld a2 hpar hge]
          obtain ⟨h1, h2, h3, h4⟩ := hr2
          refine ⟨h1, h2, ?_, ?_⟩
          · simp only [h3]
          · simp only [h3, h4]))
  obtain ⟨h1, h2, h3, h4⟩ := hsim
  have hrow := rowFill n_imag nf hni hnf
    (fun imag jfld => splitCoef truncation nf jm scalar_spectra jn imag jfld)
    (⟨s.is, s.scalar_sym⟩ : CopyState R)
  refine ⟨h1, h2, ?_, ?_, ?_⟩
  · rw [h3]; exact hrow.1
  · intro imag jfld a b c d
    rw [h4]; exact hrow.2.1 imag jfld a b c d
  · intro p hp
    rw [h4]; exact hrow.2.2 p hp

/-- The two inner loops of the split step for a total wavenumber `jn` with `jn - jm` odd:
a block of `n_imag * nb_fields` entries is appended to `scalar_asym`. -/
theorem splitRow_odd {R : Type} [Field R] (truncation nf jm n_imag : Int)
    (scalar_spectra : Buf R) (jn : Int) (s : SplitState R)
    (hni : 0 ≤ n_imag) (hnf : 0 ≤ nf) (hpar : (jn - jm) % 2 = 1) (hge : jm ≤ jn) :
    ∃ r : SplitState R,
      forUp n_imag (fun imag s2 => forUp nf (fun jfld s3 =>
        splitBody truncation nf jm (Int.tdiv ((2 * truncation + 3 - jm) * jm) 2 * nf * 2)
          scalar_spectra jn imag jfld s3) s2) s = r ∧
      r.is = s.is ∧ r.scalar_sym = s.scalar_sym ∧ r.ia = s.ia + n_imag * nf ∧
      (∀ imag jfld, 0 ≤ imag → imag < n_imag → 0 ≤ jfld → jfld < nf →
        r.scalar_asym (s.ia + (jfld + nf * imag)) =
          splitCoef truncation nf jm scalar_spectra jn imag jfld) ∧
      (∀ p, p < s.ia ∨ s.ia + n_imag * nf ≤ p → r.scalar_asym p = s.scalar_asym p) := by
  refine ⟨_, rfl, ?_⟩
  have hsim := forUp_sim
    (fun _ (a : SplitState R) (b : CopyState R) =>
      a.is = s.is ∧ a.scalar_sym = s.scalar_sym ∧ a.ia = b.idx ∧ a.scalar_asym = b.dst)
    n_imag
    (fun imag s2 => forUp nf (fun jfld s3 =>
        splitBody truncation nf jm (Int.tdiv ((2 * truncation + 3 - jm) * jm) 2 * nf * 2)
          scalar_spectra jn imag jfld s3) s2)
    (fun imag s2 => forUp nf (fun jfld (s3 : CopyState R) =>
        (⟨s3.idx + 1, Function.update s3.dst s3.idx
          (splitCoef truncation nf jm scalar_spectra jn imag jfld)⟩ : CopyState R)) s2)
    s ⟨s.ia, s.scalar_asym⟩ ⟨rfl, rfl, rfl, rfl⟩
    (fun imag a b _ _ hr =>
      forUp_sim
        (fun _ (a : SplitState R) (b : CopyState R) =>
          a.is = s.is ∧ a.scalar_sym = s.scalar_sym ∧ a.ia = b.idx ∧ a.scalar_asym = b.dst)
        nf _ _ a b hr
        (fun jfld a2 b2 _ _ hr2 => by
          rw [splitBody_odd truncation nf jm scalar_spectra jn imag jfld a2 hpar hge]
          obtain ⟨h1, h2, h3, h4⟩ := hr2
          refine ⟨h1, h2, ?_, ?_⟩
          · simp only [h3]
          · simp only [h3, h4]))
  obtain ⟨h1, h2, h3, h4⟩ := hsim
  have hrow := rowFill n_imag nf hni hnf
    (fun imag jfld => splitCoef truncation nf jm scalar_spectra jn imag jfld)
    (⟨s.ia, s.scalar_asym⟩ : CopyState R)
  refine ⟨h1, h2, ?_, ?_, ?_⟩
  · rw [h3]; exact hrow.1
  · intro imag jfld a b c d
    rw [h4]; exact hrow.2.1 imag jfld a b c d
  · intro p hp
    rw [h4]; exact hrow.2.2 p hp

/-- Position bound inside the sub-arrays: the entry of `(jfld, imag, q)` lies in the
first `q + 1` blocks of `n_imag * nf` entries. -/
theorem split_pos_bound (nf n_imag jfld imag q : Int) (h0 : 0 ≤ jfld) (h1 : jfld < nf)
    (h2 : 0 ≤ imag) (h3 : imag < n_imag) (h4 : 0 ≤ q) :
    0 ≤ jfld + nf * (imag + n_imag * q) ∧
      jfld + nf * (imag + n_imag * q) < n_imag * nf * (q + 1) := by
  have hb := radix_bound imag n_imag q (q + 1) h2 h3 h4 (by omega)
  have hc := radix_bound jfld nf (imag + n_imag * q) (n_imag * (q + 1)) h0 h1 hb.1 hb.2
  have : nf * (n_imag * (q + 1)) = n_imag * nf * (q + 1) := by ring
  omega

/-- The split step for zonal wavenumber `jm`: the counters end at the sizes of the two
sub-arrays, and the sub-arrays hold, block after block in the order of descending total
wavenumber, the values `splitCoef` of the total wavenumbers `jn` with `jn - jm` even
(symmetric) and odd (antisymmetric). -/
theorem legendreSplit_spec {R : Type} [Field R] (truncation_ truncation nf jm n_imag : Int)
    (scalar_spectra sym0 asym0 : Buf R)
    (hjm : jm ≤ truncation_ + 1) (hni : 0 ≤ n_imag) (hnf : 0 ≤ nf) :
    (legendreSplit truncation_ truncation nf jm n_imag scalar_spectra sym0 asym0).is =
      n_imag * nf * num_n (truncation_ + 1) jm true ∧
    (legendreSplit truncation_ truncation nf jm n_imag scalar_spectra sym0 asym0).ia =
      n_imag * nf * num_n (truncation_ + 1) jm false ∧
    (∀ q imag jfld, 0 ≤ q → q < num_n (truncation_ + 1) jm true → 0 ≤ imag → imag < n_imag →
      0 ≤ jfld → jfld < nf →
      (legendreSplit truncation_ truncation nf jm n_imag scalar_spectra sym0 asym0).scalar_sym
          (jfld + nf * (imag + n_imag * q)) =
        splitCoef truncation nf jm scalar_spectra
          (jm + 2 * (num_n (truncation_ + 1) jm true - 1 - q)) imag jfld) ∧
    (∀ q imag jfld, 0 ≤ q → q < num_n (truncation_ + 1) jm false → 0 ≤ imag → imag < n_imag →
      0 ≤ jfld → jfld < nf →
      (legendreSplit truncation_ truncation nf jm n_imag scalar_spectra sym0 asym0).scalar_asym
          (jfld + nf * (imag + n_imag * q)) =
        splitCoef truncation nf jm scalar_spectra
          (jm + 1 + 2 * (num_n (truncation_ + 1) jm false - 1 - q)) imag jfld) := by
  rw [num_n_true _ _ (by omega), num_n_false _ _ (by omega)]
  obtain ⟨L, hLdef⟩ : ∃ L : Int, L = truncation_ + 1 - jm := ⟨_, rfl⟩
  have hL : 0 ≤ L := by omega
  have hinv := forUp_induction
    (fun k (s : SplitState R) =>
      s.is = n_imag * nf * ((k + 1 - L % 2) / 2) ∧
      s.ia = n_imag * nf * ((k + L % 2) / 2) ∧
      (∀ q imag jfld, 0 ≤ q → q < (k + 1 - L % 2) / 2 → 0 ≤ imag → imag < n_imag →
        0 ≤ jfld → jfld < nf →
        s.scalar_sym (jfld + nf * (imag + n_imag * q)) =
          splitCoef truncation nf jm scalar_spectra (truncation_ + 1 - (2 * q + L % 2))
            imag jfld) ∧
      (∀ q imag jfld, 0 ≤ q → q < (k + L % 2) / 2 → 0 ≤ imag → imag < n_imag →
        0 ≤ jfld → jfld < nf →
        s.scalar_asym (jfld + nf * (imag + n_imag * q)) =
          splitCoef truncation nf jm scalar_spectra (truncation_ + 1 - (2 * q + 1 - L % 2))
            imag jfld))
    (truncation_ + 1 - jm + 1)
    (fun k s1 => forUp n_imag (fun imag s2 => forUp nf (fun jfld s =>
      splitBody truncation nf jm (Int.tdiv ((2 * truncation + 3 - jm) * jm) 2 * nf * 2)
        scalar_spectra (truncation_ + 1 - k) imag jfld s) s2) s1)
    ({ is := 0, ia := 0, scalar_sym := sym0, scalar_asym := asym0 } : SplitState R)
    (by
      refine ⟨?_, ?_, ?_, ?_⟩
      · have : (0 + 1 - L % 2) / 2 = 0 := by omega
        show (0 : Int) = n_imag * nf * ((0 + 1 - L % 2) / 2)
        rw [this, mul_zero]
      · have : (0 + L % 2) / 2 = 0 := by omega
        show (0 : Int) = n_imag * nf * ((0 + L % 2) / 2)
        rw [this, mul_zero]
      · intro q _ _ h0 h1; omega
      · intro q _ _ h0 h1; omega)
    (by
      intro k s hk0 hk1 ⟨his, hia, hsym, hasym⟩
      rcases Int.emod_two_eq (truncation_ + 1 - k - jm) with hpar | hpar
      · obtain ⟨r, hr, h1, h2, h3, h4, h5⟩ := splitRow_even truncation nf jm n_imag
          scalar_spectra (truncation_ + 1 - k) s hni hnf hpar (by omega)
        simp only [hr]
        have hce : (k + 1 + 1 - L % 2) / 2 = (k + 1 - L % 2) / 2 + 1 := by omega
        have hco : (k + 1 + L % 2) / 2 = (k + L % 2) / 2 := by omega
        have hkk : 2 * ((k + 1 - L % 2) / 2) + L % 2 = k := by omega
        refine ⟨?_, ?_, ?_, ?_⟩
        · rw [h3, his, hce]; ring
        · rw [h1, hia, hco]
        · intro q imag jfld hq0 hq1 hi0 hi1 hf0 hf1
          rcases eq_or_lt_of_le (show q ≤ (k + 1 - L % 2) / 2 by omega) with heq | hlt
          · have hpos : jfld + nf * (imag + n_imag * q) = s.is + (jfld + nf * imag) := by
              rw [his, heq]; ring
            rw [hpos, h4 imag jfld hi0 hi1 hf0 hf1]
            have : truncation_ + 1 - k = truncation_ + 1 - (2 * q + L % 2) := by
              rw [heq]; omega
            rw [this]
          · have hb := split_pos_bound nf n_imag jfld imag q hf0 hf1 hi0 hi1 hq0
            have hle : n_imag * nf * (q + 1) ≤ n_imag * nf * ((k + 1 - L % 2) / 2) :=
              mul_le_mul_of_nonneg_left (by omega) (mul_nonneg hni hnf)
            rw [h5 _ (Or.inl (by rw [his]; omega))]
            exact hsym q imag jfld hq0 hlt hi0 hi1 hf0 hf1
        · intro q imag jfld hq0 hq1 hi0 hi1 hf0 hf1
          rw [h2]
          exact hasym q imag jfld hq0 (by omega) hi0 hi1 hf0 hf1
      · obtain ⟨r, hr, h1, h2, h3, h4, h5⟩ := splitRow_odd truncation nf jm n_imag
          scalar_spectra (truncation_ + 1 - k) s hni hnf hpar (by omega)
        simp only [hr]
        have hce : (k + 1 + 1 - L % 2) / 2 = (k + 1 - L % 2) / 2 := by omega
        have hco : (k + 1 + L % 2) / 2 = (k + L % 2) / 2 + 1 := by omega
        have hkk : 2 * ((k + L % 2) / 2) + 1 - L % 2 = k := by omega
        refine ⟨?_, ?_, ?_, ?_⟩
        · rw [h1, his, hce]
        · rw [h3, hia, hco]; ring
        · intro q imag jfld hq0 hq1 hi0 hi1 hf0 hf1
          rw [h2]
          exact hsym q imag jfld hq0 (by omega) hi0 hi1 hf0 hf1
        · intro q imag jfld hq0 hq1 hi0 hi1 hf0 hf1
          rcases eq_or_lt_of_le (show q ≤ (k + L % 2) / 2 by omega) with heq | hlt
          · have hpos : jfld + nf * (imag + n_imag * q) = s.ia + (jfld + nf * imag) := by
              rw [hia, heq]; ring
            rw [hpos, h4 imag jfld hi0 hi1 hf0 hf1]
            have : truncation_ + 1 - k = truncation_ + 1 - (2 * q + 1 - L % 2) := by
              rw [heq]; omega
            rw [this]
          · have hb := split_pos_bound nf n_imag jfld imag q hf0 hf1 hi0 hi1 hq0
            have hle : n_imag * nf * (q + 1) ≤ n_imag * nf * ((k + L % 2) / 2) :=
              mul_le_mul_of_nonneg_left (by omega) (mul_nonneg hni hnf)
            rw [h5 _ (Or.inl (by rw [hia]; omega))]
            exact hasym q imag jfld hq0 hlt hi0 hi1 hf0 hf1)
  have hmax : max (truncation_ + 1 - jm + 1) 0 = L + 1 := by omega
  rw [hmax] at hinv
  have hfold : legendreSplit truncation_ truncation nf jm n_imag scalar_spectra sym0 asym0 =
      forUp (truncation_ + 1 - jm + 1)
        (fun k s1 => forUp n_imag (fun imag s2 => forUp nf (fun jfld s =>
          splitBody truncation nf jm (Int.tdiv ((2 * truncation + 3 - jm) * jm) 2 * nf * 2)
            scalar_spectra (truncation_ + 1 - k) imag jfld s) s2) s1)
        ({ is := 0, ia := 0, scalar_sym := sym0, scalar_asym := asym0 } : SplitState R) := rfl
  rw [hfold]
  obtain ⟨his, hia, hsym, hasym⟩ := hinv
  have e1 : (L + 1 + 1 - L % 2) / 2 = (truncation_ + 1 - jm + 2) / 2 := by omega
  have e2 : (L + 1 + L % 2) / 2 = (truncation_ + 1 - jm + 1) / 2 := by omega
  rw [e1] at his hsym
  rw [e2] at hia hasym
  refine ⟨his, hia, ?_, ?_⟩
  · intro q imag jfld hq0 hq1 hi0 hi1 hf0 hf1
    rw [hsym q imag jfld hq0 hq1 hi0 hi1 hf0 hf1]
    congr 1
    omega
  · intro q imag jfld hq0 hq1 hi0 hi1 hf0 hf1
    rw [hasym q imag jfld hq0 hq1 hi0 hi1 hf0 hf1]
    congr 1
    omega

/-! ## Legendre stage: products and merge -/

/-- The `ASSERT` of line 393 holds, so the body of the loop over `jm` returns the merge
of the two products. -/
theorem legendreStep_ok {R : Type} [Field R] (e : Engine R) (sc : Scratch R)
    (truncation nlats nf : Int) (scalar_spectra : Buf R) (jm : Int) (scl_fourier : Buf R)
    (hjm : jm ≤ e.truncation_ + 1) (hnf : 0 ≤ nf) :
    legendreStep e sc truncation nlats nf scalar_spectra jm scl_fourier =
      Except.ok (mergeHemispheres e nlats nf jm (nImag jm)
        (legendreProducts e sc nf jm (nImag jm)
          (legendreSplit e.truncation_ truncation nf jm (nImag jm) scalar_spectra
            (sc.scalar_sym jm) (sc.scalar_asym jm)).scalar_sym
          (legendreSplit e.truncation_ truncation nf jm (nImag jm) scalar_spectra
            (sc.scalar_sym jm) (sc.scalar_asym jm)).scalar_asym).1
        (legendreProducts e sc nf jm (nImag jm)
          (legendreSplit e.truncation_ truncation nf jm (nImag jm) scalar_spectra
            (sc.scalar_sym jm) (sc.scalar_asym jm)).scalar_sym
          (legendreSplit e.truncation_ truncation nf jm (nImag jm) scalar_spectra
            (sc.scalar_sym jm) (sc.scalar_asym jm)).scalar_asym).2
        scl_fourier) := by
  have hni : 0 ≤ nImag jm := by unfold nImag; split <;> omega
  have hs := legendreSplit_spec e.truncation_ truncation nf jm (nImag jm) scalar_spectra
    (sc.scalar_sym jm) (sc.scalar_asym jm) hjm hni hnf
  unfold legendreStep
  simp only
  rw [show (if jm = 0 then (1 : Int) else 2) = nImag jm from rfl]
  rw [if_pos ⟨hs.2.1, hs.1⟩]

/-- The symmetric product at the entry of `(jfld, imag, col)`. -/
theorem legendreProducts_sym {R : Type} [Field R] (e : Engine R) (sc : Scratch R)
    (truncation nf : Int) (scalar_spectra : Buf R) (jm n_imag jfld imag col : Int)
    (hjm : jm ≤ e.truncation_ + 1) (hni : n_imag = nImag jm)
    (hf0 : 0 ≤ jfld) (hf1 : jfld < nf) (hi0 : 0 ≤ imag) (hi1 : imag < n_imag)
    (hc0 : 0 ≤ col) (hc1 : col < e.nlatsLeg_) :
    (legendreProducts e sc nf jm n_imag
        (legendreSplit e.truncation_ truncation nf jm n_imag scalar_spectra
          (sc.scalar_sym jm) (sc.scalar_asym jm)).scalar_sym
        (legendreSplit e.truncation_ truncation nf jm n_imag scalar_spectra
          (sc.scalar_sym jm) (sc.scalar_asym jm)).scalar_asym).1
      (jfld + nf * (imag + n_imag * col)) =
    symPart e truncation nf scalar_spectra jm imag jfld col := by
  have hni0 : 0 ≤ n_imag := by rw [hni]; unfold nImag; split <;> omega
  have hs := legendreSplit_spec e.truncation_ truncation nf jm n_imag scalar_spectra
    (sc.scalar_sym jm) (sc.scalar_asym jm) hjm hni0 (by omega)
  have hrow := radix_bound jfld nf imag n_imag hf0 hf1 hi0 hi1
  have hpos : jfld + nf * (imag + n_imag * col) = (jfld + nf * imag) + nf * n_imag * col := by
    ring
  unfold legendreProducts symPart
  simp only
  rw [hpos, gemm_apply _ _ _ _ _ _ _ _ hrow.1 hrow.2 hc0 hc1]
  apply Finset.sum_congr rfl
  intro l hl
  have hl1 : (l : Int) < num_n (e.truncation_ + 1) jm true := by
    have := Finset.mem_range.mp hl
    omega
  have hp2 : jfld + nf * imag + nf * n_imag * (l : Int) =
      jfld + nf * (imag + n_imag * (l : Int)) := by ring
  rw [hp2, hs.2.2.1 (l : Int) imag jfld (by omega) hl1 hi0 hi1 hf0 hf1]
  rfl

/-- The antisymmetric product at the entry of `(jfld, imag, col)`, for `jm <= truncation_`
(the antisymmetric block is then not empty). -/
theorem legendreProducts_asym {R : Type} [Field R] (e : Engine R) (sc : Scratch R)
    (truncation nf : Int) (scalar_spectra : Buf R) (jm n_imag jfld imag col : Int)
    (hjm : jm ≤ e.truncation_) (hni : n_imag = nImag jm)
    (hf0 : 0 ≤ jfld) (hf1 : jfld < nf) (hi0 : 0 ≤ imag) (hi1 : imag < n_imag)
    (hc0 : 0 ≤ col) (hc1 : col < e.nlatsLeg_) :
    (legendreProducts e sc nf jm n_imag
        (legendreSplit e.truncation_ truncation nf jm n_imag scalar_spectra
          (sc.scalar_sym jm) (sc.scalar_asym jm)).scalar_sym
        (legendreSplit e.truncation_ truncation nf jm n_imag scalar_spectra
          (sc.scalar_sym jm) (sc.scalar_asym jm)).scalar_asym).2
      (jfld + nf * (imag + n_imag * col)) =
    asymPart e truncation nf scalar_spectra jm imag jfld col := by
  have hni0 : 0 ≤ n_imag := by rw [hni]; unfold nImag; split <;> omega
  have hs := legendreSplit_spec e.truncation_ truncation nf jm n_imag scalar_spectra
    (sc.scalar_sym jm) (sc.scalar_asym jm) (by omega) hni0 (by omega)
  have hrow := radix_bound jfld nf imag n_imag hf0 hf1 hi0 hi1
  have hpos : jfld + nf * (imag + n_imag * col) = (jfld + nf * imag) + nf * n_imag * col := by
    ring
  have hsz : num_n (e.truncation_ + 1) jm false > 0 := by
    rw [num_n_false _ _ (by omega)]; omega
  unfold legendreProducts asymPart
  simp only
  rw [if_pos hsz, hpos, gemm_apply _ _ _ _ _ _ _ _ hrow.1 hrow.2 hc0 hc1]
  apply Finset.sum_congr rfl
  intro l hl
  have hl1 : (l : Int) < num_n (e.truncation_ + 1) jm false := by
    have := Finset.mem_range.mp hl
    omega
  have hp2 : jfld + nf * imag + nf * n_imag * (l : Int) =
      jfld + nf * (imag + n_imag * (l : Int)) := by ring
  rw [hp2, hs.2.2.2 (l : Int) imag jfld (by omega) hl1 hi0 hi1 hf0 hf1]
  rfl

/-- The position function `posMethod` determines its arguments, in both layouts. -/
theorem posMethod_inj {R : Type} (e : Engine R) (nf nlats : Int)
    (jfld imag jlat jm jfld2 imag2 jlat2 jm2 : Int)
    (hf0 : 0 ≤ jfld) (hf1 : jfld < nf) (hi0 : 0 ≤ imag) (hi1 : imag < 2)
    (hl0 : 0 ≤ jlat) (hl1 : jlat < nlats) (hm0 : 0 ≤ jm) (hm1 : jm ≤ e.truncation_)
    (hf0b : 0 ≤ jfld2) (hf1b : jfld2 < nf) (hi0b : 0 ≤ imag2) (hi1b : imag2 < 2)
    (hl0b : 0 ≤ jlat2) (hl1b : jlat2 < nlats) (hm0b : 0 ≤ jm2) (hm1b : jm2 ≤ e.truncation_)
    (h : posMethod e jfld imag jlat jm nf nlats = posMethod e jfld2 imag2 jlat2 jm2 nf nlats) :
    jfld = jfld2 ∧ imag = imag2 ∧ jlat = jlat2 ∧ jm = jm2 := by
  unfold posMethod at h
  by_cases hlay : (e.useFFT_ || !e.dgemmMethod1_) = true
  · rw [if_pos hlay, if_pos hlay] at h
    have a := radix_inj imag imag2 2 _ _ hi0 hi1 hi0b hi1b h
    have b := radix_inj jm jm2 (e.truncation_ + 1) _ _ hm0 (by omega) hm0b (by omega) a.2
    have c := radix_inj jlat jlat2 nlats _ _ hl0 hl1 hl0b hl1b b.2
    exact ⟨c.2, a.1, c.1, b.1⟩
  · rw [if_neg hlay, if_neg hlay] at h
    have a := radix_inj jfld jfld2 nf _ _ hf0 hf1 hf0b hf1b h
    have b := radix_inj jlat jlat2 nlats _ _ hl0 hl1 hl0b hl1b a.2
    have c := radix_inj imag imag2 2 _ _ hi0 hi1 hi0b hi1b b.2
    exact ⟨a.1, c.1, b.1, c.2⟩

/-- The merge for zonal wavenumber `jm` changes positions of `jm` on the northern rows
`[0, nlatsNH_)` and the southern rows `[nlats - nlatsSH_, nlats)` only. -/
theorem mergeHemispheres_frame {R : Type} [Field R] (e : Engine R)
    (nlats nf jm n_imag : Int) (S A scl : Buf R) (k : Int)
    (h : ∀ jfld imag jlat, 0 ≤ jfld → jfld < nf → 0 ≤ imag → imag < n_imag →
      (0 ≤ jlat ∧ jlat < e.nlatsNH_ ∨ nlats - e.nlatsSH_ ≤ jlat ∧ jlat < nlats) →
      posMethod e jfld imag jlat jm nf nlats ≠ k) :
    mergeHemispheres e nlats nf jm n_imag S A scl k = scl k := by
  unfold mergeHemispheres
  simp only
  rw [write3_frame e.nlatsSH_ n_imag nf
    (fun jlat imag jfld => posMethod e jfld imag (nlats - jlat - 1) jm nf nlats)
    (fun jlat imag jfld =>
      S (posFourier nf n_imag e.nlatsLeg_ jfld imag jlat jm e.nlatsSH_) -
        A (posFourier nf n_imag e.nlatsLeg_ jfld imag jlat jm e.nlatsSH_))]
  · exact write3_frame e.nlatsNH_ n_imag nf
      (fun jlat imag jfld => posMethod e jfld imag jlat jm nf nlats)
      (fun jlat imag jfld =>
        S (posFourier nf n_imag e.nlatsLeg_ jfld imag jlat jm e.nlatsNH_) +
          A (posFourier nf n_imag e.nlatsLeg_ jfld imag jlat jm e.nlatsNH_))
      scl k
      (fun jlat imag jfld h0 h1 h2 h3 h4 h5 => h jfld imag jlat h4 h5 h2 h3 (Or.inl ⟨h0, h1⟩))
  · intro jlat imag jfld h0 h1 h2 h3 h4 h5
    exact h jfld imag (nlats - jlat - 1) h4 h5 h2 h3 (Or.inr ⟨by omega, by omega⟩)

/-- The merge on a southern row: the symmetric minus the antisymmetric product. -/
theorem mergeHemispheres_south {R : Type} [Field R] (e : Engine R)
    (nlats nf jm n_imag : Int) (S A scl : Buf R)
    (hSH : e.nlatsSH_ ≤ nlats) (hm0 : 0 ≤ jm) (hm1 : jm ≤ e.truncation_)
    (hni : n_imag ≤ 2) (jfld imag jlat : Int)
    (hf0 : 0 ≤ jfld) (hf1 : jfld < nf) (hi0 : 0 ≤ imag) (hi1 : imag < n_imag)
    (hl0 : 0 ≤ jlat) (hl1 : jlat < e.nlatsSH_) :
    mergeHemispheres e nlats nf jm n_imag S A scl
        (posMethod e jfld imag (nlats - jlat - 1) jm nf nlats) =
      S (posFourier nf n_imag e.nlatsLeg_ jfld imag jlat jm e.nlatsSH_) -
        A (posFourier nf n_imag e.nlatsLeg_ jfld imag jlat jm e.nlatsSH_) := by
  unfold mergeHemispheres
  simp only
  exact write3_value e.nlatsSH_ n_imag nf
    (fun jlat imag jfld => posMethod e jfld imag (nlats - jlat - 1) jm nf nlats)
    (fun jlat imag jfld =>
      S (posFourier nf n_imag e.nlatsLeg_ jfld imag jlat jm e.nlatsSH_) -
        A (posFourier nf n_imag e.nlatsLeg_ jfld imag jlat jm e.nlatsSH_))
    _
    (fun a c d a2 c2 d2 h0 h1 h2 h3 h4 h5 h0b h1b h2b h3b h4b h5b heq => by
      have := posMethod_inj e nf nlats d c (nlats - a - 1) jm d2 c2 (nlats - a2 - 1) jm
        h4 h5 h2 (by omega) (by omega) (by omega) hm0 hm1
        h4b h5b h2b (by omega) (by omega) (by omega) hm0 hm1 heq
      exact ⟨by omega, this.2.1, this.1⟩)
    jlat imag jfld hl0 hl1 hi0 hi1 hf0 hf1

/-- The merge on a northern row that is not also a southern row: the symmetric plus the
antisymmetric product. -/
theorem mergeHemispheres_north {R : Type} [Field R] (e : Engine R)
    (nlats nf jm n_imag : Int) (S A scl : Buf R)
    (hNH : e.nlatsNH_ ≤ nlats) (hm0 : 0 ≤ jm) (hm1 : jm ≤ e.truncation_)
    (hni : n_imag ≤ 2) (jfld imag jlat : Int)
    (hf0 : 0 ≤ jfld) (hf1 : jfld < nf) (hi0 : 0 ≤ imag) (hi1 : imag < n_imag)
    (hl0 : 0 ≤ jlat) (hl1 : jlat < e.nlatsNH_) (hl2 : jlat < nlats - e.nlatsSH_) :
    mergeHemispheres e nlats nf jm n_imag S A scl
        (posMethod e jfld imag jlat jm nf nlats) =
      S (posFourier nf n_imag e.nlatsLeg_ jfld imag jlat jm e.nlatsNH_) +
        A (posFourier nf n_imag e.nlatsLeg_ jfld imag jlat jm e.nlatsNH_) := by
  unfold mergeHemispheres
  simp only
  rw [write3_frame e.nlatsSH_ n_imag nf
    (fun jlat imag jfld => posMethod e jfld imag (nlats - jlat - 1) jm nf nlats)
    (fun jlat imag jfld =>
      S (posFourier nf n_imag e.nlatsLeg_ jfld imag jlat jm e.nlatsSH_) -
        A (posFourier nf n_imag e.nlatsLeg_ jfld imag jlat jm e.nlatsSH_))]
  · exact write3_value e.nlatsNH_ n_imag nf
      (fun jlat imag jfld => posMethod e jfld imag jlat jm nf nlats)
      (fun jlat imag jfld =>
        S (posFourier nf n_imag e.nlatsLeg_ jfld imag jlat jm e.nlatsNH_) +
          A (posFourier nf n_imag e.nlatsLeg_ jfld imag jlat jm e.nlatsNH_))
      _
      (fun a c d a2 c2 d2 h0 h1 h2 h3 h4 h5 h0b h1b h2b h3b h4b h5b heq => by
        have := posMethod_inj e nf nlats d c a jm d2 c2 a2 jm
          h4 h5 h2 (by omega) h0 (by omega) hm0 hm1
          h4b h5b h2b (by omega) h0b (by omega) hm0 hm1 heq
        exact ⟨this.2.2.1, this.2.1, this.1⟩)
      jlat imag jfld hl0 hl1 hi0 hi1 hf0 hf1
  · intro a c d h0 h1 h2 h3 h4 h5 heq
    have := posMethod_inj e nf nlats d c (nlats - a - 1) jm jfld imag jlat jm
      h4 h5 h2 (by omega) (by omega) (by omega) hm0 hm1
      hf0 hf1 hi0 (by omega) hl0 (by omega) hm0 hm1 heq
    omega

/-- A loop of fallible steps that all succeed returns the result of the loop of their
values. -/
theorem forUp_except_ok {σ ε : Type} (n : Int) (step : Int → σ → Except ε σ)
    (val : Int → σ → σ) (s : σ)
    (h : ∀ j t, 0 ≤ j → j < n → step j t = Except.ok (val j t)) :
    forUp n (fun j (r : Except ε σ) => r.bind (step j)) (Except.ok s) =
      Except.ok (forUp n val s) :=
  forUp_sim (fun _ (r : Except ε σ) (t : σ) => r = Except.ok t) n _ val (Except.ok s) s rfl
    (fun j r t h0 h1 hr => by
      subst hr
      show step j t = Except.ok (val j t)
      exact h j t h0 h1)

/-- The Legendre stage: `invtrans_legendreopt3` raises nothing; it leaves the Fourier
coefficient `fourierCoef` at `posMethod( jfld, imag, jlat, jm )` for every field, every
`jm <= truncation_`, every component `imag < n_imag` and every row of the two hemispheres,
and changes no other entry of `scl_fourier`. -/
theorem invtrans_legendreopt3_spec {R : Type} [Field R] (e : Engine R) (sc : Scratch R)
    (truncation nlats nf : Int) (scalar_spectra scl_fourier : Buf R)
    (hnf : 0 ≤ nf) (hNH : e.nlatsNH_ ≤ nlats) (hSH : e.nlatsSH_ ≤ nlats)
    (hLN : e.nlatsNH_ ≤ e.nlatsLeg_) (hLS : e.nlatsSH_ ≤ e.nlatsLeg_) :
    ∃ out : Buf R,
      invtrans_legendreopt3 e sc truncation nlats nf scalar_spectra scl_fourier =
        Except.ok out ∧
      (∀ jfld imag jlat jm, 0 ≤ jfld → jfld < nf → 0 ≤ imag → imag < nImag jm →
        0 ≤ jm → jm ≤ e.truncation_ →
        (0 ≤ jlat ∧ jlat < e.nlatsNH_ ∨ nlats - e.nlatsSH_ ≤ jlat ∧ jlat < nlats) →
        out (posMethod e jfld imag jlat jm nf nlats) =
          fourierCoef e truncation nlats nf scalar_spectra jfld imag jlat jm) ∧
      (∀ k, (∀ jfld imag jlat jm, 0 ≤ jfld → jfld < nf → 0 ≤ imag → imag < nImag jm →
          0 ≤ jm → jm ≤ e.truncation_ →
          (0 ≤ jlat ∧ jlat < e.nlatsNH_ ∨ nlats - e.nlatsSH_ ≤ jlat ∧ jlat < nlats) →
          posMethod e jfld imag jlat jm nf nlats ≠ k) →
        out k = scl_fourier k) := by
  have hok := forUp_except_ok (e.truncation_ + 1)
    (legendreStep e sc truncation nlats nf scalar_spectra)
    (fun jm scl => mergeHemispheres e nlats nf jm (nImag jm)
        (legendreProducts e sc nf jm (nImag jm)
          (legendreSplit e.truncation_ truncation nf jm (nImag jm) scalar_spectra
            (sc.scalar_sym jm) (sc.scalar_asym jm)).scalar_sym
          (legendreSplit e.truncation_ truncation nf jm (nImag jm) scalar_spectra
            (sc.scalar_sym jm) (sc.scalar_asym jm)).scalar_asym).1
        (legendreProducts e sc nf jm (nImag jm)
          (legendreSplit e.truncation_ truncation nf jm (nImag jm) scalar_spectra
            (sc.scalar_sym jm) (sc.scalar_asym jm)).scalar_sym
          (legendreSplit e.truncation_ truncation nf jm (nImag jm) scalar_spectra
            (sc.scalar_sym jm) (sc.scalar_asym jm)).scalar_asym).2
        scl)
    scl_fourier
    (fun jm t _ h1 => legendreStep_ok e sc truncation nlats nf scalar_spectra jm t
      (by omega) hnf)
  have hni2 : ∀ jm : Int, nImag jm ≤ 2 := by intro jm; unfold nImag; split <;> omega
  refine ⟨_, hok, ?_, ?_⟩
  · intro jfld imag jlat jm hf0 hf1 hi0 hi1 hm0 hm1 hrow
    apply forUp_write (fun x : Buf R => x) (e.truncation_ + 1) _ scl_fourier _ _ jm hm0
      (by omega)
    · intro t
      unfold fourierCoef
      by_cases hs : nlats - e.nlatsSH_ ≤ jlat
      · have hlt : jlat < nlats := by omega
        rw [if_pos hs]
        have hpos : posMethod e jfld imag jlat jm nf nlats =
            posMethod e jfld imag (nlats - (nlats - 1 - jlat) - 1) jm nf nlats := by
          congr 1; omega
        rw [hpos, mergeHemispheres_south e nlats nf jm (nImag jm) _ _ t hSH hm0 hm1 (hni2 jm)
          jfld imag (nlats - 1 - jlat) hf0 hf1 hi0 hi1 (by omega) (by omega)]
        unfold posFourier
        rw [legendreProducts_sym e sc truncation nf scalar_spectra jm (nImag jm) jfld imag _
            (by omega) rfl hf0 hf1 hi0 hi1 (by omega) (by omega),
          legendreProducts_asym e sc truncation nf scalar_spectra jm (nImag jm) jfld imag _
            hm1 rfl hf0 hf1 hi0 hi1 (by omega) (by omega)]
      · have hn : 0 ≤ jlat ∧ jlat < e.nlatsNH_ := by omega
        rw [if_neg hs]
        rw [mergeHemispheres_north e nlats nf jm (nImag jm) _ _ t hNH hm0 hm1 (hni2 jm)
          jfld imag jlat hf0 hf1 hi0 hi1 hn.1 hn.2 (by omega)]
        unfold posFourier
        rw [legendreProducts_sym e sc truncation nf scalar_spectra jm (nImag jm) jfld imag _
            (by omega) rfl hf0 hf1 hi0 hi1 (by omega) (by omega),
          legendreProducts_asym e sc truncation nf scalar_spectra jm (nImag jm) jfld imag _
            hm1 rfl hf0 hf1 hi0 hi1 (by omega) (by omega)]
    · intro j t hj0 hj1
      apply mergeHemispheres_frame
      intro jfld2 imag2 jlat2 h0 h1 h2 h3 hrow2 heq
      have := posMethod_inj e nf nlats jfld2 imag2 jlat2 j jfld imag jlat jm
        h0 h1 h2 (by have := hni2 j; omega) (by omega) (by omega) (by omega) (by omega)
        hf0 hf1 hi0 (by have := hni2 jm; omega) (by omega) (by omega) hm0 hm1 heq
      omega
  · intro k hk
    apply forUp_frame (fun x : Buf R => x)
    intro jm t h0 h1
    apply mergeHemispheres_frame
    intro jfld imag jlat hf0 hf1 hi0 hi1 hrow
    exact hk jfld imag jlat jm hf0 hf1 hi0 hi1 h0 (by omega) hrow

/-! ## Fourier tables -/

/-- A loop of two iterations. -/
theorem forUp_two {σ : Type} (body : Int → σ → σ) (s : σ) :
    forUp 2 body s = body 1 (body 0 s) := by
  simp [forUp, List.range_succ]

/-- A sum over `[0, 2 n)` taken in pairs. -/
theorem sum_range_two_mul {M : Type} [AddCommMonoid M] (f : Nat → M) (n : Nat) :
    ∑ l ∈ Finset.range (2 * n), f l = ∑ j ∈ Finset.range n, (f (2 * j) + f (2 * j + 1)) := by
  induction n with
  | zero => simp
  | succ n ih =>
    rw [show 2 * (n + 1) = 2 * n + 1 + 1 by ring, Finset.sum_range_succ, Finset.sum_range_succ,
      ih, Finset.sum_range_succ, add_assoc]

/-- The table of dense method 2 as three nested loops of writes over `(jm, imag, jlon)`. -/
theorem fourierTable2_eq {R : Type} [LinearOrderedField R] (m : Collab R)
    (truncation_ nlons : Int) (lons fourier0 : Buf R) (hn : 0 ≤ nlons) :
    fourierTable2 m truncation_ nlons lons fourier0 =
      forUp (truncation_ + 1) (fun jm b0 => forUp 2 (fun imag b1 =>
        forUp nlons (fun jlon (b : Buf R) =>
          Function.update b (jlon + nlons * (imag + 2 * jm)) (fourierFactor m lons jm imag jlon))
          b1) b0) fourier0 := by
  unfold fourierTable2
  rw [forUp_counter (truncation_ + 1) (2 * nlons) _
    (fun jm i b =>
      forUp nlons (fun jlon (b2 : Buf R) => Function.update b2 (i + nlons + jlon)
          (-m.sin ((jm : R) * lons jlon) * (if jm > 0 then 2 else 1)))
        (forUp nlons (fun jlon (b2 : Buf R) => Function.update b2 (i + jlon)
          (m.cos ((jm : R) * lons jlon) * (if jm > 0 then 2 else 1))) b))]
  · simp only [zero_add]
    apply forUp_congr
    intro jm t _ _
    rw [forUp_two]
    have h0 : forUp nlons (fun jlon (b2 : Buf R) => Function.update b2 (2 * nlons * jm + jlon)
          (m.cos ((jm : R) * lons jlon) * (if jm > 0 then 2 else 1))) t =
        forUp nlons (fun jlon (b : Buf R) =>
          Function.update b (jlon + nlons * (0 + 2 * jm)) (fourierFactor m lons jm 0 jlon)) t := by
      apply forUp_congr
      intro jlon t2 _ _
      rw [show 2 * nlons * jm + jlon = jlon + nlons * (0 + 2 * jm) by ring]
      simp [fourierFactor]
    rw [h0]
    apply forUp_congr
    intro jlon t2 _ _
    rw [show 2 * nlons * jm + nlons + jlon = jlon + nlons * (1 + 2 * jm) by ring]
    simp [fourierFactor]
  · intro jm s _ _
    simp only
    rw [forUp_counter nlons 1 _ (fun jlon i (b : Buf R) => Function.update b i
        (m.cos ((jm : R) * lons jlon) * (if jm > 0 then 2 else 1))) (fun _ _ _ _ => rfl),
      forUp_counter nlons 1 _ (fun jlon i (b : Buf R) => Function.update b i
        (-m.sin ((jm : R) * lons jlon) * (if jm > 0 then 2 else 1))) (fun _ _ _ _ => rfl)]
    simp only [max_eq_left hn, one_mul]
    congr 1
    ring

/-- Entry of the table of dense method 2 for `(jm, imag, jlon)`. -/
theorem fourierTable2_apply {R : Type} [LinearOrderedField R] (m : Collab R)
    (truncation_ nlons : Int) (lons fourier0 : Buf R) (jm imag jlon : Int)
    (hm0 : 0 ≤ jm) (hm1 : jm ≤ truncation_) (hi0 : 0 ≤ imag) (hi1 : imag < 2)
    (hl0 : 0 ≤ jlon) (hl1 : jlon < nlons) :
    fourierTable2 m truncation_ nlons lons fourier0 (jlon + nlons * (imag + 2 * jm)) =
      fourierFactor m lons jm imag jlon := by
  rw [fourierTable2_eq m truncation_ nlons lons fourier0 (by omega)]
  exact write3_value (truncation_ + 1) 2 nlons
    (fun jm imag jlon => jlon + nlons * (imag + 2 * jm))
    (fun jm imag jlon => fourierFactor m lons jm imag jlon) fourier0
    (fun a c d a2 c2 d2 _ _ h2 h3 h4 h5 _ _ h2b h3b h4b h5b heq => by
      have x := radix_inj d d2 nlons _ _ h4 h5 h4b h5b heq
      have y := radix_inj c c2 2 _ _ h2 h3 h2b h3b x.2
      exact ⟨y.2, y.1, x.1⟩)
    jm imag jlon hm0 (by omega) hi0 hi1 hl0 hl1

/-- The sum over the `2 * (T + 1)` rows of the Fourier table, taken by zonal wavenumber. -/
theorem sum_two_truncation {M : Type} [AddCommMonoid M] (T : Int) (hT : 0 ≤ T + 1)
    (f : Int → M) :
    ∑ l ∈ Finset.range ((T + 1) * 2).toNat, f (l : Int) =
      ∑ jm ∈ Finset.range (T + 1).toNat, (f (0 + 2 * (jm : Int)) + f (1 + 2 * (jm : Int))) := by
  have h : ((T + 1) * 2).toNat = 2 * (T + 1).toNat := by omega
  rw [h, sum_range_two_mul (fun l => f (l : Int))]
  apply Finset.sum_congr rfl
  intro j _
  congr 2 <;> push_cast <;> ring

/-- Value written by dense method 2 at the position of `(jlon, jlat, jfld)`. -/
theorem fourierDgemm2_value {R : Type} [Field R] (e : Engine R) (nlons nlats nf : Int)
    (scl_fourier gp_fields : Buf R) (hT : 0 ≤ e.truncation_ + 1) (jlon jlat jfld : Int)
    (h0 : 0 ≤ jlon) (h1 : jlon < nlons) (h2 : 0 ≤ jlat) (h3 : jlat < nlats)
    (h4 : 0 ≤ jfld) (h5 : jfld < nf) :
    fourierDgemm2 e nlons nlats nf scl_fourier gp_fields
        (jlon + nlons * (jlat + nlats * jfld)) =
      ∑ jm ∈ Finset.range (e.truncation_ + 1).toNat,
        (e.fourier_ (jlon + nlons * (0 + 2 * (jm : Int))) *
            scl_fourier (0 + 2 * ((jm : Int) + (e.truncation_ + 1) * (jlat + nlats * jfld))) +
          e.fourier_ (jlon + nlons * (1 + 2 * (jm : Int))) *
            scl_fourier (1 + 2 * ((jm : Int) + (e.truncation_ + 1) * (jlat + nlats * jfld)))) := by
  have hb := radix_bound jlat nlats jfld nf h2 h3 h4 h5
  unfold fourierDgemm2
  rw [gemm_apply _ _ _ _ _ _ _ _ h0 h1 hb.1 (by rw [mul_comm nf nlats]; exact hb.2)]
  rw [sum_two_truncation e.truncation_ hT
    (fun l => e.fourier_ (jlon + nlons * l) *
      scl_fourier (l + (e.truncation_ + 1) * 2 * (jlat + nlats * jfld)))]
  apply Finset.sum_congr rfl
  intro jm _
  congr 2 <;> congr 1 <;> ring

/-- The transposition of dense method 1 with the running index in closed form. -/
theorem transposition_value {R : Type} (nlons nlats nf : Int) (src gp_fields : Buf R)
    (hlat : 0 ≤ nlats) (hnf : 0 ≤ nf) (jlon jlat jfld : Int)
    (h0 : 0 ≤ jlon) (h1 : jlon < nlons) (h2 : 0 ≤ jlat) (h3 : jlat < nlats)
    (h4 : 0 ≤ jfld) (h5 : jfld < nf) :
    (forUp nlons
      (fun jlon s1 =>
        forUp nlats
          (fun jlat s2 =>
            forUp nf
              (fun jfld (s : CopyState R) =>
                ({ idx := s.idx + 1
                   dst := Function.update s.dst (jlon + nlons * (jlat + nlats * jfld))
                     (src s.idx) } : CopyState R))
              s2)
          s1)
      ({ idx := 0, dst := gp_fields } : CopyState R)).dst
        (jlon + nlons * (jlat + nlats * jfld)) =
      src (jfld + nf * (jlat + nlats * jlon)) := by
  rw [forUp_counter nlons (nf * nlats) _
    (fun jlon i b1 => forUp nlats (fun jlat b2 => forUp nf (fun jfld (b : Buf R) =>
      Function.update b (jlon + nlons * (jlat + nlats * jfld)) (src (i + nf * jlat + jfld)))
      b2) b1)]
  · simp only [zero_add]
    have := write3_value nlons nlats nf
      (fun jlon jlat jfld => jlon + nlons * (jlat + nlats * jfld))
      (fun jlon jlat jfld => src (nf * nlats * jlon + nf * jlat + jfld)) gp_fields
      (fun a c d a2 c2 d2 ha0 ha1 hc0 hc1 _ _ ha0b ha1b hc0b hc1b _ _ heq =>
        gp_pos_inj nlons nlats a c d a2 c2 d2 ha0 ha1 hc0 hc1 ha0b ha1b hc0b hc1b heq)
      jlon jlat jfld h0 h1 h2 h3 h4 h5
    rw [show jfld + nf * (jlat + nlats * jlon) = nf * nlats * jlon + nf * jlat + jfld by ring]
    exact this
  · intro jlon s _ _
    rw [forUp_counter nlats nf _
      (fun jlat i b2 => forUp nf (fun jfld (b : Buf R) =>
        Function.update b (jlon + nlons * (jlat + nlats * jfld)) (src (i + jfld))) b2)]
    · rw [max_eq_left hlat]
    · intro jlat s2 _ _
      rw [forUp_counter nf 1 _
        (fun jfld i (b : Buf R) =>
          Function.update b (jlon + nlons * (jlat + nlats * jfld)) (src i))
        (fun _ _ _ _ => rfl)]
      rw [max_eq_left hnf]
      simp

/-- Value written by dense method 1 at the position of `(jlon, jlat, jfld)`. -/
theorem fourierDgemm1_value {R : Type} [Field R] (e : Engine R) (nlons nlats nf : Int)
    (scl_fourier gp_opt3_0 gp_fields : Buf R) (hT : 0 ≤ e.truncation_ + 1)
    (jlon jlat jfld : Int)
    (h0 : 0 ≤ jlon) (h1 : jlon < nlons) (h2 : 0 ≤ jlat) (h3 : jlat < nlats)
    (h4 : 0 ≤ jfld) (h5 : jfld < nf) :
    fourierDgemm1 e nlons nlats nf scl_fourier gp_opt3_0 gp_fields
        (jlon + nlons * (jlat + nlats * jfld)) =
      ∑ jm ∈ Finset.range (e.truncation_ + 1).toNat,
        (scl_fourier (jfld + nf * (jlat + nlats * (0 + 2 * (jm : Int)))) *
            e.fourier_ (0 + 2 * ((jm : Int) + (e.truncation_ + 1) * jlon)) +
          scl_fourier (jfld + nf * (jlat + nlats * (1 + 2 * (jm : Int)))) *
            e.fourier_ (1 + 2 * ((jm : Int) + (e.truncation_ + 1) * jlon))) := by
  have hb := radix_bound jfld nf jlat nlats h4 h5 h2 h3
  unfold fourierDgemm1
  simp only
  rw [transposition_value nlons nlats nf _ gp_fields (by omega) (by omega) jlon jlat jfld
    h0 h1 h2 h3 h4 h5]
  rw [show jfld + nf * (jlat + nlats * jlon) = (jfld + nf * jlat) + nf * nlats * jlon by ring,
    gemm_apply _ _ _ _ _ _ _ _ hb.1 hb.2 h0 h1]
  rw [sum_two_truncation e.truncation_ hT
    (fun l => scl_fourier (jfld + nf * jlat + nf * nlats * l) *
      e.fourier_ (l + (e.truncation_ + 1) * 2 * jlon))]
  apply Finset.sum_congr rfl
  intro jm _
  congr 2 <;> congr 1 <;> ring

/-! ## C6: the two dense methods -/

/-- The division by the cosine of the latitude changes no entry outside
`[0, nb_fields * (ny * nxmax))`. -/
theorem windRecovery_frame {R : Type} [Field R] (m : Collab R) (g : StructuredGrid R)
    (nlats nb_fields nb_vordiv_fields : Int) (gp_fields : Buf R) (k : Int)
    (hk : k < 0 ∨ nb_fields * ((g.ny : Int) * (g.nxmax : Int)) ≤ k) :
    windRecovery m g nlats nb_fields nb_vordiv_fields gp_fields k = gp_fields k := by
  by_cases hv : 0 < nb_vordiv_fields
  · rw [windRecovery_eq m g nlats nb_fields nb_vordiv_fields gp_fields hv]
    apply forUp_frame (fun x : Buf R => x)
    intro jfld t h0 h1
    apply forUp_frame (fun x : Buf R => x)
    intro jlat t2 h2 h3
    apply forUp_frame (fun x : Buf R => x)
    intro jlon t3 h4 h5
    apply Function.update_noteq
    intro heq
    have := gp_pos_bound jlon (g.nxmax : Int) jlat (g.ny : Int) jfld nb_fields h4 h5 h2 h3 h0 h1
    omega
  · unfold windRecovery
    rw [if_neg (by omega)]

/-- The structured branch of `invtrans_uv` changes no entry of `gp_fields` outside
`[0, nb_fields * (ny * nxmax))`, whichever Fourier backend runs. -/
theorem invtrans_uv_structured_frame {R : Type} [Field R] (m : Collab R) (haveFFTW : Bool)
    (sc : Scratch R) (g : StructuredGrid R) (truncation nb_fields nb_vordiv_fields : Int)
    (scalar_spectra : Buf R) (s : CallState R) (k : Int)
    (hk : k < 0 ∨ nb_fields * ((g.ny : Int) * (g.nxmax : Int)) ≤ k) :
    (invtrans_uv_structured m haveFFTW sc g truncation nb_fields nb_vordiv_fields
      scalar_spectra s).out.gp_fields k = s.gp_fields k := by
  unfold invtrans_uv_structured
  simp only
  cases hleg : invtrans_legendreopt3 s.engine sc truncation (g.ny : Int) nb_fields
    scalar_spectra sc.scl_fourier with
  | error err => rfl
  | ok scl =>
    simp only
    rw [windRecovery_frame m g _ _ _ _ k hk]
    by_cases hfft : s.engine.useFFT_ = true
    · rw [if_pos hfft]
      by_cases hw : haveFFTW = true
      · rw [if_pos hw]
        exact fourierFFT_frame m _ _ _ _ scl _ k hk
      · rw [if_neg hw]
    · rw [if_neg hfft]
      by_cases hm1 : s.engine.dgemmMethod1_ = true
      · rw [if_pos hm1]
        exact fourierDgemm1_frame s.engine _ _ _ scl _ _ k hk
      · rw [if_neg hm1]
        exact fourierDgemm2_frame s.engine _ _ _ scl _ k hk

/-- The number of points of a regular grid is `ny * nxmax`. -/
theorem regular_size {R : Type} (g : StructuredGrid R) (hreg : g.regular) :
    (g.size : Int) = (g.ny : Int) * (g.nxmax : Int) := by
  have h : ∀ (l : List Nat) (c : Nat), (∀ n ∈ l, n = c) → l.sum = l.length * c := by
    intro l c
    induction l with
    | nil => intro _; simp
    | cons a l ih =>
      intro hl
      have ha : a = c := hl a (List.mem_cons_self _ _)
      have := ih (fun n hn => hl n (List.mem_cons_of_mem _ hn))
      simp only [List.sum_cons, List.length_cons, this, ha]
      ring
  have := h g.nx g.nxmax hreg
  unfold StructuredGrid.size StructuredGrid.ny
  rw [this]
  push_cast
  ring

/-- Regular grids keep the bound of C2: on a regular structured grid (every row has `nxmax`
longitudes, so `grid.size() = ny * nxmax`) and for every `nb_fields`, the structured branch
of `invtrans_uv` (FFT, dense method 1, dense method 2, followed by the wind recovery)
changes no entry of `gp_fields` at an index below 0 or at or above
`nb_fields * grid.size()`. -/
theorem invtrans_uv_regular_writes_in_bounds {R : Type} [Field R] (m : Collab R)
    (haveFFTW : Bool) (sc : Scratch R) (g : StructuredGrid R)
    (truncation nb_scalar_fields nb_vordiv_fields : Int) (scalar_spectra : Buf R)
    (s : CallState R) (hg : s.engine.grid_ = Grid.structured g) (hreg : g.regular) (k : Int)
    (hk : k < 0 ∨ nb_scalar_fields * (s.engine.grid_.size : Int) ≤ k) :
    (invtrans_uv m haveFFTW sc truncation nb_scalar_fields nb_vordiv_fields scalar_spectra
      s).out.gp_fields k = s.gp_fields k := by
  unfold invtrans_uv
  by_cases hn : nb_scalar_fields > 0
  · rw [if_pos hn]
    simp only [hg]
    apply invtrans_uv_structured_frame
    rw [hg] at hk
    simp only [Grid.size] at hk
    rw [regular_size g hreg] at hk
    exact hk
  · rw [if_neg hn]

/-! ## The structured inversion with a dense Fourier stage -/

/-- The sum over the components of one zonal wavenumber when the component `imag = 1` of
`jm = 0` has a zero table entry. -/
theorem sum_nImag {R : Type} [Field R] (jm : Nat) (f : Int → R)
    (h0 : jm = 0 → f 1 = 0) :
    ∑ imag ∈ Finset.range (nImag (jm : Int)).toNat, f (imag : Int) = f 0 + f 1 := by
  by_cases hj : jm = 0
  · subst hj
    simp [nImag, h0 rfl]
  · have : nImag (jm : Int) = 2 := by
      unfold nImag
      rw [if_neg (by omega)]
    rw [this]
    simp [Finset.sum_range_succ]

/-- Value of the Fourier stage of both dense methods, given the Fourier coefficients of
the Legendre stage: at the position of `(jlon, jlat, jfld)` the structured value, the
unwritten component `imag = 1` of `jm = 0` having the table entry `-sin( 0 ) = 0`. -/
theorem dense_fourier_value {R : Type} [Field R] (m : Collab R) (e : Engine R)
    (lons : Buf R) (truncation nlons nlats nf : Int) (scalar_spectra scl gp_opt3 gp : Buf R)
    (hT : 0 ≤ e.truncation_) (hfft : e.useFFT_ = false) (htab : DenseTable m e nlons lons)
    (hsin : m.sin 0 = 0)
    (hscl : ∀ jfld imag jlat jm, 0 ≤ jfld → jfld < nf → 0 ≤ imag → imag < nImag jm →
      0 ≤ jm → jm ≤ e.truncation_ → 0 ≤ jlat → jlat < nlats →
      scl (posMethod e jfld imag jlat jm nf nlats) =
        fourierCoef e truncation nlats nf scalar_spectra jfld imag jlat jm)
    (jlon jlat jfld : Int) (h0 : 0 ≤ jlon) (h1 : jlon < nlons) (h2 : 0 ≤ jlat)
    (h3 : jlat < nlats) (h4 : 0 ≤ jfld) (h5 : jfld < nf) :
    (if e.dgemmMethod1_ then fourierDgemm1 e nlons nlats nf scl gp_opt3 gp
      else fourierDgemm2 e nlons nlats nf scl gp) (jlon + nlons * (jlat + nlats * jfld)) =
      structuredValue m e lons truncation nlats nf scalar_spectra jlon jlat jfld := by
  have hzero : ∀ jm : Nat, jm = 0 → fourierFactor m lons (jm : Int) 1 jlon = 0 := by
    intro jm hjm
    subst hjm
    simp [fourierFactor, hsin]
  unfold structuredValue
  have hsum : ∀ jm : Nat,
      ∑ imag ∈ Finset.range (nImag (jm : Int)).toNat,
        fourierFactor m lons (jm : Int) (imag : Int) jlon *
          fourierCoef e truncation nlats nf scalar_spectra jfld (imag : Int) jlat (jm : Int) =
      fourierFactor m lons (jm : Int) 0 jlon *
          fourierCoef e truncation nlats nf scalar_spectra jfld 0 jlat (jm : Int) +
        fourierFactor m lons (jm : Int) 1 jlon *
          fourierCoef e truncation nlats nf scalar_spectra jfld 1 jlat (jm : Int) := by
    intro jm
    exact sum_nImag jm (fun imag => fourierFactor m lons (jm : Int) imag jlon *
      fourierCoef e truncation nlats nf scalar_spectra jfld imag jlat (jm : Int))
      (fun hj => by simp only [hzero jm hj, zero_mul])
  simp only [hsum]
  have hpos : ∀ jfld imag jlat jm, posMethod e jfld imag jlat jm nf nlats =
      if e.dgemmMethod1_ then jfld + nf * (jlat + nlats * (imag + 2 * jm))
      else imag + 2 * (jm + (e.truncation_ + 1) * (jlat + nlats * jfld)) := by
    intro jfld imag jlat jm
    unfold posMethod
    rw [hfft]
    cases e.dgemmMethod1_ <;> simp
  by_cases hm1 : e.dgemmMethod1_ = true
  · rw [if_pos hm1, fourierDgemm1_value e nlons nlats nf scl gp_opt3 gp (by omega) jlon jlat
      jfld h0 h1 h2 h3 h4 h5]
    apply Finset.sum_congr rfl
    intro jm hjm
    have hjm1 : (jm : Int) ≤ e.truncation_ := by
      have := Finset.mem_range.mp hjm
      omega
    have t0 := htab jm 0 jlon (by omega) hjm1 le_rfl (by norm_num) h0 h1
    have t1 := htab jm 1 jlon (by omega) hjm1 (by norm_num) (by norm_num) h0 h1
    rw [if_pos hm1] at t0 t1
    rw [t0, t1]
    have p0 := hscl jfld 0 jlat jm h4 h5 le_rfl (by unfold nImag; split <;> omega) (by omega)
      hjm1 h2 h3
    rw [hpos, if_pos hm1] at p0
    rw [p0]
    by_cases hj : jm = 0
    · rw [hzero jm hj]; ring
    · have p1 := hscl jfld 1 jlat jm h4 h5 (by norm_num)
        (by unfold nImag; rw [if_neg (by omega)]; norm_num) (by omega) hjm1 h2 h3
      rw [hpos, if_pos hm1] at p1
      rw [p1]; ring
  · rw [if_neg hm1, fourierDgemm2_value e nlons nlats nf scl gp (by omega) jlon jlat
      jfld h0 h1 h2 h3 h4 h5]
    apply Finset.sum_congr rfl
    intro jm hjm
    have hjm1 : (jm : Int) ≤ e.truncation_ := by
      have := Finset.mem_range.mp hjm
      omega
    have t0 := htab jm 0 jlon (by omega) hjm1 le_rfl (by norm_num) h0 h1
    have t1 := htab jm 1 jlon (by omega) hjm1 (by norm_num) (by norm_num) h0 h1
    rw [if_neg hm1] at t0 t1
    rw [t0, t1]
    have p0 := hscl jfld 0 jlat jm h4 h5 le_rfl (by unfold nImag; split <;> omega) (by omega)
      hjm1 h2 h3
    rw [hpos, if_neg hm1] at p0
    rw [p0]
    by_cases hj : jm = 0
    · rw [hzero jm hj]; ring
    · have p1 := hscl jfld 1 jlat jm h4 h5 (by norm_num)
        (by unfold nImag; rw [if_neg (by omega)]; norm_num) (by omega) hjm1 h2 h3
      rw [hpos, if_neg hm1] at p1
      rw [p1]

/-- Two nested loops that modify entries in place, with the frame of each entry. -/
theorem modify2_frame {R : Type} (n1 n2 : Int) (pos : Int → Int → Int)
    (f : Int → Int → R → R) (b : Buf R) (k : Int)
    (h : ∀ a c, 0 ≤ a → a < n1 → 0 ≤ c → c < n2 → pos a c ≠ k) :
    forUp n1 (fun a b1 => forUp n2 (fun c (b2 : Buf R) =>
      Function.update b2 (pos a c) (f a c (b2 (pos a c)))) b1) b k = b k := by
  apply forUp_frame (fun x : Buf R => x)
  intro a t ha0 ha1
  apply forUp_frame (fun x : Buf R => x)
  intro c t2 hc0 hc1
  exact Function.update_noteq (Ne.symm (h a c ha0 ha1 hc0 hc1)) _ _

/-- Two nested loops that modify entries in place at pairwise distinct positions. -/
theorem modify2_value {R : Type} (n1 n2 : Int) (pos : Int → Int → Int)
    (f : Int → Int → R → R) (b : Buf R)
    (hinj : ∀ a c a2 c2, 0 ≤ a → a < n1 → 0 ≤ c → c < n2 → 0 ≤ a2 → a2 < n1 → 0 ≤ c2 →
      c2 < n2 → pos a c = pos a2 c2 → a = a2 ∧ c = c2)
    (a c : Int) (ha0 : 0 ≤ a) (ha1 : a < n1) (hc0 : 0 ≤ c) (hc1 : c < n2) :
    forUp n1 (fun a b1 => forUp n2 (fun c (b2 : Buf R) =>
      Function.update b2 (pos a c) (f a c (b2 (pos a c)))) b1) b (pos a c) =
      f a c (b (pos a c)) := by
  apply forUp_modify (fun x : Buf R => x) n1 _ b (pos a c) (f a c) a ha0 ha1
  · intro a2 t h1 h2
    apply forUp_frame (fun x : Buf R => x)
    intro c2 t2 hc20 hc21
    apply Function.update_noteq
    intro heq
    have := (hinj a c a2 c2 ha0 ha1 hc0 hc1 h1 (by omega) hc20 hc21 heq).1
    omega
  · intro t
    apply forUp_modify (fun x : Buf R => x) n2 _ t (pos a c) (f a c) c hc0 hc1
    · intro c2 t2 h1 h2
      apply Function.update_noteq
      intro heq
      have := (hinj a c a c2 ha0 ha1 hc0 hc1 ha0 ha1 h1 (by omega) heq).2
      omega
    · intro t2; exact Function.update_same _ _ _
    · intro c2 t2 h1 h2
      apply Function.update_noteq
      intro heq
      have := (hinj a c a c2 ha0 ha1 hc0 hc1 ha0 ha1 (by omega) h2 heq).2
      omega
  · intro a2 t h1 h2
    apply forUp_frame (fun x : Buf R => x)
    intro c2 t2 hc20 hc21
    apply Function.update_noteq
    intro heq
    have := (hinj a c a2 c2 ha0 ha1 hc0 hc1 (by omega) h2 hc20 hc21 heq).1
    omega

/-- Three nested loops that modify entries in place at pairwise distinct positions. -/
theorem modify3_value {R : Type} (n1 n2 n3 : Int) (pos : Int → Int → Int → Int)
    (f : Int → Int → Int → R → R) (b : Buf R)
    (hinj : ∀ a c d a2 c2 d2, 0 ≤ a → a < n1 → 0 ≤ c → c < n2 → 0 ≤ d → d < n3 →
      0 ≤ a2 → a2 < n1 → 0 ≤ c2 → c2 < n2 → 0 ≤ d2 → d2 < n3 →
      pos a c d = pos a2 c2 d2 → a = a2 ∧ c = c2 ∧ d = d2)
    (a c d : Int) (ha0 : 0 ≤ a) (ha1 : a < n1) (hc0 : 0 ≤ c) (hc1 : c < n2)
    (hd0 : 0 ≤ d) (hd1 : d < n3) :
    forUp n1 (fun a b1 => forUp n2 (fun c b2 => forUp n3 (fun d (b3 : Buf R) =>
      Function.update b3 (pos a c d) (f a c d (b3 (pos a c d)))) b2) b1) b (pos a c d) =
      f a c d (b (pos a c d)) := by
  apply forUp_modify (fun x : Buf R => x) n1 _ b (pos a c d) (f a c d) a ha0 ha1
  · intro a2 t h1 h2
    apply modify2_frame
    intro c2 d2 hc20 hc21 hd20 hd21 heq
    have := (hinj a2 c2 d2 a c d h1 (by omega) hc20 hc21 hd20 hd21 ha0 ha1 hc0 hc1 hd0 hd1
      heq).1
    omega
  · intro t
    exact modify2_value n2 n3 (pos a) (f a) t
      (fun c1 d1 c2 d2 h1 h2 h3 h4 h5 h6 h7 h8 heq =>
        (hinj a c1 d1 a c2 d2 ha0 ha1 h1 h2 h3 h4 ha0 ha1 h5 h6 h7 h8 heq).2)
      c d hc0 hc1 hd0 hd1
  · intro a2 t h1 h2
    apply modify2_frame
    intro c2 d2 hc20 hc21 hd20 hd21 heq
    have := (hinj a2 c2 d2 a c d (by omega) h2 hc20 hc21 hd20 hd21 ha0 ha1 hc0 hc1 hd0 hd1
      heq).1
    omega

/-- The division by the cosine of the latitude at the position of `(jlon, jlat, jfld)`:
the entry is divided once by `cos( y( jlat ) * degreesToRadians )`. -/
theorem windRecovery_value {R : Type} [Field R] (m : Collab R) (g : StructuredGrid R)
    (nb_fields nb_vordiv_fields : Int) (gp_fields : Buf R) (hv : 0 < nb_vordiv_fields)
    (jlon jlat jfld : Int) (h0 : 0 ≤ jlon) (h1 : jlon < (g.nxmax : Int)) (h2 : 0 ≤ jlat)
    (h3 : jlat < (g.ny : Int)) (h4 : 0 ≤ jfld) (h5 : jfld < nb_fields) :
    windRecovery m g (g.ny : Int) nb_fields nb_vordiv_fields gp_fields
        (jlon + (g.nxmax : Int) * (jlat + (g.ny : Int) * jfld)) =
      gp_fields (jlon + (g.nxmax : Int) * (jlat + (g.ny : Int) * jfld)) /
        m.cos (g.y jlat * m.degreesToRadians) := by
  rw [windRecovery_eq m g _ nb_fields nb_vordiv_fields gp_fields hv]
  have hcos : (forUp (g.ny : Int)
      (fun j c => Function.update c j (m.cos (g.y j * m.degreesToRadians)))
      (fun _ => 0) : Buf R) jlat = m.cos (g.y jlat * m.degreesToRadians) := by
    apply forUp_write (fun x : Buf R => x) _ _ _ jlat _ jlat h2 h3
    · intro t; exact Function.update_same _ _ _
    · intro j t hj _
      exact Function.update_noteq (by omega) _ _
  have := modify3_value nb_fields (g.ny : Int) (g.nxmax : Int)
    (fun jfld jlat jlon => jlon + (g.nxmax : Int) * (jlat + (g.ny : Int) * jfld))
    (fun _ jlat _ v => v / (forUp (g.ny : Int)
      (fun j c => Function.update c j (m.cos (g.y j * m.degreesToRadians)))
      (fun _ => 0) : Buf R) jlat)
    gp_fields
    (fun a c d a2 c2 d2 _ _ hc0 hc1 hd0 hd1 _ _ hc0b hc1b hd0b hd1b heq => by
      have := gp_pos_inj (g.nxmax : Int) (g.ny : Int) d c a d2 c2 a2 hd0 hd1 hc0 hc1
        hd0b hd1b hc0b hc1b heq
      exact ⟨this.2.2, this.2.1, this.1⟩)
    jfld jlat jlon h4 h5 h2 h3 h0 h1
  rw [← hcos]
  exact this

/-- The structured inversion with a dense Fourier stage (method 1 or 2): the call raises
nothing, leaves the engine as it is, and leaves at the position of `(jlon, jlat, jfld)` the
structured value, divided by the cosine of the latitude of the row when
`nb_vordiv_fields > 0`. The result depends neither on the scratch memory nor on the
contents of `gp_fields` before the call. -/
theorem invtrans_uv_structured_dense {R : Type} [Field R] (m : Collab R) (haveFFTW : Bool)
    (sc : Scratch R) (g : StructuredGrid R) (lons : Buf R)
    (truncation nf nb_vordiv_fields : Int) (scalar_spectra : Buf R) (s : CallState R)
    (hT : 0 ≤ s.engine.truncation_) (hfft : s.engine.useFFT_ = false)
    (htab : DenseTable m s.engine (g.nxmax : Int) lons) (hsin : m.sin 0 = 0)
    (hcov : HemispheresCover s.engine (g.ny : Int)) (hnf : 0 ≤ nf) :
    (invtrans_uv_structured m haveFFTW sc g truncation nf nb_vordiv_fields scalar_spectra
      s).err = none ∧
    (invtrans_uv_structured m haveFFTW sc g truncation nf nb_vordiv_fields scalar_spectra
      s).out.engine = s.engine ∧
    ∀ jlon jlat jfld, 0 ≤ jlon → jlon < (g.nxmax : Int) → 0 ≤ jlat → jlat < (g.ny : Int) →
      0 ≤ jfld → jfld < nf →
      (invtrans_uv_structured m haveFFTW sc g truncation nf nb_vordiv_fields scalar_spectra
        s).out.gp_fields (jlon + (g.nxmax : Int) * (jlat + (g.ny : Int) * jfld)) =
        if nb_vordiv_fields > 0 then
          structuredValue m s.engine lons truncation (g.ny : Int) nf scalar_spectra
            jlon jlat jfld / m.cos (g.y jlat * m.degreesToRadians)
        else
          structuredValue m s.engine lons truncation (g.ny : Int) nf scalar_spectra
            jlon jlat jfld := by
  obtain ⟨c0, c1, c2, c3, c4, c5, c6⟩ := hcov
  obtain ⟨scl, hleg, hval, _⟩ := invtrans_legendreopt3_spec s.engine sc truncation
    (g.ny : Int) nf scalar_spectra sc.scl_fourier hnf c2 c3 c4 c5
  have hscl : ∀ jfld imag jlat jm, 0 ≤ jfld → jfld < nf → 0 ≤ imag → imag < nImag jm →
      0 ≤ jm → jm ≤ s.engine.truncation_ → 0 ≤ jlat → jlat < (g.ny : Int) →
      scl (posMethod s.engine jfld imag jlat jm nf (g.ny : Int)) =
        fourierCoef s.engine truncation (g.ny : Int) nf scalar_spectra jfld imag jlat jm := by
    intro jfld imag jlat jm h0 h1 h2 h3 h4 h5 h6 h7
    exact hval jfld imag jlat jm h0 h1 h2 h3 h4 h5 (by omega)
  unfold invtrans_uv_structured
  simp only [hleg, hfft, Bool.false_eq_true, if_false]
  refine ⟨trivial, ?_, ?_⟩
  · cases s.engine.dgemmMethod1_ <;> rfl
  · intro jlon jlat jfld h0 h1 h2 h3 h4 h5
    have hd := dense_fourier_value m s.engine lons truncation (g.nxmax : Int) (g.ny : Int) nf
      scalar_spectra scl sc.gp_opt3 s.gp_fields hT hfft htab hsin hscl jlon jlat jfld
      h0 h1 h2 h3 h4 h5
    by_cases hv : nb_vordiv_fields > 0
    · rw [if_pos hv, windRecovery_value m g nf nb_vordiv_fields _ hv jlon jlat jfld
        h0 h1 h2 h3 h4 h5]
      congr 1
      by_cases hm1 : s.engine.dgemmMethod1_ = true
      · rw [if_pos hm1] at hd; simp only [hm1, if_true]; exact hd
      · rw [if_neg hm1] at hd; simp only [hm1]; exact hd
    · rw [if_neg hv]
      have hw : ∀ b : Buf R, windRecovery m g (g.ny : Int) nf nb_vordiv_fields b = b := by
        intro b; unfold windRecovery; rw [if_neg hv]
      rw [hw]
      by_cases hm1 : s.engine.dgemmMethod1_ = true
      · rw [if_pos hm1] at hd; simp only [hm1, if_true]; exact hd
      · rw [if_neg hm1] at hd; simp only [hm1]; exact hd

/-! ## Engines built by the constructor on a structured grid -/

/-- With the FFT backend not selected, the constructor leaves the table of dense method 2
for the longitudes of row 0 in `fourier_`. -/
theorem constructStructured_denseTable {R : Type} [LinearOrderedField R] (m : Collab R)
    (haveFFTW : Bool) (raw : Engine R) (g : StructuredGrid R) (truncation : Int)
    (precompute : Bool)
    (huse : (constructStructured m haveFFTW raw g truncation precompute).useFFT_ = false) :
    DenseTable m (constructStructured m haveFFTW raw g truncation precompute)
      (g.nxmax : Int) (gridLons m g) := by
  intro jm imag jlon hm0 hm1 hi0 hi1 hl0 hl1
  have hu : ((fftChoice m g).1 && haveFFTW) = false := huse
  have hd : (constructStructured m haveFFTW raw g truncation precompute).dgemmMethod1_ = false :=
    rfl
  have hT : (constructStructured m haveFFTW raw g truncation precompute).truncation_ =
      truncation := rfl
  have hf : (constructStructured m haveFFTW raw g truncation precompute).fourier_ =
      fourierTable2 m truncation (g.nxmax : Int) (gridLons m g) raw.fourier_ := by
    simp only [constructStructured, hu, constructInit]
    simp
  rw [hd, hf]
  simp only [Bool.false_eq_true, if_false]
  rw [hT] at hm1
  exact fourierTable2_apply m truncation _ _ _ jm imag jlon hm0 hm1 hi0 hi1 hl0 hl1

/-- At storage truncation 0 the guard `jm < truncation` of the split step fails for every
`jm >= 0`: every value placed in the sub-arrays is 0. -/
theorem splitCoef_truncation_zero {R : Type} [Field R] (nf jm : Int) (scalar_spectra : Buf R)
    (jn imag jfld : Int) (hjm : 0 ≤ jm) :
    splitCoef 0 nf jm scalar_spectra jn imag jfld = 0 := by
  unfold splitCoef
  rw [if_neg (by omega)]

/-- At storage truncation 0 every structured value is 0, whatever the spectral buffer
and the Legendre tables hold. -/
theorem structuredValue_truncation_zero {R : Type} [Field R] (m : Collab R) (e : Engine R)
    (lons : Buf R) (nlats nf : Int) (scalar_spectra : Buf R) (jlon jlat jfld : Int) :
    structuredValue m e lons 0 nlats nf scalar_spectra jlon jlat jfld = 0 := by
  unfold structuredValue
  apply Finset.sum_eq_zero
  intro jm _
  apply Finset.sum_eq_zero
  intro imag _
  have hs : ∀ col, symPart e 0 nf scalar_spectra (jm : Int) (imag : Int) jfld col = 0 := by
    intro col
    unfold symPart
    apply Finset.sum_eq_zero
    intro l _
    rw [splitCoef_truncation_zero nf _ scalar_spectra _ _ _ (by omega), zero_mul]
  have ha : ∀ col, asymPart e 0 nf scalar_spectra (jm : Int) (imag : Int) jfld col = 0 := by
    intro col
    unfold asymPart
    apply Finset.sum_eq_zero
    intro l _
    rw [splitCoef_truncation_zero nf _ scalar_spectra _ _ _ (by omega), zero_mul]
  unfold fourierCoef
  simp only [hs, ha]
  simp

/-- Hemisphere counts of the regular 2 x 2 grid: one row in each hemisphere. -/
theorem hemisphereCounts_grid2x2 : hemisphereCounts (grid2x2 ℝ) = (1, 1, 1) := by
  simp [hemisphereCounts, forUp, countLatitude, grid2x2, StructuredGrid.ny, List.range_succ]
  norm_num

/-- Hemisphere counts of the reduced grid: one row in each hemisphere. -/
theorem hemisphereCounts_gridReduced : hemisphereCounts (gridReduced ℝ) = (1, 1, 1) := by
  simp [hemisphereCounts, forUp, countLatitude, gridReduced, StructuredGrid.ny,
    List.range_succ]
  norm_num

/-! ## C1: the inversion at truncation 0 -/

/-- At truncation 0 the scalar inversion on a structured grid with a dense Fourier stage
leaves 0 at every grid point of every field, whatever the spectral buffer holds. -/
theorem invtrans_structured_truncation_zero {R : Type} [Field R] (m : Collab R)
    (haveFFTW : Bool) (sc : Scratch R) (g : StructuredGrid R) (lons : Buf R) (nf : Int)
    (scalar_spectra : Buf R) (s : CallState R)
    (hg : s.engine.grid_ = Grid.structured g) (hT : s.engine.truncation_ = 0)
    (hfft : s.engine.useFFT_ = false) (htab : DenseTable m s.engine (g.nxmax : Int) lons)
    (hsin : m.sin 0 = 0) (hcov : HemispheresCover s.engine (g.ny : Int)) (hnf : 0 < nf)
    (jlon jlat jfld : Int) (h0 : 0 ≤ jlon) (h1 : jlon < (g.nxmax : Int)) (h2 : 0 ≤ jlat)
    (h3 : jlat < (g.ny : Int)) (h4 : 0 ≤ jfld) (h5 : jfld < nf) :
    (invtrans m haveFFTW sc nf scalar_spectra s).out.gp_fields
      (jlon + (g.nxmax : Int) * (jlat + (g.ny : Int) * jfld)) = 0 := by
  unfold invtrans invtrans_uv
  rw [if_pos hnf]
  simp only [hg]
  have := (invtrans_uv_structured_dense m haveFFTW sc g lons s.engine.truncation_ nf 0
    scalar_spectra s (by omega) hfft htab hsin hcov (by omega)).2.2 jlon jlat jfld
    h0 h1 h2 h3 h4 h5
  rw [this, if_neg (by omega), hT]
  exact structuredValue_truncation_zero m s.engine lons _ nf scalar_spectra jlon jlat jfld

/-- The engine built with truncation 0 on the regular 2 x 2 grid, without FFT library. -/
theorem construct_grid2x2_ready (m : Collab ℝ) (raw : Engine ℝ) (truncation : Int) :
    (constructStructured m false raw (grid2x2 ℝ) truncation true).grid_ =
        Grid.structured (grid2x2 ℝ) ∧
    (constructStructured m false raw (grid2x2 ℝ) truncation true).truncation_ = truncation ∧
    (constructStructured m false raw (grid2x2 ℝ) truncation true).useFFT_ = false ∧
    HemispheresCover (constructStructured m false raw (grid2x2 ℝ) truncation true) 2 := by
  refine ⟨rfl, rfl, ?_, ?_⟩
  · simp [constructStructured]
  · simp [HemispheresCover, constructStructured, hemisphereCounts_grid2x2]

/-- C1 (code evaluated at the failing input): truncation 0, one field, the spectral
buffer whose only coefficient (m = 0, n = 0, real part) is `c`. On the regular 2 x 2 grid
(structured path, dense Fourier stage) and on an unstructured set of two points
(precomputed path) the scalar inversion leaves 0, not `c`, at every grid point; here with
the Legendre tables filled with ones, so that the Legendre value of (m, n) = (0, 0) is 1. -/
theorem invtrans_truncation_zero_writes_zero (raw : Engine ℝ) (sc : Scratch ℝ)
    (gp_fields : Buf ℝ) (c : ℝ) :
    (∀ k ∈ [(0 : Int), 1, 2, 3],
      (invtrans (onesCollab ℝ Real.cos Real.sin (Real.pi / 180)) false sc 1
        (fun i => if i = 0 then c else 0)
        ⟨constructStructured (onesCollab ℝ Real.cos Real.sin (Real.pi / 180)) false raw
          (grid2x2 ℝ) 0 true, gp_fields⟩).out.gp_fields k = 0) ∧
    (∀ k ∈ [(0 : Int), 1],
      (invtrans (onesCollab ℝ Real.cos Real.sin (Real.pi / 180)) false sc 1
        (fun i => if i = 0 then c else 0)
        ⟨constructUnstructured (onesCollab ℝ Real.cos Real.sin (Real.pi / 180)) raw
          (Grid.unstructured [(0, 45), (180, -45)]) 0 true, gp_fields⟩).out.gp_fields k = 0) := by
  constructor
  · have hr := construct_grid2x2_ready (onesCollab ℝ Real.cos Real.sin (Real.pi / 180)) raw 0
    have key := fun jlon jlat h0 h1 h2 h3 =>
      invtrans_structured_truncation_zero (onesCollab ℝ Real.cos Real.sin (Real.pi / 180))
        false sc (grid2x2 ℝ)
        (gridLons (onesCollab ℝ Real.cos Real.sin (Real.pi / 180)) (grid2x2 ℝ)) 1
        (fun i => if i = 0 then c else 0)
        ⟨constructStructured (onesCollab ℝ Real.cos Real.sin (Real.pi / 180)) false raw
          (grid2x2 ℝ) 0 true, gp_fields⟩
        hr.1 hr.2.1 hr.2.2.1
        (constructStructured_denseTable _ false raw (grid2x2 ℝ) 0 true hr.2.2.1)
        (by simp [onesCollab]) hr.2.2.2 (by norm_num) jlon jlat 0 h0 h1 h2 h3 le_rfl
        (by norm_num)
    have hx : ((grid2x2 ℝ).nxmax : Int) = 2 := by simp [grid2x2, StructuredGrid.nxmax]
    have hy : ((grid2x2 ℝ).ny : Int) = 2 := by simp [grid2x2, StructuredGrid.ny]
    simp only [hx, hy] at key
    intro k hk
    simp only [List.mem_cons, List.mem_singleton, List.not_mem_nil, or_false] at hk
    rcases hk with rfl | rfl | rfl | rfl
    · simpa using key 0 0 le_rfl (by norm_num) le_rfl (by norm_num)
    · simpa using key 1 0 (by norm_num) (by norm_num) le_rfl (by norm_num)
    · simpa using key 0 1 le_rfl (by norm_num) (by norm_num) (by norm_num)
    · simpa using key 1 1 (by norm_num) (by norm_num) (by norm_num) (by norm_num)
  · intro k hk
    simp only [List.mem_cons, List.mem_singleton, List.not_mem_nil, or_false] at hk
    rcases hk with rfl | rfl <;>
    simp [invtrans, invtrans_uv, constructUnstructured, constructInit,
      invtrans_unstructured_precomp, Grid.size, forUp, forFrom, List.range_succ, gemm,
      fouriertpFill, Function.update_apply]

/-- The engine built with truncation 0 on the reduced grid, without FFT library. -/
theorem construct_gridReduced_ready (m : Collab ℝ) (raw : Engine ℝ) (truncation : Int) :
    (constructStructured m false raw (gridReduced ℝ) truncation true).grid_ =
        Grid.structured (gridReduced ℝ) ∧
    (constructStructured m false raw (gridReduced ℝ) truncation true).truncation_ =
        truncation ∧
    (constructStructured m false raw (gridReduced ℝ) truncation true).useFFT_ = false ∧
    HemispheresCover (constructStructured m false raw (gridReduced ℝ) truncation true) 2 := by
  refine ⟨rfl, rfl, ?_, ?_⟩
  · simp [constructStructured]
  · simp [HemispheresCover, constructStructured, hemisphereCounts_gridReduced]

/-- Instance of the bound on regular grids: the regular 2 x 2 grid, one field, index 4. -/
theorem invtrans_uv_regular_writes_in_bounds_witness :
    (constructStructured (onesCollab ℝ Real.cos Real.sin (Real.pi / 180)) false
        (constEngine ℝ 0) (grid2x2 ℝ) 0 true).grid_ = Grid.structured (grid2x2 ℝ) ∧
    (grid2x2 ℝ).regular ∧
    ((4 : Int) < 0 ∨
      (1 : Int) * ((constructStructured (onesCollab ℝ Real.cos Real.sin (Real.pi / 180)) false
        (constEngine ℝ 0) (grid2x2 ℝ) 0 true).grid_.size : Int) ≤ 4) ∧
    (invtrans_uv (onesCollab ℝ Real.cos Real.sin (Real.pi / 180)) false (constScratch ℝ 0)
      0 1 0 (fun _ => 0)
      ⟨constructStructured (onesCollab ℝ Real.cos Real.sin (Real.pi / 180)) false
        (constEngine ℝ 0) (grid2x2 ℝ) 0 true, fun _ => 1⟩).out.gp_fields 4 =
      (fun _ => (1 : ℝ)) 4 :=
  have hreg : (grid2x2 ℝ).regular := by
    intro n hn
    simp [grid2x2, StructuredGrid.nxmax] at hn ⊢
    omega
  have hk : ((4 : Int) < 0 ∨
      (1 : Int) * ((constructStructured (onesCollab ℝ Real.cos Real.sin (Real.pi / 180)) false
        (constEngine ℝ 0) (grid2x2 ℝ) 0 true).grid_.size : Int) ≤ 4) := by
    right
    simp [constructStructured, constructInit, Grid.size, StructuredGrid.size, grid2x2]
  ⟨rfl, hreg, hk,
    invtrans_uv_regular_writes_in_bounds (onesCollab ℝ Real.cos Real.sin (Real.pi / 180)) false
      (constScratch ℝ 0) (grid2x2 ℝ) 0 1 0 (fun _ => 0)
      ⟨constructStructured (onesCollab ℝ Real.cos Real.sin (Real.pi / 180)) false
        (constEngine ℝ 0) (grid2x2 ℝ) 0 true, fun _ => 1⟩ rfl hreg 4 hk⟩

/-- C2 (code evaluated at the failing input): the output buffer is overrun on a reduced
grid. The source sizes the output by `nb_fields * grid_.size()` (the temporary `gp_opt3` of
line 663, the region offsets of lines 765-797), but every backend of the structured branch
indexes it by `jlon + nxmax * (jlat + ny * jfld)`. On the reduced grid with rows of 1 and 2
longitudes (`grid.size() = 3`, `nxmax = 2`) and one field, the structured branch of
`invtrans_uv` (dense method 2) overwrites index `3 = 1 + 2 * (1 + 2 * 0)`, which is not
smaller than `nb_fields * grid.size() = 3`: the entry held 1 before the call and holds 0
after it. -/
theorem invtrans_uv_reduced_grid_overruns_output :
    (1 : Int) * ((Grid.structured (gridReduced ℝ)).size : Int) ≤ 3 ∧
    (invtrans_uv (onesCollab ℝ Real.cos Real.sin (Real.pi / 180)) false (constScratch ℝ 0)
      0 1 0 (fun _ => 0)
      ⟨constructStructured (onesCollab ℝ Real.cos Real.sin (Real.pi / 180)) false
        (constEngine ℝ 0) (gridReduced ℝ) 0 true, fun _ => 1⟩).out.gp_fields 3 = 0 ∧
    (fun _ => (1 : ℝ)) (3 : Int) ≠ 0 := by
  refine ⟨by simp [Grid.size, StructuredGrid.size, gridReduced], ?_, by norm_num⟩
  have hr := construct_gridReduced_ready (onesCollab ℝ Real.cos Real.sin (Real.pi / 180))
    (constEngine ℝ 0) 0
  have key := invtrans_structured_truncation_zero
    (onesCollab ℝ Real.cos Real.sin (Real.pi / 180)) false (constScratch ℝ 0) (gridReduced ℝ)
    (gridLons (onesCollab ℝ Real.cos Real.sin (Real.pi / 180)) (gridReduced ℝ)) 1
    (fun _ => 0)
    ⟨constructStructured (onesCollab ℝ Real.cos Real.sin (Real.pi / 180)) false
      (constEngine ℝ 0) (gridReduced ℝ) 0 true, fun _ => 1⟩
    hr.1 hr.2.1 hr.2.2.1
    (constructStructured_denseTable _ false (constEngine ℝ 0) (gridReduced ℝ) 0 true hr.2.2.1)
    (by simp [onesCollab]) hr.2.2.2 (by norm_num) 1 1 0 (by norm_num)
    (by simp [gridReduced, StructuredGrid.nxmax]) (by norm_num)
    (by simp [gridReduced, StructuredGrid.ny]) le_rfl (by norm_num)
  have hx : ((gridReduced ℝ).nxmax : Int) = 2 := by simp [gridReduced, StructuredGrid.nxmax]
  have hy : ((gridReduced ℝ).ny : Int) = 2 := by simp [gridReduced, StructuredGrid.ny]
  simp only [hx, hy] at key
  have h3 : (1 : Int) + 2 * (1 + 2 * 0) = 3 := by norm_num
  rw [h3] at key
  exact key

/-! ## C7: the two unstructured routines -/

/-- C7 (code evaluated at the failing input): truncation 0, one field, one point, the
spectral buffer whose only coefficient (m = 0, n = 0, real part) is `c`, and Legendre
values all equal to 1 both in the precomputed table and in the on-the-fly routine.
`invtrans_unstructured_precomp`, whose loops over `jm` stop before `truncation`, leaves 0 at
the point; `invtrans_unstructured`, whose loops include `jm = truncation`, leaves `c`. -/
theorem unstructured_routines_differ_at_truncation_zero (raw : Engine ℝ) (sc : Scratch ℝ)
    (gp_fields : Buf ℝ) (c : ℝ) :
    invtrans_unstructured_precomp (onesCollab ℝ Real.cos Real.sin (Real.pi / 180))
        (constructUnstructured (onesCollab ℝ Real.cos Real.sin (Real.pi / 180)) raw
          (Grid.unstructured [(0, 45)]) 0 true)
        sc 0 1 0 (fun i => if i = 0 then c else 0) gp_fields 0 = 0 ∧
    invtrans_unstructured (onesCollab ℝ Real.cos Real.sin (Real.pi / 180))
        (constructUnstructured (onesCollab ℝ Real.cos Real.sin (Real.pi / 180)) raw
          (Grid.unstructured [(0, 45)]) 0 true)
        sc 0 1 0 (fun i => if i = 0 then c else 0) gp_fields 0 = c := by
  constructor
  · simp [constructUnstructured, constructInit,
      invtrans_unstructured_precomp, Grid.size, forUp, forFrom, List.range_succ, gemm,
      fouriertpFill, Function.update_apply]
  · simp [constructUnstructured, constructInit, onesCollab,
      invtrans_unstructured, Grid.size, forUp, forFrom, List.range_succ, gemm,
      fouriertpFill, Function.update_apply, Buf.atOffset, Buf.shift, Finset.sum_range_succ]

/-! ## Fourier stage: the FFT branch -/

/-- The input of the FFT with the running index in closed form. -/
theorem fftInput_eq {R : Type} [Field R] (e : Engine R) (nlats nf jfld : Int)
    (scl fft_in : Buf R) (hN : 0 ≤ e.nlonsGlobal_) :
    fftInput e nlats nf jfld scl fft_in =
      forUp nlats (fun jlat b =>
        forUp (Int.tdiv e.nlonsGlobal_ 2 + 1 - 1) (fun k b2 =>
          forUp 2 (fun imag (b3 : Buf R) =>
            Function.update b3 (imag + 2 * ((1 + k) + (Int.tdiv e.nlonsGlobal_ 2 + 1) * jlat))
              (if 1 + k ≤ e.truncation_ then scl (posMethod e jfld imag jlat (1 + k) nf nlats)
                else 0)) b2)
          (Function.update b (2 * ((Int.tdiv e.nlonsGlobal_ 2 + 1) * jlat))
            (scl (posMethod e jfld 0 jlat 0 nf nlats)))) fft_in := by
  have hnc : 0 ≤ Int.tdiv e.nlonsGlobal_ 2 + 1 - 1 := by
    rw [Int.tdiv_eq_ediv hN (by norm_num)]; omega
  unfold fftInput
  simp only [forFrom_eq_forUp]
  rw [forUp_counter nlats (Int.tdiv e.nlonsGlobal_ 2 + 1) _
    (fun jlat i b =>
        forUp (Int.tdiv e.nlonsGlobal_ 2 + 1 - 1) (fun k b2 =>
          forUp 2 (fun imag (b3 : Buf R) =>
            Function.update b3 (2 * (i + 1 + k) + imag)
              (if 1 + k ≤ e.truncation_ then scl (posMethod e jfld imag jlat (1 + k) nf nlats)
                else 0)) b2)
          (Function.update b (2 * i + 0) (scl (posMethod e jfld 0 jlat 0 nf nlats))))]
  · simp only [zero_add]
    apply forUp_congr
    intro jlat t _ _
    rw [show 2 * ((Int.tdiv e.nlonsGlobal_ 2 + 1) * jlat) + 0 =
      2 * ((Int.tdiv e.nlonsGlobal_ 2 + 1) * jlat) by ring]
    apply forUp_congr
    intro k t2 _ _
    apply forUp_congr
    intro imag t3 _ _
    rw [show 2 * ((Int.tdiv e.nlonsGlobal_ 2 + 1) * jlat + 1 + k) + imag =
      imag + 2 * ((1 + k) + (Int.tdiv e.nlonsGlobal_ 2 + 1) * jlat) by ring]
  · intro jlat s _ _
    rw [forUp_counter (Int.tdiv e.nlonsGlobal_ 2 + 1 - 1) 1 _
      (fun k i (b2 : Buf R) =>
        forUp 2 (fun imag (b3 : Buf R) =>
            Function.update b3 (2 * i + imag)
              (if 1 + k ≤ e.truncation_ then scl (posMethod e jfld imag jlat (1 + k) nf nlats)
                else 0)) b2)]
    · rw [max_eq_left hnc]
      simp only [one_mul]
      congr 1
      · ring
    · intro k s2 _ _
      congr 1
      apply forUp_congr
      intro imag t _ _
      split <;> rfl

/-- Positions of the complex entries of `fft_in_`: `(imag, jm, jlat)` is determined by
`imag + 2 * (jm + num_complex * jlat)`. -/
theorem fft_pos_inj (nc imag jm jlat imag2 jm2 jlat2 : Int)
    (hi0 : 0 ≤ imag) (hi1 : imag < 2) (hm0 : 0 ≤ jm) (hm1 : jm < nc)
    (hi0b : 0 ≤ imag2) (hi1b : imag2 < 2) (hm0b : 0 ≤ jm2) (hm1b : jm2 < nc)
    (h : imag + 2 * (jm + nc * jlat) = imag2 + 2 * (jm2 + nc * jlat2)) :
    imag = imag2 ∧ jm = jm2 ∧ jlat = jlat2 := by
  have a := radix_inj imag imag2 2 _ _ hi0 hi1 hi0b hi1b h
  have b := radix_inj jm jm2 nc _ _ hm0 hm1 hm0b hm1b a.2
  exact ⟨a.1, b.1, b.2⟩

/-- The entry of `fft_in_` for `(jm, imag)` with `1 <= jm < num_complex` on row `jlat`:
the Fourier coefficient for `jm <= truncation_`, 0 above. -/
theorem fftInput_value {R : Type} [Field R] (e : Engine R) (nlats nf jfld : Int)
    (scl fft_in : Buf R) (hN : 0 ≤ e.nlonsGlobal_) (jlat jm imag : Int)
    (hl0 : 0 ≤ jlat) (hl1 : jlat < nlats) (hm0 : 1 ≤ jm)
    (hm1 : jm < Int.tdiv e.nlonsGlobal_ 2 + 1) (hi0 : 0 ≤ imag) (hi1 : imag < 2) :
    fftInput e nlats nf jfld scl fft_in
        (imag + 2 * (jm + (Int.tdiv e.nlonsGlobal_ 2 + 1) * jlat)) =
      if jm ≤ e.truncation_ then scl (posMethod e jfld imag jlat jm nf nlats) else 0 := by
  rw [fftInput_eq e nlats nf jfld scl fft_in hN]
  generalize hnc : Int.tdiv e.nlonsGlobal_ 2 + 1 = nc at hm1
  apply forUp_write (fun x : Buf R => x) nlats _ fft_in _ _ jlat hl0 hl1
  · intro t
    have := write2_value (nc - 1) 2
      (fun k imag => imag + 2 * ((1 + k) + nc * jlat))
      (fun k imag => if 1 + k ≤ e.truncation_ then
        scl (posMethod e jfld imag jlat (1 + k) nf nlats) else 0)
      (Function.update t (2 * (nc * jlat)) (scl (posMethod e jfld 0 jlat 0 nf nlats)))
      (fun a c a2 c2 ha0 ha1 hc0 hc1 ha0b ha1b hc0b hc1b heq => by
        have := fft_pos_inj nc c (1 + a) jlat c2 (1 + a2) jlat hc0 hc1 (by omega) (by omega)
          hc0b hc1b (by omega) (by omega) heq
        exact ⟨by omega, this.1⟩)
      (jm - 1) imag (by omega) (by omega) hi0 hi1
    simp only [show 1 + (jm - 1) = jm by ring] at this
    exact this
  · intro j t hj0 hj1
    dsimp only
    rw [write2_frame (nc - 1) 2
      (fun k imag => imag + 2 * ((1 + k) + nc * j))
      (fun k imag => if 1 + k ≤ e.truncation_ then
        scl (posMethod e jfld imag j (1 + k) nf nlats) else 0)]
    · apply Function.update_noteq
      intro heq
      have := fft_pos_inj nc imag jm jlat 0 0 j hi0 hi1 (by omega) hm1 le_rfl (by norm_num)
        le_rfl (by omega) (by rw [heq]; ring)
      omega
    · intro a c ha0 ha1 hc0 hc1 heq
      have := fft_pos_inj nc c (1 + a) j imag jm jlat hc0 hc1 (by omega) (by omega)
        hi0 hi1 (by omega) hm1 heq
      omega

/-- The real part of the entry of `fft_in_` for `jm = 0` on row `jlat`. -/
theorem fftInput_dc {R : Type} [Field R] (e : Engine R) (nlats nf jfld : Int)
    (scl fft_in : Buf R) (hN : 0 ≤ e.nlonsGlobal_) (jlat : Int)
    (hl0 : 0 ≤ jlat) (hl1 : jlat < nlats) :
    fftInput e nlats nf jfld scl fft_in (2 * ((Int.tdiv e.nlonsGlobal_ 2 + 1) * jlat)) =
      scl (posMethod e jfld 0 jlat 0 nf nlats) := by
  have hnc0 : 0 < Int.tdiv e.nlonsGlobal_ 2 + 1 := by
    rw [Int.tdiv_eq_ediv hN (by norm_num)]; omega
  rw [fftInput_eq e nlats nf jfld scl fft_in hN]
  generalize hnc : Int.tdiv e.nlonsGlobal_ 2 + 1 = nc at hnc0
  apply forUp_write (fun x : Buf R => x) nlats _ fft_in _ _ jlat hl0 hl1
  · intro t
    dsimp only
    rw [write2_frame (nc - 1) 2
      (fun k imag => imag + 2 * ((1 + k) + nc * jlat))
      (fun k imag => if 1 + k ≤ e.truncation_ then
        scl (posMethod e jfld imag jlat (1 + k) nf nlats) else 0)]
    · exact Function.update_same _ _ _
    · intro a c ha0 ha1 hc0 hc1 heq
      have := fft_pos_inj nc c (1 + a) jlat 0 0 jlat hc0 hc1 (by omega) (by omega)
        le_rfl (by norm_num) le_rfl hnc0 (by rw [heq]; ring)
      omega
  · intro j t hj0 hj1
    dsimp only
    rw [write2_frame (nc - 1) 2
      (fun k imag => imag + 2 * ((1 + k) + nc * j))
      (fun k imag => if 1 + k ≤ e.truncation_ then
        scl (posMethod e jfld imag j (1 + k) nf nlats) else 0)]
    · apply Function.update_noteq
      intro heq
      have := fft_pos_inj nc 0 0 jlat 0 0 j le_rfl (by norm_num) le_rfl hnc0 le_rfl
        (by norm_num) le_rfl hnc0 (by omega)
      omega
    · intro a c ha0 ha1 hc0 hc1 heq
      have := fft_pos_inj nc c (1 + a) j 0 0 jlat hc0 hc1 (by omega) (by omega)
        le_rfl (by norm_num) le_rfl hnc0 (by rw [heq]; ring)
      omega

/-! ## The exact inverse real DFT -/

/-- The exact inverse real DFT reads the coefficients `c imag jm` only for
`0 <= jm <= T` and `imag < nImag jm`. -/
theorem fftSum_congr {R : Type} [Field R] (cos sin : R → R) (twoPi : R) (N T : Int)
    (c c2 : Int → Int → R) (j : Int) (hT : 0 ≤ T)
    (h : ∀ imag jm, 0 ≤ jm → jm ≤ T → 0 ≤ imag → imag < nImag jm → c imag jm = c2 imag jm) :
    fftSum cos sin twoPi N T c j = fftSum cos sin twoPi N T c2 j := by
  have he : ∀ imag jm, 0 ≤ jm → 0 ≤ imag → imag < 2 →
      fftEntry T c imag jm = fftEntry T c2 imag jm := by
    intro imag jm hjm hi0 hi1
    unfold fftEntry
    by_cases h0 : jm = 0
    · rw [if_pos h0, if_pos h0]
      rw [h 0 0 le_rfl hT le_rfl (by simp [nImag])]
    · rw [if_neg h0, if_neg h0]
      by_cases hT2 : jm ≤ T
      · rw [if_pos hT2, if_pos hT2, h imag jm hjm hT2 hi0 (by simp [nImag, h0]; omega)]
      · rw [if_neg hT2, if_neg hT2]
  unfold fftSum
  apply Finset.sum_congr rfl
  intro k hk
  have hk1 := Finset.mem_range.mp hk
  by_cases hc : 2 * (k : Int) ≤ N
  · simp only [if_pos hc]
    rw [he 0 k (by omega) le_rfl (by norm_num), he 1 k (by omega) (by norm_num) (by norm_num)]
  · simp only [if_neg hc]
    rw [he 0 (N - k) (by omega) le_rfl (by norm_num),
      he 1 (N - k) (by omega) (by norm_num) (by norm_num)]

/-- Value left by the FFT branch at the position of `(jlon, jlat, jfld)` when the
complex-to-real transform is the exact inverse real DFT: the transform of the coefficients
read through `posMethod`, at the selected output index. The imaginary part of the entry 0
of each row, which the code leaves unset, does not contribute. -/
theorem fourierFFT_exact {R : Type} [Field R] (m : Collab R) (e : Engine R)
    (cs sn : R → R) (tp : R) (nlons nlats nf : Int) (scl : Buf R) (s : FftState R)
    (hc2r : m.c2r = c2rExact cs sn tp) (hsn : sn 0 = 0)
    (hN : 0 < e.nlonsGlobal_) (hmin0 : 0 ≤ e.jlonMin_) (hmin1 : e.jlonMin_ < e.nlonsGlobal_)
    (hlons : nlons ≤ e.nlonsGlobal_)
    (jlon jlat jfld : Int) (h0 : 0 ≤ jlon) (h1 : jlon < nlons) (h2 : 0 ≤ jlat)
    (h3 : jlat < nlats) (h4 : 0 ≤ jfld) (h5 : jfld < nf) :
    (fourierFFT m e nlons nlats nf scl s).gp_fields (jlon + nlons * (jlat + nlats * jfld)) =
      fftSum cs sn tp e.nlonsGlobal_ e.truncation_
        (fun imag jm => scl (posMethod e jfld imag jlat jm nf nlats)) (wrapLon e jlon) := by
  have hw0 : 0 ≤ wrapLon e jlon ∧ wrapLon e jlon < e.nlonsGlobal_ := by
    unfold wrapLon
    split_ifs <;> constructor <;> omega
  unfold fourierFFT
  apply forUp_write (fun t : FftState R => t.gp_fields) nf _ s _ _ jfld h4 h5
  · intro t
    dsimp only
    have hw := write2_value nlats nlons
      (fun jlat jlon => jlon + nlons * (jlat + nlats * jfld))
      (fun jlat jlon =>
        (m.c2r e.nlonsGlobal_ nlats (fftInput e nlats nf jfld scl t.fft_in) t.fft_out)
          ((if jlon + e.jlonMin_ ≥ e.nlonsGlobal_ then jlon + e.jlonMin_ - e.nlonsGlobal_
            else jlon + e.jlonMin_) + e.nlonsGlobal_ * jlat))
      t.gp_fields
      (fun a c a2 c2 ha0 ha1 hc0 hc1 ha20 ha21 hc20 hc21 heq => by
        have := gp_pos_inj nlons nlats c a jfld c2 a2 jfld hc0 hc1 ha0 ha1 hc20 hc21
          ha20 ha21 heq
        exact ⟨this.2.1, this.1⟩)
      jlat jlon h2 h3 h0 h1
    refine (show fftSelect e nlons nlats jfld _ t.gp_fields _ = _ from hw).trans ?_
    dsimp only
    rw [show (if jlon + e.jlonMin_ ≥ e.nlonsGlobal_ then jlon + e.jlonMin_ - e.nlonsGlobal_
      else jlon + e.jlonMin_) = wrapLon e jlon from rfl, hc2r]
    generalize wrapLon e jlon = j at hw0
    unfold c2rExact fftSum
    have hb := radix_bound j e.nlonsGlobal_ jlat nlats hw0.1 hw0.2 h2 h3
    rw [if_pos ⟨hN, hb.1, hb.2⟩, radix_emod j _ jlat hw0.1 hw0.2,
      radix_ediv j _ jlat hw0.1 hw0.2]
    have hnc : ∀ k : Int, 0 ≤ k → 2 * k ≤ e.nlonsGlobal_ →
        k < Int.tdiv e.nlonsGlobal_ 2 + 1 := by
      intro k _ hk
      rw [Int.tdiv_eq_ediv hN.le (by norm_num)]
      omega
    have hre : ∀ k : Int, 0 ≤ k → 2 * k ≤ e.nlonsGlobal_ →
        fftInput e nlats nf jfld scl t.fft_in
            (2 * ((Int.tdiv e.nlonsGlobal_ 2 + 1) * jlat + k)) =
          fftEntry e.truncation_ (fun imag jm => scl (posMethod e jfld imag jlat jm nf nlats))
            0 k := by
      intro k hk0 hk1
      unfold fftEntry
      by_cases hz : k = 0
      · subst hz
        rw [if_pos rfl, if_pos rfl, add_zero]
        exact fftInput_dc e nlats nf jfld scl t.fft_in hN.le jlat h2 h3
      · rw [if_neg hz, show 2 * ((Int.tdiv e.nlonsGlobal_ 2 + 1) * jlat + k) =
          0 + 2 * (k + (Int.tdiv e.nlonsGlobal_ 2 + 1) * jlat) by ring,
          fftInput_value e nlats nf jfld scl t.fft_in hN.le jlat k 0 h2 h3 (by omega)
            (hnc k hk0 hk1) le_rfl (by norm_num)]
    have him : ∀ k : Int, 1 ≤ k → 2 * k ≤ e.nlonsGlobal_ →
        fftInput e nlats nf jfld scl t.fft_in
            (2 * ((Int.tdiv e.nlonsGlobal_ 2 + 1) * jlat + k) + 1) =
          fftEntry e.truncation_ (fun imag jm => scl (posMethod e jfld imag jlat jm nf nlats))
            1 k := by
      intro k hk0 hk1
      unfold fftEntry
      rw [if_neg (by omega), show 2 * ((Int.tdiv e.nlonsGlobal_ 2 + 1) * jlat + k) + 1 =
          1 + 2 * (k + (Int.tdiv e.nlonsGlobal_ 2 + 1) * jlat) by ring,
          fftInput_value e nlats nf jfld scl t.fft_in hN.le jlat k 1 h2 h3 hk0
            (hnc k (by omega) hk1) (by norm_num) (by norm_num)]
    apply Finset.sum_congr rfl
    intro k hk
    have hk1 : k < e.nlonsGlobal_.toNat := Finset.mem_range.mp hk
    by_cases hc : 2 * (k : Int) ≤ e.nlonsGlobal_
    · simp only [if_pos hc]
      rw [hre k (by omega) hc]
      by_cases hz : k = 0
      · subst hz
        have : fftEntry e.truncation_
            (fun imag jm => scl (posMethod e jfld imag jlat jm nf nlats)) 1 ((0 : ℕ) : Int) =
            0 := by simp [fftEntry]
        rw [this]
        simp [hsn]
      · rw [him k (by omega) hc]
    · simp only [if_neg hc]
      rw [hre (e.nlonsGlobal_ - k) (by omega) (by omega),
        him (e.nlonsGlobal_ - k) (by omega) (by omega)]
  · intro j t hj0 hj1
    apply fftSelect_frame
    intro jlat2 jlon2 a0 a1 b0 b1 heq
    have := gp_pos_inj nlons nlats jlon2 jlat2 j jlon jlat jfld b0 b1 a0 a1 h0 h1
      h2 h3 heq
    omega

/-- The structured inversion with the FFT and the exact complex-to-real transform: the call
raises nothing, changes no member of the engine other than the work arrays `fft_in_` and
`fft_out_`, and leaves at the position of `(jlon, jlat, jfld)` the value
`structuredValueFFT`, divided by the cosine of the latitude of the row when
`nb_vordiv_fields > 0`. The result depends neither on the scratch memory nor on the
contents of `gp_fields` and of the work arrays before the call. -/
theorem invtrans_uv_structured_fft {R : Type} [Field R] (m : Collab R) (sc : Scratch R)
    (g : StructuredGrid R) (cs sn : R → R) (tp : R)
    (truncation nf nb_vordiv_fields : Int) (scalar_spectra : Buf R) (s : CallState R)
    (hT : 0 ≤ s.engine.truncation_) (hfft : s.engine.useFFT_ = true)
    (hc2r : m.c2r = c2rExact cs sn tp) (hsn : sn 0 = 0)
    (hN : 0 < s.engine.nlonsGlobal_) (hmin0 : 0 ≤ s.engine.jlonMin_)
    (hmin1 : s.engine.jlonMin_ < s.engine.nlonsGlobal_)
    (hlons : (g.nxmax : Int) ≤ s.engine.nlonsGlobal_)
    (hcov : HemispheresCover s.engine (g.ny : Int)) (hnf : 0 ≤ nf) :
    (invtrans_uv_structured m true sc g truncation nf nb_vordiv_fields scalar_spectra
      s).err = none ∧
    { (invtrans_uv_structured m true sc g truncation nf nb_vordiv_fields scalar_spectra
        s).out.engine with
      fft_in_ := s.engine.fft_in_
      fft_out_ := s.engine.fft_out_ } = s.engine ∧
    ∀ jlon jlat jfld, 0 ≤ jlon → jlon < (g.nxmax : Int) → 0 ≤ jlat → jlat < (g.ny : Int) →
      0 ≤ jfld → jfld < nf →
      (invtrans_uv_structured m true sc g truncation nf nb_vordiv_fields scalar_spectra
        s).out.gp_fields (jlon + (g.nxmax : Int) * (jlat + (g.ny : Int) * jfld)) =
        if nb_vordiv_fields > 0 then
          structuredValueFFT cs sn tp s.engine truncation (g.ny : Int) nf scalar_spectra
            jlon jlat jfld / m.cos (g.y jlat * m.degreesToRadians)
        else
          structuredValueFFT cs sn tp s.engine truncation (g.ny : Int) nf scalar_spectra
            jlon jlat jfld := by
  obtain ⟨c0, c1, c2, c3, c4, c5, c6⟩ := hcov
  obtain ⟨scl, hleg, hval, _⟩ := invtrans_legendreopt3_spec s.engine sc truncation
    (g.ny : Int) nf scalar_spectra sc.scl_fourier hnf c2 c3 c4 c5
  refine ⟨?_, ?_, ?_⟩
  · unfold invtrans_uv_structured
    simp only [hleg]
  · unfold invtrans_uv_structured
    simp only [hleg]
    rw [if_pos hfft]
    rfl
  unfold invtrans_uv_structured
  simp only [hleg, hfft, if_true]
  intro jlon jlat jfld h0 h1 h2 h3 h4 h5
  have hd : (fourierFFT m s.engine (g.nxmax : Int) (g.ny : Int) nf scl
      { fft_in := s.engine.fft_in_, fft_out := s.engine.fft_out_,
        gp_fields := s.gp_fields }).gp_fields
      (jlon + (g.nxmax : Int) * (jlat + (g.ny : Int) * jfld)) =
      structuredValueFFT cs sn tp s.engine truncation (g.ny : Int) nf scalar_spectra
        jlon jlat jfld := by
    rw [fourierFFT_exact m s.engine cs sn tp _ _ nf scl _ hc2r hsn hN hmin0 hmin1 hlons
      jlon jlat jfld h0 h1 h2 h3 h4 h5]
    unfold structuredValueFFT
    apply fftSum_congr _ _ _ _ _ _ _ _ hT
    intro imag jm hm0 hm1 hi0 hi1
    exact hval jfld imag jlat jm h4 h5 hi0 hi1 hm0 hm1 (by omega)
  by_cases hv : nb_vordiv_fields > 0
  · rw [if_pos hv, windRecovery_value m g nf nb_vordiv_fields _ hv jlon jlat jfld
      h0 h1 h2 h3 h4 h5]
    congr 1
  · rw [if_neg hv]
    have hw : ∀ b : Buf R, windRecovery m g (g.ny : Int) nf nb_vordiv_fields b = b := by
      intro b; unfold windRecovery; rw [if_neg hv]
    rw [hw]
    exact hd

/-! ## The structured inversion, any Fourier backend -/

/-- The structured inversion with either Fourier backend: the call raises nothing, changes
no member of the engine other than the FFT work arrays, and leaves at the position of
`(jlon, jlat, jfld)` the value `structuredOut`, divided by the cosine of the latitude of the
row when `nb_vordiv_fields > 0`. The right-hand sides mention neither the scratch memory nor
the contents of `gp_fields` and of the work arrays before the call. -/
theorem invtrans_uv_structured_value {R : Type} [Field R] (m : Collab R) (haveFFTW : Bool)
    (sc : Scratch R) (g : StructuredGrid R) (lons : Buf R) (cs sn : R → R) (tp : R)
    (truncation nf nb_vordiv_fields : Int) (scalar_spectra : Buf R) (s : CallState R)
    (hT : 0 ≤ s.engine.truncation_)
    (hready : FourierReady m haveFFTW s.engine (g.nxmax : Int) lons cs sn tp)
    (hcov : HemispheresCover s.engine (g.ny : Int)) (hnf : 0 ≤ nf) :
    (invtrans_uv_structured m haveFFTW sc g truncation nf nb_vordiv_fields scalar_spectra
      s).err = none ∧
    { (invtrans_uv_structured m haveFFTW sc g truncation nf nb_vordiv_fields scalar_spectra
        s).out.engine with
      fft_in_ := s.engine.fft_in_
      fft_out_ := s.engine.fft_out_ } = s.engine ∧
    ∀ jlon jlat jfld, 0 ≤ jlon → jlon < (g.nxmax : Int) → 0 ≤ jlat → jlat < (g.ny : Int) →
      0 ≤ jfld → jfld < nf →
      (invtrans_uv_structured m haveFFTW sc g truncation nf nb_vordiv_fields scalar_spectra
        s).out.gp_fields (jlon + (g.nxmax : Int) * (jlat + (g.ny : Int) * jfld)) =
        if nb_vordiv_fields > 0 then
          structuredOut m s.engine lons cs sn tp truncation (g.ny : Int) nf scalar_spectra
            jlon jlat jfld / m.cos (g.y jlat * m.degreesToRadians)
        else
          structuredOut m s.engine lons cs sn tp truncation (g.ny : Int) nf scalar_spectra
            jlon jlat jfld := by
  unfold FourierReady at hready
  unfold structuredOut
  by_cases hfft : s.engine.useFFT_ = true
  · rw [if_pos hfft] at hready
    obtain ⟨hF, hc2r, hsn, hN, hmin0, hmin1, hlons⟩ := hready
    subst hF
    simp only [hfft, if_true]
    exact invtrans_uv_structured_fft m sc g cs sn tp truncation nf nb_vordiv_fields
      scalar_spectra s hT hfft hc2r hsn hN hmin0 hmin1 hlons hcov hnf
  · rw [if_neg hfft] at hready
    have hfft2 : s.engine.useFFT_ = false := by simpa using hfft
    have := invtrans_uv_structured_dense m haveFFTW sc g lons truncation nf nb_vordiv_fields
      scalar_spectra s hT hfft2 hready.1 hready.2 hcov hnf
    simp only [hfft2, Bool.false_eq_true, if_false]
    refine ⟨this.1, ?_, this.2.2⟩
    rw [this.2.1]

/-! ## C8: rows mirrored at the equator -/

/-- The symmetric part vanishes when the coefficients with even `jn - jm` do. -/
theorem symPart_eq_zero {R : Type} [Field R] (e : Engine R) (truncation nf : Int)
    (scalar_spectra : Buf R) (jm imag jfld col : Int)
    (h : ∀ jn, jm ≤ jn → jn ≤ truncation → (jn - jm) % 2 = 0 →
      scalar_spectra (spectralIndex truncation nf jm jn imag jfld) = 0) :
    symPart e truncation nf scalar_spectra jm imag jfld col = 0 := by
  unfold symPart
  apply Finset.sum_eq_zero
  intro l hl
  have hl1 := Finset.mem_range.mp hl
  have : splitCoef truncation nf jm scalar_spectra
      (jm + 2 * (num_n (e.truncation_ + 1) jm true - 1 - (l : Int))) imag jfld = 0 := by
    unfold splitCoef
    split_ifs with hg
    · exact h _ (by omega) hg.1 (by omega)
    · rfl
  rw [this, zero_mul]

/-- The antisymmetric part vanishes when the coefficients with odd `jn - jm` do. -/
theorem asymPart_eq_zero {R : Type} [Field R] (e : Engine R) (truncation nf : Int)
    (scalar_spectra : Buf R) (jm imag jfld col : Int)
    (h : ∀ jn, jm ≤ jn → jn ≤ truncation → (jn - jm) % 2 = 1 →
      scalar_spectra (spectralIndex truncation nf jm jn imag jfld) = 0) :
    asymPart e truncation nf scalar_spectra jm imag jfld col = 0 := by
  unfold asymPart
  apply Finset.sum_eq_zero
  intro l hl
  have hl1 := Finset.mem_range.mp hl
  have : splitCoef truncation nf jm scalar_spectra
      (jm + 1 + 2 * (num_n (e.truncation_ + 1) jm false - 1 - (l : Int))) imag jfld = 0 := by
    unfold splitCoef
    split_ifs with hg
    · exact h _ (by omega) hg.1 (by omega)
    · rfl
  rw [this, zero_mul]

/-- The Legendre products of `invtrans_unstructured_precomp`, lines 456-465: the entry of
`scl_fourier` for zonal wavenumber `jm`, point `ip` and row `q` of the product. -/
theorem precompLegendre_value {R : Type} [Field R] (e : Engine R) (truncation nf : Int)
    (scalar_spectra scl0 : Buf R) (nlats : Int) (jm ip q : Int)
    (hjm0 : 0 ≤ jm) (hjm1 : jm < truncation) (hip0 : 0 ≤ ip) (hip1 : ip < nlats)
    (hq0 : 0 ≤ q) (hq1 : q < nf * 2) :
    forUp truncation
      (fun jm (scl : Buf R) =>
        Buf.atOffset (jm * (nf * 2) * nlats)
          (gemm (nf * 2) (truncation - jm + 1) nlats
            (scalar_spectra.shift (nf * 2 * Int.tdiv ((2 * truncation + 3 - jm) * jm) 2))
            (e.legendre_.shift (Int.tdiv ((2 * truncation + 3 - jm) * jm) 2 * nlats)))
          scl)
      scl0 (nf * 2 * (ip + nlats * jm) + q) =
      ∑ l ∈ Finset.range (truncation - jm + 1).toNat,
        scalar_spectra (nf * 2 * Int.tdiv ((2 * truncation + 3 - jm) * jm) 2 +
            (q + nf * 2 * (l : Int))) *
          e.legendre_ (Int.tdiv ((2 * truncation + 3 - jm) * jm) 2 * nlats +
            ((l : Int) + (truncation - jm + 1) * ip)) := by
  have hb := radix_bound q (nf * 2) ip nlats hq0 hq1 hip0 hip1
  apply forUp_write (fun x : Buf R => x) truncation _ scl0 _ _ jm hjm0 hjm1
  · intro t
    show Buf.atOffset _ _ t _ = _
    unfold Buf.atOffset
    rw [show nf * 2 * (ip + nlats * jm) + q - jm * (nf * 2) * nlats = q + nf * 2 * ip by ring,
      gemm_apply _ _ _ _ _ _ q ip hq0 hq1 hip0 hip1]
    rfl
  · intro j t hj0 hj1
    show Buf.atOffset _ _ t _ = _
    unfold Buf.atOffset
    have hneg : nf * 2 * (ip + nlats * jm) + q - j * (nf * 2) * nlats < 0 := by
      have h1 : nf * 2 * nlats * (jm + 1) ≤ nf * 2 * nlats * j :=
        mul_le_mul_of_nonneg_left (by omega) (by nlinarith)
      nlinarith
    rw [gemm_frame _ _ _ _ _ _ _ (Or.inl hneg)]
    unfold Buf.shift
    congr 1
    ring

/-- The transposition of `invtrans_unstructured_precomp`, lines 473-484, with the running
index in closed form: the entry `imag + 2 * (jm + truncation * jfld)` of `scl_fourier_tp`
is the entry `nb_fields * 2 * (ip + nlats * jm) + nb_fields * imag + jfld` of
`scl_fourier`. -/
theorem precompTranspose_value {R : Type} (truncation nf nlats ip : Int) (scl tp0 : Buf R)
    (hnf : 0 ≤ nf) (jm imag jfld : Int) (hm0 : 0 ≤ jm) (hm1 : jm < truncation)
    (hi0 : 0 ≤ imag) (hi1 : imag < 2) (hf0 : 0 ≤ jfld) (hf1 : jfld < nf) :
    forUp truncation
      (fun jm (tp1 : Buf R) =>
        (forUp 2
          (fun imag s2 =>
            forUp nf
              (fun jfld (s : CopyState R) =>
                ({ idx := s.idx + 1
                   dst := Function.update s.dst (imag + 2 * (jm + truncation * jfld))
                     (scl s.idx) } : CopyState R))
              s2)
          ({ idx := nf * 2 * (ip + nlats * jm), dst := tp1 } : CopyState R)).dst)
      tp0 (imag + 2 * (jm + truncation * jfld)) =
      scl (nf * 2 * (ip + nlats * jm) + (jfld + nf * imag)) := by
  have h0 : forUp truncation
      (fun jm (tp1 : Buf R) =>
        (forUp 2
          (fun imag s2 =>
            forUp nf
              (fun jfld (s : CopyState R) =>
                ({ idx := s.idx + 1
                   dst := Function.update s.dst (imag + 2 * (jm + truncation * jfld))
                     (scl s.idx) } : CopyState R))
              s2)
          ({ idx := nf * 2 * (ip + nlats * jm), dst := tp1 } : CopyState R)).dst)
      tp0 =
      forUp truncation (fun jm b1 => forUp 2 (fun imag b2 => forUp nf (fun jfld (b : Buf R) =>
        Function.update b (imag + 2 * (jm + truncation * jfld))
          (scl (nf * 2 * (ip + nlats * jm) + (jfld + nf * imag)))) b2) b1) tp0 := by
    apply forUp_congr
    intro jm tp1 _ _
    rw [forUp_counter 2 nf _
      (fun imag i b2 => forUp nf (fun jfld (b : Buf R) =>
        Function.update b (imag + 2 * (jm + truncation * jfld)) (scl (i + jfld))) b2)]
    · dsimp only
      apply forUp_congr
      intro imag b2 _ _
      apply forUp_congr
      intro jfld b _ _
      rw [show nf * 2 * (ip + nlats * jm) + nf * imag + jfld =
        nf * 2 * (ip + nlats * jm) + (jfld + nf * imag) by ring]
    · intro imag s2 _ _
      rw [forUp_counter nf 1 _
        (fun jfld i (b : Buf R) =>
          Function.update b (imag + 2 * (jm + truncation * jfld)) (scl i))
        (fun _ _ _ _ => rfl)]
      rw [max_eq_left hnf]
      simp
  rw [h0]
  exact write3_value truncation 2 nf
    (fun jm imag jfld => imag + 2 * (jm + truncation * jfld))
    (fun jm imag jfld => scl (nf * 2 * (ip + nlats * jm) + (jfld + nf * imag))) tp0
    (fun a c d a2 c2 d2 ha0 ha1 hc0 hc1 _ _ ha0b ha1b hc0b hc1b _ _ heq => by
      have x := radix_inj c c2 2 _ _ hc0 hc1 hc0b hc1b heq
      have y := radix_inj a a2 truncation _ _ ha0 ha1 ha0b ha1b x.2
      exact ⟨y.1, x.1, y.2⟩)
    jm imag jfld hm0 hm1 hi0 hi1 hf0 hf1

/-- The Fourier factors of one point, lines 488-494, with the running index in closed
form: the entry `imag + 2 * jm` of `fouriertp` for `jm < n`. -/
theorem fouriertpFill_value {R : Type} [Field R] (m : Collab R) (n : Int) (lon : R)
    (fouriertp : Buf R) (jm imag : Int) (hm0 : 0 ≤ jm) (hm1 : jm < n)
    (hi0 : 0 ≤ imag) (hi1 : imag < 2) :
    fouriertpFill m n lon fouriertp (imag + 2 * jm) = unstructuredFactor m lon jm imag := by
  unfold fouriertpFill
  rw [forFrom_eq_forUp, forUp_counter (n - 1) 2 _
    (fun k i (b : Buf R) =>
      Function.update (Function.update b i (2 * m.cos (((1 + k : Int) : R) * lon))) (i + 1)
        (-2 * m.sin (((1 + k : Int) : R) * lon)))
    (fun _ _ _ _ => rfl)]
  dsimp only
  unfold unstructuredFactor
  by_cases hz : jm = 0
  · subst hz
    rw [if_pos rfl, forUp_frame (fun x : Buf R => x)]
    · have hi : imag = 0 ∨ imag = 1 := by omega
      rcases hi with rfl | rfl
      · simp [Function.update_apply]
      · simp [Function.update_apply]
    · intro k t hk0 hk1
      dsimp only
      rw [Function.update_noteq (by omega), Function.update_noteq (by omega)]
  · rw [if_neg hz]
    apply forUp_write (fun x : Buf R => x) (n - 1) _ _ _ _ (jm - 1) (by omega) (by omega)
    · intro t
      dsimp only
      have hi : imag = 0 ∨ imag = 1 := by omega
      rcases hi with rfl | rfl
      · rw [if_pos rfl, Function.update_noteq (by omega),
          show (0 : Int) + 2 * jm = 2 + 2 * (jm - 1) by ring, Function.update_same,
          show 1 + (jm - 1) = jm by ring]
      · rw [if_neg (by norm_num), show (1 : Int) + 2 * jm = 2 + 2 * (jm - 1) + 1 by ring,
          Function.update_same, show 1 + (jm - 1) = jm by ring]
    · intro k t hk0 hk1
      dsimp only
      rw [Function.update_noteq (by omega), Function.update_noteq (by omega)]

/-- The value `invtrans_unstructured_precomp` leaves at the position of point `ip` and
field `jfld`; it depends neither on the scratch memory nor on the contents of `gp_fields`
before the call. -/
theorem invtrans_unstructured_precomp_value {R : Type} [Field R] (m : Collab R)
    (e : Engine R) (sc : Scratch R) (truncation nf nbv : Int)
    (scalar_spectra gp_fields : Buf R) (hnf : 0 ≤ nf) (ip jfld : Int)
    (hip0 : 0 ≤ ip) (hip1 : ip < (e.grid_.size : Int)) (hf0 : 0 ≤ jfld) (hf1 : jfld < nf) :
    invtrans_unstructured_precomp m e sc truncation nf nbv scalar_spectra gp_fields
        (ip + jfld * (e.grid_.size : Int)) =
      precompValue m e truncation nf scalar_spectra ip jfld := by
  unfold invtrans_unstructured_precomp
  dsimp only
  apply forUp_write (fun st : PointState R => st.gp_fields) _ _ _ _ _ ip hip0 hip1
  · intro st
    dsimp only
    apply forUp_write (fun x : Buf R => x) nf _ _ _ _ jfld hf0 hf1
    · intro t
      dsimp only
      rw [Function.update_same]
      refine (congrArg _ (show jfld = 0 + 1 * jfld by ring)).trans ?_
      rw [gemm_apply 1 (truncation * 2) nf _ _ _ 0 jfld le_rfl one_pos hf0 hf1,
        show (truncation * 2).toNat = 2 * truncation.toNat by omega,
        sum_range_two_mul]
      unfold precompValue
      apply Finset.sum_congr rfl
      intro jm hjm
      have hjm1 : (jm : Int) < truncation := by
        have := Finset.mem_range.mp hjm
        omega
      rw [Finset.sum_range_succ, Finset.sum_range_one]
      have f0 := fouriertpFill_value m truncation
        (e.grid_.pointX ip * m.degreesToRadians) st.fouriertp jm 0 (by omega) hjm1 le_rfl
        (by norm_num)
      have f1 := fouriertpFill_value m truncation
        (e.grid_.pointX ip * m.degreesToRadians) st.fouriertp jm 1 (by omega) hjm1
        (by norm_num) (by norm_num)
      have t0 := fun (scl tp0 : Buf R) => precompTranspose_value truncation nf (e.grid_.size : Int) ip
        scl tp0 hnf jm 0 jfld (by omega) hjm1 le_rfl (by norm_num) hf0 hf1
      have t1 := fun (scl tp0 : Buf R) => precompTranspose_value truncation nf (e.grid_.size : Int) ip
        scl tp0 hnf jm 1 jfld (by omega) hjm1 (by norm_num) (by norm_num) hf0 hf1
      have l0 := precompLegendre_value e truncation nf scalar_spectra sc.scl_fourier
        (e.grid_.size : Int) jm ip (jfld + nf * 0) (by omega) hjm1 hip0 hip1 (by omega)
        (by omega)
      have l1 := precompLegendre_value e truncation nf scalar_spectra sc.scl_fourier
        (e.grid_.size : Int) jm ip (jfld + nf * 1) (by omega) hjm1 hip0 hip1 (by omega)
        (by omega)
      rw [show (0 : Int) + 1 * ((2 * jm : ℕ) : Int) = 0 + 2 * (jm : Int) by push_cast; ring,
        show (0 : Int) + 1 * ((2 * jm + 1 : ℕ) : Int) = 1 + 2 * (jm : Int) by push_cast; ring,
        show ((2 * jm : ℕ) : Int) + truncation * 2 * jfld =
          0 + 2 * ((jm : Int) + truncation * jfld) by push_cast; ring,
        show ((2 * jm + 1 : ℕ) : Int) + truncation * 2 * jfld =
          1 + 2 * ((jm : Int) + truncation * jfld) by push_cast; ring,
        f0, f1, t0, t1, l0, l1]
      rfl
    · intro j t hj0 hj1
      dsimp only
      apply Function.update_noteq
      intro heq
      have hs : (0 : Int) < (e.grid_.size : Int) := by omega
      have : (jfld - j) * (e.grid_.size : Int) = 0 := by linarith
      rcases mul_eq_zero.mp this with h | h <;> omega
  · intro j st hj0 hj1
    dsimp only
    apply forUp_frame (fun x : Buf R => x)
    intro j2 t hj20 hj21
    dsimp only
    apply Function.update_noteq
    intro heq
    have := radix_inj ip j (e.grid_.size : Int) jfld j2 hip0 hip1 (by omega) hj1
      (by linarith)
    omega

/-! ## Determinism of the inversion on a ready engine -/

/-- Every row of a structured grid has at most `nxmax` longitudes. -/
theorem nx_le_nxmax {R : Type} (g : StructuredGrid R) (n : Nat) (hn : n ∈ g.nx) :
    n ≤ g.nxmax := by
  have h : ∀ (l : List Nat) (c : Nat), c ≤ l.foldl max c ∧ ∀ n ∈ l, n ≤ l.foldl max c := by
    intro l
    induction l with
    | nil => intro c; simp
    | cons a l ih =>
      intro c
      simp only [List.foldl_cons, List.mem_cons]
      have h1 := ih (max c a)
      refine ⟨le_trans (le_max_left c a) h1.1, ?_⟩
      intro n hn
      rcases hn with rfl | hn
      · exact le_trans (le_max_right c n) h1.1
      · exact h1.2 n hn
  exact (h g.nx 0).2 n hn

/-- The number of points of a structured grid is at most `ny * nxmax`. -/
theorem size_le_padded {R : Type} (g : StructuredGrid R) :
    (g.size : Int) ≤ (g.ny : Int) * (g.nxmax : Int) := by
  have h := List.sum_le_card_nsmul g.nx g.nxmax (fun n hn => nx_le_nxmax g n hn)
  unfold StructuredGrid.size StructuredGrid.ny
  rw [smul_eq_mul] at h
  exact_mod_cast h

/-- Every index of `[0, nf * (nlats * nlons))` is the position of one triple
`(jlon, jlat, jfld)`. -/
theorem gp_pos_decompose (nlons nlats nf k : Int) (hlons : 0 ≤ nlons) (hlats : 0 ≤ nlats)
    (hk0 : 0 ≤ k) (hk1 : k < nf * (nlats * nlons)) :
    ∃ jlon jlat jfld, 0 ≤ jlon ∧ jlon < nlons ∧ 0 ≤ jlat ∧ jlat < nlats ∧ 0 ≤ jfld ∧
      jfld < nf ∧ k = jlon + nlons * (jlat + nlats * jfld) := by
  have hlons1 : 0 < nlons := by
    rcases eq_or_lt_of_le hlons with h | h
    · rw [← h] at hk1; simp at hk1; omega
    · exact h
  have hlats1 : 0 < nlats := by
    rcases eq_or_lt_of_le hlats with h | h
    · rw [← h] at hk1; simp at hk1; omega
    · exact h
  have hq1 : k / nlons < nf * nlats := by
    apply Int.ediv_lt_of_lt_mul hlons1
    calc k < nf * (nlats * nlons) := hk1
      _ = nf * nlats * nlons := by ring
  have hq0 : 0 ≤ k / nlons := Int.ediv_nonneg hk0 hlons
  refine ⟨k % nlons, (k / nlons) % nlats, (k / nlons) / nlats,
    Int.emod_nonneg _ (by omega), Int.emod_lt_of_pos _ hlons1,
    Int.emod_nonneg _ (by omega), Int.emod_lt_of_pos _ hlats1,
    Int.ediv_nonneg hq0 hlats, Int.ediv_lt_of_lt_mul hlats1 hq1, ?_⟩
  rw [Int.emod_add_ediv (k / nlons) nlats, Int.emod_add_ediv k nlons]

/-- The precomputed unstructured routine changes no entry of `gp_fields` outside
`[0, nb_fields * grid.size())`. -/
theorem invtrans_unstructured_precomp_frame {R : Type} [Field R] (m : Collab R)
    (e : Engine R) (sc : Scratch R) (truncation nf nbv : Int)
    (scalar_spectra gp_fields : Buf R) (k : Int)
    (hk : k < 0 ∨ nf * (e.grid_.size : Int) ≤ k) :
    invtrans_unstructured_precomp m e sc truncation nf nbv scalar_spectra gp_fields k =
      gp_fields k := by
  unfold invtrans_unstructured_precomp
  dsimp only
  apply forUp_frame (fun st : PointState R => st.gp_fields)
  intro ip st hip0 hip1
  dsimp only
  apply forUp_frame (fun x : Buf R => x)
  intro j t hj0 hj1
  dsimp only
  apply Function.update_noteq
  intro heq
  have := radix_bound ip (e.grid_.size : Int) j nf hip0 hip1 hj0 hj1
  have h2 : (e.grid_.size : Int) * nf = nf * (e.grid_.size : Int) := mul_comm _ _
  have h3 : (e.grid_.size : Int) * j = j * (e.grid_.size : Int) := mul_comm _ _
  omega

/-- The on-the-fly unstructured routine changes no entry of `gp_fields` outside
`[0, nb_fields * grid.size())`. -/
theorem invtrans_unstructured_frame {R : Type} [Field R] (m : Collab R)
    (e : Engine R) (sc : Scratch R) (truncation nf nbv : Int)
    (scalar_spectra gp_fields : Buf R) (k : Int)
    (hk : k < 0 ∨ nf * (e.grid_.size : Int) ≤ k) :
    invtrans_unstructured m e sc truncation nf nbv scalar_spectra gp_fields k =
      gp_fields k := by
  unfold invtrans_unstructured
  dsimp only
  apply forUp_frame (fun st : PointState R => st.gp_fields)
  intro ip st hip0 hip1
  dsimp only
  apply forUp_frame (fun x : Buf R => x)
  intro j t hj0 hj1
  dsimp only
  apply Function.update_noteq
  intro heq
  have := radix_bound ip (e.grid_.size : Int) j nf hip0 hip1 hj0 hj1
  have h2 : (e.grid_.size : Int) * nf = nf * (e.grid_.size : Int) := mul_comm _ _
  have h3 : (e.grid_.size : Int) * j = j * (e.grid_.size : Int) := mul_comm _ _
  omega

/-- The scalar inversion on a ready engine, whatever the scratch memory, the FFT work
arrays and the output buffer hold before the call: it raises nothing, changes no member of
the engine other than the FFT work arrays, and leaves `inversionValue` at every index of
`[0, nb_fields * grid.size())`. -/
theorem invtrans_value {R : Type} [Field R] (m : Collab R) (haveFFTW : Bool)
    (lons : Buf R) (cs sn : R → R) (tp : R) (nf : Int) (scalar_spectra : Buf R)
    (e : Engine R) (hready : InversionReady m haveFFTW e lons cs sn tp)
    (sc : Scratch R) (fi fo gp : Buf R) :
    (invtrans m haveFFTW sc nf scalar_spectra ⟨withWork e fi fo, gp⟩).err = none ∧
    withWork (invtrans m haveFFTW sc nf scalar_spectra
      ⟨withWork e fi fo, gp⟩).out.engine e.fft_in_ e.fft_out_ = e ∧
    ∀ k, 0 ≤ k → k < nf * (e.grid_.size : Int) →
      (invtrans m haveFFTW sc nf scalar_spectra ⟨withWork e fi fo, gp⟩).out.gp_fields k =
        inversionValue m e lons cs sn tp nf scalar_spectra k := by
  by_cases hnf : nf > 0
  swap
  · have h : invtrans m haveFFTW sc nf scalar_spectra ⟨withWork e fi fo, gp⟩ =
        { err := none, out := ⟨withWork e fi fo, gp⟩ } := by
      unfold invtrans invtrans_uv
      rw [if_neg hnf]
    rw [h]
    refine ⟨rfl, rfl, ?_⟩
    intro k hk0 hk1
    have : nf * (e.grid_.size : Int) ≤ 0 :=
      mul_nonpos_of_nonpos_of_nonneg (by omega) (by omega)
    omega
  unfold InversionReady at hready
  unfold inversionValue
  cases hgr : e.grid_ with
  | structured g =>
    rw [hgr] at hready
    obtain ⟨hT, hfr, hcov⟩ := hready
    have hgr2 : (withWork e fi fo).grid_ = Grid.structured g := hgr
    have hv := invtrans_uv_structured_value m haveFFTW sc g lons cs sn tp e.truncation_ nf 0
      scalar_spectra ⟨withWork e fi fo, gp⟩ hT hfr hcov hnf.le
    have h : invtrans m haveFFTW sc nf scalar_spectra ⟨withWork e fi fo, gp⟩ =
        invtrans_uv_structured m haveFFTW sc g e.truncation_ nf 0 scalar_spectra
          ⟨withWork e fi fo, gp⟩ := by
      unfold invtrans invtrans_uv
      rw [if_pos hnf]
      simp only [hgr2]
      rfl
    rw [h]
    have hen := congrArg (fun x : Engine R => withWork x e.fft_in_ e.fft_out_) hv.2.1
    refine ⟨hv.1, hen, ?_⟩
    intro k hk0 hk1
    have hsz : (Grid.structured g).size = g.size := rfl
    rw [hsz] at hk1
    have hk2 : k < nf * ((g.ny : Int) * (g.nxmax : Int)) :=
      lt_of_lt_of_le hk1 (mul_le_mul_of_nonneg_left (size_le_padded g) hnf.le)
    obtain ⟨jlon, jlat, jfld, a0, a1, b0, b1, c0, c1, rfl⟩ :=
      gp_pos_decompose (g.nxmax : Int) (g.ny : Int) nf k (by omega) (by omega) hk0 hk2
    dsimp only
    rw [hv.2.2 jlon jlat jfld a0 a1 b0 b1 c0 c1, if_neg (lt_irrefl 0),
      radix_emod jlon _ _ a0 a1, radix_ediv jlon _ _ a0 a1, radix_emod jlat _ _ b0 b1,
      radix_ediv jlat _ _ b0 b1]
    rfl
  | unstructured xy =>
    rw [hgr] at hready
    have hgr2 : (withWork e fi fo).grid_ = Grid.unstructured xy := hgr
    have hpre : (withWork e fi fo).unstruct_precomp_ = true := hready
    have h : invtrans m haveFFTW sc nf scalar_spectra ⟨withWork e fi fo, gp⟩ =
        { err := none
          out := ⟨withWork e fi fo,
            invtrans_unstructured_precomp m (withWork e fi fo) sc e.truncation_ nf 0
              scalar_spectra gp⟩ } := by
      unfold invtrans invtrans_uv
      rw [if_pos hnf]
      simp only [hgr2, hpre, if_true]
      rfl
    rw [h]
    refine ⟨rfl, rfl, ?_⟩
    intro k hk0 hk1
    have hsz : ((Grid.unstructured xy : Grid R).size : Int) = (xy.length : Int) := rfl
    rw [hsz] at hk1
    have hsz2 : ((withWork e fi fo).grid_.size : Int) = (xy.length : Int) := by rw [hgr2, hsz]
    have hpos : (0 : Int) < (xy.length : Int) := by
      rcases Nat.eq_zero_or_pos xy.length with h0 | h0
      · rw [h0] at hk1; simp at hk1; omega
      · exact_mod_cast h0
    have hval := invtrans_unstructured_precomp_value m (withWork e fi fo) sc e.truncation_ nf 0
      scalar_spectra gp hnf.le (k % (xy.length : Int)) (k / (xy.length : Int))
      (Int.emod_nonneg _ (by omega)) (by rw [hsz2]; exact Int.emod_lt_of_pos _ hpos)
      (Int.ediv_nonneg hk0 hpos.le) (Int.ediv_lt_of_lt_mul hpos hk1)
    rw [hsz2, show k % (xy.length : Int) + k / (xy.length : Int) * (xy.length : Int) = k by
      rw [mul_comm]; exact Int.emod_add_ediv k _] at hval
    dsimp only
    rw [hval]
    rfl

/-- Determinism of the inversion on a ready engine: the output is a function of the
spectral buffer and the tables of the engine. Two calls of `invtrans` with the same spectral buffer and field count on an
engine ready for inversion, started from any two contents of the output buffer, of the
scratch memory and of the FFT work arrays, both raise nothing and leave the same value at
every index of the output buffer `[0, nb_fields * grid.size())`; and a call leaves every
member of the engine other than the FFT work arrays as it was. -/
theorem invtrans_deterministic {R : Type} [Field R] (m : Collab R) (haveFFTW : Bool)
    (lons : Buf R) (cs sn : R → R) (tp : R) (nf : Int) (scalar_spectra : Buf R)
    (e : Engine R) (sc1 sc2 : Scratch R) (in1 out1 gp1 in2 out2 gp2 : Buf R)
    (hready : InversionReady m haveFFTW e lons cs sn tp) :
    (invtrans m haveFFTW sc1 nf scalar_spectra ⟨withWork e in1 out1, gp1⟩).err = none ∧
    (invtrans m haveFFTW sc2 nf scalar_spectra ⟨withWork e in2 out2, gp2⟩).err = none ∧
    (∀ k, 0 ≤ k → k < nf * (e.grid_.size : Int) →
      (invtrans m haveFFTW sc1 nf scalar_spectra ⟨withWork e in1 out1, gp1⟩).out.gp_fields k =
        (invtrans m haveFFTW sc2 nf scalar_spectra
          ⟨withWork e in2 out2, gp2⟩).out.gp_fields k) ∧
    withWork (invtrans m haveFFTW sc1 nf scalar_spectra
      ⟨withWork e in1 out1, gp1⟩).out.engine e.fft_in_ e.fft_out_ = e := by
  have k1 := invtrans_value m haveFFTW lons cs sn tp nf scalar_spectra e hready sc1 in1 out1 gp1
  have k2 := invtrans_value m haveFFTW lons cs sn tp nf scalar_spectra e hready sc2 in2 out2 gp2
  exact ⟨k1.1, k2.1, fun k h0 h1 => (k1.2.2 k h0 h1).trans (k2.2.2 k h0 h1).symm, k1.2.1⟩

/-- Determinism on the engine built with truncation 2 on the regular 2 x 2 grid, one field,
run once on memory full of zeros and once on memory full of ones. -/
theorem invtrans_deterministic_grid2x2 :
    (invtrans (onesCollab ℝ Real.cos Real.sin (Real.pi / 180)) false (constScratch ℝ 0) 1
      (fun i => if i = 6 then 1 else 0)
      ⟨withWork (constructStructured (onesCollab ℝ Real.cos Real.sin (Real.pi / 180)) false
        (constEngine ℝ 0) (grid2x2 ℝ) 2 true) (fun _ => 0) (fun _ => 0),
        fun _ => 0⟩).err = none ∧
    (invtrans (onesCollab ℝ Real.cos Real.sin (Real.pi / 180)) false (constScratch ℝ 1) 1
      (fun i => if i = 6 then 1 else 0)
      ⟨withWork (constructStructured (onesCollab ℝ Real.cos Real.sin (Real.pi / 180)) false
        (constEngine ℝ 0) (grid2x2 ℝ) 2 true) (fun _ => 1) (fun _ => 1),
        fun _ => 1⟩).err = none ∧
    (∀ k, 0 ≤ k →
      k < 1 * ((constructStructured (onesCollab ℝ Real.cos Real.sin (Real.pi / 180)) false
        (constEngine ℝ 0) (grid2x2 ℝ) 2 true).grid_.size : Int) →
      (invtrans (onesCollab ℝ Real.cos Real.sin (Real.pi / 180)) false (constScratch ℝ 0) 1
        (fun i => if i = 6 then 1 else 0)
        ⟨withWork (constructStructured (onesCollab ℝ Real.cos Real.sin (Real.pi / 180)) false
          (constEngine ℝ 0) (grid2x2 ℝ) 2 true) (fun _ => 0) (fun _ => 0),
          fun _ => 0⟩).out.gp_fields k =
        (invtrans (onesCollab ℝ Real.cos Real.sin (Real.pi / 180)) false (constScratch ℝ 1) 1
          (fun i => if i = 6 then 1 else 0)
          ⟨withWork (constructStructured (onesCollab ℝ Real.cos Real.sin (Real.pi / 180))
            false (constEngine ℝ 0) (grid2x2 ℝ) 2 true) (fun _ => 1) (fun _ => 1),
            fun _ => 1⟩).out.gp_fields k) ∧
    withWork (invtrans (onesCollab ℝ Real.cos Real.sin (Real.pi / 180)) false
        (constScratch ℝ 0) 1 (fun i => if i = 6 then 1 else 0)
        ⟨withWork (constructStructured (onesCollab ℝ Real.cos Real.sin (Real.pi / 180)) false
          (constEngine ℝ 0) (grid2x2 ℝ) 2 true) (fun _ => 0) (fun _ => 0),
          fun _ => 0⟩).out.engine
      (constructStructured (onesCollab ℝ Real.cos Real.sin (Real.pi / 180)) false
        (constEngine ℝ 0) (grid2x2 ℝ) 2 true).fft_in_
      (constructStructured (onesCollab ℝ Real.cos Real.sin (Real.pi / 180)) false
        (constEngine ℝ 0) (grid2x2 ℝ) 2 true).fft_out_ =
      constructStructured (onesCollab ℝ Real.cos Real.sin (Real.pi / 180)) false
        (constEngine ℝ 0) (grid2x2 ℝ) 2 true :=
  have hr := construct_grid2x2_ready (onesCollab ℝ Real.cos Real.sin (Real.pi / 180))
    (constEngine ℝ 0) 2
  invtrans_deterministic (onesCollab ℝ Real.cos Real.sin (Real.pi / 180)) false
    (gridLons (onesCollab ℝ Real.cos Real.sin (Real.pi / 180)) (grid2x2 ℝ))
    Real.cos Real.sin (2 * Real.pi) 1 (fun i => if i = 6 then 1 else 0)
    (constructStructured (onesCollab ℝ Real.cos Real.sin (Real.pi / 180)) false
      (constEngine ℝ 0) (grid2x2 ℝ) 2 true)
    (constScratch ℝ 0) (constScratch ℝ 1) (fun _ => 0) (fun _ => 0) (fun _ => 0)
    (fun _ => 1) (fun _ => 1) (fun _ => 1)
    (by
      unfold InversionReady
      rw [hr.1]
      refine ⟨by rw [hr.2.1]; norm_num, ?_, ?_⟩
      · unfold FourierReady
        rw [if_neg (by rw [hr.2.2.1]; simp)]
        exact ⟨constructStructured_denseTable _ false _ (grid2x2 ℝ) 2 true hr.2.2.1,
          by simp [onesCollab]⟩
      · have hy : ((grid2x2 ℝ).ny : Int) = 2 := by simp [grid2x2, StructuredGrid.ny]
        rw [hy]
        exact hr.2.2.2)

/-- C9 (code evaluated at the failing input): a structured grid with a projection, here
the 2 x 2 grid, in a build without FFT library. For every truncation the constructor takes
its branch for "every other grid" (line 109 tests
`grid::StructuredGrid( grid_ ) && not grid_.projection()`): it builds no table of the
structured path and never resizes the offset vectors `legendre_sym_begin_` and
`legendre_asym_begin_`, which keep 0 entries; yet the inversion takes the structured branch
(line 612 tests `grid::StructuredGrid g = grid_` only), whose Legendre stage indexes these
vectors at every `jm` in `[0, truncation_]` (line 397). At truncation -1 that loop has no
iteration, and with `useFFT_` still set the Fourier stage is compiled out: the call returns
with the output buffer as it was. For every spectral buffer, scratch memory and prior
contents `gp_fields` the output is `gp_fields`, so two calls with the same spectral input
on the same engine, started from different contents of the output buffer, give different
outputs. -/
theorem invtrans_projected_grid_keeps_output_buffer (m : Collab ℝ) (raw : Engine ℝ)
    (truncation : Int) (sc : Scratch ℝ) (nf : Int) (scalar_spectra gp_fields : Buf ℝ) :
    construct m false raw (Grid.structured (grid2x2Projected ℝ)) truncation true =
      Except.ok
        (constructUnstructured m raw (Grid.structured (grid2x2Projected ℝ)) truncation true) ∧
    (constructUnstructured m raw (Grid.structured (grid2x2Projected ℝ)) truncation
      true).legendre_begin_size = 0 ∧
    (0 < nf →
      invtrans m false sc nf scalar_spectra
          ⟨constructUnstructured m raw (Grid.structured (grid2x2Projected ℝ)) truncation true,
            gp_fields⟩ =
        invtrans_uv_structured m false sc (grid2x2Projected ℝ) truncation nf 0 scalar_spectra
          ⟨constructUnstructured m raw (Grid.structured (grid2x2Projected ℝ)) truncation true,
            gp_fields⟩) ∧
    (invtrans m false sc nf scalar_spectra
      ⟨constructUnstructured m raw (Grid.structured (grid2x2Projected ℝ)) (-1) true,
        gp_fields⟩).err = none ∧
    (invtrans m false sc nf scalar_spectra
      ⟨constructUnstructured m raw (Grid.structured (grid2x2Projected ℝ)) (-1) true,
        gp_fields⟩).out.gp_fields = gp_fields ∧
    (invtrans m false sc 1 scalar_spectra
      ⟨constructUnstructured m raw (Grid.structured (grid2x2Projected ℝ)) (-1) true,
        fun _ => 0⟩).out.gp_fields 0 ≠
      (invtrans m false sc 1 scalar_spectra
        ⟨constructUnstructured m raw (Grid.structured (grid2x2Projected ℝ)) (-1) true,
          fun _ => 1⟩).out.gp_fields 0 := by
  have hgr : ∀ t : Int, (constructUnstructured m raw (Grid.structured (grid2x2Projected ℝ)) t
      true).grid_ = Grid.structured (grid2x2Projected ℝ) := by
    intro t
    simp [constructUnstructured, constructInit]
  have key : ∀ (nf : Int) (gp : Buf ℝ),
      (invtrans m false sc nf scalar_spectra
        ⟨constructUnstructured m raw (Grid.structured (grid2x2Projected ℝ)) (-1) true,
          gp⟩).err = none ∧
      (invtrans m false sc nf scalar_spectra
        ⟨constructUnstructured m raw (Grid.structured (grid2x2Projected ℝ)) (-1) true,
          gp⟩).out.gp_fields = gp := by
    intro nf gp
    have hfft : (constructUnstructured m raw (Grid.structured (grid2x2Projected ℝ)) (-1)
        true).useFFT_ = true := by
      simp [constructUnstructured, constructInit]
    have hT : (constructUnstructured m raw (Grid.structured (grid2x2Projected ℝ)) (-1)
        true).truncation_ = -1 := by
      simp [constructUnstructured, constructInit]
    by_cases hnf : nf > 0
    · unfold invtrans invtrans_uv
      rw [if_pos hnf]
      simp only [hgr]
      unfold invtrans_uv_structured invtrans_legendreopt3
      simp only [hT, hfft, if_true, Bool.false_eq_true, if_false]
      have h0 : forUp (-1 + 1)
          (fun jm (r : Except TransError (Buf ℝ)) =>
            r.bind (legendreStep
              (constructUnstructured m raw (Grid.structured (grid2x2Projected ℝ)) (-1) true)
              sc (-1) ((grid2x2Projected ℝ).ny : Int) nf scalar_spectra jm))
          (Except.ok sc.scl_fourier) = Except.ok sc.scl_fourier :=
        forUp_of_nonpos _ _ _ (by norm_num)
      simp only [h0]
      refine ⟨trivial, ?_⟩
      unfold windRecovery
      rw [if_neg (lt_irrefl 0)]
    · unfold invtrans invtrans_uv
      rw [if_neg hnf]
      exact ⟨rfl, rfl⟩
  refine ⟨by simp [construct, grid2x2Projected],
    by simp [constructUnstructured, constructInit], ?_, (key nf gp_fields).1,
    (key nf gp_fields).2, ?_⟩
  · intro hnf
    unfold invtrans invtrans_uv
    rw [if_pos hnf]
    simp only [hgr]
    simp [constructUnstructured, constructInit]
  · rw [(key 1 (fun _ => 0)).2, (key 1 (fun _ => 1)).2]
    norm_num

/-! ## C10: the regions of the combined inversion -/

/-- A call of `invtrans_uv` leaves the grid of the engine as it is. -/
theorem invtrans_uv_grid {R : Type} [Field R] (m : Collab R) (haveFFTW : Bool)
    (sc : Scratch R) (truncation nf nbv : Int) (scalar_spectra : Buf R) (s : CallState R) :
    (invtrans_uv m haveFFTW sc truncation nf nbv scalar_spectra s).out.engine.grid_ =
      s.engine.grid_ := by
  unfold invtrans_uv
  by_cases hnf : nf > 0
  · rw [if_pos hnf]
    cases hgr : s.engine.grid_ with
    | structured g =>
      simp only
      unfold invtrans_uv_structured
      simp only
      cases invtrans_legendreopt3 s.engine sc truncation (g.ny : Int) nf scalar_spectra
        sc.scl_fourier with
      | error err => exact hgr
      | ok scl =>
        simp only
        by_cases hfft : s.engine.useFFT_ = true
        · rw [if_pos hfft]
          by_cases hw : haveFFTW = true
          · rw [if_pos hw]; exact hgr
          · rw [if_neg hw]; exact hgr
        · rw [if_neg hfft]
          by_cases hm1 : s.engine.dgemmMethod1_ = true
          · rw [if_pos hm1]; exact hgr
          · rw [if_neg hm1]; exact hgr
    | unstructured xy =>
      simp only
      by_cases hp : s.engine.unstruct_precomp_ = true
      · rw [if_pos hp]; exact hgr
      · rw [if_neg hp]; exact hgr
  · rw [if_neg hnf]

/-- On an unpadded grid a call of `invtrans_uv` changes no entry of `gp_fields` outside
`[0, nb_scalar_fields * grid.size())`. -/
theorem invtrans_uv_frame {R : Type} [Field R] (m : Collab R) (haveFFTW : Bool)
    (sc : Scratch R) (truncation nf nbv : Int) (scalar_spectra : Buf R) (s : CallState R)
    (hgrid : s.engine.grid_.unpadded) (k : Int)
    (hk : k < 0 ∨ nf * (s.engine.grid_.size : Int) ≤ k) :
    (invtrans_uv m haveFFTW sc truncation nf nbv scalar_spectra s).out.gp_fields k =
      s.gp_fields k := by
  unfold invtrans_uv
  by_cases hnf : nf > 0
  · rw [if_pos hnf]
    cases hgr : s.engine.grid_ with
    | structured g =>
      simp only
      rw [hgr] at hgrid hk
      apply invtrans_uv_structured_frame
      have hsz : ((Grid.structured g).size : Int) = (g.size : Int) := rfl
      rw [hsz, regular_size g hgrid] at hk
      exact hk
    | unstructured xy =>
      simp only
      by_cases hp : s.engine.unstruct_precomp_ = true
      · rw [if_pos hp]
        exact invtrans_unstructured_precomp_frame m s.engine sc truncation nf nbv
          scalar_spectra s.gp_fields k hk
      · rw [if_neg hp]
        exact invtrans_unstructured_frame m s.engine sc truncation nf nbv
          scalar_spectra s.gp_fields k hk
  · rw [if_neg hnf]

/-- A call of `invtrans_uv` on the pointer `gp_fields + off` leaves the grid of the engine
as it is. -/
theorem invtrans_uv_at_grid {R : Type} [Field R] (m : Collab R) (haveFFTW : Bool)
    (sc : Scratch R) (truncation nf nbv : Int) (scalar_spectra : Buf R) (off : Int)
    (s : CallState R) :
    (invtrans_uv_at m haveFFTW sc truncation nf nbv scalar_spectra off s).out.engine.grid_ =
      s.engine.grid_ := by
  unfold invtrans_uv_at
  exact invtrans_uv_grid m haveFFTW sc truncation nf nbv scalar_spectra _

/-- On an unpadded grid a call of `invtrans_uv` on the pointer `gp_fields + off` changes no
entry of `gp_fields` outside `[off, off + nb_scalar_fields * grid.size())`. -/
theorem invtrans_uv_at_frame {R : Type} [Field R] (m : Collab R) (haveFFTW : Bool)
    (sc : Scratch R) (truncation nf nbv : Int) (scalar_spectra : Buf R) (off : Int)
    (s : CallState R) (hgrid : s.engine.grid_.unpadded) (k : Int)
    (hk : k < off ∨ off + nf * (s.engine.grid_.size : Int) ≤ k) :
    (invtrans_uv_at m haveFFTW sc truncation nf nbv scalar_spectra off s).out.gp_fields k =
      s.gp_fields k := by
  unfold invtrans_uv_at
  dsimp only
  rw [invtrans_uv_frame m haveFFTW sc truncation nf nbv scalar_spectra
    { s with gp_fields := s.gp_fields.shift off } hgrid (k - off)
    (by rcases hk with h | h
        · left; omega
        · right; show nf * (s.engine.grid_.size : Int) ≤ k - off; omega)]
  show s.gp_fields (off + (k - off)) = s.gp_fields k
  congr 1
  ring

/-- A property of the output arguments that the first call establishes and the second call
keeps holds after the sequence of the two calls. -/
theorem andThen_keep {σ : Type} (P : σ → Prop) (o : Outcome σ) (f : σ → Outcome σ)
    (ho : P o.out) (hf : ∀ s0, P s0 → P (f s0).out) : P (o.andThen f).out := by
  unfold Outcome.andThen
  cases o.err with
  | some err => exact ho
  | none => exact hf o.out ho

/-- Regions of the combined inversion on an unpadded grid (a regular structured grid or an
unstructured grid), where the layout of C10 holds, with `nb_gp = grid.size()`,
`v = nb_vordiv_fields >= 0` and `s = nb_scalar_fields >= 0`. The combined call is, when
`v > 0`, one call of `invtrans_uv` on the U pseudo-spectra at truncation `truncation_ + 1`
with `nb_vordiv_fields = v` on `gp_fields`, then one on the V pseudo-spectra on
`gp_fields + nb_gp * v`, and, when `s > 0`, one call at truncation `truncation_` with
`nb_vordiv_fields = 0` on `gp_fields + 2 * nb_gp * v`. The U call changes no entry outside
`[0, v * nb_gp)`, the V call none outside `[v * nb_gp, 2 * v * nb_gp)`, the scalar call none
outside `[2 * v * nb_gp, (2 * v + s) * nb_gp)`; the three regions follow one another, so
they are pairwise disjoint; and the combined call changes no entry outside
`[0, (2 * v + s) * nb_gp)`. -/
theorem invtrans_combined_regions {R : Type} [Field R] (m : Collab R) (haveFFTW : Bool)
    (scU scV scS : Scratch R) (ns : Int) (scalar_spectra : Buf R) (v : Int)
    (vorticity_spectra divergence_spectra : Buf R) (s : CallState R)
    (hgrid : s.engine.grid_.unpadded) (hv : 0 ≤ v) (hns : 0 ≤ ns) :
    invtrans_combined m haveFFTW scU scV scS ns scalar_spectra v vorticity_spectra
        divergence_spectra s =
      ((if v > 0 then
          (invtrans_uv m haveFFTW scU (s.engine.truncation_ + 1) v v
            (windSpectra m s.engine v vorticity_spectra divergence_spectra).1 s).andThen
            (invtrans_uv_at m haveFFTW scV (s.engine.truncation_ + 1) v v
              (windSpectra m s.engine v vorticity_spectra divergence_spectra).2
              ((s.engine.grid_.size : Int) * v))
        else { err := none, out := s }).andThen fun s1 =>
        if ns > 0 then
          invtrans_uv_at m haveFFTW scS s.engine.truncation_ ns 0 scalar_spectra
            (2 * (s.engine.grid_.size : Int) * v) s1
        else { err := none, out := s1 }) ∧
    (∀ (s0 : CallState R) (k : Int), s0.engine.grid_ = s.engine.grid_ →
      (k < 0 ∨ v * (s.engine.grid_.size : Int) ≤ k) →
      (invtrans_uv m haveFFTW scU (s.engine.truncation_ + 1) v v
        (windSpectra m s.engine v vorticity_spectra divergence_spectra).1 s0).out.gp_fields k =
        s0.gp_fields k) ∧
    (∀ (s0 : CallState R) (k : Int), s0.engine.grid_ = s.engine.grid_ →
      (k < v * (s.engine.grid_.size : Int) ∨ 2 * v * (s.engine.grid_.size : Int) ≤ k) →
      (invtrans_uv_at m haveFFTW scV (s.engine.truncation_ + 1) v v
        (windSpectra m s.engine v vorticity_spectra divergence_spectra).2
        ((s.engine.grid_.size : Int) * v) s0).out.gp_fields k = s0.gp_fields k) ∧
    (∀ (s0 : CallState R) (k : Int), s0.engine.grid_ = s.engine.grid_ →
      (k < 2 * v * (s.engine.grid_.size : Int) ∨
        (2 * v + ns) * (s.engine.grid_.size : Int) ≤ k) →
      (invtrans_uv_at m haveFFTW scS s.engine.truncation_ ns 0 scalar_spectra
        (2 * (s.engine.grid_.size : Int) * v) s0).out.gp_fields k = s0.gp_fields k) ∧
    (0 ≤ v * (s.engine.grid_.size : Int) ∧
      v * (s.engine.grid_.size : Int) ≤ 2 * v * (s.engine.grid_.size : Int) ∧
      2 * v * (s.engine.grid_.size : Int) ≤ (2 * v + ns) * (s.engine.grid_.size : Int)) ∧
    (∀ k : Int, (k < 0 ∨ (2 * v + ns) * (s.engine.grid_.size : Int) ≤ k) →
      (invtrans_combined m haveFFTW scU scV scS ns scalar_spectra v vorticity_spectra
        divergence_spectra s).out.gp_fields k = s.gp_fields k) := by
  have hsz : (0 : Int) ≤ (s.engine.grid_.size : Int) := by omega
  have hvn : 0 ≤ v * (s.engine.grid_.size : Int) := mul_nonneg hv hsz
  have hnn : 0 ≤ ns * (s.engine.grid_.size : Int) := mul_nonneg hns hsz
  have e1 : 2 * v * (s.engine.grid_.size : Int) = 2 * (v * (s.engine.grid_.size : Int)) := by
    ring
  have e2 : (2 * v + ns) * (s.engine.grid_.size : Int) =
      2 * (v * (s.engine.grid_.size : Int)) + ns * (s.engine.grid_.size : Int) := by ring
  have e3 : (s.engine.grid_.size : Int) * v = v * (s.engine.grid_.size : Int) := mul_comm _ _
  have e4 : 2 * (s.engine.grid_.size : Int) * v = 2 * (v * (s.engine.grid_.size : Int)) := by
    ring
  have hU : ∀ (s0 : CallState R) (k : Int), s0.engine.grid_ = s.engine.grid_ →
      (k < 0 ∨ v * (s.engine.grid_.size : Int) ≤ k) →
      (invtrans_uv m haveFFTW scU (s.engine.truncation_ + 1) v v
        (windSpectra m s.engine v vorticity_spectra divergence_spectra).1 s0).out.gp_fields k =
        s0.gp_fields k := by
    intro s0 k hg hk
    exact invtrans_uv_frame m haveFFTW scU _ v v _ s0 (by rw [hg]; exact hgrid) k
      (by rw [hg]; exact hk)
  have hV : ∀ (s0 : CallState R) (k : Int), s0.engine.grid_ = s.engine.grid_ →
      (k < v * (s.engine.grid_.size : Int) ∨ 2 * v * (s.engine.grid_.size : Int) ≤ k) →
      (invtrans_uv_at m haveFFTW scV (s.engine.truncation_ + 1) v v
        (windSpectra m s.engine v vorticity_spectra divergence_spectra).2
        ((s.engine.grid_.size : Int) * v) s0).out.gp_fields k = s0.gp_fields k := by
    intro s0 k hg hk
    exact invtrans_uv_at_frame m haveFFTW scV _ v v _ _ s0 (by rw [hg]; exact hgrid) k
      (by rw [hg]; omega)
  have hS : ∀ (s0 : CallState R) (k : Int), s0.engine.grid_ = s.engine.grid_ →
      (k < 2 * v * (s.engine.grid_.size : Int) ∨
        (2 * v + ns) * (s.engine.grid_.size : Int) ≤ k) →
      (invtrans_uv_at m haveFFTW scS s.engine.truncation_ ns 0 scalar_spectra
        (2 * (s.engine.grid_.size : Int) * v) s0).out.gp_fields k = s0.gp_fields k := by
    intro s0 k hg hk
    exact invtrans_uv_at_frame m haveFFTW scS _ ns 0 _ _ s0 (by rw [hg]; exact hgrid) k
      (by rw [hg]; omega)
  have hdec : invtrans_combined m haveFFTW scU scV scS ns scalar_spectra v vorticity_spectra
        divergence_spectra s =
      ((if v > 0 then
          (invtrans_uv m haveFFTW scU (s.engine.truncation_ + 1) v v
            (windSpectra m s.engine v vorticity_spectra divergence_spectra).1 s).andThen
            (invtrans_uv_at m haveFFTW scV (s.engine.truncation_ + 1) v v
              (windSpectra m s.engine v vorticity_spectra divergence_spectra).2
              ((s.engine.grid_.size : Int) * v))
        else { err := none, out := s }).andThen fun s1 =>
        if ns > 0 then
          invtrans_uv_at m haveFFTW scS s.engine.truncation_ ns 0 scalar_spectra
            (2 * (s.engine.grid_.size : Int) * v) s1
        else { err := none, out := s1 }) := rfl
  refine ⟨hdec, hU, hV, hS, ⟨hvn, by omega, by omega⟩, ?_⟩
  intro k hk
  rw [hdec]
  have key := andThen_keep
    (fun s0 : CallState R => s0.engine.grid_ = s.engine.grid_ ∧ s0.gp_fields k = s.gp_fields k)
    (if v > 0 then
      (invtrans_uv m haveFFTW scU (s.engine.truncation_ + 1) v v
        (windSpectra m s.engine v vorticity_spectra divergence_spectra).1 s).andThen
        (invtrans_uv_at m haveFFTW scV (s.engine.truncation_ + 1) v v
          (windSpectra m s.engine v vorticity_spectra divergence_spectra).2
          ((s.engine.grid_.size : Int) * v))
      else { err := none, out := s })
    (fun s1 =>
      if ns > 0 then
        invtrans_uv_at m haveFFTW scS s.engine.truncation_ ns 0 scalar_spectra
          (2 * (s.engine.grid_.size : Int) * v) s1
      else { err := none, out := s1 })
    (by
      by_cases hv1 : v > 0
      · rw [if_pos hv1]
        apply andThen_keep
          (fun s0 : CallState R =>
            s0.engine.grid_ = s.engine.grid_ ∧ s0.gp_fields k = s.gp_fields k)
        · exact ⟨invtrans_uv_grid m haveFFTW scU _ v v _ s, hU s k rfl (by omega)⟩
        · intro s0 h0
          exact ⟨(invtrans_uv_at_grid m haveFFTW scV _ v v _ _ s0).trans h0.1,
            (hV s0 k h0.1 (by omega)).trans h0.2⟩
      · rw [if_neg hv1]
        exact ⟨rfl, rfl⟩)
    (by
      intro s0 h0
      dsimp only
      by_cases hn1 : ns > 0
      · rw [if_pos hn1]
        exact ⟨(invtrans_uv_at_grid m haveFFTW scS _ ns 0 _ _ s0).trans h0.1,
          (hS s0 k h0.1 (by omega)).trans h0.2⟩
      · rw [if_neg hn1]
        exact h0)
  exact key.2

/-- A property that every iteration keeps holds after the loop. -/
theorem forUp_keep {σ : Type} (P : σ → Prop) (n : Int) (body : Int → σ → σ) (s : σ)
    (h0 : P s) (hstep : ∀ j t, P t → P (body j t)) : P (forUp n body s) :=
  forUp_induction (fun _ t => P t) n body s h0 (fun j t _ _ ih => hstep j t ih)

/-- Extending spectra that are all 0 gives spectra that are all 0. -/
theorem extend_truncationopt3_zero {R : Type} [Field R] (old_truncation nb_fields : Int) :
    extend_truncationopt3 old_truncation nb_fields (fun _ => (0 : R)) (fun _ => 0) =
      fun _ => 0 := by
  unfold extend_truncationopt3
  apply forUp_keep (fun s : ExtendState R => s.new_spectra = fun _ => 0)
  · rfl
  · intro mm s1 h1
    rw [forFrom_eq_forUp]
    apply forUp_keep (fun s : ExtendState R => s.new_spectra = fun _ => 0) _ _ _ h1
    intro n s2 h2
    apply forUp_keep (fun s : ExtendState R => s.new_spectra = fun _ => 0) _ _ _ h2
    intro imag s3 h3
    apply forUp_keep (fun s : ExtendState R => s.new_spectra = fun _ => 0) _ _ _ h3
    intro jfld s4 h4
    split_ifs
    · show Function.update s4.new_spectra s4.k 0 = fun _ => 0
      rw [h4]
      funext i
      simp [Function.update_apply]
    · show Function.update s4.new_spectra s4.k 0 = fun _ => 0
      rw [h4]
      funext i
      simp [Function.update_apply]

/-- The value of the structured inversion with a dense Fourier stage is 0 when the
spectral buffer is all 0. -/
theorem structuredValue_zero {R : Type} [Field R] (m : Collab R) (e : Engine R) (lons : Buf R)
    (truncation nlats nf : Int) (jlon jlat jfld : Int) :
    structuredValue m e lons truncation nlats nf (fun _ => 0) jlon jlat jfld = 0 := by
  unfold structuredValue
  apply Finset.sum_eq_zero
  intro jm _
  apply Finset.sum_eq_zero
  intro imag _
  have hs := fun col => symPart_eq_zero e truncation nf (fun _ => (0 : R)) (jm : Int)
    (imag : Int) jfld col (fun _ _ _ _ => rfl)
  have ha := fun col => asymPart_eq_zero e truncation nf (fun _ => (0 : R)) (jm : Int)
    (imag : Int) jfld col (fun _ _ _ _ => rfl)
  unfold fourierCoef
  split_ifs <;> rw [hs, ha] <;> simp

/-- A call of `invtrans_uv` with at least one field on a structured grid with a dense
Fourier stage: it raises nothing, leaves the engine as it is and leaves the structured value
at the position of `(jlon, jlat, jfld)`, divided by the cosine of the latitude of the row
when `nb_vordiv_fields > 0`. -/
theorem invtrans_uv_dense {R : Type} [Field R] (m : Collab R) (haveFFTW : Bool)
    (sc : Scratch R) (g : StructuredGrid R) (lons : Buf R)
    (truncation nf nbv : Int) (scalar_spectra : Buf R) (s : CallState R)
    (hg : s.engine.grid_ = Grid.structured g)
    (hT : 0 ≤ s.engine.truncation_) (hfft : s.engine.useFFT_ = false)
    (htab : DenseTable m s.engine (g.nxmax : Int) lons) (hsin : m.sin 0 = 0)
    (hcov : HemispheresCover s.engine (g.ny : Int)) (hnf : 0 < nf) :
    (invtrans_uv m haveFFTW sc truncation nf nbv scalar_spectra s).err = none ∧
    (invtrans_uv m haveFFTW sc truncation nf nbv scalar_spectra s).out.engine = s.engine ∧
    ∀ jlon jlat jfld, 0 ≤ jlon → jlon < (g.nxmax : Int) → 0 ≤ jlat → jlat < (g.ny : Int) →
      0 ≤ jfld → jfld < nf →
      (invtrans_uv m haveFFTW sc truncation nf nbv scalar_spectra s).out.gp_fields
          (jlon + (g.nxmax : Int) * (jlat + (g.ny : Int) * jfld)) =
        if nbv > 0 then
          structuredValue m s.engine lons truncation (g.ny : Int) nf scalar_spectra
            jlon jlat jfld / m.cos (g.y jlat * m.degreesToRadians)
        else
          structuredValue m s.engine lons truncation (g.ny : Int) nf scalar_spectra
            jlon jlat jfld := by
  have h : invtrans_uv m haveFFTW sc truncation nf nbv scalar_spectra s =
      invtrans_uv_structured m haveFFTW sc g truncation nf nbv scalar_spectra s := by
    unfold invtrans_uv
    rw [if_pos hnf]
    simp only [hg]
  rw [h]
  exact invtrans_uv_structured_dense m haveFFTW sc g lons truncation nf nbv scalar_spectra s
    hT hfft htab hsin hcov hnf.le

/-- A call of `invtrans_uv` on the pointer `gp_fields + off`, with at least one field, on a
structured grid with a dense Fourier stage: as `invtrans_uv_dense`, the position of
`(jlon, jlat, jfld)` being `off + jlon + nxmax * (jlat + ny * jfld)`. -/
theorem invtrans_uv_at_dense {R : Type} [Field R] (m : Collab R) (haveFFTW : Bool)
    (sc : Scratch R) (g : StructuredGrid R) (lons : Buf R)
    (truncation nf nbv : Int) (scalar_spectra : Buf R) (off : Int) (s : CallState R)
    (hg : s.engine.grid_ = Grid.structured g)
    (hT : 0 ≤ s.engine.truncation_) (hfft : s.engine.useFFT_ = false)
    (htab : DenseTable m s.engine (g.nxmax : Int) lons) (hsin : m.sin 0 = 0)
    (hcov : HemispheresCover s.engine (g.ny : Int)) (hnf : 0 < nf) :
    (invtrans_uv_at m haveFFTW sc truncation nf nbv scalar_spectra off s).err = none ∧
    (invtrans_uv_at m haveFFTW sc truncation nf nbv scalar_spectra off s).out.engine =
      s.engine ∧
    ∀ jlon jlat jfld, 0 ≤ jlon → jlon < (g.nxmax : Int) → 0 ≤ jlat → jlat < (g.ny : Int) →
      0 ≤ jfld → jfld < nf →
      (invtrans_uv_at m haveFFTW sc truncation nf nbv scalar_spectra off s).out.gp_fields
          (off + (jlon + (g.nxmax : Int) * (jlat + (g.ny : Int) * jfld))) =
        if nbv > 0 then
          structuredValue m s.engine lons truncation (g.ny : Int) nf scalar_spectra
            jlon jlat jfld / m.cos (g.y jlat * m.degreesToRadians)
        else
          structuredValue m s.engine lons truncation (g.ny : Int) nf scalar_spectra
            jlon jlat jfld := by
  have hd := invtrans_uv_dense m haveFFTW sc g lons truncation nf nbv scalar_spectra
    { s with gp_fields := s.gp_fields.shift off } hg hT hfft htab hsin hcov hnf
  unfold invtrans_uv_at
  refine ⟨hd.1, hd.2.1, ?_⟩
  intro jlon jlat jfld h0 h1 h2 h3 h4 h5
  dsimp only
  rw [show off + (jlon + (g.nxmax : Int) * (jlat + (g.ny : Int) * jfld)) - off =
    jlon + (g.nxmax : Int) * (jlat + (g.ny : Int) * jfld) by ring]
  exact hd.2.2 jlon jlat jfld h0 h1 h2 h3 h4 h5

/-- A sequence whose second call does nothing is the first call. -/
theorem andThen_done {σ : Type} (o : Outcome σ) :
    (o.andThen fun s1 => { err := none, out := s1 }) = o := by
  cases o with
  | mk err out =>
    cases err with
    | none => rfl
    | some e => rfl

/-- C10 (code evaluated at the failing input): a sub-inversion of the combined `invtrans`
overruns its region and the output buffer on a reduced grid. The regions are laid out with
`nb_gp = grid_.size()` (lines 765, 790-796) while each structured sub-inversion writes
`ny * nxmax` entries per field. The input is the reduced grid with rows of 1 and 2
longitudes (`nb_gp = grid.size() = 3`, `nxmax = 2`), truncation 0, and the combined
inversion with `nb_vordiv_fields = 1`, `nb_scalar_fields = 0` and spectra that are all 0.
The V sub-inversion runs on `gp_fields + 3` and writes the `ny * nxmax = 4` entries of its padded
rows: index `6 = 3 + (1 + 2 * (1 + 2 * 0))`, which lies outside its region `[3, 6)` and
outside `[0, (2 * 1 + 0) * 3)`, held 1 before the call and holds 0 after it. -/
theorem invtrans_combined_reduced_grid_overruns_region :
    (2 * 1 + 0) * ((constructStructured (onesCollab ℝ Real.cos Real.sin (Real.pi / 180)) false
        (constEngine ℝ 0) (gridReduced ℝ) 0 true).grid_.size : Int) ≤ 6 ∧
    (invtrans_combined (onesCollab ℝ Real.cos Real.sin (Real.pi / 180)) false
      (constScratch ℝ 0) (constScratch ℝ 0) (constScratch ℝ 0) 0 (fun _ => 0) 1
      (fun _ => 0) (fun _ => 0)
      ⟨constructStructured (onesCollab ℝ Real.cos Real.sin (Real.pi / 180)) false
        (constEngine ℝ 0) (gridReduced ℝ) 0 true, fun _ => 1⟩).out.gp_fields 6 = 0 ∧
    (fun _ => (1 : ℝ)) (6 : Int) ≠ 0 := by
  have hr := construct_gridReduced_ready (onesCollab ℝ Real.cos Real.sin (Real.pi / 180))
    (constEngine ℝ 0) 0
  have hx : ((gridReduced ℝ).nxmax : Int) = 2 := by simp [gridReduced, StructuredGrid.nxmax]
  have hy : ((gridReduced ℝ).ny : Int) = 2 := by simp [gridReduced, StructuredGrid.ny]
  have hsz : ((constructStructured (onesCollab ℝ Real.cos Real.sin (Real.pi / 180)) false
      (constEngine ℝ 0) (gridReduced ℝ) 0 true).grid_.size : Int) = 3 := by
    rw [hr.1]
    simp [Grid.size, StructuredGrid.size, gridReduced]
  have htab := constructStructured_denseTable
    (onesCollab ℝ Real.cos Real.sin (Real.pi / 180)) false (constEngine ℝ 0) (gridReduced ℝ)
    0 true hr.2.2.1
  have hsin : (onesCollab ℝ Real.cos Real.sin (Real.pi / 180)).sin 0 = 0 := by
    simp [onesCollab]
  have hT : (0 : Int) ≤ (constructStructured (onesCollab ℝ Real.cos Real.sin (Real.pi / 180))
      false (constEngine ℝ 0) (gridReduced ℝ) 0 true).truncation_ := by
    rw [hr.2.1]
  have hcov : HemispheresCover (constructStructured
      (onesCollab ℝ Real.cos Real.sin (Real.pi / 180)) false (constEngine ℝ 0)
      (gridReduced ℝ) 0 true) ((gridReduced ℝ).ny : Int) := by
    rw [hy]; exact hr.2.2.2
  refine ⟨by rw [hsz]; norm_num, ?_, by norm_num⟩
  have hUV : windSpectra (onesCollab ℝ Real.cos Real.sin (Real.pi / 180))
      (constructStructured (onesCollab ℝ Real.cos Real.sin (Real.pi / 180)) false
        (constEngine ℝ 0) (gridReduced ℝ) 0 true) 1 (fun _ => 0) (fun _ => 0) =
      (fun _ => 0, fun _ => 0) := by
    unfold windSpectra
    rw [extend_truncationopt3_zero]
    rfl
  have hdec : invtrans_combined (onesCollab ℝ Real.cos Real.sin (Real.pi / 180)) false
      (constScratch ℝ 0) (constScratch ℝ 0) (constScratch ℝ 0) 0 (fun _ => 0) 1
      (fun _ => 0) (fun _ => 0)
      ⟨constructStructured (onesCollab ℝ Real.cos Real.sin (Real.pi / 180)) false
        (constEngine ℝ 0) (gridReduced ℝ) 0 true, fun _ => 1⟩ =
      (invtrans_uv (onesCollab ℝ Real.cos Real.sin (Real.pi / 180)) false (constScratch ℝ 0)
        ((constructStructured (onesCollab ℝ Real.cos Real.sin (Real.pi / 180)) false
          (constEngine ℝ 0) (gridReduced ℝ) 0 true).truncation_ + 1) 1 1 (fun _ => 0)
        ⟨constructStructured (onesCollab ℝ Real.cos Real.sin (Real.pi / 180)) false
          (constEngine ℝ 0) (gridReduced ℝ) 0 true, fun _ => 1⟩).andThen
        (invtrans_uv_at (onesCollab ℝ Real.cos Real.sin (Real.pi / 180)) false
          (constScratch ℝ 0)
          ((constructStructured (onesCollab ℝ Real.cos Real.sin (Real.pi / 180)) false
            (constEngine ℝ 0) (gridReduced ℝ) 0 true).truncation_ + 1) 1 1 (fun _ => 0) 3) := by
    have h0 : invtrans_combined (onesCollab ℝ Real.cos Real.sin (Real.pi / 180)) false
        (constScratch ℝ 0) (constScratch ℝ 0) (constScratch ℝ 0) 0 (fun _ => 0) 1
        (fun _ => 0) (fun _ => 0)
        ⟨constructStructured (onesCollab ℝ Real.cos Real.sin (Real.pi / 180)) false
          (constEngine ℝ 0) (gridReduced ℝ) 0 true, fun _ => 1⟩ =
        ((if (1 : Int) > 0 then
          (invtrans_uv (onesCollab ℝ Real.cos Real.sin (Real.pi / 180)) false
            (constScratch ℝ 0)
            ((constructStructured (onesCollab ℝ Real.cos Real.sin (Real.pi / 180)) false
              (constEngine ℝ 0) (gridReduced ℝ) 0 true).truncation_ + 1) 1 1
            (windSpectra (onesCollab ℝ Real.cos Real.sin (Real.pi / 180))
              (constructStructured (onesCollab ℝ Real.cos Real.sin (Real.pi / 180)) false
                (constEngine ℝ 0) (gridReduced ℝ) 0 true) 1 (fun _ => 0) (fun _ => 0)).1
            ⟨constructStructured (onesCollab ℝ Real.cos Real.sin (Real.pi / 180)) false
              (constEngine ℝ 0) (gridReduced ℝ) 0 true, fun _ => 1⟩).andThen
            (invtrans_uv_at (onesCollab ℝ Real.cos Real.sin (Real.pi / 180)) false
              (constScratch ℝ 0)
              ((constructStructured (onesCollab ℝ Real.cos Real.sin (Real.pi / 180)) false
                (constEngine ℝ 0) (gridReduced ℝ) 0 true).truncation_ + 1) 1 1
              (windSpectra (onesCollab ℝ Real.cos Real.sin (Real.pi / 180))
                (constructStructured (onesCollab ℝ Real.cos Real.sin (Real.pi / 180)) false
                  (constEngine ℝ 0) (gridReduced ℝ) 0 true) 1 (fun _ => 0) (fun _ => 0)).2
              (((constructStructured (onesCollab ℝ Real.cos Real.sin (Real.pi / 180)) false
                (constEngine ℝ 0) (gridReduced ℝ) 0 true).grid_.size : Int) * 1))
          else { err := none
                 out := ⟨constructStructured (onesCollab ℝ Real.cos Real.sin (Real.pi / 180))
                   false (constEngine ℝ 0) (gridReduced ℝ) 0 true, fun _ => 1⟩ }).andThen
          fun s1 =>
            if (0 : Int) > 0 then
              invtrans_uv_at (onesCollab ℝ Real.cos Real.sin (Real.pi / 180)) false
                (constScratch ℝ 0)
                (constructStructured (onesCollab ℝ Real.cos Real.sin (Real.pi / 180)) false
                  (constEngine ℝ 0) (gridReduced ℝ) 0 true).truncation_ 0 0 (fun _ => 0)
                (2 * ((constructStructured (onesCollab ℝ Real.cos Real.sin (Real.pi / 180))
                  false (constEngine ℝ 0) (gridReduced ℝ) 0 true).grid_.size : Int) * 1) s1
            else { err := none, out := s1 }) := rfl
    rw [h0, if_pos (by norm_num), hUV, hsz]
    simp only [gt_iff_lt, lt_self_iff_false, if_false, mul_one]
    exact andThen_done _
  rw [hdec]
  have hU := invtrans_uv_dense (onesCollab ℝ Real.cos Real.sin (Real.pi / 180)) false
    (constScratch ℝ 0) (gridReduced ℝ)
    (gridLons (onesCollab ℝ Real.cos Real.sin (Real.pi / 180)) (gridReduced ℝ))
    ((constructStructured (onesCollab ℝ Real.cos Real.sin (Real.pi / 180)) false
      (constEngine ℝ 0) (gridReduced ℝ) 0 true).truncation_ + 1) 1 1 (fun _ => 0)
    ⟨constructStructured (onesCollab ℝ Real.cos Real.sin (Real.pi / 180)) false
      (constEngine ℝ 0) (gridReduced ℝ) 0 true, fun _ => 1⟩
    hr.1 hT hr.2.2.1 htab hsin hcov (by norm_num)
  unfold Outcome.andThen
  rw [hU.1]
  dsimp only
  have hV := invtrans_uv_at_dense (onesCollab ℝ Real.cos Real.sin (Real.pi / 180)) false
    (constScratch ℝ 0) (gridReduced ℝ)
    (gridLons (onesCollab ℝ Real.cos Real.sin (Real.pi / 180)) (gridReduced ℝ))
    ((constructStructured (onesCollab ℝ Real.cos Real.sin (Real.pi / 180)) false
      (constEngine ℝ 0) (gridReduced ℝ) 0 true).truncation_ + 1) 1 1 (fun _ => 0) 3
    (invtrans_uv (onesCollab ℝ Real.cos Real.sin (Real.pi / 180)) false (constScratch ℝ 0)
        ((constructStructured (onesCollab ℝ Real.cos Real.sin (Real.pi / 180)) false
          (constEngine ℝ 0) (gridReduced ℝ) 0 true).truncation_ + 1) 1 1 (fun _ => 0)
        ⟨constructStructured (onesCollab ℝ Real.cos Real.sin (Real.pi / 180)) false
          (constEngine ℝ 0) (gridReduced ℝ) 0 true, fun _ => 1⟩).out
    (by rw [hU.2.1]; exact hr.1) (by rw [hU.2.1]; exact hT) (by rw [hU.2.1]; exact hr.2.2.1)
    (by rw [hU.2.1]; exact htab) hsin (by rw [hU.2.1]; exact hcov) (by norm_num)
  have h6 := hV.2.2 1 1 0 (by norm_num) (by rw [hx]; norm_num) (by norm_num)
    (by rw [hy]; norm_num) le_rfl (by norm_num)
  rw [hx, hy, structuredValue_zero] at h6
  have e6 : (3 : Int) + (1 + 2 * (1 + 2 * 0)) = 6 := by norm_num
  rw [e6] at h6
  rw [h6]
  simp

/-- Instance of the regions on an unpadded grid: the engine built with truncation 0 on the
regular 2 x 2 grid, one vorticity/divergence field and one scalar field. -/
theorem invtrans_combined_regions_witness :
    (constructStructured (onesCollab ℝ Real.cos Real.sin (Real.pi / 180)) false
      (constEngine ℝ 0) (grid2x2 ℝ) 0 true).grid_.unpadded ∧
    (0 : Int) ≤ 1 ∧
    ∀ k : Int,
      (k < 0 ∨ (2 * 1 + 1) *
        ((constructStructured (onesCollab ℝ Real.cos Real.sin (Real.pi / 180)) false
          (constEngine ℝ 0) (grid2x2 ℝ) 0 true).grid_.size : Int) ≤ k) →
      (invtrans_combined (onesCollab ℝ Real.cos Real.sin (Real.pi / 180)) false
        (constScratch ℝ 0) (constScratch ℝ 0) (constScratch ℝ 0) 1 (fun _ => 1) 1
        (fun _ => 1) (fun _ => 1)
        ⟨constructStructured (onesCollab ℝ Real.cos Real.sin (Real.pi / 180)) false
          (constEngine ℝ 0) (grid2x2 ℝ) 0 true, fun _ => 1⟩).out.gp_fields k =
        (fun _ => (1 : ℝ)) k :=
  have hgrid : (constructStructured (onesCollab ℝ Real.cos Real.sin (Real.pi / 180)) false
      (constEngine ℝ 0) (grid2x2 ℝ) 0 true).grid_.unpadded := by
    show (grid2x2 ℝ).regular
    intro n hn
    simp [grid2x2, StructuredGrid.nxmax] at hn ⊢
    omega
  ⟨hgrid, by norm_num,
    (invtrans_combined_regions (onesCollab ℝ Real.cos Real.sin (Real.pi / 180)) false
      (constScratch ℝ 0) (constScratch ℝ 0) (constScratch ℝ 0) 1 (fun _ => 1) 1
      (fun _ => 1) (fun _ => 1)
      ⟨constructStructured (onesCollab ℝ Real.cos Real.sin (Real.pi / 180)) false
        (constEngine ℝ 0) (grid2x2 ℝ) 0 true, fun _ => 1⟩
      hgrid (by norm_num) (by norm_num)).2.2.2.2.2⟩

/-! ## C14: the number of spectral coefficients -/

/-- Twice the sum over `m <= T` of the number `T - m + 1` of total wavenumbers of `m`. -/
theorem two_mul_sum_wavenumbers (T : Nat) :
    2 * ∑ m ∈ Finset.range (T + 1), (T - m + 1) = (T + 2) * (T + 1) := by
  have h : ∀ k : Nat, k ≤ T + 1 →
      2 * ∑ m ∈ Finset.range k, (T - m + 1) + k * k = (2 * T + 3) * k := by
    intro k
    induction k with
    | zero => intro _; simp
    | succ k ih =>
      intro hk
      have ih2 := ih (by omega)
      rw [Finset.sum_range_succ]
      have hsub : T - k + k = T := Nat.sub_add_cancel (by omega)
      nlinarith
  have := h (T + 1) le_rfl
  nlinarith

/-- The number of total wavenumbers `n` with `m <= n <= T`. -/
theorem card_wavenumbers_of (T m : Nat) :
    ((Finset.range (T + 1)).filter (fun n => m ≤ n)).card = T + 1 - m := by
  have : (Finset.range (T + 1)).filter (fun n => m ≤ n) = Finset.Ico m (T + 1) := by
    ext n
    simp only [Finset.mem_filter, Finset.mem_range, Finset.mem_Ico]
    omega
  rw [this, Nat.card_Ico]

/-- C14: for every truncation `T`, `legendre_size T` is the number of pairs `(m, n)` with
`0 <= m <= n <= T`, which is the sum over `m <= T` of `T - m + 1`; the division by 2 is
exact, `2 * legendre_size T = (T + 2) * (T + 1)`; and the coefficients
`(m, n, imag, jfld)` of `nb_fields` fields, two real numbers per pair and field, are
`2 * legendre_size T * nb_fields` in number. -/
theorem legendre_size_counts_pairs (T nb_fields : Nat) :
    legendre_size T =
      (((Finset.range (T + 1)) ×ˢ (Finset.range (T + 1))).filter
        (fun p : Nat × Nat => p.1 ≤ p.2)).card ∧
    legendre_size T = ∑ m ∈ Finset.range (T + 1), (T - m + 1) ∧
    2 * legendre_size T = (T + 2) * (T + 1) ∧
    (((((Finset.range (T + 1)) ×ˢ (Finset.range (T + 1))).filter
        (fun p : Nat × Nat => p.1 ≤ p.2)) ×ˢ (Finset.range 2)) ×ˢ
      (Finset.range nb_fields)).card = 2 * legendre_size T * nb_fields := by
  have hsum := two_mul_sum_wavenumbers T
  have hls : legendre_size T = ∑ m ∈ Finset.range (T + 1), (T - m + 1) := by
    unfold legendre_size
    rw [← hsum, Nat.mul_div_cancel_left _ (by norm_num : 0 < 2)]
  have hcard : (((Finset.range (T + 1)) ×ˢ (Finset.range (T + 1))).filter
      (fun p : Nat × Nat => p.1 ≤ p.2)).card = ∑ m ∈ Finset.range (T + 1), (T - m + 1) := by
    rw [Finset.card_filter, Finset.sum_product]
    apply Finset.sum_congr rfl
    intro m hm
    rw [← Finset.card_filter, card_wavenumbers_of]
    have := Finset.mem_range.mp hm
    omega
  refine ⟨by rw [hcard, hls], hls, by rw [hls, hsum], ?_⟩
  rw [Finset.card_product, Finset.card_product, hcard, ← hls, Finset.card_range,
    Finset.card_range]
  ring

/-! ## C15: the sizes of the symmetric and antisymmetric blocks -/

/-- The numbers of even and of odd offsets `n - m` among the `n` of `[m, m + L]`. -/
theorem card_parity_Icc (m : Int) (L : Nat) :
    (((Finset.Icc m (m + L)).filter (fun n => (n - m) % 2 = 0)).card : Int) =
        ((L : Int) + 2) / 2 ∧
    (((Finset.Icc m (m + L)).filter (fun n => (n - m) % 2 = 1)).card : Int) =
        ((L : Int) + 1) / 2 := by
  induction L with
  | zero =>
    have h : Finset.Icc m (m + ((0 : Nat) : Int)) = {m} := by
      ext n
      simp only [Finset.mem_Icc, Finset.mem_singleton]
      push_cast
      omega
    rw [h]
    constructor
    · rw [Finset.filter_singleton, if_pos (by simp)]
      simp
    · rw [Finset.filter_singleton, if_neg (by simp)]
      simp
  | succ L ih =>
    have h : Finset.Icc m (m + ((L + 1 : Nat) : Int)) =
        insert (m + (L : Int) + 1) (Finset.Icc m (m + (L : Int))) := by
      ext n
      simp only [Finset.mem_Icc, Finset.mem_insert]
      push_cast
      omega
    have hnot : m + (L : Int) + 1 ∉ Finset.Icc m (m + (L : Int)) := by
      simp only [Finset.mem_Icc]
      omega
    rw [h, Finset.filter_insert, Finset.filter_insert]
    by_cases hp : (m + (L : Int) + 1 - m) % 2 = 0
    · rw [if_pos hp, if_neg (by omega),
        Finset.card_insert_of_not_mem (fun hmem => hnot (Finset.mem_of_mem_filter _ hmem))]
      push_cast
      rw [ih.1, ih.2]
      constructor <;> omega
    · rw [if_neg hp, if_pos (by omega),
        Finset.card_insert_of_not_mem (fun hmem => hnot (Finset.mem_of_mem_filter _ hmem))]
      push_cast
      rw [ih.1, ih.2]
      constructor <;> omega

/-- C15: for `m <= t` (in particular `0 <= m <= t`), `num_n t m true` is the floor of `(t - m + 2) / 2` and the
number of `n` in `[m, t]` with `n - m` even, `num_n t m false` is the floor of
`(t - m + 1) / 2` and the number of `n` in `[m, t]` with `n - m` odd, and the two add up to
`t - m + 1`. -/
theorem num_n_counts_parity (t m : Int) (hmt : m ≤ t) :
    num_n t m true = (t - m + 2) / 2 ∧
    num_n t m true = (((Finset.Icc m t).filter (fun n => (n - m) % 2 = 0)).card : Int) ∧
    num_n t m false = (t - m + 1) / 2 ∧
    num_n t m false = (((Finset.Icc m t).filter (fun n => (n - m) % 2 = 1)).card : Int) ∧
    num_n t m true + num_n t m false = t - m + 1 := by
  obtain ⟨L, hL⟩ : ∃ L : Nat, t = m + (L : Int) := ⟨(t - m).toNat, by omega⟩
  have hc := card_parity_Icc m L
  have h1 : num_n t m true = (t - m + 2) / 2 := by
    unfold num_n
    rw [if_pos rfl, Int.tdiv_eq_ediv (by omega) (by norm_num)]
  have h2 : num_n t m false = (t - m + 1) / 2 := by
    unfold num_n
    rw [if_neg (by simp), Int.tdiv_eq_ediv (by omega) (by norm_num)]
  subst hL
  refine ⟨h1, ?_, h2, ?_, ?_⟩
  · rw [h1, hc.1]; congr 1; ring
  · rw [h2, hc.2]; congr 1; ring
  · rw [h1, h2]; omega

/-- Witness of C15: `t = 3`, `m = 1`. -/
theorem num_n_counts_parity_witness :
    (1 : Int) ≤ 3 ∧
    num_n 3 1 true = (3 - 1 + 2) / 2 ∧
    num_n 3 1 true = (((Finset.Icc (1 : Int) 3).filter (fun n => (n - 1) % 2 = 0)).card : Int) ∧
    num_n 3 1 false = (3 - 1 + 1) / 2 ∧
    num_n 3 1 false =
      (((Finset.Icc (1 : Int) 3).filter (fun n => (n - 1) % 2 = 1)).card : Int) ∧
    num_n 3 1 true + num_n 3 1 false = 3 - 1 + 1 :=
  ⟨by norm_num, num_n_counts_parity 3 1 (by norm_num)⟩

/-! ## C20: the padding of the Legendre blocks -/

/-- The value of `add_padding` is the least multiple of 8 that is not below its argument. -/
theorem add_padding_spec (n : Int) :
    8 ∣ add_padding n ∧ n ≤ add_padding n ∧ add_padding n < n + 8 := by
  unfold add_padding
  refine ⟨Dvd.intro_left _ rfl, ?_, ?_⟩ <;> omega

/-- The offset tables built by the loop of lines 169-174: every entry `jm + 1` with
`0 <= jm <= truncation_ + 1` is the entry `jm` plus the padded size of the block of `jm`. -/
theorem legendreOffsets_step (truncation_ nlatsLeg_ jm : Int) (h0 : 0 ≤ jm)
    (h1 : jm ≤ truncation_ + 1) :
    (legendreOffsets truncation_ nlatsLeg_).sym_begin (jm + 1) =
      (legendreOffsets truncation_ nlatsLeg_).sym_begin jm +
        add_padding (num_n (truncation_ + 1) jm true * nlatsLeg_) ∧
    (legendreOffsets truncation_ nlatsLeg_).asym_begin (jm + 1) =
      (legendreOffsets truncation_ nlatsLeg_).asym_begin jm +
        add_padding (num_n (truncation_ + 1) jm false * nlatsLeg_) := by
  have hinv := forUp_induction
    (fun k (s : OffsetState) =>
      s.sym_begin k = s.size_sym ∧ s.asym_begin k = s.size_asym ∧
      ∀ i, 0 ≤ i → i < k →
        s.sym_begin (i + 1) = s.sym_begin i +
            add_padding (num_n (truncation_ + 1) i true * nlatsLeg_) ∧
          s.asym_begin (i + 1) = s.asym_begin i +
            add_padding (num_n (truncation_ + 1) i false * nlatsLeg_))
    (truncation_ + 2)
    (fun jm s =>
      let size_sym := s.size_sym + add_padding (num_n (truncation_ + 1) jm true * nlatsLeg_)
      let size_asym := s.size_asym + add_padding (num_n (truncation_ + 1) jm false * nlatsLeg_)
      { size_sym := size_sym
        size_asym := size_asym
        sym_begin := Function.update s.sym_begin (jm + 1) size_sym
        asym_begin := Function.update s.asym_begin (jm + 1) size_asym })
    { size_sym := 0
      size_asym := 0
      sym_begin := Function.update (fun _ => 0) 0 0
      asym_begin := Function.update (fun _ => 0) 0 0 }
    ⟨by simp, by simp, fun i hi0 hi1 => by omega⟩
    (fun j s hj0 hj1 ih => by
      obtain ⟨ih1, ih2, ih3⟩ := ih
      dsimp only
      refine ⟨Function.update_same _ _ _, Function.update_same _ _ _, ?_⟩
      intro i hi0 hi1
      by_cases hij : i = j
      · subst hij
        rw [Function.update_same, Function.update_same,
          Function.update_noteq (by omega), Function.update_noteq (by omega), ih1, ih2]
        exact ⟨rfl, rfl⟩
      · rw [Function.update_noteq (by omega), Function.update_noteq (by omega),
          Function.update_noteq (by omega), Function.update_noteq (by omega)]
        exact ih3 i hi0 (by omega))
  rw [max_eq_left (by omega)] at hinv
  exact hinv.2.2 jm h0 (by omega)

/-- Hemisphere counts of the 4 x 2 grid: two rows in each hemisphere. -/
theorem hemisphereCounts_grid4x2 : hemisphereCounts (grid4x2 ℝ) = (2, 2, 2) := by
  simp [hemisphereCounts, forUp, countLatitude, grid4x2, StructuredGrid.ny, List.range_succ]
  norm_num

/-- The product `(2 * t + 3 - m) * m` of the block offset is even. -/
theorem ioff_even (t m : Int) : 2 * Int.tdiv ((2 * t + 3 - m) * m) 2 = (2 * t + 3 - m) * m := by
  obtain ⟨q, hq⟩ : ∃ q : Int, (2 * t + 3 - m) * m = 2 * q := by
    rcases Int.even_or_odd m with ⟨a, ha⟩ | ⟨a, ha⟩
    · exact ⟨(2 * t + 3 - m) * a, by rw [ha]; ring⟩
    · exact ⟨(t + 1 - a) * m, by rw [ha]; ring⟩
  rw [hq, Int.mul_tdiv_cancel_left _ (by norm_num : (2 : Int) ≠ 0)]

/-- The block offset of `m + 1` is the block offset of `m` plus the number `t + 1 - m` of
total wavenumbers of `m`. -/
theorem ioff_succ (t m : Int) :
    Int.tdiv ((2 * t + 3 - (m + 1)) * (m + 1)) 2 =
      Int.tdiv ((2 * t + 3 - m) * m) 2 + (t + 1 - m) := by
  have h1 := ioff_even t m
  have h2 := ioff_even t (m + 1)
  have h3 : (2 * t + 3 - (m + 1)) * (m + 1) = (2 * t + 3 - m) * m + 2 * (t + 1 - m) := by ring
  omega

/-- The counting loop of lines 113-120 leaves the three counts of rows with positive, zero
and negative latitude. -/
theorem countLatitude_loop {R : Type} [LinearOrderedField R] (g : StructuredGrid R)
    (n : Int) :
    (forUp n (countLatitude g) ⟨0, 0, 0⟩).nlatsNH =
        ((Finset.Ico (0 : Int) n).filter (fun j => 0 < g.y j)).card ∧
      (forUp n (countLatitude g) ⟨0, 0, 0⟩).neqtr =
        ((Finset.Ico (0 : Int) n).filter (fun j => g.y j = 0)).card ∧
      (forUp n (countLatitude g) ⟨0, 0, 0⟩).nlatsSH =
        ((Finset.Ico (0 : Int) n).filter (fun j => g.y j < 0)).card := by
  have key := forUp_induction
    (fun (i : Int) (c : HemisphereCount) =>
      c.nlatsNH = ((Finset.Ico (0 : Int) i).filter (fun j => 0 < g.y j)).card ∧
      c.neqtr = ((Finset.Ico (0 : Int) i).filter (fun j => g.y j = 0)).card ∧
      c.nlatsSH = ((Finset.Ico (0 : Int) i).filter (fun j => g.y j < 0)).card)
    n (countLatitude g) ⟨0, 0, 0⟩ (by simp)
    (fun j t hj0 _ ih => by
      obtain ⟨h1, h2, h3⟩ := ih
      have hI : Finset.Ico (0 : Int) (j + 1) = insert j (Finset.Ico (0 : Int) j) := by
        ext k
        simp only [Finset.mem_Ico, Finset.mem_insert]
        omega
      have hn : j ∉ Finset.Ico (0 : Int) j := by simp
      rw [hI]
      simp only [Finset.filter_insert]
      unfold countLatitude
      rcases lt_trichotomy (g.y j) 0 with hlt | heq | hgt
      · have a1 : ¬ 0 < g.y j := not_lt.mpr hlt.le
        have a2 : ¬ g.y j = 0 := ne_of_lt hlt
        simp only [if_neg a1, if_neg a2, if_pos hlt, gt_iff_lt]
        refine ⟨h1, h2, ?_⟩
        rw [Finset.card_insert_of_not_mem (fun h => hn (Finset.mem_of_mem_filter j h)), h3]
        push_cast
        ring
      · have a1 : ¬ 0 < g.y j := by rw [heq]; exact lt_irrefl 0
        have a3 : ¬ g.y j < 0 := by rw [heq]; exact lt_irrefl 0
        simp only [if_neg a1, if_pos heq, if_neg a3, gt_iff_lt]
        refine ⟨h1, ?_, h3⟩
        rw [Finset.card_insert_of_not_mem (fun h => hn (Finset.mem_of_mem_filter j h)), h2]
        push_cast
        ring
      · have a2 : ¬ g.y j = 0 := ne_of_gt hgt
        have a3 : ¬ g.y j < 0 := not_lt.mpr hgt.le
        simp only [if_pos hgt, if_neg a2, if_neg a3, gt_iff_lt]
        refine ⟨?_, h2, h3⟩
        rw [Finset.card_insert_of_not_mem (fun h => hn (Finset.mem_of_mem_filter j h)), h1]
        push_cast
        ring)
  have hI : Finset.Ico (0 : Int) (max n 0) = Finset.Ico (0 : Int) n := by
    ext k
    simp only [Finset.mem_Ico]
    omega
  have key2 := key
  simp only [hI] at key2
  exact key2

/-- The hemisphere counts of lines 113-128 in closed form. -/
theorem hemisphereCounts_eq {R : Type} [LinearOrderedField R] (g : StructuredGrid R) :
    (hemisphereCounts g).1 =
        (((Finset.Ico (0 : Int) g.ny).filter (fun j => 0 < g.y j)).card : Int) +
          (if 0 < ((Finset.Ico (0 : Int) g.ny).filter (fun j => g.y j = 0)).card then 1
            else 0) ∧
      (hemisphereCounts g).2.1 =
        (((Finset.Ico (0 : Int) g.ny).filter (fun j => g.y j < 0)).card : Int) +
          (if 0 < ((Finset.Ico (0 : Int) g.ny).filter (fun j => g.y j = 0)).card then 1
            else 0) ∧
      (hemisphereCounts g).2.2 = max (hemisphereCounts g).1 (hemisphereCounts g).2.1 := by
  obtain ⟨h1, h2, h3⟩ := countLatitude_loop g (g.ny : Int)
  have e1 : (hemisphereCounts g).1 =
      if (forUp (g.ny : Int) (countLatitude g) ⟨0, 0, 0⟩).neqtr > 0 then
        (forUp (g.ny : Int) (countLatitude g) ⟨0, 0, 0⟩).nlatsNH + 1
      else (forUp (g.ny : Int) (countLatitude g) ⟨0, 0, 0⟩).nlatsNH := rfl
  have e2 : (hemisphereCounts g).2.1 =
      if (forUp (g.ny : Int) (countLatitude g) ⟨0, 0, 0⟩).neqtr > 0 then
        (forUp (g.ny : Int) (countLatitude g) ⟨0, 0, 0⟩).nlatsSH + 1
      else (forUp (g.ny : Int) (countLatitude g) ⟨0, 0, 0⟩).nlatsSH := rfl
  have e3 : (hemisphereCounts g).2.2 =
      if (hemisphereCounts g).1 ≥ (hemisphereCounts g).2.1 then (hemisphereCounts g).1
      else (hemisphereCounts g).2.1 := rfl
  refine ⟨?_, ?_, ?_⟩
  · rw [e1, h1, h2]
    by_cases hz : 0 < ((Finset.Ico (0 : Int) g.ny).filter (fun j => g.y j = 0)).card
    · rw [if_pos hz, if_pos (by exact_mod_cast hz)]
    · rw [if_neg hz, if_neg (by exact_mod_cast hz)]
      ring
  · rw [e2, h3, h2]
    by_cases hz : 0 < ((Finset.Ico (0 : Int) g.ny).filter (fun j => g.y j = 0)).card
    · rw [if_pos hz, if_pos (by exact_mod_cast hz)]
    · rw [if_neg hz, if_neg (by exact_mod_cast hz)]
      ring
  · rw [e3]
    split_ifs with h
    · exact (max_eq_left h).symm
    · exact (max_eq_right (le_of_lt (not_le.mp h))).symm

/-- On a grid whose latitudes do not increase with the row, the first `nlatsNH_` rows have
a latitude that is not negative. -/
theorem north_rows_nonneg {R : Type} [LinearOrderedField R] (g : StructuredGrid R)
    (hmono : ∀ j k : Int, 0 ≤ j → j ≤ k → k < g.ny → g.y k ≤ g.y j)
    (j : Int) (hj0 : 0 ≤ j) (hj : j < (hemisphereCounts g).1) : 0 ≤ g.y j := by
  by_contra hneg
  have hlt : g.y j < 0 := not_le.mp hneg
  have hsub : (Finset.Ico (0 : Int) g.ny).filter (fun k => 0 < g.y k) ∪
      (Finset.Ico (0 : Int) g.ny).filter (fun k => g.y k = 0) ⊆ Finset.Ico (0 : Int) j := by
    intro k hk
    have hk2 : (0 ≤ k ∧ k < g.ny) ∧ 0 ≤ g.y k := by
      rcases Finset.mem_union.mp hk with h | h
      · rw [Finset.mem_filter, Finset.mem_Ico] at h
        exact ⟨h.1, h.2.le⟩
      · rw [Finset.mem_filter, Finset.mem_Ico] at h
        exact ⟨h.1, h.2.ge⟩
    rw [Finset.mem_Ico]
    refine ⟨hk2.1.1, ?_⟩
    by_contra hge
    have := hmono j k hj0 (not_lt.mp hge) hk2.1.2
    exact absurd (lt_of_le_of_lt (le_trans hk2.2 this) hlt) (lt_irrefl 0)
  have hdis : Disjoint ((Finset.Ico (0 : Int) g.ny).filter (fun k => 0 < g.y k))
      ((Finset.Ico (0 : Int) g.ny).filter (fun k => g.y k = 0)) := by
    rw [Finset.disjoint_left]
    intro k h1 h2
    rw [Finset.mem_filter] at h1 h2
    exact absurd h1.2 (by rw [h2.2]; exact lt_irrefl 0)
  have hcard := Finset.card_le_card hsub
  rw [Finset.card_union_of_disjoint hdis, Int.card_Ico] at hcard
  have h1 := (hemisphereCounts_eq g).1
  have hite : (if 0 < ((Finset.Ico (0 : Int) g.ny).filter (fun j => g.y j = 0)).card
      then (1 : Int) else 0) ≤
      (((Finset.Ico (0 : Int) g.ny).filter (fun j => g.y j = 0)).card : Int) := by
    split_ifs with h
    · exact_mod_cast h
    · exact Int.natCast_nonneg _
  have hcard2 : (((Finset.Ico (0 : Int) g.ny).filter (fun k => 0 < g.y k)).card : Int) +
      (((Finset.Ico (0 : Int) g.ny).filter (fun k => g.y k = 0)).card : Int) ≤ j := by
    have : ((((Finset.Ico (0 : Int) g.ny).filter (fun k => 0 < g.y k)).card +
        ((Finset.Ico (0 : Int) g.ny).filter (fun k => g.y k = 0)).card : Nat) : Int) ≤
        ((j - 0).toNat : Int) := by exact_mod_cast hcard
    rw [Int.toNat_of_nonneg (by omega)] at this
    push_cast at this
    omega
  omega

/-- On a grid whose latitudes do not increase with the row, the last `nlatsSH_` rows have
a latitude that is not positive. -/
theorem south_rows_nonpos {R : Type} [LinearOrderedField R] (g : StructuredGrid R)
    (hmono : ∀ j k : Int, 0 ≤ j → j ≤ k → k < g.ny → g.y k ≤ g.y j)
    (idx : Int) (hj0 : 0 ≤ idx) (hj : idx < (hemisphereCounts g).2.1) :
    g.y ((g.ny : Int) - 1 - idx) ≤ 0 := by
  by_contra hpos
  have hlt : 0 < g.y ((g.ny : Int) - 1 - idx) := not_le.mp hpos
  have hsub : (Finset.Ico (0 : Int) g.ny).filter (fun k => g.y k < 0) ∪
      (Finset.Ico (0 : Int) g.ny).filter (fun k => g.y k = 0) ⊆
      Finset.Ico ((g.ny : Int) - idx) g.ny := by
    intro k hk
    have hk2 : (0 ≤ k ∧ k < g.ny) ∧ g.y k ≤ 0 := by
      rcases Finset.mem_union.mp hk with h | h
      · rw [Finset.mem_filter, Finset.mem_Ico] at h
        exact ⟨h.1, h.2.le⟩
      · rw [Finset.mem_filter, Finset.mem_Ico] at h
        exact ⟨h.1, h.2.le⟩
    rw [Finset.mem_Ico]
    refine ⟨?_, hk2.1.2⟩
    by_contra hge
    have := hmono k ((g.ny : Int) - 1 - idx) hk2.1.1 (by omega) (by omega)
    exact absurd (lt_of_lt_of_le hlt (le_trans this hk2.2)) (lt_irrefl 0)
  have hdis : Disjoint ((Finset.Ico (0 : Int) g.ny).filter (fun k => g.y k < 0))
      ((Finset.Ico (0 : Int) g.ny).filter (fun k => g.y k = 0)) := by
    rw [Finset.disjoint_left]
    intro k h1 h2
    rw [Finset.mem_filter] at h1 h2
    exact absurd h1.2 (by rw [h2.2]; exact lt_irrefl 0)
  have hcard := Finset.card_le_card hsub
  rw [Finset.card_union_of_disjoint hdis, Int.card_Ico] at hcard
  have h1 := (hemisphereCounts_eq g).2.1
  have hite : (if 0 < ((Finset.Ico (0 : Int) g.ny).filter (fun j => g.y j = 0)).card
      then (1 : Int) else 0) ≤
      (((Finset.Ico (0 : Int) g.ny).filter (fun j => g.y j = 0)).card : Int) := by
    split_ifs with h
    · exact_mod_cast h
    · exact Int.natCast_nonneg _
  have hcard2 : (((Finset.Ico (0 : Int) g.ny).filter (fun k => g.y k < 0)).card : Int) +
      (((Finset.Ico (0 : Int) g.ny).filter (fun k => g.y k = 0)).card : Int) ≤ idx := by
    have : ((((Finset.Ico (0 : Int) g.ny).filter (fun k => g.y k < 0)).card +
        ((Finset.Ico (0 : Int) g.ny).filter (fun k => g.y k = 0)).card : Nat) : Int) ≤
        ((((g.ny : Int)) - ((g.ny : Int) - idx)).toNat : Int) := by exact_mod_cast hcard
    rw [Int.toNat_of_nonneg (by omega)] at this
    push_cast at this
    omega
  omega

/-- A loop `for j < n: b[j] = f j` leaves `f j` at every `0 <= j < n`. -/
theorem forUp_tabulate {R : Type} (n : Int) (f : Int → R) (b0 : Buf R) (j : Int)
    (h0 : 0 ≤ j) (h1 : j < n) :
    forUp n (fun i (b : Buf R) => Function.update b i (f i)) b0 j = f j :=
  forUp_write (fun b : Buf R => b) n _ b0 j (f j) j h0 h1
    (fun t => Function.update_same j (f j) t)
    (fun i t hi _ => Function.update_noteq (ne_of_lt hi) (f i) t)

/-- Neither hemisphere count exceeds the number of rows. -/
theorem hemisphereCounts_le {R : Type} [LinearOrderedField R] (g : StructuredGrid R) :
    (hemisphereCounts g).1 ≤ g.ny ∧ (hemisphereCounts g).2.1 ≤ g.ny := by
  obtain ⟨c1, c2, _⟩ := hemisphereCounts_eq g
  have hite : (if 0 < ((Finset.Ico (0 : Int) g.ny).filter (fun j => g.y j = 0)).card
      then (1 : Int) else 0) ≤
      (((Finset.Ico (0 : Int) g.ny).filter (fun j => g.y j = 0)).card : Int) := by
    split_ifs with h
    · exact_mod_cast h
    · exact Int.natCast_nonneg _
  have hI : (Finset.Ico (0 : Int) g.ny).card = g.ny := by
    rw [Int.card_Ico]
    simp
  have hp : ((Finset.Ico (0 : Int) g.ny).filter (fun k => 0 < g.y k)).card +
      ((Finset.Ico (0 : Int) g.ny).filter (fun k => g.y k = 0)).card ≤ g.ny := by
    rw [← Finset.card_union_of_disjoint]
    · exact (Finset.card_le_card
        (Finset.union_subset (Finset.filter_subset _ _) (Finset.filter_subset _ _))).trans
        (le_of_eq hI)
    · rw [Finset.disjoint_left]
      intro k h1 h2
      rw [Finset.mem_filter] at h1 h2
      exact absurd h1.2 (by rw [h2.2]; exact lt_irrefl 0)
  have hn : ((Finset.Ico (0 : Int) g.ny).filter (fun k => g.y k < 0)).card +
      ((Finset.Ico (0 : Int) g.ny).filter (fun k => g.y k = 0)).card ≤ g.ny := by
    rw [← Finset.card_union_of_disjoint]
    · exact (Finset.card_le_card
        (Finset.union_subset (Finset.filter_subset _ _) (Finset.filter_subset _ _))).trans
        (le_of_eq hI)
    · rw [Finset.disjoint_left]
      intro k h1 h2
      rw [Finset.mem_filter] at h1 h2
      exact absurd h1.2 (by rw [h2.2]; exact lt_irrefl 0)
  have hp2 : (((Finset.Ico (0 : Int) g.ny).filter (fun k => 0 < g.y k)).card : Int) +
      (((Finset.Ico (0 : Int) g.ny).filter (fun k => g.y k = 0)).card : Int) ≤ g.ny := by
    exact_mod_cast hp
  have hn2 : (((Finset.Ico (0 : Int) g.ny).filter (fun k => g.y k < 0)).card : Int) +
      (((Finset.Ico (0 : Int) g.ny).filter (fun k => g.y k = 0)).card : Int) ≤ g.ny := by
    exact_mod_cast hn
  constructor <;> omega

/-- C16: after construction on a structured grid, `nlatsNH_` is the number of rows with
latitude `> 0` and `nlatsSH_` the number of rows with latitude `< 0`, each plus one when
at least one row has latitude `0`, and `nlatsLeg_ = max( nlatsNH_, nlatsSH_ )`; the
Legendre tables are built by the table builder from `nlatsLeg_` latitudes in radians
which, the latitudes of the grid being monotone decreasing, are the absolute latitudes of
rows `0 .. nlatsLeg_ - 1` (none of them south of the equator) when
`nlatsNH_ >= nlatsSH_`, and the absolute latitudes of rows `nlats - 1` down to
`nlats - nlatsLeg_` (none of them north of the equator), the negated latitudes,
otherwise. -/
theorem legendre_latitudes_of_longer_hemisphere {R : Type} [LinearOrderedField R]
    (m : Collab R) (haveFFTW : Bool) (raw : Engine R) (g : StructuredGrid R)
    (truncation : Int) (precompute : Bool)
    (hmono : ∀ j k : Int, 0 ≤ j → j ≤ k → k < g.ny → g.y k ≤ g.y j) :
    (constructStructured m haveFFTW raw g truncation precompute).nlatsNH_ =
        (((Finset.Ico (0 : Int) g.ny).filter (fun j => 0 < g.y j)).card : Int) +
          (if 0 < ((Finset.Ico (0 : Int) g.ny).filter (fun j => g.y j = 0)).card then 1
            else 0) ∧
      (constructStructured m haveFFTW raw g truncation precompute).nlatsSH_ =
        (((Finset.Ico (0 : Int) g.ny).filter (fun j => g.y j < 0)).card : Int) +
          (if 0 < ((Finset.Ico (0 : Int) g.ny).filter (fun j => g.y j = 0)).card then 1
            else 0) ∧
      (constructStructured m haveFFTW raw g truncation precompute).nlatsLeg_ =
        max (constructStructured m haveFFTW raw g truncation precompute).nlatsNH_
          (constructStructured m haveFFTW raw g truncation precompute).nlatsSH_ ∧
      ((constructStructured m haveFFTW raw g truncation precompute).legendre_sym_,
          (constructStructured m haveFFTW raw g truncation precompute).legendre_asym_) =
        m.compute_legendre_polynomialsopt3 (truncation + 1)
          (constructStructured m haveFFTW raw g truncation precompute).nlatsLeg_
          (legendreLats m g
            (constructStructured m haveFFTW raw g truncation precompute).nlatsNH_
            (constructStructured m haveFFTW raw g truncation precompute).nlatsSH_
            (constructStructured m haveFFTW raw g truncation precompute).nlatsLeg_)
          raw.legendre_sym_ raw.legendre_asym_
          (constructStructured m haveFFTW raw g truncation precompute).legendre_sym_begin_
          (constructStructured m haveFFTW raw g truncation precompute).legendre_asym_begin_ ∧
      (∀ j : Int, 0 ≤ j →
        j < (constructStructured m haveFFTW raw g truncation precompute).nlatsLeg_ →
        (constructStructured m haveFFTW raw g truncation precompute).nlatsNH_ ≥
          (constructStructured m haveFFTW raw g truncation precompute).nlatsSH_ →
        legendreLats m g
            (constructStructured m haveFFTW raw g truncation precompute).nlatsNH_
            (constructStructured m haveFFTW raw g truncation precompute).nlatsSH_
            (constructStructured m haveFFTW raw g truncation precompute).nlatsLeg_ j =
          |g.y j| * m.degreesToRadians ∧ 0 ≤ g.y j ∧ j < g.ny) ∧
      (∀ idx : Int, 0 ≤ idx →
        idx < (constructStructured m haveFFTW raw g truncation precompute).nlatsLeg_ →
        (constructStructured m haveFFTW raw g truncation precompute).nlatsNH_ <
          (constructStructured m haveFFTW raw g truncation precompute).nlatsSH_ →
        legendreLats m g
            (constructStructured m haveFFTW raw g truncation precompute).nlatsNH_
            (constructStructured m haveFFTW raw g truncation precompute).nlatsSH_
            (constructStructured m haveFFTW raw g truncation precompute).nlatsLeg_ idx =
          |g.y ((g.ny : Int) - 1 - idx)| * m.degreesToRadians ∧
        legendreLats m g
            (constructStructured m haveFFTW raw g truncation precompute).nlatsNH_
            (constructStructured m haveFFTW raw g truncation precompute).nlatsSH_
            (constructStructured m haveFFTW raw g truncation precompute).nlatsLeg_ idx =
          -g.y ((g.ny : Int) - 1 - idx) * m.degreesToRadians ∧
        g.y ((g.ny : Int) - 1 - idx) ≤ 0 ∧ 0 ≤ (g.ny : Int) - 1 - idx) := by
  have hN : (constructStructured m haveFFTW raw g truncation precompute).nlatsNH_ =
      (hemisphereCounts g).1 := rfl
  have hS : (constructStructured m haveFFTW raw g truncation precompute).nlatsSH_ =
      (hemisphereCounts g).2.1 := rfl
  have hL : (constructStructured m haveFFTW raw g truncation precompute).nlatsLeg_ =
      (hemisphereCounts g).2.2 := rfl
  obtain ⟨c1, c2, c3⟩ := hemisphereCounts_eq g
  rw [hN, hS, hL]
  refine ⟨c1, c2, c3, rfl, ?_, ?_⟩
  · intro j hj0 hj1 hns
    rw [c3, max_eq_left hns] at hj1
    have hy := north_rows_nonneg g hmono j hj0 hj1
    refine ⟨?_, hy, ?_⟩
    · unfold legendreLats
      rw [if_pos hns, abs_of_nonneg hy]
      exact forUp_tabulate _ (fun j => g.y j * m.degreesToRadians) _ j hj0
        (by rw [c3, max_eq_left hns]; exact hj1)
    · have := (hemisphereCounts_le g).1
      omega
  · intro idx hj0 hj1 hns
    rw [c3, max_eq_right hns.le] at hj1
    have hy := south_rows_nonpos g hmono idx hj0 hj1
    have hv : legendreLats m g (hemisphereCounts g).1 (hemisphereCounts g).2.1
        (hemisphereCounts g).2.2 idx = -g.y ((g.ny : Int) - 1 - idx) * m.degreesToRadians := by
      unfold legendreLats
      rw [if_neg (not_le.mpr hns)]
      exact forUp_tabulate _ (fun idx => -g.y ((g.ny : Int) - 1 - idx) * m.degreesToRadians)
        _ idx hj0 (by rw [c3, max_eq_right hns.le]; exact hj1)
    refine ⟨?_, hv, hy, ?_⟩
    · rw [hv, abs_of_nonpos hy]
    · have := (hemisphereCounts_le g).2
      omega

/-- Witness of C16: the 4 x 2 grid with rows at 60, 20, -20 and -60 degrees: the second
latitude handed to the table builder is the absolute latitude of row 1 in radians. -/
theorem legendre_latitudes_of_longer_hemisphere_witness :
    legendreLats (onesCollab ℝ Real.cos Real.sin (Real.pi / 180)) (grid4x2 ℝ)
        (constructStructured (onesCollab ℝ Real.cos Real.sin (Real.pi / 180)) false
          (constEngine ℝ 0) (grid4x2 ℝ) 1 true).nlatsNH_
        (constructStructured (onesCollab ℝ Real.cos Real.sin (Real.pi / 180)) false
          (constEngine ℝ 0) (grid4x2 ℝ) 1 true).nlatsSH_
        (constructStructured (onesCollab ℝ Real.cos Real.sin (Real.pi / 180)) false
          (constEngine ℝ 0) (grid4x2 ℝ) 1 true).nlatsLeg_ 1 =
      |(grid4x2 ℝ).y 1| * (onesCollab ℝ Real.cos Real.sin (Real.pi / 180)).degreesToRadians ∧
    0 ≤ (grid4x2 ℝ).y 1 ∧ (1 : Int) < (grid4x2 ℝ).ny :=
  have hN : (constructStructured (onesCollab ℝ Real.cos Real.sin (Real.pi / 180)) false
      (constEngine ℝ 0) (grid4x2 ℝ) 1 true).nlatsNH_ = 2 := by
    simp [constructStructured, hemisphereCounts_grid4x2]
  have hS : (constructStructured (onesCollab ℝ Real.cos Real.sin (Real.pi / 180)) false
      (constEngine ℝ 0) (grid4x2 ℝ) 1 true).nlatsSH_ = 2 := by
    simp [constructStructured, hemisphereCounts_grid4x2]
  have hL : (constructStructured (onesCollab ℝ Real.cos Real.sin (Real.pi / 180)) false
      (constEngine ℝ 0) (grid4x2 ℝ) 1 true).nlatsLeg_ = 2 := by
    simp [constructStructured, hemisphereCounts_grid4x2]
  (legendre_latitudes_of_longer_hemisphere (onesCollab ℝ Real.cos Real.sin (Real.pi / 180))
    false (constEngine ℝ 0) (grid4x2 ℝ) 1 true
    (by
      intro j k hj hjk hk
      have hny : ((grid4x2 ℝ).ny : Int) = 4 := by simp [grid4x2, StructuredGrid.ny]
      rw [hny] at hk
      have hj4 : j < 4 := by omega
      interval_cases j <;> interval_cases k <;> simp [grid4x2] <;> norm_num)).2.2.2.2.1
    1 (by norm_num) (by rw [hL]; norm_num) (by rw [hN, hS])

/-! ## C19: `extend_truncationopt3` -/

/-- Twice the number of coefficients of one field. -/
theorem legendre_size_double (T : Nat) : 2 * legendre_size T = (T + 2) * (T + 1) := by
  unfold legendre_size
  have h : 2 ∣ (T + 2) * (T + 1) := by
    rw [Nat.mul_comm]
    exact (Nat.even_mul_succ_self (T + 1)).two_dvd
  exact Nat.mul_div_cancel' h

/-- The block offsets `(2 * t + 3 - m) * m / 2` do not decrease for `0 <= m <= t + 1`. -/
theorem ioff_mono (t a b : Int) (hab : a ≤ b) (hb : b ≤ t + 1) :
    Int.tdiv ((2 * t + 3 - a) * a) 2 ≤ Int.tdiv ((2 * t + 3 - b) * b) 2 := by
  obtain ⟨d, rfl⟩ : ∃ d : Nat, b = a + (d : Int) := ⟨(b - a).toNat, by omega⟩
  induction d with
  | zero => simp
  | succ d ih =>
    have h := ih (by omega) (by push_cast at hb; omega)
    have e : a + ((d + 1 : Nat) : Int) = (a + (d : Int)) + 1 := by push_cast; ring
    rw [e, ioff_succ t (a + d)]
    push_cast at hb
    omega

/-- C12 (amended): the construction option `precompute` is stored in `precompute_` and
selects nothing. Whatever its value, the constructor sets `unstruct_precomp_ = true` and,
for a grid that is not a structured grid without projection, builds the per-point Legendre
table `legendre_`; the engine built with `precompute = false` is the engine built with
`precompute = true` with only the member `precompute_` different; and `invtrans_uv` on an
unstructured point set runs `invtrans_unstructured_precomp`. -/
theorem precompute_option_selects_nothing {R : Type} [LinearOrderedField R] (m : Collab R)
    (haveFFTW : Bool) (raw : Engine R) (sc : Scratch R) (xy : List (R × R))
    (truncation : Int) (precompute : Bool) (nb_scalar_fields nb_vordiv_fields : Int)
    (scalar_spectra gp_fields : Buf R) (hnb : 0 < nb_scalar_fields) :
    construct m haveFFTW raw (.unstructured xy) truncation precompute =
        Except.ok (constructUnstructured m raw (.unstructured xy) truncation precompute) ∧
    (constructUnstructured m raw (.unstructured xy) truncation precompute).precompute_ =
        precompute ∧
    (constructUnstructured m raw (.unstructured xy) truncation precompute).unstruct_precomp_ =
        true ∧
    (constructUnstructured m raw (.unstructured xy) truncation precompute).legendre_ =
        m.compute_legendre_polynomials_allopt3 truncation (xy.length : Int)
          (forUp (xy.length : Int)
            (fun j lats => Function.update lats j
              ((Grid.unstructured xy).pointY j * m.degreesToRadians)) (fun _ => 0))
          raw.legendre_ ∧
    constructUnstructured m raw (.unstructured xy) truncation false =
        { constructUnstructured m raw (.unstructured xy) truncation true with
          precompute_ := false } ∧
    invtrans_uv m haveFFTW sc truncation nb_scalar_fields nb_vordiv_fields scalar_spectra
        ⟨constructUnstructured m raw (.unstructured xy) truncation precompute, gp_fields⟩ =
      { err := none
        out := ⟨constructUnstructured m raw (.unstructured xy) truncation precompute,
          invtrans_unstructured_precomp m
            (constructUnstructured m raw (.unstructured xy) truncation precompute) sc
            truncation nb_scalar_fields nb_vordiv_fields scalar_spectra gp_fields⟩ } := by
  refine ⟨rfl, rfl, rfl, rfl, rfl, ?_⟩
  unfold invtrans_uv
  rw [if_pos hnb]
  rfl

/-- Witness of C12 (as amended): one point, truncation 0, `precompute = false`. -/
theorem precompute_option_selects_nothing_witness :
    (0 : Int) < 1 ∧
    (constructUnstructured (onesCollab ℝ Real.cos Real.sin (Real.pi / 180)) (constEngine ℝ 0)
        (.unstructured [(0, 45)]) 0 false).unstruct_precomp_ = true :=
  ⟨by norm_num,
    (precompute_option_selects_nothing (onesCollab ℝ Real.cos Real.sin (Real.pi / 180)) false
      (constEngine ℝ 0) (constScratch ℝ 0) [(0, 45)] 0 false 1 0
      (fun i => if i = 0 then 1 else 0) (fun _ => 0) (by norm_num)).2.2.1⟩

/-- C12 (counterexample): an engine built with `precompute = false` on the unstructured
point `(0, 45)` with truncation 0, Legendre values all equal to 1. The per-point Legendre
table is built (entry 0 is 1, the memory was 0) and `unstruct_precomp_` is set;
`invtrans_uv` leaves 0 at the point, the value of `invtrans_unstructured_precomp`, where the
on-the-fly routine `invtrans_unstructured` leaves 1. -/
theorem precompute_false_still_precomputes_counterexample :
    construct (onesCollab ℝ Real.cos Real.sin (Real.pi / 180)) false (constEngine ℝ 0)
        (.unstructured [(0, 45)]) 0 false =
      Except.ok (constructUnstructured (onesCollab ℝ Real.cos Real.sin (Real.pi / 180))
        (constEngine ℝ 0) (.unstructured [(0, 45)]) 0 false) ∧
    (constructUnstructured (onesCollab ℝ Real.cos Real.sin (Real.pi / 180)) (constEngine ℝ 0)
        (.unstructured [(0, 45)]) 0 false).precompute_ = false ∧
    (constructUnstructured (onesCollab ℝ Real.cos Real.sin (Real.pi / 180)) (constEngine ℝ 0)
        (.unstructured [(0, 45)]) 0 false).unstruct_precomp_ = true ∧
    (constEngine ℝ 0).legendre_ 0 = 0 ∧
    (constructUnstructured (onesCollab ℝ Real.cos Real.sin (Real.pi / 180)) (constEngine ℝ 0)
        (.unstructured [(0, 45)]) 0 false).legendre_ 0 = 1 ∧
    (invtrans_uv (onesCollab ℝ Real.cos Real.sin (Real.pi / 180)) false (constScratch ℝ 0)
        0 1 0 (fun i => if i = 0 then 1 else 0)
        ⟨constructUnstructured (onesCollab ℝ Real.cos Real.sin (Real.pi / 180))
          (constEngine ℝ 0) (.unstructured [(0, 45)]) 0 false, fun _ => 0⟩).out.gp_fields 0 =
      0 ∧
    invtrans_unstructured (onesCollab ℝ Real.cos Real.sin (Real.pi / 180))
        (constructUnstructured (onesCollab ℝ Real.cos Real.sin (Real.pi / 180))
          (constEngine ℝ 0) (.unstructured [(0, 45)]) 0 false)
        (constScratch ℝ 0) 0 1 0 (fun i => if i = 0 then 1 else 0) (fun _ => 0) 0 = 1 := by
  refine ⟨rfl, rfl, rfl, rfl, rfl, ?_, ?_⟩
  · simp [invtrans_uv, constructUnstructured, constructInit,
      invtrans_unstructured_precomp, Grid.size, forUp, forFrom, List.range_succ, gemm,
      fouriertpFill, Function.update_apply]
  · simp [constructUnstructured, constructInit, onesCollab,
      invtrans_unstructured, Grid.size, forUp, forFrom, List.range_succ, gemm,
      fouriertpFill, Function.update_apply, Buf.atOffset, Buf.shift, Finset.sum_range_succ,
      -Finset.sum_boole]

/-! ## C11: wind recovery -/

/-- C11 (code evaluated at the failing input): on an unstructured point set the argument
`nb_vordiv_fields` has no effect. Both unstructured routines, and `invtrans_uv` on an engine
built for an unstructured point set, return for every `nb_vordiv_fields` what they return
for `nb_vordiv_fields = 0`: no value is divided by the cosine of its latitude, where the
branch of a structured grid divides (lines 701-716). At the point `(0, 60)` with truncation
1, one field, `nb_vordiv_fields = 1`, Legendre values all equal to 1 and the spectral buffer
whose only coefficient (m = 0, n = 0, real part) is `c`, `invtrans_uv` and
`invtrans_unstructured` leave `c`, the value of the Fourier stage, and not
`c / cos( 60 degrees ) = 2 * c`. -/
theorem unstructured_wind_recovery_missing (haveFFTW : Bool) (raw : Engine ℝ)
    (sc : Scratch ℝ) (xy : List (ℝ × ℝ)) (truncation nb_fields nb_vordiv_fields : Int)
    (precompute : Bool) (scalar_spectra gp_fields : Buf ℝ) (m : Collab ℝ) (e : Engine ℝ)
    (c : ℝ) :
    invtrans_unstructured_precomp m e sc truncation nb_fields nb_vordiv_fields scalar_spectra
        gp_fields =
      invtrans_unstructured_precomp m e sc truncation nb_fields 0 scalar_spectra gp_fields ∧
    invtrans_unstructured m e sc truncation nb_fields nb_vordiv_fields scalar_spectra
        gp_fields =
      invtrans_unstructured m e sc truncation nb_fields 0 scalar_spectra gp_fields ∧
    invtrans_uv m haveFFTW sc truncation nb_fields nb_vordiv_fields scalar_spectra
        ⟨constructUnstructured m raw (.unstructured xy) truncation precompute, gp_fields⟩ =
      invtrans_uv m haveFFTW sc truncation nb_fields 0 scalar_spectra
        ⟨constructUnstructured m raw (.unstructured xy) truncation precompute, gp_fields⟩ ∧
    (invtrans_uv (onesCollab ℝ Real.cos Real.sin (Real.pi / 180)) haveFFTW sc 1 1 1
        (fun i => if i = 0 then c else 0)
        ⟨constructUnstructured (onesCollab ℝ Real.cos Real.sin (Real.pi / 180)) raw
          (.unstructured [(0, 60)]) 1 precompute, gp_fields⟩).out.gp_fields 0 = c ∧
    invtrans_unstructured (onesCollab ℝ Real.cos Real.sin (Real.pi / 180))
        (constructUnstructured (onesCollab ℝ Real.cos Real.sin (Real.pi / 180)) raw
          (.unstructured [(0, 60)]) 1 precompute)
        sc 1 1 1 (fun i => if i = 0 then c else 0) gp_fields 0 = c ∧
    c / (onesCollab ℝ Real.cos Real.sin (Real.pi / 180)).cos
        ((Grid.unstructured [((0 : ℝ), (60 : ℝ))]).pointY 0 *
          (onesCollab ℝ Real.cos Real.sin (Real.pi / 180)).degreesToRadians) = 2 * c := by
  refine ⟨rfl, rfl, rfl, ?_, ?_, ?_⟩
  · simp [invtrans_uv, constructUnstructured, constructInit, onesCollab,
      invtrans_unstructured_precomp, Grid.size, forUp, forFrom, List.range_succ, gemm,
      fouriertpFill, Function.update_apply, Buf.atOffset, Buf.shift, Finset.sum_range_succ,
      -Finset.sum_boole]
  · have d1 : Int.tdiv 4 2 = 2 := by decide
    simp [constructUnstructured, constructInit, onesCollab,
      invtrans_unstructured, Grid.size, forUp, forFrom, List.range_succ, gemm,
      fouriertpFill, Function.update_apply, Buf.atOffset, Buf.shift, Finset.sum_range_succ,
      d1, -Finset.sum_boole]
  · have h : (Grid.unstructured [((0 : ℝ), (60 : ℝ))]).pointY 0 = 60 := by
      simp [Grid.pointY]
    have hc : Real.cos (60 * (Real.pi / 180)) = 1 / 2 := by
      rw [show (60 : ℝ) * (Real.pi / 180) = Real.pi / 3 by ring]
      exact Real.cos_pi_div_three
    rw [h]
    show c / Real.cos (60 * (Real.pi / 180)) = 2 * c
    rw [hc]
    ring

/-! ## C25: the assertion at the end of the split step -/

/-- The split step writes the two sub-arrays through the counters `is` and `ia` only: no
entry below 0 or at or above the final value of the counter is changed. -/
theorem legendreSplit_frame {R : Type} [Field R] (truncation_ truncation nf jm n_imag : Int)
    (scalar_spectra sym0 asym0 : Buf R)
    (hjm : jm ≤ truncation_ + 1) (hni : 0 ≤ n_imag) (hnf : 0 ≤ nf) :
    (∀ p, p < 0 ∨ n_imag * nf * num_n (truncation_ + 1) jm true ≤ p →
      (legendreSplit truncation_ truncation nf jm n_imag scalar_spectra sym0 asym0).scalar_sym p =
        sym0 p) ∧
    (∀ p, p < 0 ∨ n_imag * nf * num_n (truncation_ + 1) jm false ≤ p →
      (legendreSplit truncation_ truncation nf jm n_imag scalar_spectra sym0 asym0).scalar_asym
          p = asym0 p) := by
  obtain ⟨hs, ha, _, _⟩ := legendreSplit_spec truncation_ truncation nf jm n_imag
    scalar_spectra sym0 asym0 hjm hni hnf
  have hfold : legendreSplit truncation_ truncation nf jm n_imag scalar_spectra sym0 asym0 =
      forUp (truncation_ + 1 - jm + 1)
        (fun k s1 => forUp n_imag (fun imag s2 => forUp nf (fun jfld s =>
          splitBody truncation nf jm (Int.tdiv ((2 * truncation + 3 - jm) * jm) 2 * nf * 2)
            scalar_spectra (truncation_ + 1 - k) imag jfld s) s2) s1)
        ({ is := 0, ia := 0, scalar_sym := sym0, scalar_asym := asym0 } : SplitState R) := rfl
  have hinv := forUp_induction
    (fun _ (s : SplitState R) =>
      0 ≤ s.is ∧ 0 ≤ s.ia ∧
      (∀ p, p < 0 ∨ s.is ≤ p → s.scalar_sym p = sym0 p) ∧
      (∀ p, p < 0 ∨ s.ia ≤ p → s.scalar_asym p = asym0 p))
    (truncation_ + 1 - jm + 1)
    (fun k s1 => forUp n_imag (fun imag s2 => forUp nf (fun jfld s =>
      splitBody truncation nf jm (Int.tdiv ((2 * truncation + 3 - jm) * jm) 2 * nf * 2)
        scalar_spectra (truncation_ + 1 - k) imag jfld s) s2) s1)
    ({ is := 0, ia := 0, scalar_sym := sym0, scalar_asym := asym0 } : SplitState R)
    ⟨le_rfl, le_rfl, fun _ _ => rfl, fun _ _ => rfl⟩
    (by
      intro k s hk0 hk1 ⟨h1, h2, h3, h4⟩
      have hblock : 0 ≤ n_imag * nf := mul_nonneg hni hnf
      rcases Int.emod_two_eq (truncation_ + 1 - k - jm) with hpar | hpar
      · obtain ⟨r, hr, r1, r2, r3, _, r5⟩ := splitRow_even truncation nf jm n_imag
          scalar_spectra (truncation_ + 1 - k) s hni hnf hpar (by omega)
        simp only [hr]
        refine ⟨by omega, by omega, ?_, ?_⟩
        · intro p hp
          rw [r5 p (by omega)]
          exact h3 p (by omega)
        · intro p hp
          rw [r2]
          exact h4 p (by omega)
      · obtain ⟨r, hr, r1, r2, r3, _, r5⟩ := splitRow_odd truncation nf jm n_imag
          scalar_spectra (truncation_ + 1 - k) s hni hnf hpar (by omega)
        simp only [hr]
        refine ⟨by omega, by omega, ?_, ?_⟩
        · intro p hp
          rw [r2]
          exact h3 p (by omega)
        · intro p hp
          rw [r5 p (by omega)]
          exact h4 p (by omega))
  rw [← hfold] at hinv
  obtain ⟨_, _, h3, h4⟩ := hinv
  exact ⟨fun p hp => h3 p (by rw [hs]; exact hp), fun p hp => h4 p (by rw [ha]; exact hp)⟩

/-- The Legendre stage raises nothing, whatever the hemisphere counts: every `ASSERT` of
line 393 holds. -/
theorem invtrans_legendreopt3_ok {R : Type} [Field R] (e : Engine R) (sc : Scratch R)
    (truncation nlats nf : Int) (scalar_spectra scl_fourier : Buf R) (hnf : 0 ≤ nf) :
    ∃ out : Buf R,
      invtrans_legendreopt3 e sc truncation nlats nf scalar_spectra scl_fourier =
        Except.ok out := by
  refine ⟨_, forUp_except_ok (e.truncation_ + 1)
    (legendreStep e sc truncation nlats nf scalar_spectra)
    (fun jm scl => mergeHemispheres e nlats nf jm (nImag jm)
        (legendreProducts e sc nf jm (nImag jm)
          (legendreSplit e.truncation_ truncation nf jm (nImag jm) scalar_spectra
            (sc.scalar_sym jm) (sc.scalar_asym jm)).scalar_sym
          (legendreSplit e.truncation_ truncation nf jm (nImag jm) scalar_spectra
            (sc.scalar_sym jm) (sc.scalar_asym jm)).scalar_asym).1
        (legendreProducts e sc nf jm (nImag jm)
          (legendreSplit e.truncation_ truncation nf jm (nImag jm) scalar_spectra
            (sc.scalar_sym jm) (sc.scalar_asym jm)).scalar_sym
          (legendreSplit e.truncation_ truncation nf jm (nImag jm) scalar_spectra
            (sc.scalar_sym jm) (sc.scalar_asym jm)).scalar_asym).2
        scl)
    scl_fourier
    (fun jm scl _ h1 => legendreStep_ok e sc truncation nlats nf scalar_spectra jm scl
      (by omega) hnf)⟩

/-- C25: the assertion at the end of the split step of `invtrans_legendreopt3` never fails.
For every storage truncation, every `nb_fields >= 0` and every `jm <= truncation_` (the
zonal wavenumbers the loop visits), after the loop over `jn` from `truncation_ + 1` down to
`jm` the counters are `is = n_imag * nb_fields * num_n( truncation_ + 1, jm, true )` and
`ia = n_imag * nb_fields * num_n( truncation_ + 1, jm, false )`, the sizes of the two
allocations; no entry of `scalar_sym` or `scalar_asym` outside these sizes is written; the
body of the loop over `jm` raises no `AssertionFailed`, and the Legendre stage as a whole
returns normally. -/
theorem split_assertion_never_fails {R : Type} [Field R] (e : Engine R) (sc : Scratch R)
    (truncation nlats nf : Int) (scalar_spectra scl_fourier : Buf R) (jm : Int)
    (hnf : 0 ≤ nf) (hjm : jm ≤ e.truncation_) :
    (legendreSplit e.truncation_ truncation nf jm (nImag jm) scalar_spectra (sc.scalar_sym jm)
        (sc.scalar_asym jm)).is = nImag jm * nf * num_n (e.truncation_ + 1) jm true ∧
    (legendreSplit e.truncation_ truncation nf jm (nImag jm) scalar_spectra (sc.scalar_sym jm)
        (sc.scalar_asym jm)).ia = nImag jm * nf * num_n (e.truncation_ + 1) jm false ∧
    (∀ p, p < 0 ∨ nImag jm * nf * num_n (e.truncation_ + 1) jm true ≤ p →
      (legendreSplit e.truncation_ truncation nf jm (nImag jm) scalar_spectra
        (sc.scalar_sym jm) (sc.scalar_asym jm)).scalar_sym p = sc.scalar_sym jm p) ∧
    (∀ p, p < 0 ∨ nImag jm * nf * num_n (e.truncation_ + 1) jm false ≤ p →
      (legendreSplit e.truncation_ truncation nf jm (nImag jm) scalar_spectra
        (sc.scalar_sym jm) (sc.scalar_asym jm)).scalar_asym p = sc.scalar_asym jm p) ∧
    legendreStep e sc truncation nlats nf scalar_spectra jm scl_fourier ≠
      Except.error TransError.assertionFailed ∧
    ∃ out : Buf R,
      invtrans_legendreopt3 e sc truncation nlats nf scalar_spectra scl_fourier =
        Except.ok out := by
  have hni : 0 ≤ nImag jm := by unfold nImag; split_ifs <;> norm_num
  obtain ⟨h1, h2, _, _⟩ := legendreSplit_spec e.truncation_ truncation nf jm (nImag jm)
    scalar_spectra (sc.scalar_sym jm) (sc.scalar_asym jm) (by omega) hni hnf
  obtain ⟨f1, f2⟩ := legendreSplit_frame e.truncation_ truncation nf jm (nImag jm)
    scalar_spectra (sc.scalar_sym jm) (sc.scalar_asym jm) (by omega) hni hnf
  refine ⟨h1, h2, f1, f2, ?_, invtrans_legendreopt3_ok e sc truncation nlats nf
    scalar_spectra scl_fourier hnf⟩
  rw [legendreStep_ok e sc truncation nlats nf scalar_spectra jm scl_fourier (by omega) hnf]
  exact fun h => Except.noConfusion h

/-- Witness of C25: truncation 1 on the regular 2 x 2 grid, one field, `jm = 1`. -/
theorem split_assertion_never_fails_witness :
    (0 : Int) ≤ 1 ∧
    (legendreSplit
        (constructStructured (onesCollab ℝ Real.cos Real.sin (Real.pi / 180)) false
          (constEngine ℝ 0) (grid2x2 ℝ) 1 true).truncation_ 1 1 1 (nImag 1)
        (fun i => (i : ℝ)) ((constScratch ℝ 0).scalar_sym 1)
        ((constScratch ℝ 0).scalar_asym 1)).is =
      nImag 1 * 1 * num_n
        ((constructStructured (onesCollab ℝ Real.cos Real.sin (Real.pi / 180)) false
          (constEngine ℝ 0) (grid2x2 ℝ) 1 true).truncation_ + 1) 1 true :=
  ⟨by norm_num,
    (split_assertion_never_fails
      (constructStructured (onesCollab ℝ Real.cos Real.sin (Real.pi / 180)) false
        (constEngine ℝ 0) (grid2x2 ℝ) 1 true) (constScratch ℝ 0) 1 2 1 (fun i => (i : ℝ))
      (fun _ => 0) 1 (by norm_num) (show (1 : Int) ≤ 1 from le_rfl)).1⟩

/-! ## C30: the antisymmetric block is never empty -/

/-- C30: for every zonal wavenumber `jm <= truncation_` that the Legendre stage visits,
`size_sym = num_n( truncation_ + 1, jm, true ) >= 1` and
`size_asym = num_n( truncation_ + 1, jm, false ) >= 1`, so the guard `size_asym > 0` holds
and `scl_fourier_asym` is the result of the matrix product. Every index
`posFourier( jfld, imag, jlat, jm, nlatsH )` that the merge reads, for a row `jlat` of a
hemisphere of `nlatsH <= nlatsLeg_` rows (the merge uses `nlatsH = nlatsNH_` and
`nlatsH = nlatsSH_`), lies inside the `nb_fields * n_imag * nlatsLeg_` entries the product
writes, and the entry found there is the sum of the product: it does not depend on what the
memory of `scl_fourier_asym` held before. -/
theorem asym_block_never_empty {R : Type} [Field R] (e : Engine R) (sc sc2 : Scratch R)
    (nf jm : Int) (scalar_sym scalar_asym : Buf R) (nlatsH : Int)
    (hjm : jm ≤ e.truncation_) (hH : nlatsH ≤ e.nlatsLeg_) (jfld imag jlat : Int)
    (hf0 : 0 ≤ jfld) (hf1 : jfld < nf) (hi0 : 0 ≤ imag) (hi1 : imag < nImag jm)
    (hl0 : 0 ≤ jlat) (hl1 : jlat < nlatsH) :
    1 ≤ num_n (e.truncation_ + 1) jm true ∧ 1 ≤ num_n (e.truncation_ + 1) jm false ∧
    (legendreProducts e sc nf jm (nImag jm) scalar_sym scalar_asym).2 =
      gemm (nf * nImag jm) (num_n (e.truncation_ + 1) jm false) e.nlatsLeg_ scalar_asym
        (e.legendre_asym_.shift (e.legendre_asym_begin_ jm)) (sc.scl_fourier_asym jm) ∧
    0 ≤ posFourier nf (nImag jm) e.nlatsLeg_ jfld imag jlat jm nlatsH ∧
    posFourier nf (nImag jm) e.nlatsLeg_ jfld imag jlat jm nlatsH <
      nf * nImag jm * e.nlatsLeg_ ∧
    (legendreProducts e sc nf jm (nImag jm) scalar_sym scalar_asym).2
        (posFourier nf (nImag jm) e.nlatsLeg_ jfld imag jlat jm nlatsH) =
      ∑ l ∈ Finset.range (num_n (e.truncation_ + 1) jm false).toNat,
        scalar_asym (jfld + nf * imag + nf * nImag jm * (l : Int)) *
          e.legendre_asym_ (e.legendre_asym_begin_ jm +
            ((l : Int) + num_n (e.truncation_ + 1) jm false *
              (e.nlatsLeg_ - nlatsH + jlat))) ∧
    (legendreProducts e sc nf jm (nImag jm) scalar_sym scalar_asym).2
        (posFourier nf (nImag jm) e.nlatsLeg_ jfld imag jlat jm nlatsH) =
      (legendreProducts e sc2 nf jm (nImag jm) scalar_sym scalar_asym).2
        (posFourier nf (nImag jm) e.nlatsLeg_ jfld imag jlat jm nlatsH) := by
  have hs : 1 ≤ num_n (e.truncation_ + 1) jm true := by
    rw [num_n_true _ _ (by omega)]; omega
  have ha : 1 ≤ num_n (e.truncation_ + 1) jm false := by
    rw [num_n_false _ _ (by omega)]; omega
  have hprod : ∀ s : Scratch R,
      (legendreProducts e s nf jm (nImag jm) scalar_sym scalar_asym).2 =
      gemm (nf * nImag jm) (num_n (e.truncation_ + 1) jm false) e.nlatsLeg_ scalar_asym
        (e.legendre_asym_.shift (e.legendre_asym_begin_ jm)) (s.scl_fourier_asym jm) := by
    intro s
    unfold legendreProducts
    simp only [gt_iff_lt]
    rw [if_pos (by omega)]
  have hb1 := radix_bound imag (nImag jm) (e.nlatsLeg_ - nlatsH + jlat) e.nlatsLeg_ hi0 hi1
    (by omega) (by omega)
  have hb2 := radix_bound jfld nf (imag + nImag jm * (e.nlatsLeg_ - nlatsH + jlat))
    (nImag jm * e.nlatsLeg_) hf0 hf1 hb1.1 hb1.2
  have hi2 := radix_bound jfld nf imag (nImag jm) hf0 hf1 hi0 hi1
  have hpos : posFourier nf (nImag jm) e.nlatsLeg_ jfld imag jlat jm nlatsH =
      (jfld + nf * imag) + nf * nImag jm * (e.nlatsLeg_ - nlatsH + jlat) := by
    unfold posFourier; ring
  have hval : ∀ s : Scratch R,
      (legendreProducts e s nf jm (nImag jm) scalar_sym scalar_asym).2
        (posFourier nf (nImag jm) e.nlatsLeg_ jfld imag jlat jm nlatsH) =
      ∑ l ∈ Finset.range (num_n (e.truncation_ + 1) jm false).toNat,
        scalar_asym (jfld + nf * imag + nf * nImag jm * (l : Int)) *
          e.legendre_asym_ (e.legendre_asym_begin_ jm +
            ((l : Int) + num_n (e.truncation_ + 1) jm false *
              (e.nlatsLeg_ - nlatsH + jlat))) := by
    intro s
    rw [hprod s, hpos, gemm_apply _ _ _ _ _ _ _ _ hi2.1 hi2.2 (by omega) (by omega)]
    rfl
  refine ⟨hs, ha, hprod sc, ?_, ?_, hval sc, (hval sc).trans (hval sc2).symm⟩
  · unfold posFourier; exact hb2.1
  · unfold posFourier
    have : nf * (nImag jm * e.nlatsLeg_) = nf * nImag jm * e.nlatsLeg_ := by ring
    omega

/-- Witness of C30: truncation 1 on the regular 2 x 2 grid, one field, `jm = 1`, the
northern row 0. -/
theorem asym_block_never_empty_witness :
    (1 : Int) ≤ (constructStructured (onesCollab ℝ Real.cos Real.sin (Real.pi / 180)) false
        (constEngine ℝ 0) (grid2x2 ℝ) 1 true).truncation_ ∧
    (0 : Int) < (constructStructured (onesCollab ℝ Real.cos Real.sin (Real.pi / 180)) false
        (constEngine ℝ 0) (grid2x2 ℝ) 1 true).nlatsNH_ ∧
    1 ≤ num_n ((constructStructured (onesCollab ℝ Real.cos Real.sin (Real.pi / 180)) false
        (constEngine ℝ 0) (grid2x2 ℝ) 1 true).truncation_ + 1) 1 false :=
  have hN : (constructStructured (onesCollab ℝ Real.cos Real.sin (Real.pi / 180)) false
      (constEngine ℝ 0) (grid2x2 ℝ) 1 true).nlatsNH_ = 1 := by
    simp [constructStructured, hemisphereCounts_grid2x2]
  have hL : (constructStructured (onesCollab ℝ Real.cos Real.sin (Real.pi / 180)) false
      (constEngine ℝ 0) (grid2x2 ℝ) 1 true).nlatsLeg_ = 1 := by
    simp [constructStructured, hemisphereCounts_grid2x2]
  have hT : (constructStructured (onesCollab ℝ Real.cos Real.sin (Real.pi / 180)) false
      (constEngine ℝ 0) (grid2x2 ℝ) 1 true).truncation_ = 1 := rfl
  ⟨by rw [hT], by rw [hN]; norm_num,
    (asym_block_never_empty
      (constructStructured (onesCollab ℝ Real.cos Real.sin (Real.pi / 180)) false
        (constEngine ℝ 0) (grid2x2 ℝ) 1 true) (constScratch ℝ 0) (constScratch ℝ 1) 1 1
      (fun i => (i : ℝ)) (fun i => (i : ℝ))
      (constructStructured (onesCollab ℝ Real.cos Real.sin (Real.pi / 180)) false
        (constEngine ℝ 0) (grid2x2 ℝ) 1 true).nlatsNH_
      (by rw [hT]) (by rw [hN, hL]) 0 0 0 le_rfl (by norm_num) le_rfl (by decide) le_rfl
      (by rw [hN]; norm_num)).2.1⟩

/-! ## The block offset of the split step in exact arithmetic -/

/-- Twice the number of pairs `(m', n)` with `m' < k` and `m' <= n <= t`, for `k <= t + 1`. -/
theorem two_mul_sum_wavenumbers_below (t k : Nat) (hk : k ≤ t + 1) :
    2 * ∑ m ∈ Finset.range k, (t - m + 1) + k * k = (2 * t + 3) * k := by
  induction k with
  | zero => simp
  | succ k ih =>
    have ih2 := ih (by omega)
    rw [Finset.sum_range_succ]
    have hsub : t - k + k = t := Nat.sub_add_cancel (by omega)
    nlinarith

/-- The number of pairs `(m', n)` with `m' < m` and `m' <= n <= t` is the block offset
`(2 * t + 3 - m) * m / 2`. -/
theorem card_pairs_below (t m : Nat) (hm : m ≤ t + 1) :
    ((((Finset.range m) ×ˢ (Finset.range (t + 1))).filter
      (fun p : Nat × Nat => p.1 ≤ p.2)).card : Int) =
      Int.tdiv ((2 * (t : Int) + 3 - (m : Int)) * (m : Int)) 2 := by
  have hcard : (((Finset.range m) ×ˢ (Finset.range (t + 1))).filter
      (fun p : Nat × Nat => p.1 ≤ p.2)).card = ∑ k ∈ Finset.range m, (t - k + 1) := by
    rw [Finset.card_filter, Finset.sum_product]
    apply Finset.sum_congr rfl
    intro k hk
    rw [← Finset.card_filter, card_wavenumbers_of]
    have := Finset.mem_range.mp hk
    omega
  have h2 := two_mul_sum_wavenumbers_below t m hm
  have h3 : (2 : Int) * ((∑ k ∈ Finset.range m, (t - k + 1) : Nat) : Int) +
      (m : Int) * (m : Int) = (2 * (t : Int) + 3) * (m : Int) := by exact_mod_cast h2
  have h4 := ioff_even (t : Int) (m : Int)
  rw [hcard]
  have h5 : (2 * (t : Int) + 3 - (m : Int)) * (m : Int) =
      (2 * (t : Int) + 3) * (m : Int) - (m : Int) * (m : Int) := by ring
  omega

/-- The block offset of `t + 1` is the number `legendre_size t` of pairs `(m, n)` with
`0 <= m <= n <= t`. -/
theorem ioff_top (t : Int) (ht : 0 ≤ t) :
    Int.tdiv ((2 * t + 3 - (t + 1)) * (t + 1)) 2 = (legendre_size t.toNat : Int) := by
  have h1 := ioff_even t (t + 1)
  have h2 := legendre_size_double t.toNat
  have h3 : (2 : Int) * (legendre_size t.toNat : Int) =
      ((t.toNat : Int) + 2) * ((t.toNat : Int) + 1) := by exact_mod_cast h2
  rw [Int.toNat_of_nonneg ht] at h3
  have : (2 * t + 3 - (t + 1)) * (t + 1) = (t + 2) * (t + 1) := by ring
  omega

/-- The index of a coefficient `(m, n, imag, jfld)` with `0 <= m <= n <= t` lies in the
spectral buffer of `2 * legendre_size( t ) * nb_fields` entries. -/
theorem spectralIndex_bound (t nf jm jn imag jfld : Int) (ht : 0 ≤ t)
    (hm0 : 0 ≤ jm) (hmn : jm ≤ jn) (hn : jn ≤ t) (hi0 : 0 ≤ imag) (hi1 : imag < 2)
    (hf0 : 0 ≤ jfld) (hf1 : jfld < nf) :
    0 ≤ spectralIndex t nf jm jn imag jfld ∧
      spectralIndex t nf jm jn imag jfld < 2 * (legendre_size t.toNat : Int) * nf := by
  have hidx : spectralIndex t nf jm jn imag jfld =
      2 * nf * (Int.tdiv ((2 * t + 3 - jm) * jm) 2 + (jn - jm)) + nf * imag + jfld := by
    unfold spectralIndex; ring
  have hnf : 0 ≤ nf := by omega
  have h0 := ioff_mono t 0 jm hm0 (by omega)
  have h00 : Int.tdiv ((2 * t + 3 - 0) * 0) 2 = 0 := by simp
  rw [h00] at h0
  have h1 := ioff_mono t (jm + 1) (t + 1) (by omega) le_rfl
  rw [ioff_succ t jm, ioff_top t ht] at h1
  have p1 : 0 ≤ nf * imag := mul_nonneg hnf hi0
  have p2 : nf * imag ≤ nf * 1 := mul_le_mul_of_nonneg_left (by omega) hnf
  have p3 : 0 ≤ nf * (Int.tdiv ((2 * t + 3 - jm) * jm) 2 + (jn - jm)) :=
    mul_nonneg hnf (by omega)
  have p4 : nf * (Int.tdiv ((2 * t + 3 - jm) * jm) 2 + (jn - jm) + 1) ≤
      nf * (legendre_size t.toNat : Int) := mul_le_mul_of_nonneg_left (by omega) hnf
  rw [hidx]
  constructor
  · nlinarith
  · nlinarith

/-- The block offset of the split step of `invtrans_legendreopt3` with storage truncation
`t >= 0` in exact integer arithmetic, which is the arithmetic of the source as long as the
size of the spectral buffer fits the type `int` (`splitBody32_exact_of_fits`). The product `(2 * t + 3 - m) * m` is even, so the division by 2 is
exact; for `m <= t + 1` the offset `ioff = (2 * t + 3 - m) * m / 2 * nb_fields * 2` is
`2 * nb_fields` times the number of pairs `(m', n)` with `m' < m` and `m' <= n <= t`; every
index `idx + ioff` read under the guard `jn <= t && jm < t`, for `0 <= jm <= jn`,
`imag < 2`, `jfld < nb_fields`, lies in `[0, 2 * legendre_size( t ) * nb_fields)`; hence
the body of the split loop, and the whole split step for `jm >= 0`, give the same result on
two spectral buffers that agree on these entries. This holds for every `t >= 0`, so for
the scalar call (`t = truncation_`) and the vector call (`t = truncation_ + 1`). -/
theorem split_reads_inside_spectral_buffer {R : Type} [Field R] (truncation_ t nf : Int)
    (ht : 0 ≤ t) (s1 s2 : Buf R)
    (hagree : ∀ i, 0 ≤ i → i < 2 * (legendre_size t.toNat : Int) * nf → s1 i = s2 i)
    (jm jn imag jfld : Int) (hm0 : 0 ≤ jm) (hmn : jm ≤ jn) (hi0 : 0 ≤ imag) (hi1 : imag < 2)
    (hf0 : 0 ≤ jfld) (hf1 : jfld < nf) (st : SplitState R) (sym0 asym0 : Buf R) :
    2 * Int.tdiv ((2 * t + 3 - jm) * jm) 2 = (2 * t + 3 - jm) * jm ∧
    (∀ tN mN : Nat, mN ≤ tN + 1 →
      Int.tdiv ((2 * (tN : Int) + 3 - (mN : Int)) * (mN : Int)) 2 * nf * 2 =
        2 * nf * ((((Finset.range mN) ×ˢ (Finset.range (tN + 1))).filter
          (fun p : Nat × Nat => p.1 ≤ p.2)).card : Int)) ∧
    (jn ≤ t ∧ jm < t →
      0 ≤ jfld + nf * (imag + 2 * (jn - jm)) +
          Int.tdiv ((2 * t + 3 - jm) * jm) 2 * nf * 2 ∧
        jfld + nf * (imag + 2 * (jn - jm)) + Int.tdiv ((2 * t + 3 - jm) * jm) 2 * nf * 2 <
          2 * (legendre_size t.toNat : Int) * nf) ∧
    splitBody t nf jm (Int.tdiv ((2 * t + 3 - jm) * jm) 2 * nf * 2) s1 jn imag jfld st =
      splitBody t nf jm (Int.tdiv ((2 * t + 3 - jm) * jm) 2 * nf * 2) s2 jn imag jfld st ∧
    legendreSplit truncation_ t nf jm (nImag jm) s1 sym0 asym0 =
      legendreSplit truncation_ t nf jm (nImag jm) s2 sym0 asym0 := by
  have hbody : ∀ jn imag jfld (st : SplitState R), jm ≤ jn → 0 ≤ imag → imag < 2 → 0 ≤ jfld →
      jfld < nf →
      splitBody t nf jm (Int.tdiv ((2 * t + 3 - jm) * jm) 2 * nf * 2) s1 jn imag jfld st =
        splitBody t nf jm (Int.tdiv ((2 * t + 3 - jm) * jm) 2 * nf * 2) s2 jn imag jfld st := by
    intro jn imag jfld st hmn hi0 hi1 hf0 hf1
    unfold splitBody
    by_cases hg : jn ≤ t ∧ jm < t
    · have hb := spectralIndex_bound t nf jm jn imag jfld ht hm0 hmn hg.1 hi0 hi1 hf0 hf1
      unfold spectralIndex at hb
      simp only [if_pos hg, hagree _ hb.1 hb.2]
    · simp only [if_neg hg]
  refine ⟨ioff_even t jm, ?_, ?_, hbody jn imag jfld st hmn hi0 hi1 hf0 hf1, ?_⟩
  · intro tN mN hmN
    rw [card_pairs_below tN mN hmN]
    ring
  · intro hg
    have hb := spectralIndex_bound t nf jm jn imag jfld ht hm0 hmn hg.1 hi0 hi1 hf0 hf1
    unfold spectralIndex at hb
    exact hb
  · unfold legendreSplit
    rw [forDown_eq_forUp, forDown_eq_forUp]
    apply forUp_congr
    intro k a hk0 hk1
    apply forUp_congr
    intro im b hi0 hi1
    apply forUp_congr
    intro jf c hf0 hf1
    exact hbody _ im jf c (by omega) hi0
      (lt_of_lt_of_le hi1 (by unfold nImag; split_ifs <;> norm_num)) hf0 hf1

/-- Instance of the block offset: storage truncation 2, one field, the coefficient
`(m, n) = (1, 2)`, real part, and two buffers that are equal. -/
theorem split_reads_inside_spectral_buffer_witness :
    (0 : Int) ≤ 2 ∧ ((2 : Int) ≤ 2 ∧ (1 : Int) < 2) ∧
    (0 ≤ 0 + 1 * (0 + 2 * (2 - 1)) + Int.tdiv ((2 * 2 + 3 - 1) * 1) 2 * 1 * 2 ∧
      0 + 1 * (0 + 2 * (2 - 1)) + Int.tdiv ((2 * 2 + 3 - 1) * 1) 2 * 1 * 2 <
        2 * (legendre_size (2 : Int).toNat : Int) * 1) :=
  ⟨by norm_num, ⟨le_rfl, by norm_num⟩,
    (split_reads_inside_spectral_buffer 2 2 1 (by norm_num) (fun i => (i : ℚ))
      (fun i => (i : ℚ)) (fun _ _ _ => rfl) 1 2 0 0 (by norm_num) (by norm_num) le_rfl
      (by norm_num) le_rfl (by norm_num) ⟨0, 0, fun _ => 0, fun _ => 0⟩ (fun _ => 0)
      (fun _ => 0)).2.2.1 ⟨le_rfl, by norm_num⟩⟩

/-! ## The Legendre offset tables in exact arithmetic -/

/-- The sizes handed to `alloc_aligned` at lines 175-176 are the last entries of the offset
tables. -/
theorem legendreOffsets_size (truncation_ nlatsLeg_ : Int) (hT : 0 ≤ truncation_ + 2) :
    (legendreOffsets truncation_ nlatsLeg_).size_sym =
        (legendreOffsets truncation_ nlatsLeg_).sym_begin (truncation_ + 2) ∧
    (legendreOffsets truncation_ nlatsLeg_).size_asym =
        (legendreOffsets truncation_ nlatsLeg_).asym_begin (truncation_ + 2) := by
  have hinv := forUp_induction
    (fun k (s : OffsetState) => s.sym_begin k = s.size_sym ∧ s.asym_begin k = s.size_asym)
    (truncation_ + 2)
    (fun jm s =>
      let size_sym := s.size_sym + add_padding (num_n (truncation_ + 1) jm true * nlatsLeg_)
      let size_asym := s.size_asym + add_padding (num_n (truncation_ + 1) jm false * nlatsLeg_)
      { size_sym := size_sym
        size_asym := size_asym
        sym_begin := Function.update s.sym_begin (jm + 1) size_sym
        asym_begin := Function.update s.asym_begin (jm + 1) size_asym })
    { size_sym := 0
      size_asym := 0
      sym_begin := Function.update (fun _ => 0) 0 0
      asym_begin := Function.update (fun _ => 0) 0 0 }
    ⟨by simp, by simp⟩
    (fun j s _ _ _ => ⟨Function.update_same _ _ _, Function.update_same _ _ _⟩)
  rw [max_eq_left hT] at hinv
  exact ⟨hinv.1.symm, hinv.2.symm⟩

/-- A table of prefix sums of padded block sizes `add_padding( n j * L )`, `0 <= j < N`:
its entries are multiples of 8 that are not negative, it does not decrease, a block ends
before the next one starts, and every entry `l + n a * col` of a block of `n a` rows and `L`
columns lies in the block and before the last entry of the table. -/
theorem prefix_table (B n : Int → Int) (N L : Int) (hL : 0 ≤ L) (h0 : B 0 = 0)
    (hstep : ∀ j, 0 ≤ j → j < N → B (j + 1) = B j + add_padding (n j * L))
    (hn : ∀ j, 0 ≤ j → j < N → 0 ≤ n j) :
    (∀ j, 0 ≤ j → j ≤ N → 8 ∣ B j ∧ 0 ≤ B j) ∧
    (∀ a b, 0 ≤ a → a ≤ b → b ≤ N → B a ≤ B b) ∧
    (∀ a b, 0 ≤ a → a < b → b ≤ N → B a + n a * L ≤ B b) ∧
    (∀ a l col, 0 ≤ a → a < N → 0 ≤ l → l < n a → 0 ≤ col → col < L →
      B a ≤ B a + (l + n a * col) ∧ B a + (l + n a * col) < B a + n a * L ∧
        B a + n a * L ≤ B N) := by
  have hpad : ∀ j, 0 ≤ j → j < N → n j * L ≤ add_padding (n j * L) ∧
      0 ≤ add_padding (n j * L) ∧ 8 ∣ add_padding (n j * L) := by
    intro j hj0 hj1
    obtain ⟨p1, p2, _⟩ := add_padding_spec (n j * L)
    exact ⟨p2, le_trans (mul_nonneg (hn j hj0 hj1) hL) p2, p1⟩
  have h8 : ∀ k : Nat, (k : Int) ≤ N → 8 ∣ B k ∧ 0 ≤ B k := by
    intro k
    induction k with
    | zero => intro _; simp [h0]
    | succ k ih =>
      intro hk
      push_cast at hk ⊢
      obtain ⟨i1, i2⟩ := ih (by omega)
      obtain ⟨_, p2, p3⟩ := hpad k (by omega) (by omega)
      rw [hstep k (by omega) (by omega)]
      exact ⟨dvd_add i1 p3, by omega⟩
  have hmono : ∀ a b, 0 ≤ a → a ≤ b → b ≤ N → B a ≤ B b := by
    intro a b ha hab hb
    obtain ⟨d, rfl⟩ : ∃ d : Nat, b = a + (d : Int) := ⟨(b - a).toNat, by omega⟩
    induction d with
    | zero => simp
    | succ d ih =>
      push_cast at hb ⊢
      have := ih (by omega) (by omega)
      obtain ⟨_, p2, _⟩ := hpad (a + d) (by omega) (by omega)
      rw [show a + ((d : Int) + 1) = a + d + 1 by ring, hstep (a + d) (by omega) (by omega)]
      omega
  have hnext : ∀ a b, 0 ≤ a → a < b → b ≤ N → B a + n a * L ≤ B b := by
    intro a b ha hab hb
    have h1 := hmono (a + 1) b (by omega) (by omega) hb
    rw [hstep a ha (by omega)] at h1
    have := (hpad a ha (by omega)).1
    omega
  refine ⟨?_, hmono, hnext, ?_⟩
  · intro j hj0 hj1
    have := h8 j.toNat (by rw [Int.toNat_of_nonneg hj0]; exact hj1)
    rwa [Int.toNat_of_nonneg hj0] at this
  · intro a l col ha0 ha1 hl0 hl1 hc0 hc1
    have hb := radix_bound l (n a) col L hl0 hl1 hc0 hc1
    exact ⟨by omega, by omega, hnext a N ha0 ha1 le_rfl⟩

/-- The Legendre offset tables in exact integer arithmetic, which is the arithmetic of the
source as long as the two sizes fit the type `int` (`legendreOffsets32_exact_of_fits`): the
tables of an engine `e` constructed on a structured grid with
`truncation >= 0` and `nlatsLeg_ > 0` are prefix sums of padded block sizes. Entry 0 is 0
and entry `jm + 1` is entry `jm` plus `add_padding( num_n( truncation + 1, jm, . ) *
nlatsLeg_ )` for `0 <= jm <= truncation + 1`; every entry up to `truncation + 2` is a
multiple of 8 and not negative; the tables do not decrease; the block
`[begin[a], begin[a] + num_n * nlatsLeg_)` of `a` ends before the block of every `b > a`
starts; the sizes of the two allocations are the entries `truncation + 2`; and every entry
`begin[jm] + l + num_n * col` with `l < num_n`, `col < nlatsLeg_` that a matrix product of
the Legendre stage reads lies in the block of `jm` and inside the allocation. -/
theorem legendre_offsets_are_prefix_sums {R : Type} [LinearOrderedField R] (m : Collab R)
    (haveFFTW : Bool) (raw : Engine R) (g : StructuredGrid R) (truncation : Int)
    (precompute : Bool) (e : Engine R)
    (he : e = constructStructured m haveFFTW raw g truncation precompute)
    (hT : 0 ≤ truncation) (hL : 0 < e.nlatsLeg_) :
    (e.legendre_sym_begin_ 0 = 0 ∧ e.legendre_asym_begin_ 0 = 0) ∧
    (∀ jm, 0 ≤ jm → jm ≤ truncation + 1 →
      e.legendre_sym_begin_ (jm + 1) = e.legendre_sym_begin_ jm +
          add_padding (num_n (truncation + 1) jm true * e.nlatsLeg_) ∧
        e.legendre_asym_begin_ (jm + 1) = e.legendre_asym_begin_ jm +
          add_padding (num_n (truncation + 1) jm false * e.nlatsLeg_)) ∧
    (∀ jm, 0 ≤ jm → jm ≤ truncation + 2 →
      (8 ∣ e.legendre_sym_begin_ jm ∧ 0 ≤ e.legendre_sym_begin_ jm) ∧
        8 ∣ e.legendre_asym_begin_ jm ∧ 0 ≤ e.legendre_asym_begin_ jm) ∧
    (∀ a b, 0 ≤ a → a ≤ b → b ≤ truncation + 2 →
      e.legendre_sym_begin_ a ≤ e.legendre_sym_begin_ b ∧
        e.legendre_asym_begin_ a ≤ e.legendre_asym_begin_ b) ∧
    (∀ a b, 0 ≤ a → a < b → b ≤ truncation + 2 →
      e.legendre_sym_begin_ a + num_n (truncation + 1) a true * e.nlatsLeg_ ≤
          e.legendre_sym_begin_ b ∧
        e.legendre_asym_begin_ a + num_n (truncation + 1) a false * e.nlatsLeg_ ≤
          e.legendre_asym_begin_ b) ∧
    ((legendreOffsets truncation e.nlatsLeg_).size_sym =
        e.legendre_sym_begin_ (truncation + 2) ∧
      (legendreOffsets truncation e.nlatsLeg_).size_asym =
        e.legendre_asym_begin_ (truncation + 2)) ∧
    (∀ jm l col, 0 ≤ jm → jm ≤ truncation + 1 → 0 ≤ l → 0 ≤ col → col < e.nlatsLeg_ →
      (l < num_n (truncation + 1) jm true →
        0 ≤ e.legendre_sym_begin_ jm + (l + num_n (truncation + 1) jm true * col) ∧
        e.legendre_sym_begin_ jm + (l + num_n (truncation + 1) jm true * col) <
          e.legendre_sym_begin_ jm + num_n (truncation + 1) jm true * e.nlatsLeg_ ∧
        e.legendre_sym_begin_ jm + num_n (truncation + 1) jm true * e.nlatsLeg_ ≤
          e.legendre_sym_begin_ (truncation + 2)) ∧
      (l < num_n (truncation + 1) jm false →
        0 ≤ e.legendre_asym_begin_ jm + (l + num_n (truncation + 1) jm false * col) ∧
        e.legendre_asym_begin_ jm + (l + num_n (truncation + 1) jm false * col) <
          e.legendre_asym_begin_ jm + num_n (truncation + 1) jm false * e.nlatsLeg_ ∧
        e.legendre_asym_begin_ jm + num_n (truncation + 1) jm false * e.nlatsLeg_ ≤
          e.legendre_asym_begin_ (truncation + 2))) := by
  have hS : e.legendre_sym_begin_ = (legendreOffsets truncation e.nlatsLeg_).sym_begin := by
    rw [he]; rfl
  have hA : e.legendre_asym_begin_ = (legendreOffsets truncation e.nlatsLeg_).asym_begin := by
    rw [he]; rfl
  obtain ⟨z1, z2⟩ := legendreOffsets_zero truncation e.nlatsLeg_
  have hstep := fun jm h0 h1 => legendreOffsets_step truncation e.nlatsLeg_ jm h0 h1
  obtain ⟨sz1, sz2⟩ := legendreOffsets_size truncation e.nlatsLeg_ (by omega)
  have hns : ∀ j, 0 ≤ j → j < truncation + 2 → 0 ≤ num_n (truncation + 1) j true := by
    intro j _ hj
    rw [num_n_true _ _ (by omega)]
    omega
  have hna : ∀ j, 0 ≤ j → j < truncation + 2 → 0 ≤ num_n (truncation + 1) j false := by
    intro j _ hj
    rw [num_n_false _ _ (by omega)]
    omega
  obtain ⟨s1, s2, s3, s4⟩ := prefix_table (legendreOffsets truncation e.nlatsLeg_).sym_begin
    (fun j => num_n (truncation + 1) j true) (truncation + 2) e.nlatsLeg_ hL.le z1
    (fun j h0 h1 => (hstep j h0 (by omega)).1) hns
  obtain ⟨a1, a2, a3, a4⟩ := prefix_table (legendreOffsets truncation e.nlatsLeg_).asym_begin
    (fun j => num_n (truncation + 1) j false) (truncation + 2) e.nlatsLeg_ hL.le z2
    (fun j h0 h1 => (hstep j h0 (by omega)).2) hna
  rw [hS, hA]
  refine ⟨⟨z1, z2⟩, fun jm h0 h1 => hstep jm h0 h1,
    fun jm h0 h1 => ⟨s1 jm h0 h1, a1 jm h0 h1⟩,
    fun a b h0 h1 h2 => ⟨s2 a b h0 h1 h2, a2 a b h0 h1 h2⟩,
    fun a b h0 h1 h2 => ⟨s3 a b h0 h1 h2, a3 a b h0 h1 h2⟩, ⟨sz1, sz2⟩, ?_⟩
  intro jm l col hj0 hj1 hl0 hc0 hc1
  constructor
  · intro hl1
    have := s4 jm l col hj0 (by omega) hl0 hl1 hc0 hc1
    have hb := (s1 jm hj0 (by omega)).2
    exact ⟨by omega, this.2.1, this.2.2⟩
  · intro hl1
    have := a4 jm l col hj0 (by omega) hl0 hl1 hc0 hc1
    have hb := (a1 jm hj0 (by omega)).2
    exact ⟨by omega, this.2.1, this.2.2⟩

/-- Instance of the prefix sums: truncation 0 on the 4 x 2 grid (`nlatsLeg_ = 2`): the
symmetric table starts with 0 and 8. -/
theorem legendre_offsets_are_prefix_sums_witness :
    (0 : Int) ≤ 0 ∧
    (0 : Int) < (constructStructured (onesCollab ℝ Real.cos Real.sin (Real.pi / 180)) false
        (constEngine ℝ 0) (grid4x2 ℝ) 0 true).nlatsLeg_ ∧
    (constructStructured (onesCollab ℝ Real.cos Real.sin (Real.pi / 180)) false
        (constEngine ℝ 0) (grid4x2 ℝ) 0 true).legendre_sym_begin_ (0 + 1) =
      (constructStructured (onesCollab ℝ Real.cos Real.sin (Real.pi / 180)) false
          (constEngine ℝ 0) (grid4x2 ℝ) 0 true).legendre_sym_begin_ 0 +
        add_padding (num_n (0 + 1) 0 true *
          (constructStructured (onesCollab ℝ Real.cos Real.sin (Real.pi / 180)) false
            (constEngine ℝ 0) (grid4x2 ℝ) 0 true).nlatsLeg_) :=
  have hL : (constructStructured (onesCollab ℝ Real.cos Real.sin (Real.pi / 180)) false
      (constEngine ℝ 0) (grid4x2 ℝ) 0 true).nlatsLeg_ = 2 := by
    simp [constructStructured, hemisphereCounts_grid4x2]
  ⟨le_rfl, by rw [hL]; norm_num,
    ((legendre_offsets_are_prefix_sums (onesCollab ℝ Real.cos Real.sin (Real.pi / 180)) false
      (constEngine ℝ 0) (grid4x2 ℝ) 0 true _ rfl le_rfl
      (by rw [hL]; norm_num)).2.1 0 le_rfl (by norm_num)).1⟩

/-! ## The positions of the Fourier coefficients in exact arithmetic -/

/-- The positions of `posMethod` in exact integer arithmetic, which is the arithmetic of the
source as long as the size of `scl_fourier` fits the type `int`
(`posMethod32_exact_of_fits`): in each of its two layouts
(`imag + 2 * (jm + (truncation_ + 1) * (jlat + nlats *
jfld))` with the FFT or dense method 2, `jfld + nb_fields * (jlat + nlats * (imag + 2 *
jm))` with dense method 1) `posMethod` is a bijection from the indices `jfld < nb_fields`,
`imag < 2`, `jlat < nlats`, `jm <= truncation_` onto `[0, 2 * nb_fields * nlats *
(truncation_ + 1))`, the `size_fourier_max * ( truncation_ + 1 )` entries of `scl_fourier`
allocated by `invtrans_uv`: every position lies in the range, two positions are equal only
for equal indices, and every entry of the range is a position. -/
theorem posMethod_bijection {R : Type} (e : Engine R) (nf nlats : Int)
    (hT : 0 ≤ e.truncation_) (hnf : 0 ≤ nf) (hnl : 0 ≤ nlats) :
    (∀ jfld imag jlat jm,
      posMethod e jfld imag jlat jm nf nlats =
        if e.useFFT_ = true ∨ e.dgemmMethod1_ = false then
          imag + 2 * (jm + (e.truncation_ + 1) * (jlat + nlats * jfld))
        else jfld + nf * (jlat + nlats * (imag + 2 * jm))) ∧
    (∀ jfld imag jlat jm, 0 ≤ jfld → jfld < nf → 0 ≤ imag → imag < 2 → 0 ≤ jlat →
      jlat < nlats → 0 ≤ jm → jm ≤ e.truncation_ →
      0 ≤ posMethod e jfld imag jlat jm nf nlats ∧
        posMethod e jfld imag jlat jm nf nlats < nf * 2 * nlats * (e.truncation_ + 1)) ∧
    (∀ jfld imag jlat jm jfld2 imag2 jlat2 jm2, 0 ≤ jfld → jfld < nf → 0 ≤ imag → imag < 2 →
      0 ≤ jlat → jlat < nlats → 0 ≤ jm → jm ≤ e.truncation_ →
      0 ≤ jfld2 → jfld2 < nf → 0 ≤ imag2 → imag2 < 2 →
      0 ≤ jlat2 → jlat2 < nlats → 0 ≤ jm2 → jm2 ≤ e.truncation_ →
      posMethod e jfld imag jlat jm nf nlats = posMethod e jfld2 imag2 jlat2 jm2 nf nlats →
      jfld = jfld2 ∧ imag = imag2 ∧ jlat = jlat2 ∧ jm = jm2) ∧
    (∀ k, 0 ≤ k → k < nf * 2 * nlats * (e.truncation_ + 1) →
      ∃ jfld imag jlat jm, 0 ≤ jfld ∧ jfld < nf ∧ 0 ≤ imag ∧ imag < 2 ∧ 0 ≤ jlat ∧
        jlat < nlats ∧ 0 ≤ jm ∧ jm ≤ e.truncation_ ∧
        posMethod e jfld imag jlat jm nf nlats = k) := by
  have hform : ∀ jfld imag jlat jm,
      posMethod e jfld imag jlat jm nf nlats =
        if e.useFFT_ = true ∨ e.dgemmMethod1_ = false then
          imag + 2 * (jm + (e.truncation_ + 1) * (jlat + nlats * jfld))
        else jfld + nf * (jlat + nlats * (imag + 2 * jm)) := by
    intro jfld imag jlat jm
    unfold posMethod
    cases e.useFFT_ <;> cases e.dgemmMethod1_ <;> simp
  refine ⟨hform, ?_, ?_, ?_⟩
  · intro jfld imag jlat jm hf0 hf1 hi0 hi1 hl0 hl1 hm0 hm1
    rw [hform]
    split_ifs
    · have b1 := radix_bound jlat nlats jfld nf hl0 hl1 hf0 hf1
      have b2 := radix_bound jm (e.truncation_ + 1) (jlat + nlats * jfld) (nlats * nf) hm0
        (by omega) b1.1 b1.2
      have b3 := radix_bound imag 2 (jm + (e.truncation_ + 1) * (jlat + nlats * jfld))
        ((e.truncation_ + 1) * (nlats * nf)) hi0 hi1 b2.1 b2.2
      have : 2 * ((e.truncation_ + 1) * (nlats * nf)) =
          nf * 2 * nlats * (e.truncation_ + 1) := by ring
      omega
    · have b1 := radix_bound imag 2 jm (e.truncation_ + 1) hi0 hi1 hm0 (by omega)
      have b2 := radix_bound jlat nlats (imag + 2 * jm) (2 * (e.truncation_ + 1)) hl0 hl1
        b1.1 b1.2
      have b3 := radix_bound jfld nf (jlat + nlats * (imag + 2 * jm))
        (nlats * (2 * (e.truncation_ + 1))) hf0 hf1 b2.1 b2.2
      have : nf * (nlats * (2 * (e.truncation_ + 1))) =
          nf * 2 * nlats * (e.truncation_ + 1) := by ring
      omega
  · intro jfld imag jlat jm jfld2 imag2 jlat2 jm2 hf0 hf1 hi0 hi1 hl0 hl1 hm0 hm1
      hf0b hf1b hi0b hi1b hl0b hl1b hm0b hm1b h
    exact posMethod_inj e nf nlats jfld imag jlat jm jfld2 imag2 jlat2 jm2 hf0 hf1 hi0 hi1
      hl0 hl1 hm0 hm1 hf0b hf1b hi0b hi1b hl0b hl1b hm0b hm1b h
  · intro k hk0 hk1
    by_cases hlay : e.useFFT_ = true ∨ e.dgemmMethod1_ = false
    · have hq1 : k / 2 < nf * (nlats * (e.truncation_ + 1)) := by
        apply Int.ediv_lt_of_lt_mul (by norm_num)
        rw [show nf * (nlats * (e.truncation_ + 1)) * 2 =
          nf * 2 * nlats * (e.truncation_ + 1) by ring]
        exact hk1
      obtain ⟨jm, jlat, jfld, a1, a2, a3, a4, a5, a6, a7⟩ :=
        gp_pos_decompose (e.truncation_ + 1) nlats nf (k / 2) (by omega) hnl
          (Int.ediv_nonneg hk0 (by norm_num)) hq1
      refine ⟨jfld, k % 2, jlat, jm, a5, a6, Int.emod_nonneg _ (by norm_num),
        Int.emod_lt_of_pos _ (by norm_num), a3, a4, a1, by omega, ?_⟩
      rw [hform, if_pos hlay, ← a7]
      have := Int.emod_add_ediv k 2
      omega
    · have hk2 : k < 2 * (e.truncation_ + 1) * (nlats * nf) := by
        rw [show 2 * (e.truncation_ + 1) * (nlats * nf) =
          nf * 2 * nlats * (e.truncation_ + 1) by ring]
        exact hk1
      obtain ⟨jfld, jlat, c, a1, a2, a3, a4, a5, a6, a7⟩ :=
        gp_pos_decompose nf nlats (2 * (e.truncation_ + 1)) k hnf hnl hk0 hk2
      refine ⟨jfld, c % 2, jlat, c / 2, a1, a2, Int.emod_nonneg _ (by norm_num),
        Int.emod_lt_of_pos _ (by norm_num), a3, a4, Int.ediv_nonneg a5 (by norm_num),
        by omega, ?_⟩
      rw [hform, if_neg hlay, a7]
      have := Int.emod_add_ediv c 2
      rw [this]

/-- Instance of the positions: the engine of truncation 1 on the regular 2 x 2 grid, one
field, the position of `(jfld, imag, jlat, jm) = (0, 1, 1, 1)`. -/
theorem posMethod_bijection_witness :
    (0 : Int) ≤ (constructStructured (onesCollab ℝ Real.cos Real.sin (Real.pi / 180)) false
        (constEngine ℝ 0) (grid2x2 ℝ) 1 true).truncation_ ∧
    0 ≤ posMethod (constructStructured (onesCollab ℝ Real.cos Real.sin (Real.pi / 180)) false
        (constEngine ℝ 0) (grid2x2 ℝ) 1 true) 0 1 1 1 1 2 ∧
    posMethod (constructStructured (onesCollab ℝ Real.cos Real.sin (Real.pi / 180)) false
        (constEngine ℝ 0) (grid2x2 ℝ) 1 true) 0 1 1 1 1 2 <
      1 * 2 * 2 * ((constructStructured (onesCollab ℝ Real.cos Real.sin (Real.pi / 180)) false
        (constEngine ℝ 0) (grid2x2 ℝ) 1 true).truncation_ + 1) :=
  have hT : (constructStructured (onesCollab ℝ Real.cos Real.sin (Real.pi / 180)) false
      (constEngine ℝ 0) (grid2x2 ℝ) 1 true).truncation_ = 1 := rfl
  ⟨by rw [hT]; norm_num,
    (posMethod_bijection
      (constructStructured (onesCollab ℝ Real.cos Real.sin (Real.pi / 180)) false
        (constEngine ℝ 0) (grid2x2 ℝ) 1 true) 1 2 (by rw [hT]; norm_num) (by norm_num)
      (by norm_num)).2.1 0 1 1 1 le_rfl (by norm_num) (by norm_num) (by norm_num)
      (by norm_num) (by norm_num) (by norm_num) (by rw [hT])⟩

/-! ## C23: the selection of the FFT output -/

/-- The test of line 135 over exact numbers: `nlons < 0.05 * nlonsGlobal` is
`20 * nlons < nlonsGlobal`. -/
theorem fft_threshold_iff {R : Type} [LinearOrderedField R] (a b : Int) :
    (a : R) < 5 / 100 * (b : R) ↔ 20 * a < b := by
  constructor
  · intro h
    have h2 : (20 : R) * (a : R) < (b : R) := by linarith
    exact_mod_cast h2
  · intro h
    have h2 : (20 : R) * (a : R) < (b : R) := by exact_mod_cast h
    linarith

/-- The flag `useFFT_` left by the constructor on a structured grid: set exactly when the
FFT library is compiled in and `nlonsGlobal <= 20 * nlons`. -/
theorem constructStructured_useFFT {R : Type} [LinearOrderedField R] (m : Collab R)
    (haveFFTW : Bool) (raw : Engine R) (g : StructuredGrid R) (truncation : Int)
    (precompute : Bool) :
    (constructStructured m haveFFTW raw g truncation precompute).useFFT_ =
      (decide ((g.nxmaxGlobal : Int) ≤ 20 * (g.nxmax : Int)) && haveFFTW) := by
  have h1 : (constructStructured m haveFFTW raw g truncation precompute).useFFT_ =
      ((fftChoice m g).1 && haveFFTW) := rfl
  rw [h1]
  congr 1
  unfold fftChoice
  dsimp only
  by_cases a : ((g.nxmax : Int) : R) < 5 / 100 * ((g.nxmaxGlobal : Int) : R)
  · rw [if_pos a]
    have := (fft_threshold_iff (g.nxmax : Int) (g.nxmaxGlobal : Int)).mp a
    exact (decide_eq_false (by omega)).symm
  · rw [if_neg a]
    have hn : ¬ 20 * (g.nxmax : Int) < (g.nxmaxGlobal : Int) :=
      fun h => a ((fft_threshold_iff (g.nxmax : Int) (g.nxmaxGlobal : Int)).mpr h)
    have hd : decide ((g.nxmaxGlobal : Int) ≤ 20 * (g.nxmax : Int)) = true :=
      decide_eq_true (by omega)
    rw [hd]
    by_cases b : (g.nxmax : Int) < (g.nxmaxGlobal : Int)
    · rw [if_pos b]
    · rw [if_neg b]

/-- A call of `invtrans_uv` leaves the flag `useFFT_` of the engine as it is. -/
theorem invtrans_uv_useFFT {R : Type} [Field R] (m : Collab R) (haveFFTW : Bool)
    (sc : Scratch R) (truncation nf nbv : Int) (scalar_spectra : Buf R) (s : CallState R) :
    (invtrans_uv m haveFFTW sc truncation nf nbv scalar_spectra s).out.engine.useFFT_ =
      s.engine.useFFT_ := by
  unfold invtrans_uv
  by_cases hnf : nf > 0
  · rw [if_pos hnf]
    cases hgr : s.engine.grid_ with
    | structured g =>
      simp only
      unfold invtrans_uv_structured
      simp only
      cases invtrans_legendreopt3 s.engine sc truncation (g.ny : Int) nf scalar_spectra
        sc.scl_fourier with
      | error err => rfl
      | ok scl =>
        simp only
        by_cases hfft : s.engine.useFFT_ = true
        · rw [if_pos hfft]
          by_cases hw : haveFFTW = true
          · rw [if_pos hw]
          · rw [if_neg hw]
        · rw [if_neg hfft]
          by_cases hm1 : s.engine.dgemmMethod1_ = true
          · rw [if_pos hm1]
          · rw [if_neg hm1]
    | unstructured xy =>
      simp only
      by_cases hp : s.engine.unstruct_precomp_ = true
      · rw [if_pos hp]
      · rw [if_neg hp]
  · rw [if_neg hnf]

/-- C24: the selection of the Fourier backend by the constructor on a structured grid when
an FFT library is compiled in: `useFFT_` is unset, which selects the dense-matrix backend,
exactly when `nlons < 0.05 * nlonsGlobal_`, that is `20 * nlons < nlonsGlobal_`, and set
otherwise; the test of line 135 is the only place that decides it. No inversion call
changes the flag: `invtrans_uv`, the scalar `invtrans` and the combined `invtrans` return
an engine with the `useFFT_` they were given. -/
theorem backend_selected_at_construction {R : Type} [LinearOrderedField R] (m : Collab R)
    (raw : Engine R) (g : StructuredGrid R) (truncation : Int) (precompute : Bool)
    (haveFFTW : Bool) (sc scU scV scS : Scratch R) (t nf nbv : Int)
    (scalar_spectra vorticity_spectra divergence_spectra : Buf R) (s : CallState R) :
    ((constructStructured m true raw g truncation precompute).useFFT_ = false ↔
      20 * (g.nxmax : Int) < (g.nxmaxGlobal : Int)) ∧
    ((constructStructured m true raw g truncation precompute).useFFT_ = false ↔
      ((g.nxmax : Int) : R) < 5 / 100 * ((g.nxmaxGlobal : Int) : R)) ∧
    ((constructStructured m true raw g truncation precompute).useFFT_ = true ↔
      (g.nxmaxGlobal : Int) ≤ 20 * (g.nxmax : Int)) ∧
    (invtrans_uv m haveFFTW sc t nf nbv scalar_spectra s).out.engine.useFFT_ =
      s.engine.useFFT_ ∧
    (invtrans m haveFFTW sc nf scalar_spectra s).out.engine.useFFT_ = s.engine.useFFT_ ∧
    (invtrans_combined m haveFFTW scU scV scS nf scalar_spectra nbv vorticity_spectra
      divergence_spectra s).out.engine.useFFT_ = s.engine.useFFT_ := by
  have hu := constructStructured_useFFT m true raw g truncation precompute
  rw [Bool.and_true] at hu
  have hat : ∀ (sc0 : Scratch R) (t0 nf0 nbv0 : Int) (sp : Buf R) (off : Int)
      (s0 : CallState R),
      (invtrans_uv_at m haveFFTW sc0 t0 nf0 nbv0 sp off s0).out.engine.useFFT_ =
        s0.engine.useFFT_ := by
    intro sc0 t0 nf0 nbv0 sp off s0
    unfold invtrans_uv_at
    exact invtrans_uv_useFFT m haveFFTW sc0 t0 nf0 nbv0 sp _
  refine ⟨?_, ?_, ?_, invtrans_uv_useFFT m haveFFTW sc t nf nbv scalar_spectra s,
    invtrans_uv_useFFT m haveFFTW sc _ nf 0 scalar_spectra s, ?_⟩
  · rw [hu, decide_eq_false_iff_not]
    omega
  · rw [hu, decide_eq_false_iff_not, fft_threshold_iff]
    omega
  · rw [hu, decide_eq_true_iff]
  · unfold invtrans_combined
    apply andThen_keep (fun s0 : CallState R => s0.engine.useFFT_ = s.engine.useFFT_)
    · dsimp only
      by_cases hv : nbv > 0
      · rw [if_pos hv]
        apply andThen_keep (fun s0 : CallState R => s0.engine.useFFT_ = s.engine.useFFT_)
        · exact invtrans_uv_useFFT m haveFFTW scU _ nbv nbv _ s
        · intro s0 h0
          exact (hat scV _ nbv nbv _ _ s0).trans h0
      · rw [if_neg hv]
    · intro s0 h0
      dsimp only
      by_cases hs : nf > 0
      · rw [if_pos hs]
        exact (hat scS _ nf 0 scalar_spectra _ s0).trans h0
      · rw [if_neg hs]
        exact h0

/-! ## C28: the two hemispheres cover the rows -/

/-- C29 (code evaluated at the failing inputs): an engine built with truncation 0 on the
single point `(0, 45)`; its per-point Legendre table has
`legendre_size( 0 ) * grid.size() = 1` entry. In the vector call, which passes the storage
truncation `truncation_ + 1 = 1`, the matrix product of `jm = 0` reads the entries 0 and 1
of the table: with any contents `L` of the memory of `legendre_`, `invtrans_uv` leaves
`scalar_spectra[0] * L[0] + scalar_spectra[2] * L[1]` at the point, so the result depends
on the entry 1, outside the table. For every `T` the last block read by the vector call
ends at `(legendre_size( T ) + T + 1) * nlats`, which is `(T + 1) * nlats` entries past the
table. In the scalar call with truncation 0, `fouriertp` is allocated with `2 * 0 = 0`
entries and lines 489-490 write the entries 0 and 1 of it. -/
theorem precomp_table_read_out_of_bounds (haveFFTW precompute : Bool) (raw : Engine ℝ)
    (sc : Scratch ℝ) (L scalar_spectra gp_fields fouriertp : Buf ℝ) (lon : ℝ) (T : Nat)
    (m : Collab ℝ) :
    (constructUnstructured (onesCollab ℝ Real.cos Real.sin (Real.pi / 180)) raw
        (.unstructured [(0, 45)]) 0 precompute).truncation_ = 0 ∧
    ((legendre_size 0 : Nat) : Int) *
        ((Grid.unstructured [((0 : ℝ), (45 : ℝ))]).size : Int) = 1 ∧
    (invtrans_uv (onesCollab ℝ Real.cos Real.sin (Real.pi / 180)) haveFFTW sc (0 + 1) 1 1
        scalar_spectra
        ⟨{ constructUnstructured (onesCollab ℝ Real.cos Real.sin (Real.pi / 180)) raw
            (.unstructured [(0, 45)]) 0 precompute with legendre_ := L },
          gp_fields⟩).out.gp_fields 0 =
      scalar_spectra 0 * L 0 + scalar_spectra 2 * L 1 ∧
    (legendre_size T : Int) + ((T : Int) + 1) =
      Int.tdiv ((2 * ((T : Int) + 1) + 3 - ((T : Int) + 1)) * ((T : Int) + 1)) 2 ∧
    (2 * (0 : Int) = 0 ∧ fouriertpFill m 0 lon fouriertp 0 = 1 ∧
      fouriertpFill m 0 lon fouriertp 1 = 0) := by
  refine ⟨rfl, ?_, ?_, ?_, rfl, ?_, ?_⟩
  · simp [legendre_size, Grid.size]
  · simp [invtrans_uv, constructUnstructured, constructInit, onesCollab,
      invtrans_unstructured_precomp, Grid.size, forUp, forFrom, List.range_succ, gemm,
      fouriertpFill, Function.update_apply, Buf.atOffset, Buf.shift, Finset.sum_range_succ,
      -Finset.sum_boole]
  · have h1 := ioff_even ((T : Int) + 1) ((T : Int) + 1)
    have h2 := legendre_size_double T
    have h3 : (2 : Int) * (legendre_size T : Int) = ((T : Int) + 2) * ((T : Int) + 1) := by
      exact_mod_cast h2
    have h4 : (2 * ((T : Int) + 1) + 3 - ((T : Int) + 1)) * ((T : Int) + 1) =
        ((T : Int) + 2) * ((T : Int) + 1) + 2 * ((T : Int) + 1) := by ring
    omega
  · simp [fouriertpFill, forFrom, forUp]
  · simp [fouriertpFill, forFrom, forUp]

/-- In `invtrans_unstructured_precomp` called with the truncation `T >= 0` of the table,
every entry `noff * nlats + l + ns * col` of the per-point Legendre table that the matrix
product of `jm < T` reads lies in the `legendre_size( T ) * nlats` entries of the table. -/
theorem precomp_scalar_call_table_in_bounds (T nlats jm l col : Int) (hT : 0 ≤ T)
    (hm0 : 0 ≤ jm) (hm1 : jm < T) (hl0 : 0 ≤ l) (hl1 : l < T - jm + 1) (hc0 : 0 ≤ col)
    (hc1 : col < nlats) :
    0 ≤ Int.tdiv ((2 * T + 3 - jm) * jm) 2 * nlats + (l + (T - jm + 1) * col) ∧
      Int.tdiv ((2 * T + 3 - jm) * jm) 2 * nlats + (l + (T - jm + 1) * col) <
        (legendre_size T.toNat : Int) * nlats := by
  have hb := radix_bound l (T - jm + 1) col nlats hl0 hl1 hc0 hc1
  have h0 := ioff_mono T 0 jm hm0 (by omega)
  have h00 : Int.tdiv ((2 * T + 3 - 0) * 0) 2 = 0 := by simp
  rw [h00] at h0
  have h1 := ioff_mono T (jm + 1) (T + 1) (by omega) le_rfl
  rw [ioff_succ T jm, ioff_top T hT] at h1
  have p1 := mul_nonneg h0 (show (0 : Int) ≤ nlats by omega)
  have p2 : (Int.tdiv ((2 * T + 3 - jm) * jm) 2 + (T + 1 - jm)) * nlats ≤
      (legendre_size T.toNat : Int) * nlats :=
    mul_le_mul_of_nonneg_right h1 (by omega)
  constructor
  · omega
  · nlinarith

/-! ## C21, C22, C26: sizes and indices in the 32-bit arithmetic of the source -/

/-- An exact result in the range of `int` is the value the `int` holds. -/
theorem int32_of_fits (x : Int) (h0 : -2147483648 ≤ x) (h1 : x ≤ INT_MAX) : int32 x = x := by
  unfold INT_MAX at h1
  unfold int32
  omega

/-- Reducing an operand to 32 bits before an addition does not change the reduced sum. -/
theorem int32_add (a b : Int) : int32 (int32 a + int32 b) = int32 (a + b) := by
  unfold int32
  omega

/-- Padding commutes with the reduction to 32 bits, since `2^32` is a multiple of 8. -/
theorem int32_add_padding (p : Int) :
    int32 (add_padding (int32 p)) = int32 (add_padding p) := by
  unfold int32 add_padding
  omega

/-- Reducing a factor to 32 bits before a product does not change the reduced product. -/
theorem int32_mul (a b : Int) : int32 (a * b) = int32 (int32 a * int32 b) := by
  have key : ∀ x : Int, ∃ k : Int, int32 x = x + 4294967296 * k := by
    intro x
    refine ⟨-((x + 2147483648) / 4294967296), ?_⟩
    unfold int32
    omega
  have cong : ∀ x k : Int, int32 (x + 4294967296 * k) = int32 x := by
    intro x k
    unfold int32
    omega
  obtain ⟨ka, ha⟩ := key a
  obtain ⟨kb, hb⟩ := key b
  rw [ha, hb]
  have : (a + 4294967296 * ka) * (b + 4294967296 * kb) =
      a * b + 4294967296 * (a * kb + ka * b + 4294967296 * ka * kb) := by ring
  rw [this, cong]

/-- The offset tables computed in 32-bit arithmetic are the 32-bit reductions of the exact
tables: the two sizes and every entry. -/
theorem legendreOffsets32_wrap (truncation_ nlatsLeg_ : Int) :
    (legendreOffsets32 truncation_ nlatsLeg_).size_sym =
        int32 (legendreOffsets truncation_ nlatsLeg_).size_sym ∧
    (legendreOffsets32 truncation_ nlatsLeg_).size_asym =
        int32 (legendreOffsets truncation_ nlatsLeg_).size_asym ∧
    (∀ j, (legendreOffsets32 truncation_ nlatsLeg_).sym_begin j =
        int32 ((legendreOffsets truncation_ nlatsLeg_).sym_begin j)) ∧
    (∀ j, (legendreOffsets32 truncation_ nlatsLeg_).asym_begin j =
        int32 ((legendreOffsets truncation_ nlatsLeg_).asym_begin j)) := by
  have z : int32 0 = 0 := by decide
  unfold legendreOffsets32 legendreOffsets
  apply forUp_sim
    (fun _ (a b : OffsetState) =>
      a.size_sym = int32 b.size_sym ∧ a.size_asym = int32 b.size_asym ∧
      (∀ j, a.sym_begin j = int32 (b.sym_begin j)) ∧
      (∀ j, a.asym_begin j = int32 (b.asym_begin j)))
  · refine ⟨z.symm, z.symm, ?_, ?_⟩ <;>
    · intro j
      simp [z]
  · intro jm a b _ _ ⟨h1, h2, h3, h4⟩
    have e1 : int32 (a.size_sym +
        int32 (add_padding (int32 (num_n (truncation_ + 1) jm true * nlatsLeg_)))) =
        int32 (b.size_sym + add_padding (num_n (truncation_ + 1) jm true * nlatsLeg_)) := by
      rw [h1, int32_add_padding, int32_add]
    have e2 : int32 (a.size_asym +
        int32 (add_padding (int32 (num_n (truncation_ + 1) jm false * nlatsLeg_)))) =
        int32 (b.size_asym + add_padding (num_n (truncation_ + 1) jm false * nlatsLeg_)) := by
      rw [h2, int32_add_padding, int32_add]
    refine ⟨e1, e2, ?_, ?_⟩
    · intro j
      simp only [e1, Function.update_apply]
      split_ifs
      · rfl
      · exact h3 j
    · intro j
      simp only [e2, Function.update_apply]
      split_ifs
      · rfl
      · exact h4 j

/-- Padding leaves a multiple of 8 as it is. -/
theorem add_padding_of_dvd (n : Int) (h : 8 ∣ n) : add_padding n = n := by
  obtain ⟨q, rfl⟩ := h
  unfold add_padding
  omega

/-- The exact symmetric offsets at the even entries when `nlatsLeg_` is a multiple of 8, so
that no block is padded: the blocks of `jm = 2 * i` and `jm = 2 * i + 1` have together
`truncation_ + 2 - 2 * i` rows of `nlatsLeg_` entries, and the entry `2 * i` is
`nlatsLeg_ * i * (truncation_ + 3 - i)`. -/
theorem legendreOffsets_sym_even (truncation_ nlatsLeg_ : Int) (h8 : 8 ∣ nlatsLeg_) (i : Nat)
    (hi : 2 * (i : Int) ≤ truncation_ + 2) :
    (legendreOffsets truncation_ nlatsLeg_).sym_begin (2 * (i : Int)) =
      nlatsLeg_ * ((i : Int) * (truncation_ + 3 - (i : Int))) := by
  induction i with
  | zero =>
    rw [show (2 * ((0 : Nat) : Int)) = 0 by norm_num, (legendreOffsets_zero _ _).1]
    push_cast
    ring
  | succ i ih =>
    push_cast at hi
    have ih2 := ih (by omega)
    have s1 := (legendreOffsets_step truncation_ nlatsLeg_ (2 * (i : Int)) (by omega)
      (by omega)).1
    have s2 := (legendreOffsets_step truncation_ nlatsLeg_ (2 * (i : Int) + 1) (by omega)
      (by omega)).1
    have n1 := num_n_true (truncation_ + 1) (2 * (i : Int)) (by omega)
    have n2 := num_n_true (truncation_ + 1) (2 * (i : Int) + 1) (by omega)
    have hab : num_n (truncation_ + 1) (2 * (i : Int)) true +
        num_n (truncation_ + 1) (2 * (i : Int) + 1) true = truncation_ + 2 - 2 * (i : Int) := by
      rw [n1, n2]; omega
    rw [add_padding_of_dvd _ (Dvd.dvd.mul_left h8 _), ih2] at s1
    rw [add_padding_of_dvd _ (Dvd.dvd.mul_left h8 _), s1] at s2
    push_cast
    rw [show 2 * ((i : Int) + 1) = 2 * (i : Int) + 1 + 1 by ring, s2]
    linear_combination nlatsLeg_ * hab

/-- C21 (code evaluated at the failing input): the Legendre offset tables for truncation
2047 on a grid with `nlatsLeg_ = 2048` rows per hemisphere. The exact prefix sum of the
padded sizes of the symmetric blocks is `2048 * 1025 * 1025 = 2151680000`, above
`INT_MAX = 2147483647`: the `int` sum `size_sym` of lines 163-174 overflows. In 32-bit
arithmetic the loop leaves `size_sym = -2143287296` in the last entry
`legendre_sym_begin_[truncation_ + 2]` and hands it to `alloc_aligned` at line 175; the
table decreases from entry 0 to its last entry and the last entry is not the end of a
buffer that contains the blocks. -/
theorem legendre_offsets_overflow_int :
    (legendreOffsets 2047 2048).size_sym = 2151680000 ∧
    INT_MAX < (legendreOffsets 2047 2048).size_sym ∧
    (legendreOffsets32 2047 2048).size_sym = -2143287296 ∧
    (legendreOffsets32 2047 2048).sym_begin (2047 + 2) = -2143287296 ∧
    (legendreOffsets32 2047 2048).sym_begin (2047 + 2) <
      (legendreOffsets32 2047 2048).sym_begin 0 := by
  have key : ∀ T L : Int, T = 2047 → L = 2048 →
      (legendreOffsets T L).size_sym = 2151680000 ∧
      (legendreOffsets T L).sym_begin (T + 2) = 2151680000 ∧
      (legendreOffsets T L).sym_begin 0 = 0 := by
    intro T L hT hL
    have h1 := legendreOffsets_sym_even T L ⟨256, by omega⟩ 1024 (by push_cast; omega)
    have s := (legendreOffsets_step T L (2 * ((1024 : Nat) : Int)) (by norm_num)
      (by push_cast; omega)).1
    have n : num_n (T + 1) (2 * ((1024 : Nat) : Int)) true = 1 := by
      rw [num_n_true _ _ (by push_cast; omega)]
      push_cast
      omega
    rw [n, one_mul, add_padding_of_dvd L ⟨256, by omega⟩, h1] at s
    have e : 2 * ((1024 : Nat) : Int) + 1 = T + 2 := by push_cast; omega
    rw [e] at s
    have hlast : (legendreOffsets T L).sym_begin (T + 2) = 2151680000 := by
      rw [s, hT, hL]
      norm_num
    exact ⟨by rw [(legendreOffsets_size T L (by omega)).1, hlast], hlast,
      (legendreOffsets_zero T L).1⟩
  obtain ⟨hsize, hlast, hzero⟩ := key 2047 2048 rfl rfl
  obtain ⟨w1, -, w3, -⟩ := legendreOffsets32_wrap 2047 2048
  have hw : int32 2151680000 = -2143287296 := by decide
  have hw0 : int32 0 = 0 := by decide
  refine ⟨hsize, ?_, ?_, ?_, ?_⟩
  · rw [hsize]; decide
  · rw [w1, hsize, hw]
  · rw [w3, hlast, hw]
  · rw [w3 (2047 + 2), w3 0, hlast, hzero, hw, hw0]
    norm_num

/-- When the two exact sizes fit the type `int`, the offset tables computed in 32-bit
arithmetic are the exact ones: the sizes and every entry of the two vectors of
`truncation_ + 3` entries have the values of `legendreOffsets`. -/
theorem legendreOffsets32_exact_of_fits (truncation_ nlatsLeg_ : Int) (hT : -2 ≤ truncation_)
    (hL : 0 ≤ nlatsLeg_)
    (hs : (legendreOffsets truncation_ nlatsLeg_).size_sym ≤ INT_MAX)
    (ha : (legendreOffsets truncation_ nlatsLeg_).size_asym ≤ INT_MAX) :
    (legendreOffsets32 truncation_ nlatsLeg_).size_sym =
        (legendreOffsets truncation_ nlatsLeg_).size_sym ∧
    (legendreOffsets32 truncation_ nlatsLeg_).size_asym =
        (legendreOffsets truncation_ nlatsLeg_).size_asym ∧
    (∀ j, 0 ≤ j → j ≤ truncation_ + 2 →
      (legendreOffsets32 truncation_ nlatsLeg_).sym_begin j =
          (legendreOffsets truncation_ nlatsLeg_).sym_begin j ∧
        (legendreOffsets32 truncation_ nlatsLeg_).asym_begin j =
          (legendreOffsets truncation_ nlatsLeg_).asym_begin j) := by
  obtain ⟨w1, w2, w3, w4⟩ := legendreOffsets32_wrap truncation_ nlatsLeg_
  obtain ⟨z1, z2⟩ := legendreOffsets_zero truncation_ nlatsLeg_
  obtain ⟨sz1, sz2⟩ := legendreOffsets_size truncation_ nlatsLeg_ (by omega)
  have hstep := fun jm h0 h1 => legendreOffsets_step truncation_ nlatsLeg_ jm h0 h1
  have hns : ∀ j, 0 ≤ j → j < truncation_ + 2 → 0 ≤ num_n (truncation_ + 1) j true := by
    intro j _ hj
    rw [num_n_true _ _ (by omega)]
    omega
  have hna : ∀ j, 0 ≤ j → j < truncation_ + 2 → 0 ≤ num_n (truncation_ + 1) j false := by
    intro j _ hj
    rw [num_n_false _ _ (by omega)]
    omega
  obtain ⟨s1, s2, -, -⟩ := prefix_table (legendreOffsets truncation_ nlatsLeg_).sym_begin
    (fun j => num_n (truncation_ + 1) j true) (truncation_ + 2) nlatsLeg_ hL z1
    (fun j h0 h1 => (hstep j h0 (by omega)).1) hns
  obtain ⟨a1, a2, -, -⟩ := prefix_table (legendreOffsets truncation_ nlatsLeg_).asym_begin
    (fun j => num_n (truncation_ + 1) j false) (truncation_ + 2) nlatsLeg_ hL z2
    (fun j h0 h1 => (hstep j h0 (by omega)).2) hna
  rw [sz1] at hs
  rw [sz2] at ha
  have hsym : ∀ j, 0 ≤ j → j ≤ truncation_ + 2 →
      int32 ((legendreOffsets truncation_ nlatsLeg_).sym_begin j) =
        (legendreOffsets truncation_ nlatsLeg_).sym_begin j := by
    intro j h0 h1
    have b0 := (s1 j h0 h1).2
    have b1 := s2 j (truncation_ + 2) h0 h1 le_rfl
    exact int32_of_fits _ (by omega) (le_trans b1 hs)
  have hasym : ∀ j, 0 ≤ j → j ≤ truncation_ + 2 →
      int32 ((legendreOffsets truncation_ nlatsLeg_).asym_begin j) =
        (legendreOffsets truncation_ nlatsLeg_).asym_begin j := by
    intro j h0 h1
    have b0 := (a1 j h0 h1).2
    have b1 := a2 j (truncation_ + 2) h0 h1 le_rfl
    exact int32_of_fits _ (by omega) (le_trans b1 ha)
  refine ⟨?_, ?_, ?_⟩
  · rw [w1, sz1]; exact hsym _ (by omega) le_rfl
  · rw [w2, sz2]; exact hasym _ (by omega) le_rfl
  · intro j h0 h1
    exact ⟨by rw [w3]; exact hsym j h0 h1, by rw [w4]; exact hasym j h0 h1⟩

/-- C22 (code evaluated at the failing input): truncation 1279, 2560 rows and 328 fields.
The buffer `scl_fourier` needs `328 * 2 * 2560 * 1280 = 2149580800` entries and the last
position, that of `(jfld, imag, jlat, jm) = (327, 1, 2559, 1279)`, is 2149580799; both are
above `INT_MAX = 2147483647`. In the 32-bit arithmetic of `int posMethod( ... )` and of the
`int` product `size_fourier_max * ( truncation_ + 1 )` of line 618 the position is
-2145386497 in either layout and the size is -2145386496: the position is not an index of
the buffer. -/
theorem posMethod_overflow_int :
    posMethod (fftEngine ℚ 1279 5120) 327 1 2559 1279 328 2560 = 2149580799 ∧
    (328 : Int) * 2 * 2560 * ((fftEngine ℚ 1279 5120).truncation_ + 1) = 2149580800 ∧
    INT_MAX < posMethod (fftEngine ℚ 1279 5120) 327 1 2559 1279 328 2560 ∧
    posMethod32 (fftEngine ℚ 1279 5120) 327 1 2559 1279 328 2560 = -2145386497 ∧
    sclFourierSize32 (fftEngine ℚ 1279 5120) 328 2560 = -2145386496 ∧
    posMethod32 { fftEngine ℚ 1279 5120 with useFFT_ := false, dgemmMethod1_ := true }
      327 1 2559 1279 328 2560 = -2145386497 := by
  refine ⟨?_, ?_, ?_, ?_, ?_, ?_⟩
  · simp [posMethod, fftEngine]
  · simp [fftEngine]
  · simp [posMethod, fftEngine, INT_MAX]
  · simp [posMethod32, fftEngine, int32]
  · simp [sclFourierSize32, fftEngine, int32]
  · simp [posMethod32, int32]

/-- When the number `nb_fields * 2 * nlats * (truncation_ + 1)` of entries of `scl_fourier`
fits the type `int`, the 32-bit computations of `posMethod` and of the allocation size give
the exact values, for every index `jfld < nb_fields`, `imag < 2`, `jlat < nlats`,
`jm <= truncation_`. -/
theorem posMethod32_exact_of_fits {R : Type} (e : Engine R) (nf nlats : Int)
    (hfit : nf * 2 * nlats * (e.truncation_ + 1) ≤ INT_MAX)
    (jfld imag jlat jm : Int) (hf0 : 0 ≤ jfld) (hf1 : jfld < nf) (hi0 : 0 ≤ imag)
    (hi1 : imag < 2) (hl0 : 0 ≤ jlat) (hl1 : jlat < nlats) (hm0 : 0 ≤ jm)
    (hm1 : jm ≤ e.truncation_) :
    posMethod32 e jfld imag jlat jm nf nlats = posMethod e jfld imag jlat jm nf nlats ∧
    sclFourierSize32 e nf nlats = nf * 2 * nlats * (e.truncation_ + 1) := by
  obtain ⟨T, hTdef⟩ : ∃ T : Int, T = e.truncation_ + 1 := ⟨_, rfl⟩
  rw [← hTdef] at hfit
  have hT1 : 1 ≤ T := by omega
  have hnf1 : 1 ≤ nf := by omega
  have hnl1 : 1 ≤ nlats := by omega
  have fit : ∀ x : Int, 0 ≤ x → x ≤ nf * 2 * nlats * T → int32 x = x := by
    intro x h0 h1
    exact int32_of_fits x (by omega) (le_trans h1 hfit)
  have q1 : 0 ≤ nf * nlats := by positivity
  have q2 : nf ≤ nf * nlats := le_mul_of_one_le_right (by omega) hnl1
  have q3 : nf * nlats ≤ nf * nlats * T := le_mul_of_one_le_right q1 hT1
  have q4 : nf * 2 * nlats * T = 2 * (nf * nlats * T) := by ring
  have q5 : T ≤ nf * nlats * T := by
    have : 1 * T ≤ nf * nlats * T := mul_le_mul_of_nonneg_right (by omega) (by omega)
    omega
  constructor
  · unfold posMethod32 posMethod
    rw [← hTdef]
    split_ifs
    · have a := radix_bound jlat nlats jfld nf hl0 hl1 hf0 hf1
      have a0 : 0 ≤ nlats * jfld := mul_nonneg (by omega) hf0
      have b := radix_bound jm T (jlat + nlats * jfld) (nlats * nf) hm0 (by omega) a.1 a.2
      have b0 : 0 ≤ T * (jlat + nlats * jfld) := mul_nonneg (by omega) a.1
      have b1 : T * (nlats * nf) = nf * nlats * T := by ring
      have a1 : nlats * nf = nf * nlats := by ring
      rw [fit (nlats * jfld) a0 (by omega), fit (jlat + nlats * jfld) a.1 (by omega),
        fit T (by omega) (by omega), fit (T * (jlat + nlats * jfld)) b0 (by omega),
        fit (jm + T * (jlat + nlats * jfld)) b.1 (by omega),
        fit (2 * (jm + T * (jlat + nlats * jfld))) (by omega) (by omega),
        fit _ (by omega) (by omega)]
    · have a := radix_bound imag 2 jm T hi0 hi1 hm0 (by omega)
      have b := radix_bound jlat nlats (imag + 2 * jm) (2 * T) hl0 hl1 a.1 a.2
      have b0 : 0 ≤ nlats * (imag + 2 * jm) := mul_nonneg (by omega) a.1
      have c := radix_bound jfld nf (jlat + nlats * (imag + 2 * jm)) (nlats * (2 * T)) hf0 hf1
        b.1 b.2
      have c0 : 0 ≤ nf * (jlat + nlats * (imag + 2 * jm)) := mul_nonneg (by omega) b.1
      have c1 : nf * (nlats * (2 * T)) = 2 * (nf * nlats * T) := by ring
      have b1 : nlats * (2 * T) ≤ nf * (nlats * (2 * T)) :=
        le_mul_of_one_le_left (by positivity) hnf1
      have a2 : 2 * T ≤ nlats * (2 * T) := le_mul_of_one_le_left (by omega) hnl1
      rw [fit (2 * jm) (by omega) (by omega), fit (imag + 2 * jm) a.1 (by omega),
        fit (nlats * (imag + 2 * jm)) b0 (by omega),
        fit (jlat + nlats * (imag + 2 * jm)) b.1 (by omega),
        fit (nf * (jlat + nlats * (imag + 2 * jm))) c0 (by omega),
        fit _ c.1 (by omega)]
  · unfold sclFourierSize32
    rw [← hTdef]
    have r1 : nf * 2 ≤ nf * 2 * nlats := le_mul_of_one_le_right (by omega) hnl1
    have r2 : nf * 2 * nlats ≤ nf * 2 * nlats * T :=
      le_mul_of_one_le_right (by positivity) hT1
    rw [fit (nf * 2) (by omega) (by omega), fit (nf * 2 * nlats) (by positivity) r2,
      fit T (by omega) (by omega), fit _ (by positivity) le_rfl]

/-- C26 (code evaluated at the failing input): storage truncation 7999 and 34 fields. The
spectral buffer has `2 * legendre_size( 7999 ) * 34 = 2176272000` entries, above
`INT_MAX = 2147483647`. For `jm = jn = 7998`, real part of field 0, which passes the guard
`jn <= truncation && jm < truncation`, the exact index `idx + ioff` is 2176271796, inside
the buffer; in the 32-bit arithmetic of line 366 the product by `nb_fields * 2` overflows,
`ioff` is -2118695500, and the split step reads `scalar_spectra[-2118695500]`: with the
buffer that holds its own index at every position, the body of the split loop places
2176271796 in exact arithmetic and -2118695500 in 32-bit arithmetic. -/
theorem split_index_overflow_int :
    ((7998 : Int) ≤ 7999 ∧ (7998 : Int) < 7999) ∧
    2 * (legendre_size 7999 : Int) * 34 = 2176272000 ∧
    spectralIndex 7999 34 7998 7998 0 0 = 2176271796 ∧
    INT_MAX < spectralIndex 7999 34 7998 7998 0 0 ∧
    splitIoff32 7999 34 7998 = -2118695500 ∧
    (splitBody 7999 34 7998 (Int.tdiv ((2 * 7999 + 3 - 7998) * 7998) 2 * 34 * 2)
      (fun i => (i : ℚ)) 7998 0 0 ⟨0, 0, fun _ => 0, fun _ => 0⟩).scalar_sym 0 =
        2176271796 ∧
    (splitBody32 7999 34 7998 (splitIoff32 7999 34 7998)
      (fun i => (i : ℚ)) 7998 0 0 ⟨0, 0, fun _ => 0, fun _ => 0⟩).scalar_sym 0 =
        -2118695500 := by
  have d : Int.tdiv ((2 * 7999 + 3 - 7998) * 7998) 2 = 32003997 := by decide
  have hio : splitIoff32 7999 34 7998 = -2118695500 := by decide
  have hidx : spectralIndex 7999 34 7998 7998 0 0 = 2176271796 := by
    unfold spectralIndex
    rw [d]
    norm_num
  refine ⟨⟨by norm_num, by norm_num⟩, ?_, hidx, ?_, hio, ?_, ?_⟩
  · have : legendre_size 7999 = 32004000 := by decide
    rw [this]
    norm_num
  · rw [hidx]; decide
  · rw [d]
    simp [splitBody]
  · rw [hio]
    have h0 : int32 0 = 0 := by decide
    have h1 : int32 (-2118695500) = -2118695500 := by decide
    simp [splitBody32, h0, h1]

/-- When the number `2 * legendre_size( t ) * nb_fields` of entries of the spectral buffer
fits the type `int`, the 32-bit computation of the index `idx + ioff` read under the guard
`jn <= t && jm < t` gives the exact index `spectralIndex`, for `0 <= jm <= jn`, `imag < 2`
and `jfld < nb_fields`; so the body of the split loop in 32-bit arithmetic is the exact
one. -/
theorem splitBody32_exact_of_fits {R : Type} [Field R] (t nf : Int) (ht : 0 ≤ t)
    (hfit : 2 * (legendre_size t.toNat : Int) * nf ≤ INT_MAX)
    (scalar_spectra : Buf R) (jm jn imag jfld : Int) (hm0 : 0 ≤ jm) (hmn : jm ≤ jn)
    (hi0 : 0 ≤ imag) (hi1 : imag < 2) (hf0 : 0 ≤ jfld) (hf1 : jfld < nf)
    (st : SplitState R) :
    (jn ≤ t ∧ jm < t →
      splitIoff32 t nf jm = Int.tdiv ((2 * t + 3 - jm) * jm) 2 * nf * 2 ∧
      int32 (int32 (jfld + int32 (nf * int32 (imag + int32 (2 * int32 (jn - jm))))) +
          splitIoff32 t nf jm) = spectralIndex t nf jm jn imag jfld) ∧
    splitBody32 t nf jm (splitIoff32 t nf jm) scalar_spectra jn imag jfld st =
      splitBody t nf jm (Int.tdiv ((2 * t + 3 - jm) * jm) 2 * nf * 2) scalar_spectra jn imag
        jfld st := by
  have main : jn ≤ t ∧ jm < t →
      splitIoff32 t nf jm = Int.tdiv ((2 * t + 3 - jm) * jm) 2 * nf * 2 ∧
      int32 (int32 (jfld + int32 (nf * int32 (imag + int32 (2 * int32 (jn - jm))))) +
          splitIoff32 t nf jm) = spectralIndex t nf jm jn imag jfld := by
    intro hg
    obtain ⟨S, hS⟩ : ∃ S : Int, S = 2 * (legendre_size t.toNat : Int) * nf := ⟨_, rfl⟩
    rw [← hS] at hfit
    have hb := spectralIndex_bound t nf jm jn imag jfld ht hm0 hmn hg.1 hi0 hi1 hf0 hf1
    rw [← hS] at hb
    unfold spectralIndex at hb
    have fit : ∀ x : Int, 0 ≤ x → x ≤ S → int32 x = x := by
      intro x h0 h1
      exact int32_of_fits x (by omega) (le_trans h1 hfit)
    have hnf1 : 1 ≤ nf := by omega
    have hoff0 := ioff_mono t 0 jm hm0 (by omega)
    have h00 : Int.tdiv ((2 * t + 3 - 0) * 0) 2 = 0 := by simp
    rw [h00] at hoff0
    have heven := ioff_even t jm
    obtain ⟨off, hoff⟩ : ∃ off : Int, off = Int.tdiv ((2 * t + 3 - jm) * jm) 2 := ⟨_, rfl⟩
    rw [← hoff] at hoff0 heven hb ⊢
    have o1 : off ≤ off * nf := le_mul_of_one_le_right hoff0 hnf1
    have o0 : 0 ≤ off * nf := mul_nonneg hoff0 (by omega)
    have y3 : 0 ≤ imag + 2 * (jn - jm) := by omega
    have y4 : imag + 2 * (jn - jm) ≤ nf * (imag + 2 * (jn - jm)) :=
      le_mul_of_one_le_left y3 hnf1
    have hls := legendre_size_double t.toNat
    have hls2 : (2 : Int) * (legendre_size t.toNat : Int) =
        ((t.toNat : Int) + 2) * ((t.toNat : Int) + 1) := by exact_mod_cast hls
    rw [Int.toNat_of_nonneg ht] at hls2
    have hS2 : (t + 2) * (t + 1) ≤ S := by
      rw [hS, hls2]
      exact le_mul_of_one_le_right (by positivity) hnf1
    have ht1 : 1 ≤ t := by omega
    have hx2 : 2 * t + 3 ≤ S := by nlinarith
    have hio : splitIoff32 t nf jm = off * nf * 2 := by
      unfold splitIoff32
      rw [fit (2 * t) (by omega) (by omega), fit (2 * t + 3) (by omega) hx2,
        fit (2 * t + 3 - jm) (by omega) (by omega), ← heven,
        fit (2 * off) (by omega) (by omega), heven, ← hoff,
        fit (off * nf) o0 (by omega), fit (off * nf * 2) (by omega) (by omega)]
    refine ⟨hio, ?_⟩
    rw [hio]
    unfold spectralIndex
    rw [← hoff, fit (jn - jm) (by omega) (by omega), fit (2 * (jn - jm)) (by omega) (by omega),
      fit (imag + 2 * (jn - jm)) y3 (by omega),
      fit (nf * (imag + 2 * (jn - jm))) (by omega) (by omega),
      fit (jfld + nf * (imag + 2 * (jn - jm))) (by omega) (by omega),
      fit _ hb.1 (by omega)]
  refine ⟨main, ?_⟩
  unfold splitBody32 splitBody
  by_cases hg : jn ≤ t ∧ jm < t
  · obtain ⟨-, h2⟩ := main hg
    unfold spectralIndex at h2
    simp only [if_pos hg, h2]
  · simp only [if_neg hg]

/-- When the spectral buffer fits the type `int`, the split loop in 32-bit arithmetic is the
exact one, for every `jm >= 0` and `n_imag <= 2`. -/
theorem legendreSplit32_exact_of_fits {R : Type} [Field R] (truncation_ t nf : Int)
    (ht : 0 ≤ t) (hfit : 2 * (legendre_size t.toNat : Int) * nf ≤ INT_MAX)
    (scalar_spectra sym0 asym0 : Buf R) (jm n_imag : Int) (hm0 : 0 ≤ jm) (hni : n_imag ≤ 2) :
    legendreSplit32 truncation_ t nf jm n_imag scalar_spectra sym0 asym0 =
      legendreSplit truncation_ t nf jm n_imag scalar_spectra sym0 asym0 := by
  unfold legendreSplit32 legendreSplit
  rw [forDown_eq_forUp, forDown_eq_forUp]
  apply forUp_congr
  intro k a hk0 hk1
  apply forUp_congr
  intro im b hi0 hi1
  apply forUp_congr
  intro jf c hf0 hf1
  exact (splitBody32_exact_of_fits t nf ht hfit scalar_spectra jm (truncation_ + 1 - k) im jf
    hm0 (by omega) hi0 (by omega) hf0 hf1 c).2

end TransLocalopt3
